import Mathlib

/-!
CHIP8CHAPA: a shallow embedding of the interpreter core

The C++ classes `Chip8Memory`, `Chip8Registers`, `Chip8Timers`, `Chip8Input`,
`Chip8Display`, `Chip8Sound` and `Chip8CPU` are embedded as structures with
functions over them.

Conventions
* `uint8_t` / `uint16_t` / `int` / `size_t` values are natural numbers or
  integers; every place where C++ truncates has an explicit `u8` / `u16`.
* `std::array` and `std::vector` are lists; their fixed lengths and the byte
  range of their cells are collected in the `WF` predicates.
* A C++ function that may throw returns `Except Err _`; a throwing member
  function whose object is looked at after a failure returns the pair of its
  outcome and the object as the call leaves it.
* An exception that leaves `Chip8CPU::step` is caught nowhere in the program, so
  `executeOpcode` and `step` return `Except Err Machine`.
-/

namespace Chip8

/-! ## Machine integers -/

/-- Conversion to `uint8_t`. -/
def u8 (n : Nat) : Nat := n % 256

/-- Conversion to `uint16_t`. -/
def u16 (n : Nat) : Nat := n % 65536

/-- The exceptions thrown by the core. -/
inductive Err where
  /-- `std::out_of_range("Memory read out of range")` -/
  | memoryRead
  /-- `std::out_of_range("Memory write out of range")` -/
  | memoryWrite
  /-- `std::out_of_range("V register index out of range")` -/
  | registerIndex
  /-- `std::overflow_error("Stack overflow")` -/
  | stackOverflow
  /-- `std::underflow_error("Stack underflow")` -/
  | stackUnderflow
  /-- `std::runtime_error("ROM too large to fit in memory")` -/
  | romTooLarge
deriving DecidableEq

/-- Outcome of a throwing member function paired with the object afterwards,
turned into a plain `Except` for callers that let the exception propagate. -/
def liftRes {α σ : Type} (r : Except Err α × σ) : Except Err (α × σ) :=
  match r with
  | (.ok a, s) => .ok (a, s)
  | (.error e, _) => .error e

/-- `std::copy(src.begin(), src.end(), dst.begin() + start)` for a range that fits. -/
def copyInto (dst : List Nat) (start : Nat) (src : List Nat) : List Nat :=
  dst.take start ++ src ++ dst.drop (start + src.length)

/-! ## chip8_memory.h / chip8_memory.cpp -/

/-- `class Chip8Memory`: the private `std::vector<uint8_t> memory`. -/
structure Chip8Memory where
  memory : List Nat
deriving DecidableEq

namespace Chip8Memory

def CHIP8_MEMORY_SIZE : Nat := 4096
def SCHIP_MEMORY_SIZE : Nat := 8192
def XOCHIP_MEMORY_SIZE : Nat := 65536
def PROGRAM_START : Nat := 0x200
def FONTSET_START : Nat := 0x50
def FONTSET_SIZE : Nat := 80

/-- `static const uint8_t chip8_fontset[80]`. -/
def chip8_fontset : List Nat :=
  [0xF0, 0x90, 0x90, 0x90, 0xF0,
   0x20, 0x60, 0x20, 0x20, 0x70,
   0xF0, 0x10, 0xF0, 0x80, 0xF0,
   0xF0, 0x10, 0xF0, 0x10, 0xF0,
   0x90, 0x90, 0xF0, 0x10, 0x10,
   0xF0, 0x80, 0xF0, 0x10, 0xF0,
   0xF0, 0x80, 0xF0, 0x90, 0xF0,
   0xF0, 0x10, 0x20, 0x40, 0x40,
   0xF0, 0x90, 0xF0, 0x90, 0xF0,
   0xF0, 0x90, 0xF0, 0x10, 0xF0,
   0xF0, 0x90, 0xF0, 0x90, 0x90,
   0xE0, 0x90, 0xE0, 0x90, 0xE0,
   0xF0, 0x80, 0x80, 0x80, 0xF0,
   0xE0, 0x90, 0x90, 0x90, 0xE0,
   0xF0, 0x80, 0xF0, 0x80, 0xF0,
   0xF0, 0x80, 0xF0, 0x80, 0x80]

/-- `Chip8Memory::size`. -/
def size (m : Chip8Memory) : Nat := m.memory.length

/-- `Chip8Memory::loadFontset`. -/
def loadFontset (m : Chip8Memory) : Chip8Memory :=
  if FONTSET_START + FONTSET_SIZE ≤ m.memory.length then
    ⟨copyInto m.memory FONTSET_START (chip8_fontset.take FONTSET_SIZE)⟩
  else m

/-- Constructor `Chip8Memory::Chip8Memory(size_t size)`. -/
def init (size : Nat) : Chip8Memory :=
  loadFontset ⟨List.replicate size 0⟩

/-- `Chip8Memory::read(uint16_t address)`; the argument is converted to 16 bits
on entry. -/
def read (m : Chip8Memory) (address : Nat) : Except Err Nat :=
  let a := u16 address
  if a ≥ m.memory.length then .error .memoryRead
  else .ok (m.memory.getD a 0)

/-- `Chip8Memory::write(uint16_t address, uint8_t value)`; both arguments are
converted on entry. -/
def write (m : Chip8Memory) (address value : Nat) : Except Err Unit × Chip8Memory :=
  let a := u16 address
  if a ≥ m.memory.length then (.error .memoryWrite, m)
  else (.ok (), ⟨m.memory.set a (u8 value)⟩)

/-- `Chip8Memory::loadROM(const std::vector<uint8_t>& rom)`. -/
def loadROM (m : Chip8Memory) (rom : List Nat) : Except Err Unit × Chip8Memory :=
  if rom.length + PROGRAM_START > m.memory.length then (.error .romTooLarge, m)
  else (.ok (), ⟨copyInto m.memory PROGRAM_START rom⟩)

/-- `Chip8Memory::data()` indexed at `i`: an unchecked access to the vector's
storage. Reading past the end is undefined in C++; the model reads 0 there. -/
def data (m : Chip8Memory) (i : Nat) : Nat := m.memory.getD i 0

/-- Cells are bytes. -/
def WF (m : Chip8Memory) : Prop := ∀ b ∈ m.memory, b < 256

end Chip8Memory

/-! ## chip8_registers.h / chip8_registers.cpp -/

/-- `class Chip8Registers`. -/
structure Chip8Registers where
  v : List Nat
  i : Nat
  pc : Nat
  sp : Nat
  stack : List Nat
deriving DecidableEq

namespace Chip8Registers

/-- Constructor `Chip8Registers::Chip8Registers()`. -/
def init : Chip8Registers :=
  { v := List.replicate 16 0, i := 0, pc := 0x200, sp := 0, stack := List.replicate 16 0 }

/-- `Chip8Registers::V(size_t idx)` used as an rvalue. -/
def V (r : Chip8Registers) (idx : Nat) : Except Err Nat :=
  if idx ≥ 16 then .error .registerIndex else .ok (r.v.getD idx 0)

/-- `Chip8Registers::V(size_t idx) = value`: assignment through the returned
reference, the value converted to `uint8_t`. -/
def setV (r : Chip8Registers) (idx value : Nat) : Except Err Unit × Chip8Registers :=
  if idx ≥ 16 then (.error .registerIndex, r)
  else (.ok (), { r with v := r.v.set idx (u8 value) })

/-- `Chip8Registers::push(uint16_t value)`. -/
def push (r : Chip8Registers) (value : Nat) : Except Err Unit × Chip8Registers :=
  if r.sp ≥ 16 then (.error .stackOverflow, r)
  else (.ok (), { r with stack := r.stack.set r.sp (u16 value), sp := u8 (r.sp + 1) })

/-- `Chip8Registers::pop()`. With `sp > 16` the C++ reads past the array, which
is undefined; the model reads 0 there. -/
def pop (r : Chip8Registers) : Except Err Nat × Chip8Registers :=
  if r.sp = 0 then (.error .stackUnderflow, r)
  else (.ok (r.stack.getD (r.sp - 1) 0), { r with sp := r.sp - 1 })

/-- Array lengths and value ranges of the fields. -/
def WF (r : Chip8Registers) : Prop :=
  r.v.length = 16 ∧ (∀ b ∈ r.v, b < 256) ∧ r.i < 65536 ∧ r.pc < 65536 ∧ r.sp < 256 ∧
  r.stack.length = 16 ∧ (∀ a ∈ r.stack, a < 65536)

end Chip8Registers

/-! ## chip8_timers.h / chip8_timers.cpp -/

/-- `class Chip8Timers`. -/
structure Chip8Timers where
  delay : Nat
  sound : Nat
deriving DecidableEq

namespace Chip8Timers

def init : Chip8Timers := { delay := 0, sound := 0 }

def setDelay (t : Chip8Timers) (value : Nat) : Chip8Timers := { t with delay := u8 value }
def setSound (t : Chip8Timers) (value : Nat) : Chip8Timers := { t with sound := u8 value }
def getDelay (t : Chip8Timers) : Nat := t.delay
def getSound (t : Chip8Timers) : Nat := t.sound

/-- `Chip8Timers::tick`. -/
def tick (t : Chip8Timers) : Chip8Timers :=
  let d := if t.delay > 0 then t.delay - 1 else t.delay
  let s := if t.sound > 0 then t.sound - 1 else t.sound
  { delay := d, sound := s }

def WF (t : Chip8Timers) : Prop := t.delay < 256 ∧ t.sound < 256

end Chip8Timers

/-! ## chip8_input.h / chip8_input.cpp -/

/-- `class Chip8Input`: `std::array<bool, 16> keys`. -/
structure Chip8Input where
  keys : List Bool
deriving DecidableEq

namespace Chip8Input

def NUM_KEYS : Nat := 16

def init : Chip8Input := { keys := List.replicate 16 false }

/-- `Chip8Input::setKey(uint8_t key, bool pressed)`. -/
def setKey (k : Chip8Input) (key : Nat) (pressed : Bool) : Chip8Input :=
  if u8 key < NUM_KEYS then { keys := k.keys.set (u8 key) pressed } else k

/-- `Chip8Input::isPressed(uint8_t key)`. -/
def isPressed (k : Chip8Input) (key : Nat) : Bool :=
  if u8 key < NUM_KEYS then k.keys.getD (u8 key) false else false

/-- The loop of `getPressedKey` from index `i` on, `fuel` iterations left. -/
def getPressedKeyFrom (k : Chip8Input) : Nat → Nat → Int
  | 0, _ => -1
  | fuel + 1, i => if k.keys.getD i false then (i : Int) else getPressedKeyFrom k fuel (i + 1)

/-- `Chip8Input::getPressedKey`. -/
def getPressedKey (k : Chip8Input) : Int := getPressedKeyFrom k NUM_KEYS 0

def WF (k : Chip8Input) : Prop := k.keys.length = 16

end Chip8Input

/-! ## chip8_display.h / chip8_display.cpp -/

/-- `enum class Mode` of `Chip8Display`: an `int` with two named values. -/
structure Mode where
  val : Int
deriving DecidableEq

namespace Mode
def LowRes : Mode := ⟨0⟩
def HighRes : Mode := ⟨1⟩
end Mode

/-- `enum class ColorMode` of `Chip8Display`: an `int` with two named values. -/
structure ColorMode where
  val : Int
deriving DecidableEq

namespace ColorMode
def Mono : ColorMode := ⟨0⟩
def XOCHIP_2BPP : ColorMode := ⟨1⟩
end ColorMode

/-- The type of `Chip8Display::fb`: `HIRES_HEIGHT` rows of `HIRES_WIDTH` cells. -/
abbrev Framebuffer := List (List Nat)

/-- The cell `fb[y][x]` (unchecked in C++; 0 outside the array in the model). -/
def fbGet (fb : Framebuffer) (y x : Nat) : Nat := (fb.getD y []).getD x 0

/-- The assignment `fb[y][x] = v`. -/
def fbSet (fb : Framebuffer) (y x v : Nat) : Framebuffer :=
  fb.set y ((fb.getD y []).set x v)

/-- The bits of a `uint8_t` cell kept by `cell & ~mask`. -/
def andNot (cell mask : Nat) : Nat := cell &&& (0xFF ^^^ mask)

/-- The integers `a, a+1, ..., b-1` of a loop `for (v = a; v < b; ++v)`. -/
def upTo (a b : Nat) : List Nat := List.range' a (b - a)

/-- The integers `b-1, ..., a` of a loop `for (v = b - 1; v >= a; --v)`. -/
def downTo (b a : Nat) : List Nat := (upTo a b).reverse

/-- `class Chip8Display`. -/
structure Chip8Display where
  fb : Framebuffer
  mode : Mode
  colorMode : ColorMode
  activePlanes : Nat
deriving DecidableEq

namespace Chip8Display

def LOWRES_WIDTH : Nat := 64
def LOWRES_HEIGHT : Nat := 32
def HIRES_WIDTH : Nat := 128
def HIRES_HEIGHT : Nat := 64
def XOCHIP_PLANES : Nat := 2

/-- `Chip8Display::width`. -/
def width (d : Chip8Display) : Nat :=
  if d.mode = Mode.HighRes then HIRES_WIDTH else LOWRES_WIDTH

/-- `Chip8Display::height`. -/
def height (d : Chip8Display) : Nat :=
  if d.mode = Mode.HighRes then HIRES_HEIGHT else LOWRES_HEIGHT

/-- The loop of `clear` on the array itself. -/
def clearFb (fb : Framebuffer) : Framebuffer := fb.map (fun row => row.map (fun _ => 0))

/-- `Chip8Display::clear`. -/
def clear (d : Chip8Display) : Chip8Display := { d with fb := clearFb d.fb }

/-- Constructor `Chip8Display::Chip8Display()`; the array is zeroed by `clear`. -/
def init : Chip8Display :=
  clear { fb := List.replicate HIRES_HEIGHT (List.replicate HIRES_WIDTH 0),
          mode := Mode.LowRes, colorMode := ColorMode.Mono, activePlanes := 1 }

/-- Body of the plane loop of `drawSprite` at pixel `(px, py)`. -/
def drawPlane (planeMask px py : Nat) (acc : Bool × Framebuffer) (plane : Nat) :
    Bool × Framebuffer :=
  if planeMask &&& (1 <<< plane) ≠ 0 then
    let bit := (fbGet acc.2 py px >>> plane) &&& 1
    (acc.1 || decide (bit ≠ 0), fbSet acc.2 py px (u8 (fbGet acc.2 py px ^^^ (1 <<< plane))))
  else acc

/-- What `drawSprite` does at a pixel selected by a set sprite bit. -/
def drawPixel (colorMode : ColorMode) (planeMask px py : Nat) (acc : Bool × Framebuffer) :
    Bool × Framebuffer :=
  if colorMode = ColorMode.XOCHIP_2BPP then
    (List.range XOCHIP_PLANES).foldl (drawPlane planeMask px py) acc
  else
    (acc.1 || decide (fbGet acc.2 py px ≠ 0), fbSet acc.2 py px (u8 (fbGet acc.2 py px ^^^ 1)))

/-- Body of the column loop of `drawSprite`. -/
def drawCol (colorMode : ColorMode) (w h x y planeMask spriteByte row : Nat)
    (acc : Bool × Framebuffer) (col : Nat) : Bool × Framebuffer :=
  if spriteByte &&& (0x80 >>> col) ≠ 0 then
    drawPixel colorMode planeMask ((x + col) % w) ((y + row) % h) acc
  else acc

/-- Body of the row loop of `drawSprite`. -/
def drawRow (colorMode : ColorMode) (w h x y planeMask : Nat) (spriteData : Nat → Nat)
    (acc : Bool × Framebuffer) (row : Nat) : Bool × Framebuffer :=
  (List.range 8).foldl (drawCol colorMode w h x y planeMask (u8 (spriteData row)) row) acc

/-- `Chip8Display::drawSprite(x, y, spriteData, numRows, planeMask)`; the pointer
`spriteData` is the function `row ↦ spriteData[row]`. Returns the collision flag
and the display afterwards. -/
def drawSprite (d : Chip8Display) (x y : Nat) (spriteData : Nat → Nat) (numRows : Nat)
    (planeMask : Nat) : Bool × Chip8Display :=
  let r := (List.range (u8 numRows)).foldl
    (drawRow d.colorMode d.width d.height (u8 x) (u8 y) (u8 planeMask) spriteData) (false, d.fb)
  (r.1, { d with fb := r.2 })

/-- `Chip8Display::getPixel(int x, int y)`. -/
def getPixel (d : Chip8Display) (x y : Int) : Nat :=
  if x < 0 ∨ x ≥ d.width ∨ y < 0 ∨ y ≥ d.height then 0
  else fbGet d.fb y.toNat x.toNat

/-- `Chip8Display::setPixel(int x, int y, uint8_t value)`. -/
def setPixel (d : Chip8Display) (x y : Int) (value : Nat) : Chip8Display :=
  if x < 0 ∨ x ≥ d.width ∨ y < 0 ∨ y ≥ d.height then d
  else { d with fb := fbSet d.fb y.toNat x.toNat (u8 value) }

/-- `Chip8Display::setMode`. -/
def setMode (d : Chip8Display) (m : Mode) : Chip8Display := clear { d with mode := m }

/-- `Chip8Display::setColorMode`. -/
def setColorMode (d : Chip8Display) (m : ColorMode) : Chip8Display :=
  clear { d with colorMode := m }

/-- `Chip8Display::setActivePlanes(uint8_t mask)`. -/
def setActivePlanes (d : Chip8Display) (mask : Nat) : Chip8Display :=
  { d with activePlanes := u8 mask }

/-- Plane copy `fb[y][x] = (fb[y][x] & ~(1 << plane)) | (src << plane)` with
`src = (fb[sy][sx] >> plane) & 1`. -/
def copyPlaneBit (plane : Nat) (fb : Framebuffer) (y x sy sx : Nat) : Framebuffer :=
  let src := (fbGet fb sy sx >>> plane) &&& 1
  fbSet fb y x (u8 (andNot (fbGet fb y x) (1 <<< plane) ||| (src <<< plane)))

/-- Plane clear `fb[y][x] &= ~(1 << plane)`. -/
def clearPlaneBit (plane : Nat) (fb : Framebuffer) (y x : Nat) : Framebuffer :=
  fbSet fb y x (u8 (andNot (fbGet fb y x) (1 <<< plane)))

/-- Mono copy `fb[y][x] = fb[sy][sx] & 1`. -/
def copyMono (fb : Framebuffer) (y x sy sx : Nat) : Framebuffer :=
  fbSet fb y x (fbGet fb sy sx &&& 1)

/-- A loop nest `for y in ys: for x in xs: fb = body fb y x`. -/
def loopYX (ys xs : List Nat) (body : Framebuffer → Nat → Nat → Framebuffer)
    (fb : Framebuffer) : Framebuffer :=
  ys.foldl (fun acc y => xs.foldl (fun acc2 x => body acc2 y x) acc) fb

/-- `Chip8Display::scrollUp(uint8_t lines)`. -/
def scrollUp (d : Chip8Display) (lines : Nat) : Bool × Chip8Display :=
  let lines := u8 lines
  let w := d.width
  let h := d.height
  if lines = 0 then (true, d)
  else if lines ≥ h then (true, d.clear)
  else if d.colorMode = ColorMode.XOCHIP_2BPP then
    let fb := (List.range XOCHIP_PLANES).foldl (fun fb plane =>
      if d.activePlanes &&& (1 <<< plane) = 0 then fb
      else
        let fb1 := loopYX (upTo 0 (h - lines)) (upTo 0 w)
          (fun f y x => copyPlaneBit plane f y x (y + lines) x) fb
        loopYX (upTo (h - lines) h) (upTo 0 w) (fun f y x => clearPlaneBit plane f y x) fb1)
      d.fb
    (true, { d with fb := fb })
  else
    let fb1 := loopYX (upTo 0 (h - lines)) (upTo 0 w)
      (fun f y x => copyMono f y x (y + lines) x) d.fb
    let fb2 := loopYX (upTo (h - lines) h) (upTo 0 w) (fun f y x => fbSet f y x 0) fb1
    (true, { d with fb := fb2 })

/-- `Chip8Display::scrollDown(uint8_t lines)`. -/
def scrollDown (d : Chip8Display) (lines : Nat) : Bool × Chip8Display :=
  let lines := u8 lines
  let w := d.width
  let h := d.height
  if lines = 0 then (true, d)
  else if lines ≥ h then (true, d.clear)
  else if d.colorMode = ColorMode.XOCHIP_2BPP then
    let fb := (List.range XOCHIP_PLANES).foldl (fun fb plane =>
      if d.activePlanes &&& (1 <<< plane) = 0 then fb
      else
        let fb1 := loopYX (downTo h lines) (upTo 0 w)
          (fun f y x => copyPlaneBit plane f y x (y - lines) x) fb
        loopYX (upTo 0 lines) (upTo 0 w) (fun f y x => clearPlaneBit plane f y x) fb1)
      d.fb
    (true, { d with fb := fb })
  else
    let fb1 := loopYX (downTo h lines) (upTo 0 w)
      (fun f y x => copyMono f y x (y - lines) x) d.fb
    let fb2 := loopYX (upTo 0 lines) (upTo 0 w) (fun f y x => fbSet f y x 0) fb1
    (true, { d with fb := fb2 })

/-- `Chip8Display::scrollLeft`. -/
def scrollLeft (d : Chip8Display) : Bool × Chip8Display :=
  let w := d.width
  let h := d.height
  let amount := 4
  if amount ≥ w then (true, d.clear)
  else if d.colorMode = ColorMode.XOCHIP_2BPP then
    let fb := (List.range XOCHIP_PLANES).foldl (fun fb plane =>
      if d.activePlanes &&& (1 <<< plane) = 0 then fb
      else
        (upTo 0 h).foldl (fun f y =>
          let f1 := (upTo 0 (w - amount)).foldl
            (fun g x => copyPlaneBit plane g y x y (x + amount)) f
          (upTo (w - amount) w).foldl (fun g x => clearPlaneBit plane g y x) f1) fb)
      d.fb
    (true, { d with fb := fb })
  else
    let fb := (upTo 0 h).foldl (fun f y =>
      let f1 := (upTo 0 (w - amount)).foldl (fun g x => copyMono g y x y (x + amount)) f
      (upTo (w - amount) w).foldl (fun g x => fbSet g y x 0) f1) d.fb
    (true, { d with fb := fb })

/-- `Chip8Display::scrollRight`. -/
def scrollRight (d : Chip8Display) : Bool × Chip8Display :=
  let w := d.width
  let h := d.height
  let amount := 4
  if amount ≥ w then (true, d.clear)
  else if d.colorMode = ColorMode.XOCHIP_2BPP then
    let fb := (List.range XOCHIP_PLANES).foldl (fun fb plane =>
      if d.activePlanes &&& (1 <<< plane) = 0 then fb
      else
        (upTo 0 h).foldl (fun f y =>
          let f1 := (downTo w amount).foldl
            (fun g x => copyPlaneBit plane g y x y (x - amount)) f
          (upTo 0 amount).foldl (fun g x => clearPlaneBit plane g y x) f1) fb)
      d.fb
    (true, { d with fb := fb })
  else
    let fb := (upTo 0 h).foldl (fun f y =>
      let f1 := (downTo w amount).foldl (fun g x => copyMono g y x y (x - amount)) f
      (upTo 0 amount).foldl (fun g x => fbSet g y x 0) f1) d.fb
    (true, { d with fb := fb })

/-- The array has `HIRES_HEIGHT` rows of `HIRES_WIDTH` byte cells. -/
def WFfb (fb : Framebuffer) : Prop :=
  fb.length = HIRES_HEIGHT ∧ ∀ row ∈ fb, row.length = HIRES_WIDTH ∧ ∀ c ∈ row, c < 256

/-- Array shape and field ranges (`int` enums, `uint8_t` plane mask). -/
def WF (d : Chip8Display) : Prop :=
  WFfb d.fb ∧ -(2 ^ 31 : Int) ≤ d.mode.val ∧ d.mode.val < 2 ^ 31 ∧
  -(2 ^ 31 : Int) ≤ d.colorMode.val ∧ d.colorMode.val < 2 ^ 31 ∧ d.activePlanes < 256

end Chip8Display

/-! ## chip8_sound.h / chip8_sound.cpp -/

/-- Variables with static storage: the file-scope `patternBuffer`,
`patternPlaying`, `patternBit` of chip8_sound.cpp and the function-local statics
`waitingForRelease`, `lastKey` of `Chip8CPU::executeOpcode` (case `0x0A`). They
belong to the process, not to an interpreter instance. -/
structure Statics where
  patternBuffer : List Nat
  patternPlaying : Bool
  patternBit : Int
  waitingForRelease : Bool
  lastKey : Int
deriving DecidableEq

namespace Statics

/-- The values at program start. -/
def init : Statics :=
  { patternBuffer := List.replicate 16 0, patternPlaying := false, patternBit := 0,
    waitingForRelease := false, lastKey := -1 }

end Statics

/-- `class Chip8Sound` without the SDL device handle. -/
structure Chip8Sound where
  buzzerOn : Bool
  playing : Bool
  phase : Int
  muted : Bool
  volume : Int
deriving DecidableEq

namespace Chip8Sound

def XOCHIP_PATTERN_BYTES : Nat := 16

/-- Constructor `Chip8Sound::Chip8Sound()` with the in-class initialisers. -/
def init : Chip8Sound :=
  { buzzerOn := false, playing := false, phase := 0, muted := false, volume := 100 }

/-- `Chip8Sound::start`. -/
def start (s : Chip8Sound) : Chip8Sound := { s with buzzerOn := true, playing := true }

/-- `Chip8Sound::stop`. -/
def stop (s : Chip8Sound) (g : Statics) : Chip8Sound × Statics :=
  ({ s with buzzerOn := false, playing := false },
   { g with patternPlaying := false, patternBit := 0 })

def isOn (s : Chip8Sound) : Bool := s.buzzerOn

/-- `Chip8Sound::update`. -/
def update (s : Chip8Sound) : Chip8Sound := { s with playing := s.buzzerOn }

/-- `Chip8Sound::playPattern(const uint8_t* pattern)`. -/
def playPattern (pattern : Nat → Nat) (g : Statics) : Statics :=
  { g with patternBuffer := (List.range XOCHIP_PATTERN_BYTES).map pattern,
           patternPlaying := true, patternBit := 0 }

def getPhase (s : Chip8Sound) : Int := s.phase
def setPhase (s : Chip8Sound) (p : Int) : Chip8Sound := { s with phase := p }
def getMuted (s : Chip8Sound) : Bool := s.muted
def setMuted (s : Chip8Sound) (b : Bool) : Chip8Sound := { s with muted := b }
def getVolume (s : Chip8Sound) : Int := s.volume
def setVolume (s : Chip8Sound) (v : Int) : Chip8Sound := { s with volume := v }
def getPlaying (s : Chip8Sound) : Bool := s.playing
def setPlaying (s : Chip8Sound) (b : Bool) : Chip8Sound := { s with playing := b }

/-- The `int` fields are 32-bit. -/
def WF (s : Chip8Sound) : Prop :=
  -(2 ^ 31 : Int) ≤ s.phase ∧ s.phase < 2 ^ 31 ∧ -(2 ^ 31 : Int) ≤ s.volume ∧ s.volume < 2 ^ 31

end Chip8Sound

/-! ## chip8_cpu.h / chip8_cpu.cpp -/

/-- `enum class Variant` of `Chip8CPU`: an `int` with three named values. -/
structure Variant where
  val : Int
deriving DecidableEq

namespace Variant
def CHIP8 : Variant := ⟨0⟩
def SCHIP : Variant := ⟨1⟩
def XOCHIP : Variant := ⟨2⟩
end Variant

/-- `struct Quirks` with its default member initialisers. -/
structure Quirks where
  shiftUsesVy : Bool := false
  loadStoreIncrementI : Bool := true
  jumpWithVx : Bool := false
deriving DecidableEq

/-- `class Chip8CPU`: the private members in declaration order. -/
structure Chip8CPU where
  mode : Variant
  quirks : Quirks
  mem : Chip8Memory
  regs : Chip8Registers
  tmr : Chip8Timers
  inp : Chip8Input
  disp : Chip8Display
  snd : Chip8Sound
  audioBuffer : List Nat
deriving DecidableEq

namespace Chip8CPU

/-- Size of the XO-CHIP pattern buffer, `16 * 16`. -/
def XOCHIP_AUDIO_BUFFER_SIZE : Nat := 16 * 16

/-- The memory size chosen by the constructor. -/
def memorySize (variant : Variant) : Nat :=
  if variant = Variant.XOCHIP then Chip8Memory.XOCHIP_MEMORY_SIZE
  else if variant = Variant.SCHIP then Chip8Memory.SCHIP_MEMORY_SIZE
  else Chip8Memory.CHIP8_MEMORY_SIZE

/-- Constructor `Chip8CPU::Chip8CPU(Variant variant)`. -/
def init (variant : Variant) : Chip8CPU :=
  { mode := variant, quirks := {}, mem := Chip8Memory.init (memorySize variant),
    regs := Chip8Registers.init, tmr := Chip8Timers.init, inp := Chip8Input.init,
    disp := Chip8Display.init, snd := Chip8Sound.init,
    audioBuffer := List.replicate XOCHIP_AUDIO_BUFFER_SIZE 0 }

def setQuirks (c : Chip8CPU) (q : Quirks) : Chip8CPU := { c with quirks := q }
def getQuirks (c : Chip8CPU) : Quirks := c.quirks
def getVariant (c : Chip8CPU) : Variant := c.mode

/-- Ranges and shapes of every member. -/
def WF (c : Chip8CPU) : Prop :=
  -(2 ^ 31 : Int) ≤ c.mode.val ∧ c.mode.val < 2 ^ 31 ∧ c.mem.WF ∧ c.regs.WF ∧ c.tmr.WF ∧
  c.inp.WF ∧ c.disp.WF ∧ c.snd.WF ∧
  c.audioBuffer.length = XOCHIP_AUDIO_BUFFER_SIZE ∧ ∀ b ∈ c.audioBuffer, b < 256

end Chip8CPU

/-- An interpreter instance together with the static-storage variables its
member functions touch. -/
structure Machine where
  cpu : Chip8CPU
  st : Statics
deriving DecidableEq

/-- What one call of `executeOpcode` takes from outside the machine state:
`random` is the value of `dis(gen)` (0..255), `frameElapsed` is false exactly when
the clock comparison `elapsed < 1.0 / 60.0` of case `0xD` is true. -/
structure Host where
  random : Nat
  frameElapsed : Bool

namespace Machine

def setRegs (m : Machine) (r : Chip8Registers) : Machine :=
  { m with cpu := { m.cpu with regs := r } }

def setMem (m : Machine) (mem : Chip8Memory) : Machine :=
  { m with cpu := { m.cpu with mem := mem } }

def setDisp (m : Machine) (d : Chip8Display) : Machine :=
  { m with cpu := { m.cpu with disp := d } }

def setTmr (m : Machine) (t : Chip8Timers) : Machine :=
  { m with cpu := { m.cpu with tmr := t } }

/-- `regs.PC() += 2`. -/
def skip (m : Machine) : Machine := m.setRegs { m.cpu.regs with pc := u16 (m.cpu.regs.pc + 2) }

/-- `regs.PC() -= 2`. -/
def rewind (m : Machine) : Machine :=
  m.setRegs { m.cpu.regs with pc := u16 (m.cpu.regs.pc + 65536 - 2) }

/-- `regs.V(idx) = value` inside `executeOpcode`. -/
def assignV (m : Machine) (idx value : Nat) : Except Err Machine := do
  let (_, r) ← liftRes (m.cpu.regs.setV idx value)
  pure (m.setRegs r)

end Machine

/-! ### `Chip8CPU::executeOpcode` -/

namespace Exec

/-- The line count of `00Cn` / `00FA`: doubled on XO-CHIP outside low resolution. -/
def scrollLines (m : Machine) (n : Nat) : Nat :=
  if m.cpu.mode = Variant.XOCHIP then
    (if m.cpu.disp.mode = Mode.LowRes then n else n * 2)
  else n

/-- The pixel toggle shared by the interpreter's own sprite loops:
`if (disp.getPixel(px, py)) collision = true;`
`disp.setPixel(px, py, disp.getPixel(px, py) ^ 1);` -/
def togglePixel (acc : Bool × Chip8Display) (px py : Nat) : Bool × Chip8Display :=
  (acc.1 || decide (acc.2.getPixel px py ≠ 0),
   acc.2.setPixel px py (acc.2.getPixel px py ^^^ 1))

/-- Column body of the 16x16 sprite loop. -/
def bigSpriteCol (vx vy row spriteRow : Nat) (acc : Bool × Chip8Display) (col : Nat) :
    Bool × Chip8Display :=
  if spriteRow &&& (0x8000 >>> col) ≠ 0 then
    togglePixel acc ((vx + col) % acc.2.width) ((vy + row) % acc.2.height)
  else acc

/-- Row loop of the 16x16 sprite form over the remaining rows. -/
def bigSpriteRows (mem : Chip8Memory) (i vx vy : Nat) :
    List Nat → Bool × Chip8Display → Except Err (Bool × Chip8Display)
  | [], acc => .ok acc
  | row :: rows, acc => do
    let hi ← mem.read (i + row * 2)
    let lo ← mem.read (i + row * 2 + 1)
    let spriteRow := u16 ((hi <<< 8) ||| lo)
    bigSpriteRows mem i vx vy rows
      ((List.range 16).foldl (bigSpriteCol vx vy row spriteRow) acc)

/-- Column body of the 8-wide sprite loop of the CHIP8 and SCHIP paths. -/
def smallSpriteCol (w startX py spriteByte : Nat) (acc : Bool × Chip8Display) (col : Nat) :
    Bool × Chip8Display :=
  let px := startX + col
  if px ≥ w then acc
  else if spriteByte &&& (0x80 >>> col) ≠ 0 then togglePixel acc px py
  else acc

/-- Row loop of the CHIP8 and SCHIP paths of `DXYN` over the remaining rows. -/
def smallSpriteRows (mem : Chip8Memory) (i w h startX startY : Nat) :
    List Nat → Bool × Chip8Display → Except Err (Bool × Chip8Display)
  | [], acc => .ok acc
  | row :: rows, acc => do
    let spriteByte ← mem.read (i + row)
    let py := startY + row
    let acc1 :=
      if py ≥ h then acc
      else (List.range 8).foldl (smallSpriteCol w startX py spriteByte) acc
    smallSpriteRows mem i w h startX startY rows acc1

/-- The block guarded by `mode == SCHIP || mode == XOCHIP` at the head of
`executeOpcode`: `some r` when one of its branches returned, `none` when control
falls through to the `switch`. -/
def extended (m : Machine) (opcode : Nat) : Option (Except Err Machine) :=
  let n2 := (opcode &&& 0x0F00) >>> 8
  let n3 := (opcode &&& 0x00F0) >>> 4
  let n4 := opcode &&& 0x000F
  let x := n2
  let y := n3
  if m.cpu.mode = Variant.SCHIP ∨ m.cpu.mode = Variant.XOCHIP then
    if opcode &&& 0xFFF0 = 0x00C0 then
      let n := opcode &&& 0x000F
      some (.ok (m.setDisp (m.cpu.disp.scrollDown (scrollLines m n)).2))
    else if opcode = 0x00FB then some (.ok (m.setDisp m.cpu.disp.scrollRight.2))
    else if opcode = 0x00FC then some (.ok (m.setDisp m.cpu.disp.scrollLeft.2))
    else if opcode &&& 0xFFF0 = 0x00FA then
      let n := opcode &&& 0x000F
      some (.ok (m.setDisp (m.cpu.disp.scrollUp (scrollLines m n)).2))
    else if opcode = 0x00FE then some (.ok (m.setDisp (m.cpu.disp.setMode Mode.LowRes)))
    else if opcode = 0x00FF then some (.ok (m.setDisp (m.cpu.disp.setMode Mode.HighRes)))
    else if opcode = 0x00FD then some (.ok m)
    else if opcode &&& 0xF00F = 0xD000 ∧ n4 = 0 then
      some (do
        let vx ← m.cpu.regs.V x
        let vy ← m.cpu.regs.V y
        let r ← bigSpriteRows m.cpu.mem m.cpu.regs.i vx vy (upTo 0 16) (false, m.cpu.disp)
        (m.setDisp r.2).assignV 0xF (if r.1 then 1 else 0))
    else none
  else none

/-- `case 0x0`. -/
def case0 (m : Machine) (opcode : Nat) : Except Err Machine :=
  if opcode = 0x00E0 then .ok (m.setDisp m.cpu.disp.clear)
  else if opcode = 0x00EE then do
    let (addr, r) ← liftRes m.cpu.regs.pop
    pure (m.setRegs { r with pc := addr })
  else .ok m

/-- The condition `n4 == 0 && regs.V(x) == regs.V(y)`, registers read only when
`n4 == 0`. -/
def regsEqual (m : Machine) (x y n4 : Nat) : Except Err Bool :=
  if n4 = 0 then do
    let vx ← m.cpu.regs.V x
    let vy ← m.cpu.regs.V y
    pure (decide (vx = vy))
  else pure false

/-- `case 0x5`. -/
def case5 (m : Machine) (x y n4 : Nat) : Except Err Machine := do
  let equal ← regsEqual m x y n4
  if equal then pure m.skip
  else if n4 = 2 ∧ m.cpu.mode = Variant.XOCHIP then
    let tmp ← m.cpu.regs.V x
    let vy ← m.cpu.regs.V y
    let m1 ← m.assignV x vy
    m1.assignV y tmp
  else if n4 = 3 ∧ m.cpu.mode = Variant.XOCHIP then
    let vx ← m.cpu.regs.V x
    let m1 ← m.assignV y vx
    m1.assignV x 0
  else pure m

/-- The assignment `regs.V(0xF) = 0` of `8XY1`, `8XY2`, `8XY3` on the CHIP8 variant. -/
def clearFlagOnChip8 (m : Machine) : Except Err Machine :=
  if m.cpu.mode = Variant.CHIP8 then m.assignV 0xF 0 else pure m

/-- `case 0x8`. -/
def case8 (m : Machine) (x y n4 : Nat) : Except Err Machine :=
  match n4 with
  | 0x0 => do
    let vy ← m.cpu.regs.V y
    m.assignV x vy
  | 0x1 => do
    let vx ← m.cpu.regs.V x
    let vy ← m.cpu.regs.V y
    let m1 ← m.assignV x (vx ||| vy)
    clearFlagOnChip8 m1
  | 0x2 => do
    let vx ← m.cpu.regs.V x
    let vy ← m.cpu.regs.V y
    let m1 ← m.assignV x (vx &&& vy)
    clearFlagOnChip8 m1
  | 0x3 => do
    let vx ← m.cpu.regs.V x
    let vy ← m.cpu.regs.V y
    let m1 ← m.assignV x (vx ^^^ vy)
    clearFlagOnChip8 m1
  | 0x4 => do
    let vx ← m.cpu.regs.V x
    let vy ← m.cpu.regs.V y
    let sum := u16 (vx + vy)
    let result := u8 (sum &&& 0xFF)
    let vf := if sum > 0xFF then 1 else 0
    let m1 ← m.assignV x result
    m1.assignV 0xF vf
  | 0x5 => do
    let vx ← m.cpu.regs.V x
    let vy ← m.cpu.regs.V y
    let result := u8 (((vx : Int) - (vy : Int)) % 256).toNat
    let vf := if vx ≥ vy then 1 else 0
    let m1 ← m.assignV x result
    m1.assignV 0xF vf
  | 0x6 => do
    let vx ← m.cpu.regs.V x
    let vy ← m.cpu.regs.V y
    let src := if m.cpu.quirks.shiftUsesVy then vy else vx
    let result := u8 (src >>> 1)
    let vf := u8 (src &&& 0x1)
    let m1 ← m.assignV x result
    m1.assignV 0xF vf
  | 0x7 => do
    let vx ← m.cpu.regs.V x
    let vy ← m.cpu.regs.V y
    let result := u8 (((vy : Int) - (vx : Int)) % 256).toNat
    let vf := if vy ≥ vx then 1 else 0
    let m1 ← m.assignV x result
    m1.assignV 0xF vf
  | 0xE => do
    let vx ← m.cpu.regs.V x
    let vy ← m.cpu.regs.V y
    let src := if m.cpu.quirks.shiftUsesVy then vy else vx
    let result := u8 ((src <<< 1) &&& 0xFF)
    let vf := u8 ((src &&& 0x80) >>> 7)
    let m1 ← m.assignV x result
    m1.assignV 0xF vf
  | _ => .ok m

/-- `case 0xD`. -/
def caseD (m : Machine) (host : Host) (x y n4 : Nat) : Except Err Machine := do
  let vx ← m.cpu.regs.V x
  let vy ← m.cpu.regs.V y
  let n := n4
  if !host.frameElapsed then pure m.rewind
  else
    let w := m.cpu.disp.width
    let h := m.cpu.disp.height
    let r ←
      if m.cpu.mode = Variant.CHIP8 then
        smallSpriteRows m.cpu.mem m.cpu.regs.i w h (vx % w) (vy % h) (upTo 0 n)
          (false, m.cpu.disp)
      else if m.cpu.mode = Variant.SCHIP then
        smallSpriteRows m.cpu.mem m.cpu.regs.i w h (vx &&& (w - 1)) (vy &&& (h - 1)) (upTo 0 n)
          (false, m.cpu.disp)
      else
        pure (m.cpu.disp.drawSprite vx vy (fun row => m.cpu.mem.data (m.cpu.regs.i + row)) n 1)
    (m.setDisp r.2).assignV 0xF (if r.1 then 1 else 0)

/-- `case 0xE`. -/
def caseE (m : Machine) (x nn : Nat) : Except Err Machine :=
  match nn with
  | 0x9E => do
    let vx ← m.cpu.regs.V x
    if m.cpu.inp.isPressed vx then pure m.skip else pure m
  | 0xA1 => do
    let vx ← m.cpu.regs.V x
    if !m.cpu.inp.isPressed vx then pure m.skip else pure m
  | _ => .ok m

/-- `case 0x0A` of `case 0xF`: wait for a key press, then for its release. -/
def waitKey (m : Machine) (x : Nat) : Except Err Machine :=
  let key := m.cpu.inp.getPressedKey
  if !m.st.waitingForRelease then
    if key = -1 then .ok m.rewind
    else do
      let m1 ← m.assignV x (key % 256).toNat
      pure { m1 with st := { m1.st with waitingForRelease := true, lastKey := key } }.rewind
  else
    if key = m.st.lastKey then .ok m.rewind
    else .ok { m with st := { m.st with waitingForRelease := false, lastKey := -1 } }

/-- The three writes of `FX33`. -/
def storeBcd (m : Machine) (x : Nat) : Except Err Machine := do
  let value ← m.cpu.regs.V x
  let (_, mem1) ← liftRes (m.cpu.mem.write m.cpu.regs.i (value / 100))
  let (_, mem2) ← liftRes (mem1.write (m.cpu.regs.i + 1) ((value / 10) % 10))
  let (_, mem3) ← liftRes (mem2.write (m.cpu.regs.i + 2) (value % 10))
  pure (m.setMem mem3)

/-- The loop of `FX55` over the remaining register indices. -/
def storeRegs (regs : Chip8Registers) : List Nat → Chip8Memory → Except Err Chip8Memory
  | [], mem => .ok mem
  | i :: rest, mem => do
    let vi ← regs.V i
    let (_, mem1) ← liftRes (mem.write (regs.i + i) vi)
    storeRegs regs rest mem1

/-- The loop of `FX65` over the remaining register indices. -/
def loadRegs (mem : Chip8Memory) : List Nat → Chip8Registers → Except Err Chip8Registers
  | [], regs => .ok regs
  | i :: rest, regs => do
    let b ← mem.read (regs.i + i)
    let (_, regs1) ← liftRes (regs.setV i b)
    loadRegs mem rest regs1

/-- The loop of `FX75` over the remaining register indices:
`audioBuffer[i] = regs.V(i)`. -/
def saveFlags (regs : Chip8Registers) : List Nat → List Nat → Except Err (List Nat)
  | [], buf => .ok buf
  | i :: rest, buf => do
    let vi ← regs.V i
    saveFlags regs rest (buf.set i vi)

/-- The loop of `FX85` over the remaining register indices:
`regs.V(i) = audioBuffer[i]`. -/
def restoreFlags (buf : List Nat) : List Nat → Chip8Registers → Except Err Chip8Registers
  | [], regs => .ok regs
  | i :: rest, regs => do
    let (_, regs1) ← liftRes (regs.setV i (buf.getD i 0))
    restoreFlags buf rest regs1

/-- The increment `if (quirks.loadStoreIncrementI) regs.I() += x + 1`. -/
def bumpI (m : Machine) (x : Nat) : Machine :=
  if m.cpu.quirks.loadStoreIncrementI then
    m.setRegs { m.cpu.regs with i := u16 (m.cpu.regs.i + (x + 1)) }
  else m

/-- `case 0xF`. The block between `case 0x01` and `case 0x75` that tests
`(opcode & 0xFFF0) == 0x00D0` follows a `break` and carries no label, so no
value of `nn` reaches it. -/
def caseF (m : Machine) (x nn : Nat) : Except Err Machine :=
  match nn with
  | 0x07 => m.assignV x m.cpu.tmr.getDelay
  | 0x0A => waitKey m x
  | 0x15 => do
    let vx ← m.cpu.regs.V x
    pure (m.setTmr (m.cpu.tmr.setDelay vx))
  | 0x18 => do
    let vx ← m.cpu.regs.V x
    pure (m.setTmr (m.cpu.tmr.setSound vx))
  | 0x1E => do
    let vx ← m.cpu.regs.V x
    pure (m.setRegs { m.cpu.regs with i := u16 ((m.cpu.regs.i + vx) &&& 0xFFFF) })
  | 0x29 => do
    let vx ← m.cpu.regs.V x
    pure (m.setRegs { m.cpu.regs with i := u16 (Chip8Memory.FONTSET_START + (vx &&& 0xF) * 5) })
  | 0x33 => storeBcd m x
  | 0x55 => do
    let mem1 ← storeRegs m.cpu.regs (upTo 0 (x + 1)) m.cpu.mem
    pure (bumpI (m.setMem mem1) x)
  | 0x65 => do
    let regs1 ← loadRegs m.cpu.mem (upTo 0 (x + 1)) m.cpu.regs
    pure (bumpI (m.setRegs regs1) x)
  | 0x01 =>
    if m.cpu.mode = Variant.XOCHIP then do
      let vx ← m.cpu.regs.V x
      pure (m.setDisp (m.cpu.disp.setActivePlanes vx))
    else .ok m
  | 0x75 =>
    if m.cpu.mode = Variant.XOCHIP then do
      let buf ← saveFlags m.cpu.regs (upTo 0 (x + 1)) m.cpu.audioBuffer
      pure { m with cpu := { m.cpu with audioBuffer := buf } }
    else .ok m
  | 0x85 =>
    if m.cpu.mode = Variant.XOCHIP then do
      let regs1 ← restoreFlags m.cpu.audioBuffer (upTo 0 (x + 1)) m.cpu.regs
      pure (m.setRegs regs1)
    else .ok m
  | _ => .ok m

/-- The `switch (n1)` of `executeOpcode`. -/
def dispatch (m : Machine) (host : Host) (opcode : Nat) : Except Err Machine :=
  let n1 := (opcode &&& 0xF000) >>> 12
  let n2 := (opcode &&& 0x0F00) >>> 8
  let n3 := (opcode &&& 0x00F0) >>> 4
  let n4 := opcode &&& 0x000F
  let nnn := opcode &&& 0x0FFF
  let nn := opcode &&& 0x00FF
  let x := n2
  let y := n3
  match n1 with
  | 0x0 => case0 m opcode
  | 0x1 => .ok (m.setRegs { m.cpu.regs with pc := nnn })
  | 0x2 => do
    let (_, r) ← liftRes (m.cpu.regs.push m.cpu.regs.pc)
    pure (m.setRegs { r with pc := nnn })
  | 0x3 => do
    let vx ← m.cpu.regs.V x
    if vx = nn then pure m.skip else pure m
  | 0x4 => do
    let vx ← m.cpu.regs.V x
    if vx ≠ nn then pure m.skip else pure m
  | 0x5 => case5 m x y n4
  | 0x6 => m.assignV x nn
  | 0x7 => do
    let vx ← m.cpu.regs.V x
    m.assignV x ((vx + nn) &&& 0xFF)
  | 0x8 => case8 m x y n4
  | 0x9 =>
    if n4 = 0 then do
      let vx ← m.cpu.regs.V x
      let vy ← m.cpu.regs.V y
      if vx ≠ vy then pure m.skip else pure m
    else .ok m
  | 0xA => .ok (m.setRegs { m.cpu.regs with i := nnn })
  | 0xB => do
    let v ← if m.cpu.quirks.jumpWithVx then m.cpu.regs.V x else m.cpu.regs.V 0
    pure (m.setRegs { m.cpu.regs with pc := u16 (nnn + v) })
  | 0xC => m.assignV x ((host.random % 256) &&& nn)
  | 0xD => caseD m host x y n4
  | 0xE => caseE m x nn
  | 0xF => caseF m x nn
  | _ => .ok m

end Exec

namespace Machine

/-- `Chip8CPU::executeOpcode(uint16_t opcode)`. -/
def executeOpcode (m : Machine) (host : Host) (opcode : Nat) : Except Err Machine :=
  match Exec.extended m opcode with
  | some r => r
  | none => Exec.dispatch m host opcode

/-- `Chip8CPU::fetchOpcode`. -/
def fetchOpcode (m : Machine) : Except Err Nat := do
  let pc := m.cpu.regs.pc
  let high ← m.cpu.mem.read pc
  let low ← m.cpu.mem.read (pc + 1)
  pure (u16 ((high <<< 8) ||| low))

/-- The buzzer update closing `step`. -/
def updateBuzzer (m : Machine) : Machine :=
  if m.cpu.tmr.getSound > 0 then
    { m with cpu := { m.cpu with snd := m.cpu.snd.start } }
  else
    let r := m.cpu.snd.stop m.st
    { cpu := { m.cpu with snd := r.1 }, st := r.2 }

/-- `Chip8CPU::step`. -/
def step (m : Machine) (host : Host) : Except Err Machine := do
  let opcode ← m.fetchOpcode
  let m1 ← m.skip.executeOpcode host opcode
  pure m1.updateBuzzer

end Machine

/-! ### `Chip8CPU::saveState` / `Chip8CPU::loadState`

The state file is a flat byte sequence. The layout is that of the host the program
is built for: little-endian, `sizeof(int) = 4`, `sizeof(size_t) = 8`,
`sizeof(bool) = 1`, `sizeof(Quirks) = 3`. -/

/-- The `n` low bytes of `v`, least significant first. -/
def leBytes : Nat → Nat → List Nat
  | 0, _ => []
  | n + 1, v => v % 256 :: leBytes n (v / 256)

/-- The unsigned value of a little-endian byte sequence. -/
def leValue : List Nat → Nat
  | [] => 0
  | b :: bs => b + 256 * leValue bs

/-- The four bytes of an `int` (two's complement). -/
def i32Bytes (x : Int) : List Nat := leBytes 4 (x % 4294967296).toNat

/-- The `int` held by four bytes. -/
def i32Of (bs : List Nat) : Int :=
  if leValue bs < 2147483648 then (leValue bs : Int) else (leValue bs : Int) - 4294967296

/-- The byte of a `bool`. -/
def boolByte (b : Bool) : Nat := if b then 1 else 0

/-- The `bool` read back from a byte. A byte other than 0 or 1 in a `bool` is
undefined in C++; the model takes every nonzero byte as true. -/
def byteBool (n : Nat) : Bool := decide (n ≠ 0)

/-- The three bytes of a `Quirks` record. -/
def quirksBytes (q : Quirks) : List Nat :=
  [boolByte q.shiftUsesVy, boolByte q.loadStoreIncrementI, boolByte q.jumpWithVx]

/-- The `Quirks` record held by three bytes. -/
def quirksOf (bs : List Nat) : Quirks :=
  { shiftUsesVy := byteBool (bs.getD 0 0), loadStoreIncrementI := byteBool (bs.getD 1 0),
    jumpWithVx := byteBool (bs.getD 2 0) }

/-- The bytes of an array of `uint16_t`. -/
def u16sBytes (l : List Nat) : List Nat := l.flatMap (leBytes 2)

/-- The array of `uint16_t` held by a byte sequence of even length. -/
def u16sOf : List Nat → List Nat
  | lo :: hi :: rest => (lo + 256 * hi) :: u16sOf rest
  | _ => []

/-- A `std::ifstream` opened on a file: the bytes not yet consumed and whether the
stream is still good (`!!in`). -/
structure IStream where
  data : List Nat
  good : Bool

namespace IStream

/-- `in.read(dst, n)` where the `n` destination bytes currently hold `old`. On a
stream that has failed nothing is read; when fewer than `n` bytes remain they are
stored at the start of the destination and the stream fails. -/
def read (s : IStream) (old : List Nat) : List Nat × IStream :=
  if !s.good then (old, s)
  else if old.length ≤ s.data.length then
    (s.data.take old.length, { s with data := s.data.drop old.length })
  else (s.data ++ old.drop s.data.length, { data := [], good := false })

/-- The loop `for (auto& row : disp.fb) in.read(row.data(), row.size())`. -/
def readRows : List (List Nat) → IStream → List (List Nat) × IStream
  | [], s => ([], s)
  | row :: rows, s =>
    ((s.read row).1 :: (readRows rows (s.read row).2).1, (readRows rows (s.read row).2).2)

end IStream

namespace Chip8CPU

/-- `Chip8CPU::saveState`: the bytes written to the file when the output stream
opens and stays good (otherwise the function returns false). -/
def saveState (c : Chip8CPU) : List Nat :=
  List.flatten
    [i32Bytes c.mode.val,
     quirksBytes c.quirks,
     leBytes 8 c.mem.size,
     c.mem.memory,
     c.regs.v,
     leBytes 2 c.regs.i,
     leBytes 2 c.regs.pc,
     [c.regs.sp],
     u16sBytes c.regs.stack,
     [c.tmr.getDelay],
     [c.tmr.getSound],
     c.inp.keys.map boolByte,
     c.disp.fb.flatten,
     i32Bytes c.disp.mode.val,
     i32Bytes c.disp.colorMode.val,
     [c.disp.activePlanes],
     i32Bytes c.snd.getPhase,
     [boolByte c.snd.getMuted],
     i32Bytes c.snd.getVolume,
     [boolByte c.snd.isOn],
     [boolByte c.snd.getPlaying],
     c.audioBuffer]

end Chip8CPU

namespace Machine

/-- `Chip8CPU::loadState` on the file content `file` (`none`: the file cannot be
opened). Returns the function's result and the machine afterwards. -/
def loadState (m : Machine) (file : Option (List Nat)) : Bool × Machine :=
  match file with
  | none => (false, m)
  | some blob =>
    let c := m.cpu
    let r1 := IStream.read ⟨blob, true⟩ (i32Bytes 0)
    let mode : Variant := ⟨i32Of r1.1⟩
    let r2 := r1.2.read (quirksBytes c.quirks)
    let quirks := quirksOf r2.1
    let r3 := r2.2.read (leBytes 8 0)
    let memSize := leValue r3.1
    if memSize ≠ c.mem.size then
      (false, { m with cpu := { c with mode := mode, quirks := quirks } })
    else
      let r4 := r3.2.read c.mem.memory
      let r5 := r4.2.read c.regs.v
      let r6 := r5.2.read (leBytes 2 c.regs.i)
      let r7 := r6.2.read (leBytes 2 c.regs.pc)
      let r8 := r7.2.read [c.regs.sp]
      let r9 := r8.2.read (u16sBytes c.regs.stack)
      let r10 := r9.2.read [0]
      let r11 := r10.2.read [0]
      let tmr := (c.tmr.setDelay (r10.1.getD 0 0)).setSound (r11.1.getD 0 0)
      let r12 := r11.2.read (c.inp.keys.map boolByte)
      let r13 := IStream.readRows c.disp.fb r12.2
      let r14 := r13.2.read (i32Bytes 0)
      let r15 := r14.2.read (i32Bytes 0)
      let r16 := r15.2.read [0]
      let r17 := r16.2.read (i32Bytes 0)
      let r18 := r17.2.read [boolByte false]
      let r19 := r18.2.read (i32Bytes 100)
      let r20 := r19.2.read [boolByte false]
      let r21 := r20.2.read [boolByte false]
      let r22 := r21.2.read c.audioBuffer
      let snd1 := ((c.snd.setPhase (i32Of r17.1)).setMuted (byteBool (r18.1.getD 0 0))).setVolume
        (i32Of r19.1)
      let sb := if byteBool (r20.1.getD 0 0) then (snd1.start, m.st) else snd1.stop m.st
      let snd2 := sb.1.setPlaying (byteBool (r21.1.getD 0 0))
      (r22.2.good,
       { cpu :=
          { mode := mode
            quirks := quirks
            mem := ⟨r4.1⟩
            regs := { v := r5.1, i := leValue r6.1, pc := leValue r7.1, sp := r8.1.getD 0 0,
                      stack := u16sOf r9.1 }
            tmr := tmr
            inp := ⟨r12.1.map byteBool⟩
            disp := { fb := r13.1, mode := ⟨i32Of r14.1⟩, colorMode := ⟨i32Of r15.1⟩,
                      activePlanes := r16.1.getD 0 0 }
            snd := snd2
            audioBuffer := r22.1 }
         st := sb.2 })

end Machine

/-! ## `drawSprite` as a sequence of pixel toggles -/

/-- One execution of the innermost statements of `Chip8Display::drawSprite`: the
cell `fb[y][x]`, the plane whose bit is flipped, and whether the collision test is
that of the mono branch (`if (fb[py][px])`, the whole cell) or of the plane loop
(`(fb[py][px] >> plane) & 1`). -/
structure Toggle where
  y : Nat
  x : Nat
  plane : Nat
  whole : Bool
deriving DecidableEq

namespace Toggle

/-- The value the collision test of the toggle looks at. -/
def obs (t : Toggle) (fb : Framebuffer) : Nat :=
  if t.whole then fbGet fb t.y t.x else (fbGet fb t.y t.x >>> t.plane) &&& 1

/-- Test and flip. -/
def step (acc : Bool × Framebuffer) (t : Toggle) : Bool × Framebuffer :=
  (acc.1 || decide (t.obs acc.2 ≠ 0),
   fbSet acc.2 t.y t.x (u8 (fbGet acc.2 t.y t.x ^^^ (1 <<< t.plane))))

/-- A sequence of toggles in program order. -/
def run (ts : List Toggle) (acc : Bool × Framebuffer) : Bool × Framebuffer :=
  ts.foldl step acc

/-- Two toggles that flip the same bit. -/
def same (t p : Toggle) : Prop := t.y = p.y ∧ t.x = p.x ∧ t.plane = p.plane

/-- The toggle lies inside the array, flips one of the two planes, and belongs to
the branch `w` (mono toggles flip plane 0). -/
def valid (w : Bool) (t : Toggle) : Prop :=
  t.y < 64 ∧ t.x < 128 ∧ t.plane < 2 ∧ t.whole = w ∧ (w = true → t.plane = 0)

/-- The bits flipped in cell `(y, x)` by a sequence of toggles. -/
def mask (y x : Nat) : List Toggle → Nat
  | [] => 0
  | t :: ts => (if t.y = y ∧ t.x = x then 1 <<< t.plane else 0) ^^^ mask y x ts

end Toggle

namespace Chip8Display

/-- The toggle of one iteration of the plane loop. -/
def planeToggles (planeMask px py plane : Nat) : List Toggle :=
  if planeMask &&& (1 <<< plane) ≠ 0 then [⟨py, px, plane, false⟩] else []

/-- The toggles at a pixel selected by a set sprite bit. -/
def pixelToggles (colorMode : ColorMode) (planeMask px py : Nat) : List Toggle :=
  if colorMode = ColorMode.XOCHIP_2BPP then
    (List.range XOCHIP_PLANES).flatMap (planeToggles planeMask px py)
  else [⟨py, px, 0, true⟩]

/-- The toggles of one iteration of the column loop. -/
def colToggles (colorMode : ColorMode) (w h x y planeMask spriteByte row col : Nat) :
    List Toggle :=
  if spriteByte &&& (0x80 >>> col) ≠ 0 then
    pixelToggles colorMode planeMask ((x + col) % w) ((y + row) % h)
  else []

/-- The toggles of one iteration of the row loop. -/
def rowToggles (colorMode : ColorMode) (w h x y planeMask : Nat) (spriteData : Nat → Nat)
    (row : Nat) : List Toggle :=
  (List.range 8).flatMap (colToggles colorMode w h x y planeMask (u8 (spriteData row)) row)

/-- The toggles of a whole `drawSprite` call, in program order. -/
def spriteToggles (d : Chip8Display) (x y : Nat) (spriteData : Nat → Nat)
    (numRows planeMask : Nat) : List Toggle :=
  (List.range (u8 numRows)).flatMap
    (rowToggles d.colorMode d.width d.height (u8 x) (u8 y) (u8 planeMask) spriteData)

end Chip8Display

/-! ## Concrete machines used in examples -/

/-- A freshly constructed interpreter of the given variant with quirks `q` set and
V registers holding `v`, the static-storage variables at their start values. -/
def machineWith (variant : Variant) (q : Quirks) (v : List Nat) : Machine :=
  { cpu := { Chip8CPU.init variant with
      quirks := q, regs := { Chip8Registers.init with v := v } },
    st := Statics.init }

/-- A host whose clock lets every draw through. -/
def idleHost : Host := { random := 0, frameElapsed := true }

/-- A freshly constructed interpreter whose memory has been replaced by `mem`. -/
def freshWithMemory (variant : Variant) (mem : Chip8Memory) (st : Statics) : Machine :=
  { cpu := { Chip8CPU.init variant with mem := mem }, st := st }

/-- Memory of a freshly constructed CHIP8 interpreter after loading the ROM
`60 05 70 03`. -/
def scenarioMemory : Chip8Memory :=
  ((Chip8Memory.init Chip8Memory.CHIP8_MEMORY_SIZE).loadROM [0x60, 0x05, 0x70, 0x03]).2

/-- A fresh display with the pixel at (0, 0) set. -/
def litDisplay : Chip8Display := Chip8Display.init.setPixel 0 0 1

/-- An SCHIP interpreter in the middle of a run: registers, stack, timers and sound
flags away from their initial values. -/
def savedCpu : Chip8CPU :=
  { mode := Variant.SCHIP
    quirks := { shiftUsesVy := false, loadStoreIncrementI := false, jumpWithVx := true }
    mem := Chip8Memory.init Chip8Memory.SCHIP_MEMORY_SIZE
    regs := { v := [1, 2, 3, 4, 5, 6, 7, 8, 9, 10, 11, 12, 13, 14, 15, 255], i := 0x1234,
              pc := 0x0ABC, sp := 2,
              stack := [0x202, 0xFFFF, 0, 0, 0, 0, 0, 0, 0, 0, 0, 0, 0, 0, 0, 0] }
    tmr := { delay := 9, sound := 200 }
    inp := Chip8Input.init
    disp := Chip8Display.init
    snd := { buzzerOn := true, playing := false, phase := -5, muted := true, volume := 37 }
    audioBuffer := List.replicate Chip8CPU.XOCHIP_AUDIO_BUFFER_SIZE 0 }

/-- A fresh CHIP8 interpreter whose delay timer has been set to 9. -/
def tickingCpu : Chip8CPU :=
  { Chip8CPU.init Variant.CHIP8 with tmr := { delay := 9, sound := 0 } }

/-- The first 15 bytes of a CHIP8 state file: variant tag, default quirks and the
memory size 4096, nothing after them. -/
def truncatedFile : List Nat :=
  List.flatten [i32Bytes 0, quirksBytes {}, leBytes 8 4096]

/-! ## Outcomes of throwing code -/

/-- The outcome `r` of a call that may throw: a thrown exception satisfies `E`, a
returned value satisfies `P`. -/
def Post {α : Type} (E : Err → Prop) (P : α → Prop) (r : Except Err α) : Prop :=
  match r with
  | .ok a => P a
  | .error e => E e

/-- Every exception but the register-index one. -/
def NoIndexErr (e : Err) : Prop := e ≠ Err.registerIndex

/-- The call stack of `m1` is that of `m`: same stack pointer, same cells. -/
def Frame (m m1 : Machine) : Prop :=
  m1.cpu.regs.sp = m.cpu.regs.sp ∧ m1.cpu.regs.stack = m.cpu.regs.stack

/-- What one instruction does to the call stack: nothing, one `push` (a write at
index `sp < 16`), or one `pop` (a read at index `sp - 1` with `sp > 0`). -/
def StackStep (m m1 : Machine) : Prop :=
  Frame m m1 ∨
  (m.cpu.regs.sp < 16 ∧ m1.cpu.regs.sp = m.cpu.regs.sp + 1 ∧
    ∃ v, m1.cpu.regs.stack = m.cpu.regs.stack.set m.cpu.regs.sp v) ∨
  (0 < m.cpu.regs.sp ∧ m1.cpu.regs.sp = m.cpu.regs.sp - 1 ∧
    m1.cpu.regs.stack = m.cpu.regs.stack ∧
    m1.cpu.regs.pc = m.cpu.regs.stack.getD (m.cpu.regs.sp - 1) 0)

/-! ## A run of the program -/

/-- What the main loop does to the interpreter between two frames. -/
inductive Event where
  /-- `cpu.step()` with the host values the step sees. -/
  | step (host : Host)
  /-- `cpu.input().setKey(key, pressed)`. -/
  | key (key : Nat) (pressed : Bool)
  /-- `cpu.timers().tick()`. -/
  | tick

namespace Machine

/-- Start of a run in main.cpp: construct the interpreter, set the quirks, load
the ROM. -/
def boot (variant : Variant) (q : Quirks) (rom : List Nat) (st : Statics) :
    Except Err Machine := do
  let c := (Chip8CPU.init variant).setQuirks q
  let (_, mem) ← liftRes (c.mem.loadROM rom)
  pure { cpu := { c with mem := mem }, st := st }

/-- One event of the main loop. -/
def apply (m : Machine) : Event → Except Err Machine
  | .step host => m.step host
  | .key k pressed => .ok { m with cpu := { m.cpu with inp := m.cpu.inp.setKey k pressed } }
  | .tick => .ok (m.setTmr m.cpu.tmr.tick)

/-- A sequence of events, stopping at the first exception. -/
def run (m : Machine) : List Event → Except Err Machine
  | [] => .ok m
  | e :: es => do
    let m1 ← m.apply e
    m1.run es

end Machine

/-- The stack pointer is inside the array bounds and the array has its 16 cells. -/
def StackOk (m : Machine) : Prop := m.cpu.regs.sp ≤ 16 ∧ m.cpu.regs.stack.length = 16

/-- A freshly constructed interpreter whose program counter and index register
have been moved to `pc` and `i`. -/
def machineAt (variant : Variant) (pc i : Nat) : Machine :=
  { cpu := { Chip8CPU.init variant with
      regs := { Chip8Registers.init with pc := pc, i := i } },
    st := Statics.init }

/-! ## The interpreter's own sprite loop as a sequence of pixel toggles -/

/-- The pair `(collision, display)` carried by the sprite loops of `executeOpcode`,
from the pair `(collision, array)`. -/
def withFb (d : Chip8Display) (r : Bool × Framebuffer) : Bool × Chip8Display :=
  (r.1, { d with fb := r.2 })

namespace Exec

/-- The toggle of one iteration of the column loop of the CHIP8 and SCHIP paths. -/
def spriteColToggles (w startX py spriteByte col : Nat) : List Toggle :=
  if startX + col ≥ w then []
  else if spriteByte &&& (0x80 >>> col) ≠ 0 then [⟨py, startX + col, 0, true⟩]
  else []

/-- The toggles of one iteration of the row loop of the CHIP8 and SCHIP paths,
`bytes row` being the sprite byte read for the row. -/
def spriteRowToggles (bytes : Nat → Nat) (w h startX startY row : Nat) : List Toggle :=
  if startY + row ≥ h then []
  else (List.range 8).flatMap (spriteColToggles w startX (startY + row) (bytes row))

end Exec

/-- A fresh XO-CHIP interpreter whose display has been switched to the two-plane color
mode with plane mask 2 (plane 1 alone, as `FX01` with `VX = 2` leaves it) and whose
`I` points at the font. -/
def planeMachine : Machine :=
  { cpu := { Chip8CPU.init Variant.XOCHIP with
      regs := { Chip8Registers.init with i := 0x50 },
      disp := (Chip8Display.init.setColorMode ColorMode.XOCHIP_2BPP).setActivePlanes 2 },
    st := Statics.init }

/-- `cpu.input().setKey(key, pressed)` on the machine. -/
def Machine.setKey (m : Machine) (key : Nat) (pressed : Bool) : Machine :=
  { m with cpu := { m.cpu with inp := m.cpu.inp.setKey key pressed } }

/-- A host whose clock holds every draw back. -/
def busyHost : Host := { random := 0, frameElapsed := false }

/-- The cells of `b` agree with those of `a` in bit `p`. -/
def SameBit (p : Nat) (a b : Framebuffer) : Prop :=
  ∀ y x, (fbGet b y x >>> p) &&& 1 = (fbGet a y x >>> p) &&& 1

/-- A 2-plane display with only plane 0 active and the plane-1 bit of cell (0, 0) set. -/
def planeOneDisplay : Chip8Display :=
  (Chip8Display.init.setColorMode ColorMode.XOCHIP_2BPP).setPixel 0 0 2

/-- A fresh CHIP8 interpreter with its sound timer at `sound` and its sound engine
in the state `snd`. -/
def soundMachine (sound : Nat) (snd : Chip8Sound) : Machine :=
  { cpu := { Chip8CPU.init Variant.CHIP8 with
      tmr := { delay := 0, sound := sound }, snd := snd },
    st := Statics.init }

/-- A fresh XO-CHIP interpreter whose audio pattern buffer holds the byte `i` at
offset `i`. -/
def patternMachine : Machine :=
  { cpu := { Chip8CPU.init Variant.XOCHIP with audioBuffer := List.range 256 },
    st := Statics.init }

/-- The part of a machine that a draw can change and a program can see. -/
def drawn (m : Machine) : Chip8Display × Chip8Registers := (m.cpu.disp, m.cpu.regs)

/-- The machine `m` carrying the variant tag `v`, as `loadState` leaves an interpreter
that read a state file written by another variant with the same memory size. -/
def Machine.withVariant (m : Machine) (v : Variant) : Machine :=
  { m with cpu := { m.cpu with mode := v } }

/-! # Theorems -/

/-! ## Decoding -/

theorem shiftRight_and (a b i : Nat) : (a &&& b) >>> i = (a >>> i) &&& (b >>> i) := by
  apply Nat.eq_of_testBit_eq
  intro j
  simp only [Nat.testBit_shiftRight, Nat.testBit_and]

theorem nibble1_eq (op : Nat) : (op &&& 0xF000) >>> 12 = op / 4096 % 16 := by
  rw [shiftRight_and]
  have h : (0xF000 >>> 12 : Nat) = 2 ^ 4 - 1 := by decide
  rw [h, Nat.and_pow_two_sub_one_eq_mod, Nat.shiftRight_eq_div_pow]

theorem nibble2_eq (op : Nat) : (op &&& 0x0F00) >>> 8 = op / 256 % 16 := by
  rw [shiftRight_and]
  have h : (0x0F00 >>> 8 : Nat) = 2 ^ 4 - 1 := by decide
  rw [h, Nat.and_pow_two_sub_one_eq_mod, Nat.shiftRight_eq_div_pow]

theorem nibble3_eq (op : Nat) : (op &&& 0x00F0) >>> 4 = op / 16 % 16 := by
  rw [shiftRight_and]
  have h : (0x00F0 >>> 4 : Nat) = 2 ^ 4 - 1 := by decide
  rw [h, Nat.and_pow_two_sub_one_eq_mod, Nat.shiftRight_eq_div_pow]

theorem nibble4_eq (op : Nat) : op &&& 0x000F = op % 16 :=
  Nat.and_pow_two_sub_one_eq_mod op 4

theorem low8_eq (op : Nat) : op &&& 0x00FF = op % 256 :=
  Nat.and_pow_two_sub_one_eq_mod op 8

theorem low12_eq (op : Nat) : op &&& 0x0FFF = op % 4096 :=
  Nat.and_pow_two_sub_one_eq_mod op 12

theorem maskFFF0_family (op : Nat) : (op &&& 0xFFF0) >>> 12 = op / 4096 % 16 := by
  rw [shiftRight_and]
  have h : (0xFFF0 >>> 12 : Nat) = 2 ^ 4 - 1 := by decide
  rw [h, Nat.and_pow_two_sub_one_eq_mod, Nat.shiftRight_eq_div_pow]

theorem maskF00F_family (op : Nat) : (op &&& 0xF00F) >>> 12 = op / 4096 % 16 := by
  rw [shiftRight_and]
  have h : (0xF00F >>> 12 : Nat) = 2 ^ 4 - 1 := by decide
  rw [h, Nat.and_pow_two_sub_one_eq_mod, Nat.shiftRight_eq_div_pow]

/-- Outside the opcode families 0 and D the extended block falls through to the
switch, whatever the variant. -/
theorem extended_none (m : Machine) (op : Nat)
    (h0 : op / 4096 % 16 ≠ 0) (hD : op / 4096 % 16 ≠ 13) : Exec.extended m op = none := by
  have a1 : op &&& 0xFFF0 ≠ 0x00C0 := fun h => by
    have := maskFFF0_family op; rw [h] at this; exact h0 this.symm
  have a2 : op &&& 0xFFF0 ≠ 0x00FA := fun h => by
    have := maskFFF0_family op; rw [h] at this; exact h0 this.symm
  have a3 : op &&& 0xF00F ≠ 0xD000 := fun h => by
    have := maskF00F_family op; rw [h] at this; exact hD this.symm
  have b1 : op ≠ 0x00FB := fun h => by subst h; exact h0 (by decide)
  have b2 : op ≠ 0x00FC := fun h => by subst h; exact h0 (by decide)
  have b3 : op ≠ 0x00FE := fun h => by subst h; exact h0 (by decide)
  have b4 : op ≠ 0x00FF := fun h => by subst h; exact h0 (by decide)
  have b5 : op ≠ 0x00FD := fun h => by subst h; exact h0 (by decide)
  unfold Exec.extended
  simp only [a1, a2, a3, b1, b2, b3, b4, b5, if_false, false_and, ite_self]

theorem executeOpcode_family8 (m : Machine) (host : Host) (op : Nat)
    (h : op / 4096 % 16 = 8) :
    m.executeOpcode host op = Exec.case8 m (op / 256 % 16) (op / 16 % 16) (op % 16) := by
  unfold Machine.executeOpcode
  rw [extended_none m op (by omega) (by omega)]
  simp only [Exec.dispatch, nibble1_eq, nibble2_eq, nibble3_eq, nibble4_eq, h]

theorem executeOpcode_family6 (m : Machine) (host : Host) (op : Nat)
    (h : op / 4096 % 16 = 6) :
    m.executeOpcode host op = m.assignV (op / 256 % 16) (op % 256) := by
  unfold Machine.executeOpcode
  rw [extended_none m op (by omega) (by omega)]
  simp only [Exec.dispatch, nibble1_eq, nibble2_eq, low8_eq, h]

theorem executeOpcode_family7 (m : Machine) (host : Host) (op : Nat)
    (h : op / 4096 % 16 = 7) :
    m.executeOpcode host op = (do
      let vx ← m.cpu.regs.V (op / 256 % 16)
      m.assignV (op / 256 % 16) ((vx + op % 256) &&& 0xFF)) := by
  unfold Machine.executeOpcode
  rw [extended_none m op (by omega) (by omega)]
  simp only [Exec.dispatch, nibble1_eq, nibble2_eq, low8_eq, h]

/-! ## Register file -/

theorem V_of_lt (r : Chip8Registers) {idx : Nat} (h : idx < 16) :
    r.V idx = .ok (r.v.getD idx 0) := by
  unfold Chip8Registers.V
  rw [if_neg (by omega)]

theorem assignV_of_lt (m : Machine) {idx : Nat} (value : Nat) (h : idx < 16) :
    m.assignV idx value =
      .ok (m.setRegs { m.cpu.regs with v := m.cpu.regs.v.set idx (u8 value) }) := by
  unfold Machine.assignV Chip8Registers.setV
  rw [if_neg (by omega)]
  rfl

@[simp] theorem setRegs_regs (m : Machine) (r : Chip8Registers) :
    (m.setRegs r).cpu.regs = r := rfl

theorem getD_set_same {l : List Nat} {i : Nat} (a : Nat) (h : i < l.length) :
    (l.set i a).getD i 0 = a := by
  simp [List.getD_eq_getElem?_getD, List.getElem?_set, h]

theorem getD_set_other {l : List Nat} {i j : Nat} (a : Nat) (h : i ≠ j) :
    (l.set i a).getD j 0 = l.getD j 0 := by
  simp [List.getD_eq_getElem?_getD, List.getElem?_set, h]

/-- The register file after the two assignments `V(x) = result; V(0xF) = vf` that
close every arithmetic arm of `case 0x8`. -/
theorem case8_result (m : Machine) (x : Nat) (result vf : Nat) (hx : x < 16) :
    (do let m1 ← m.assignV x result; m1.assignV 0xF vf) =
      (.ok (m.setRegs { m.cpu.regs with v := (m.cpu.regs.v.set x (u8 result)).set 15 (u8 vf) }) :
        Except Err Machine) := by
  simp only [bind, Except.bind, assignV_of_lt _ _ hx, assignV_of_lt _ _ (by decide : 15 < 16),
    setRegs_regs]
  rfl

theorem flag_after (m : Machine) (x a b : Nat) (hlen : m.cpu.regs.v.length = 16) :
    (m.setRegs { m.cpu.regs with v := (m.cpu.regs.v.set x a).set 15 b }).cpu.regs.v.getD 0xF 0
      = b := by
  rw [setRegs_regs]
  exact getD_set_same _ (by rw [List.length_set]; omega)

theorem result_after (m : Machine) (x a b : Nat) (hlen : m.cpu.regs.v.length = 16)
    (hx : x < 16) (hxF : x ≠ 0xF) :
    (m.setRegs { m.cpu.regs with v := (m.cpu.regs.v.set x a).set 15 b }).cpu.regs.v.getD x 0
      = a := by
  rw [setRegs_regs]
  show ((m.cpu.regs.v.set x a).set 15 b).getD x 0 = a
  rw [getD_set_other _ (Ne.symm hxF), getD_set_same _ (by omega)]

/-! ## C1: 8XY4 -/

/-- C1 (amended): for every variant, all X, Y in 0..15 and all 8-bit contents of VX
and VY, executing 8XY4 succeeds and leaves VF = 1 if vx + vy > 255 and VF = 0
otherwise; when X is not F it leaves VX = (vx + vy) mod 256. -/
theorem exec_8XY4 (m : Machine) (host : Host) (X Y : Nat) (hX : X < 16) (hY : Y < 16)
    (hlen : m.cpu.regs.v.length = 16)
    (hvx : m.cpu.regs.v.getD X 0 < 256) (hvy : m.cpu.regs.v.getD Y 0 < 256) :
    ∃ m1, m.executeOpcode host (0x8004 + 0x100 * X + 0x10 * Y) = .ok m1 ∧
      m1.cpu.regs.v.getD 0xF 0
        = (if m.cpu.regs.v.getD X 0 + m.cpu.regs.v.getD Y 0 > 255 then 1 else 0) ∧
      (X ≠ 0xF → m1.cpu.regs.v.getD X 0
        = (m.cpu.regs.v.getD X 0 + m.cpu.regs.v.getD Y 0) % 256) := by
  have h1 : (0x8004 + 0x100 * X + 0x10 * Y) / 4096 % 16 = 8 := by omega
  have h2 : (0x8004 + 0x100 * X + 0x10 * Y) / 256 % 16 = X := by omega
  have h3 : (0x8004 + 0x100 * X + 0x10 * Y) / 16 % 16 = Y := by omega
  have h4 : (0x8004 + 0x100 * X + 0x10 * Y) % 16 = 4 := by omega
  rw [executeOpcode_family8 m host _ h1, h2, h3, h4]
  unfold Exec.case8
  simp only [V_of_lt _ hX, V_of_lt _ hY]
  refine ⟨_, case8_result m X _ _ hX, ?_, ?_⟩
  · rw [flag_after m X _ _ hlen]
    simp only [u16, u8]
    split <;> split <;> omega
  · intro hne
    rw [result_after m X _ _ hlen hX hne]
    simp only [u16, u8, low8_eq]
    omega

/-- Instance of `exec_8XY4` on a CHIP8 machine: V0 = 200, V1 = 100, opcode 8014. -/
theorem exec_8XY4_witness :
    ∃ m1, (machineWith Variant.CHIP8 {}
        [200, 100, 0, 0, 0, 0, 0, 0, 0, 0, 0, 0, 0, 0, 0, 0]).executeOpcode
        idleHost (0x8004 + 0x100 * 0 + 0x10 * 1) = .ok m1 ∧
      m1.cpu.regs.v.getD 0xF 0 = 1 ∧ ((0 : Nat) ≠ 0xF → m1.cpu.regs.v.getD 0 0 = 44) :=
  exec_8XY4 (machineWith Variant.CHIP8 {} [200, 100, 0, 0, 0, 0, 0, 0, 0, 0, 0, 0, 0, 0, 0, 0])
    idleHost 0 1 (by decide) (by decide) (by decide) (by decide) (by decide)

/-- C1 as stated fails at X = F: with VF = 1 and V0 = 1, opcode 8F04 leaves VX = VF = 0
(the carry), not (1 + 1) mod 256 = 2. -/
theorem exec_8XY4_flag_overwrites_sum :
    ∃ m1, (machineWith Variant.CHIP8 {}
        [1, 0, 0, 0, 0, 0, 0, 0, 0, 0, 0, 0, 0, 0, 0, 1]).executeOpcode idleHost 0x8F04 = .ok m1 ∧
      m1.cpu.regs.v.getD 0xF 0 = 0 ∧ m1.cpu.regs.v.getD 0xF 0 ≠ (1 + 1) % 256 :=
  ⟨_, rfl, by decide, by decide⟩

/-! ## C2: 8XY5 -/

/-- C2 (amended): for every variant, all X, Y in 0..15 and all contents of VX and
VY, executing 8XY5 succeeds and leaves VF = 1 if vx >= vy and VF = 0 otherwise;
when X is not F it leaves VX = (vx - vy) mod 256. -/
theorem exec_8XY5 (m : Machine) (host : Host) (X Y : Nat) (hX : X < 16) (hY : Y < 16)
    (hlen : m.cpu.regs.v.length = 16) :
    ∃ m1, m.executeOpcode host (0x8005 + 0x100 * X + 0x10 * Y) = .ok m1 ∧
      m1.cpu.regs.v.getD 0xF 0
        = (if m.cpu.regs.v.getD X 0 ≥ m.cpu.regs.v.getD Y 0 then 1 else 0) ∧
      (X ≠ 0xF → (m1.cpu.regs.v.getD X 0 : Int)
        = ((m.cpu.regs.v.getD X 0 : Int) - (m.cpu.regs.v.getD Y 0 : Int)) % 256) := by
  have h1 : (0x8005 + 0x100 * X + 0x10 * Y) / 4096 % 16 = 8 := by omega
  have h2 : (0x8005 + 0x100 * X + 0x10 * Y) / 256 % 16 = X := by omega
  have h3 : (0x8005 + 0x100 * X + 0x10 * Y) / 16 % 16 = Y := by omega
  have h4 : (0x8005 + 0x100 * X + 0x10 * Y) % 16 = 5 := by omega
  rw [executeOpcode_family8 m host _ h1, h2, h3, h4]
  unfold Exec.case8
  simp only [V_of_lt _ hX, V_of_lt _ hY]
  refine ⟨_, case8_result m X _ _ hX, ?_, ?_⟩
  · rw [flag_after m X _ _ hlen]
    simp only [u8]
    split <;> omega
  · intro hne
    rw [result_after m X _ _ hlen hX hne]
    simp only [u8]
    omega

/-- Instance of `exec_8XY5` on an SCHIP machine: V2 = 3, V7 = 10, opcode 8275. -/
theorem exec_8XY5_witness :
    ∃ m1, (machineWith Variant.SCHIP {}
        [0, 0, 3, 0, 0, 0, 0, 10, 0, 0, 0, 0, 0, 0, 0, 0]).executeOpcode
        idleHost (0x8005 + 0x100 * 2 + 0x10 * 7) = .ok m1 ∧
      m1.cpu.regs.v.getD 0xF 0 = 0 ∧
      ((2 : Nat) ≠ 0xF → (m1.cpu.regs.v.getD 2 0 : Int) = 249) :=
  exec_8XY5 (machineWith Variant.SCHIP {} [0, 0, 3, 0, 0, 0, 0, 10, 0, 0, 0, 0, 0, 0, 0, 0])
    idleHost 2 7 (by decide) (by decide) (by decide)

/-- C2 as stated fails at X = F: with VF = 1 and V0 = 2, opcode 8F05 leaves VX = VF = 0
(the borrow complement), not (1 - 2) mod 256 = 255. -/
theorem exec_8XY5_flag_overwrites_difference :
    ∃ m1, (machineWith Variant.CHIP8 {}
        [2, 0, 0, 0, 0, 0, 0, 0, 0, 0, 0, 0, 0, 0, 0, 1]).executeOpcode idleHost 0x8F05 = .ok m1 ∧
      m1.cpu.regs.v.getD 0xF 0 = 0 ∧
      (m1.cpu.regs.v.getD 0xF 0 : Int) ≠ ((1 : Int) - 2) % 256 :=
  ⟨_, rfl, by decide, by decide⟩

/-! ## C10: 8XY6 and 8XYE -/

/-- C10: for every variant, every X other than F, every Y and all 8-bit register
contents, with src = VY when `quirks.shiftUsesVy` is set and src = VX otherwise:
8XY6 leaves VX = src >> 1 and VF = src & 1, and 8XYE leaves VX = (src << 1) mod 256
and VF = bit 7 of src. On SCHIP with `shiftUsesVy = false` and V0 = 5, opcode 8016
yields V0 = 2 and VF = 1. -/
theorem exec_shifts (m : Machine) (host : Host) (X Y : Nat) (hX : X < 16) (hY : Y < 16)
    (hXF : X ≠ 0xF) (hlen : m.cpu.regs.v.length = 16)
    (hvx : m.cpu.regs.v.getD X 0 < 256) (hvy : m.cpu.regs.v.getD Y 0 < 256) :
    (∃ m1, m.executeOpcode host (0x8006 + 0x100 * X + 0x10 * Y) = .ok m1 ∧
      m1.cpu.regs.v.getD X 0
        = (if m.cpu.quirks.shiftUsesVy then m.cpu.regs.v.getD Y 0
            else m.cpu.regs.v.getD X 0) >>> 1 ∧
      m1.cpu.regs.v.getD 0xF 0
        = (if m.cpu.quirks.shiftUsesVy then m.cpu.regs.v.getD Y 0
            else m.cpu.regs.v.getD X 0) &&& 1) ∧
    (∃ m2, m.executeOpcode host (0x800E + 0x100 * X + 0x10 * Y) = .ok m2 ∧
      m2.cpu.regs.v.getD X 0
        = ((if m.cpu.quirks.shiftUsesVy then m.cpu.regs.v.getD Y 0
            else m.cpu.regs.v.getD X 0) <<< 1) % 256 ∧
      m2.cpu.regs.v.getD 0xF 0
        = ((if m.cpu.quirks.shiftUsesVy then m.cpu.regs.v.getD Y 0
            else m.cpu.regs.v.getD X 0) >>> 7) % 2) ∧
    (∃ m3, (machineWith Variant.SCHIP
        { shiftUsesVy := false, loadStoreIncrementI := false, jumpWithVx := true }
        [5, 0, 0, 0, 0, 0, 0, 0, 0, 0, 0, 0, 0, 0, 0, 0]).executeOpcode host 0x8016 = .ok m3 ∧
      m3.cpu.regs.v.getD 0 0 = 2 ∧ m3.cpu.regs.v.getD 0xF 0 = 1) := by
  have hsrc : (if m.cpu.quirks.shiftUsesVy then m.cpu.regs.v.getD Y 0
      else m.cpu.regs.v.getD X 0) < 256 := by split <;> assumption
  refine ⟨?_, ?_, ?_⟩
  · have h1 : (0x8006 + 0x100 * X + 0x10 * Y) / 4096 % 16 = 8 := by omega
    have h2 : (0x8006 + 0x100 * X + 0x10 * Y) / 256 % 16 = X := by omega
    have h3 : (0x8006 + 0x100 * X + 0x10 * Y) / 16 % 16 = Y := by omega
    have h4 : (0x8006 + 0x100 * X + 0x10 * Y) % 16 = 6 := by omega
    rw [executeOpcode_family8 m host _ h1, h2, h3, h4]
    unfold Exec.case8
    simp only [V_of_lt _ hX, V_of_lt _ hY]
    refine ⟨_, case8_result m X _ _ hX, ?_, ?_⟩
    · rw [result_after m X _ _ hlen hX hXF]
      generalize (if m.cpu.quirks.shiftUsesVy then m.cpu.regs.v.getD Y 0
        else m.cpu.regs.v.getD X 0) = src at hsrc ⊢
      simp only [u8, Nat.shiftRight_eq_div_pow]
      omega
    · rw [flag_after m X _ _ hlen]
      generalize (if m.cpu.quirks.shiftUsesVy then m.cpu.regs.v.getD Y 0
        else m.cpu.regs.v.getD X 0) = src at hsrc ⊢
      simp only [u8, Nat.and_one_is_mod]
      omega
  · have h1 : (0x800E + 0x100 * X + 0x10 * Y) / 4096 % 16 = 8 := by omega
    have h2 : (0x800E + 0x100 * X + 0x10 * Y) / 256 % 16 = X := by omega
    have h3 : (0x800E + 0x100 * X + 0x10 * Y) / 16 % 16 = Y := by omega
    have h4 : (0x800E + 0x100 * X + 0x10 * Y) % 16 = 14 := by omega
    rw [executeOpcode_family8 m host _ h1, h2, h3, h4]
    unfold Exec.case8
    simp only [V_of_lt _ hX, V_of_lt _ hY]
    refine ⟨_, case8_result m X _ _ hX, ?_, ?_⟩
    · rw [result_after m X _ _ hlen hX hXF]
      generalize (if m.cpu.quirks.shiftUsesVy then m.cpu.regs.v.getD Y 0
        else m.cpu.regs.v.getD X 0) = src at hsrc ⊢
      simp only [u8, low8_eq, Nat.shiftLeft_eq]
      omega
    · rw [flag_after m X _ _ hlen]
      generalize (if m.cpu.quirks.shiftUsesVy then m.cpu.regs.v.getD Y 0
        else m.cpu.regs.v.getD X 0) = src at hsrc ⊢
      have hb : (src &&& 0x80) >>> 7 = src / 128 % 2 := by
        rw [shiftRight_and]
        have h : (0x80 >>> 7 : Nat) = 1 := by decide
        rw [h, Nat.and_one_is_mod, Nat.shiftRight_eq_div_pow]
      simp only [u8, hb, Nat.shiftRight_eq_div_pow]
      omega
  · exact ⟨_, rfl, by decide, by decide⟩

/-- Instance of `exec_shifts` on an XOCHIP machine with `shiftUsesVy` set:
V3 = 0x81 is the source, X = 1, Y = 3. -/
theorem exec_shifts_witness :
    (∃ m1, (machineWith Variant.XOCHIP { shiftUsesVy := true }
        [0, 7, 0, 0x81, 0, 0, 0, 0, 0, 0, 0, 0, 0, 0, 0, 0]).executeOpcode idleHost
          (0x8006 + 0x100 * 1 + 0x10 * 3) = .ok m1 ∧
      m1.cpu.regs.v.getD 1 0 = 0x81 >>> 1 ∧ m1.cpu.regs.v.getD 0xF 0 = 0x81 &&& 1) ∧
    (∃ m2, (machineWith Variant.XOCHIP { shiftUsesVy := true }
        [0, 7, 0, 0x81, 0, 0, 0, 0, 0, 0, 0, 0, 0, 0, 0, 0]).executeOpcode idleHost
          (0x800E + 0x100 * 1 + 0x10 * 3) = .ok m2 ∧
      m2.cpu.regs.v.getD 1 0 = (0x81 <<< 1) % 256 ∧
      m2.cpu.regs.v.getD 0xF 0 = (0x81 >>> 7) % 2) ∧
    (∃ m3, (machineWith Variant.SCHIP
        { shiftUsesVy := false, loadStoreIncrementI := false, jumpWithVx := true }
        [5, 0, 0, 0, 0, 0, 0, 0, 0, 0, 0, 0, 0, 0, 0, 0]).executeOpcode idleHost 0x8016 = .ok m3 ∧
      m3.cpu.regs.v.getD 0 0 = 2 ∧ m3.cpu.regs.v.getD 0xF 0 = 1) :=
  exec_shifts (machineWith Variant.XOCHIP { shiftUsesVy := true }
      [0, 7, 0, 0x81, 0, 0, 0, 0, 0, 0, 0, 0, 0, 0, 0, 0])
    idleHost 1 3 (by decide) (by decide) (by decide) (by decide) (by decide) (by decide)

/-! ## Memory -/

theorem copyInto_length (dst src : List Nat) (start : Nat)
    (h : start + src.length ≤ dst.length) : (copyInto dst start src).length = dst.length := by
  simp only [copyInto, List.length_append, List.length_take, List.length_drop]
  omega

theorem copyInto_getElem?_inside (dst src : List Nat) (start i : Nat)
    (h : start + src.length ≤ dst.length) (hi : i < src.length) :
    (copyInto dst start src)[start + i]? = src[i]? := by
  unfold copyInto
  have ht : (dst.take start).length = start := by rw [List.length_take]; omega
  rw [List.append_assoc, List.getElem?_append_right (by omega), ht,
    List.getElem?_append_left (by omega)]
  congr 1
  omega

theorem copyInto_getElem?_outside (dst src : List Nat) (start a : Nat)
    (h : start + src.length ≤ dst.length) (ha : a < start ∨ start + src.length ≤ a) :
    (copyInto dst start src)[a]? = dst[a]? := by
  unfold copyInto
  have ht : (dst.take start).length = start := by rw [List.length_take]; omega
  rcases ha with ha | ha
  · rw [List.append_assoc, List.getElem?_append_left (by omega), List.getElem?_take_of_lt ha]
  · rw [List.getElem?_append_right (by rw [List.length_append]; omega), List.length_append, ht,
      List.getElem?_drop]
    congr 1
    omega

theorem read_of_lt (mem : Chip8Memory) {a : Nat} (h16 : a < 65536) (h : a < mem.memory.length) :
    mem.read a = .ok (mem.memory.getD a 0) := by
  unfold Chip8Memory.read
  have e : u16 a = a := Nat.mod_eq_of_lt h16
  simp only [e]
  rw [if_neg (by omega)]

theorem loadFontset_length (m : Chip8Memory) : m.loadFontset.memory.length = m.memory.length := by
  unfold Chip8Memory.loadFontset
  split
  · rename_i h
    exact copyInto_length _ _ _ (by
      have : (Chip8Memory.chip8_fontset.take Chip8Memory.FONTSET_SIZE).length = 80 := rfl
      rw [this]; exact h)
  · rfl

theorem init_length (n : Nat) : (Chip8Memory.init n).memory.length = n := by
  unfold Chip8Memory.init
  rw [loadFontset_length]
  exact List.length_replicate n 0

theorem loadROM_of_fits (m : Chip8Memory) (rom : List Nat)
    (hfit : rom.length + 0x200 ≤ m.memory.length) :
    m.loadROM rom = (.ok (), ⟨copyInto m.memory 0x200 rom⟩) := by
  unfold Chip8Memory.loadROM
  rw [if_neg (by show ¬ rom.length + 0x200 > m.memory.length; omega)]
  rfl

/-! ## C4: loadROM -/

/-- C4: for every memory size and every ROM with `rom.length + 0x200 <= size`,
`loadROM(rom)` succeeds; afterwards the byte stored at `0x200 + i` is `rom[i]` for every
`i < rom.length`, `read(a)` returns `rom[a - 0x200]` for every 16-bit address `a` in
`[0x200, 0x200 + rom.length)`, and every byte at an address outside that range equals
its value before the call. -/
theorem loadROM_spec (m : Chip8Memory) (rom : List Nat) (hfit : rom.length + 0x200 ≤ m.size) :
    (m.loadROM rom).1 = .ok () ∧
    (∀ i, i < rom.length → (m.loadROM rom).2.data (0x200 + i) = rom.getD i 0) ∧
    (∀ a, a < 65536 → 0x200 ≤ a → a < 0x200 + rom.length →
      (m.loadROM rom).2.read a = .ok (rom.getD (a - 0x200) 0)) ∧
    (∀ a, a < 0x200 ∨ 0x200 + rom.length ≤ a →
      (m.loadROM rom).2.memory[a]? = m.memory[a]?) := by
  have hfit1 : rom.length + 0x200 ≤ m.memory.length := hfit
  have hfit2 : 0x200 + rom.length ≤ m.memory.length := by omega
  rw [loadROM_of_fits m rom hfit1]
  have hget : ∀ i, i < rom.length →
      (copyInto m.memory 0x200 rom).getD (0x200 + i) 0 = rom.getD i 0 := by
    intro i hi
    rw [List.getD_eq_getElem?_getD, List.getD_eq_getElem?_getD,
      copyInto_getElem?_inside _ _ _ _ hfit2 hi]
  refine ⟨rfl, hget, ?_, ?_⟩
  · intro a h16 hlo hhi
    rw [read_of_lt _ h16 (by
      show a < (copyInto m.memory 0x200 rom).length
      rw [copyInto_length _ _ _ hfit2]; omega)]
    have e : a = 0x200 + (a - 0x200) := by omega
    have := hget (a - 0x200) (by omega)
    rw [← e] at this
    exact congrArg Except.ok this
  · intro a ha
    exact copyInto_getElem?_outside _ _ _ _ hfit2 ha

/-- Instance of `loadROM_spec`: the ROM `60 05 70 03` in a fresh 4096-byte memory. -/
theorem loadROM_spec_witness :
    ((Chip8Memory.init 4096).loadROM [0x60, 0x05, 0x70, 0x03]).1 = .ok () ∧
    (∀ i, i < 4 →
      ((Chip8Memory.init 4096).loadROM [0x60, 0x05, 0x70, 0x03]).2.data (0x200 + i)
        = [0x60, 0x05, 0x70, 0x03].getD i 0) ∧
    (∀ a, a < 65536 → 0x200 ≤ a → a < 0x200 + 4 →
      ((Chip8Memory.init 4096).loadROM [0x60, 0x05, 0x70, 0x03]).2.read a
        = .ok ([0x60, 0x05, 0x70, 0x03].getD (a - 0x200) 0)) ∧
    (∀ a, a < 0x200 ∨ 0x200 + 4 ≤ a →
      ((Chip8Memory.init 4096).loadROM [0x60, 0x05, 0x70, 0x03]).2.memory[a]?
        = (Chip8Memory.init 4096).memory[a]?) :=
  loadROM_spec (Chip8Memory.init 4096) [0x60, 0x05, 0x70, 0x03]
    (by show 4 + 0x200 ≤ (Chip8Memory.init 4096).memory.length; rw [init_length]; decide)

/-! ## C3: two steps on 6XNN, 7XMM -/

theorem byte_pair (hi lo : Nat) (hlo : lo < 256) (hhi : hi < 256) :
    u16 ((hi <<< 8) ||| lo) = 0x100 * hi + lo := by
  have e : hi <<< 8 = 2 ^ 8 * hi := by rw [Nat.shiftLeft_eq, Nat.mul_comm]
  rw [e, ← Nat.mul_add_lt_is_or (by omega : lo < 2 ^ 8)]
  unfold u16
  omega

/-- `step` once both opcode bytes are inside memory. -/
theorem step_of_fetch (m : Machine) (host : Host)
    (hpc : m.cpu.regs.pc + 1 < 65536) (hmem : m.cpu.regs.pc + 1 < m.cpu.mem.memory.length) :
    m.step host = (do
      let m1 ← m.skip.executeOpcode host
        (u16 ((m.cpu.mem.memory.getD m.cpu.regs.pc 0 <<< 8)
          ||| m.cpu.mem.memory.getD (m.cpu.regs.pc + 1) 0))
      pure m1.updateBuzzer) := by
  unfold Machine.step Machine.fetchOpcode
  simp only [read_of_lt m.cpu.mem (by omega : m.cpu.regs.pc < 65536) (by omega),
    read_of_lt m.cpu.mem hpc hmem, bind, Except.bind, pure, Except.pure]

@[simp] theorem updateBuzzer_regs (m : Machine) : m.updateBuzzer.cpu.regs = m.cpu.regs := by
  unfold Machine.updateBuzzer; split <;> rfl

@[simp] theorem updateBuzzer_mem (m : Machine) : m.updateBuzzer.cpu.mem = m.cpu.mem := by
  unfold Machine.updateBuzzer; split <;> rfl

@[simp] theorem setRegs_mem (m : Machine) (r : Chip8Registers) :
    (m.setRegs r).cpu.mem = m.cpu.mem := rfl

@[simp] theorem skip_mem (m : Machine) : m.skip.cpu.mem = m.cpu.mem := rfl

@[simp] theorem skip_v (m : Machine) : m.skip.cpu.regs.v = m.cpu.regs.v := rfl

@[simp] theorem skip_pc (m : Machine) : m.skip.cpu.regs.pc = u16 (m.cpu.regs.pc + 2) := rfl

/-- One `step` on `6XNN`. -/
theorem step_6XNN (m : Machine) (host : Host) (X NN : Nat) (hX : X < 16) (hNN : NN < 256)
    (hpc : m.cpu.regs.pc + 1 < 65536) (hmem : m.cpu.regs.pc + 1 < m.cpu.mem.memory.length)
    (b0 : m.cpu.mem.memory.getD m.cpu.regs.pc 0 = 0x60 + X)
    (b1 : m.cpu.mem.memory.getD (m.cpu.regs.pc + 1) 0 = NN) :
    ∃ m1, m.step host = .ok m1 ∧ m1.cpu.mem = m.cpu.mem ∧
      m1.cpu.regs.pc = u16 (m.cpu.regs.pc + 2) ∧
      m1.cpu.regs.v = m.cpu.regs.v.set X NN := by
  rw [step_of_fetch m host hpc hmem, b0, b1, byte_pair _ _ hNN (by omega),
    executeOpcode_family6 _ host _ (by omega : (0x100 * (0x60 + X) + NN) / 4096 % 16 = 6)]
  have x1 : (0x100 * (0x60 + X) + NN) / 256 % 16 = X := by omega
  have n1 : (0x100 * (0x60 + X) + NN) % 256 = NN := by omega
  rw [x1, n1, assignV_of_lt _ _ hX]
  refine ⟨_, rfl, ?_, ?_, ?_⟩
  · simp
  · simp
  · simp only [updateBuzzer_regs, setRegs_regs, skip_v, u8, Nat.mod_eq_of_lt hNN]

/-- One `step` on `7XNN`. -/
theorem step_7XNN (m : Machine) (host : Host) (X NN : Nat) (hX : X < 16) (hNN : NN < 256)
    (hpc : m.cpu.regs.pc + 1 < 65536) (hmem : m.cpu.regs.pc + 1 < m.cpu.mem.memory.length)
    (b0 : m.cpu.mem.memory.getD m.cpu.regs.pc 0 = 0x70 + X)
    (b1 : m.cpu.mem.memory.getD (m.cpu.regs.pc + 1) 0 = NN) :
    ∃ m1, m.step host = .ok m1 ∧ m1.cpu.mem = m.cpu.mem ∧
      m1.cpu.regs.pc = u16 (m.cpu.regs.pc + 2) ∧
      m1.cpu.regs.v = m.cpu.regs.v.set X ((m.cpu.regs.v.getD X 0 + NN) % 256) := by
  rw [step_of_fetch m host hpc hmem, b0, b1, byte_pair _ _ hNN (by omega),
    executeOpcode_family7 _ host _ (by omega : (0x100 * (0x70 + X) + NN) / 4096 % 16 = 7)]
  have x1 : (0x100 * (0x70 + X) + NN) / 256 % 16 = X := by omega
  have n1 : (0x100 * (0x70 + X) + NN) % 256 = NN := by omega
  rw [x1, n1, V_of_lt _ hX]
  simp only [bind, Except.bind]
  rw [assignV_of_lt _ _ hX]
  refine ⟨_, rfl, ?_, ?_, ?_⟩
  · simp
  · simp
  · simp only [updateBuzzer_regs, setRegs_regs, skip_v, u8, low8_eq, Nat.mod_mod]

theorem freshLoaded_length (rom : List Nat) (h : rom.length + 0x200 ≤ 4096) :
    ((Chip8Memory.init 4096).loadROM rom).2.memory.length = 4096 := by
  rw [loadROM_of_fits _ _ (by rw [init_length]; exact h)]
  show (copyInto _ 0x200 rom).length = 4096
  rw [copyInto_length _ _ _ (by rw [init_length]; omega), init_length]

theorem freshLoaded_getD (rom : List Nat) (h : rom.length + 0x200 ≤ 4096) (i : Nat)
    (hi : i < rom.length) :
    ((Chip8Memory.init 4096).loadROM rom).2.memory.getD (0x200 + i) 0 = rom.getD i 0 := by
  rw [loadROM_of_fits _ _ (by rw [init_length]; exact h)]
  show (copyInto _ 0x200 rom).getD (0x200 + i) 0 = _
  rw [List.getD_eq_getElem?_getD, List.getD_eq_getElem?_getD,
    copyInto_getElem?_inside _ _ _ _ (by rw [init_length]; omega) hi]

theorem scenarioMemory_eq :
    scenarioMemory = ((Chip8Memory.init 4096).loadROM [0x60, 0x05, 0x70, 0x03]).2 := rfl

theorem scenarioMemory_length : scenarioMemory.memory.length = 4096 := by
  rw [scenarioMemory_eq]
  exact freshLoaded_length [0x60, 0x05, 0x70, 0x03] (by decide)

theorem scenarioMemory_getD (i : Nat) (hi : i < 4) :
    scenarioMemory.memory.getD (0x200 + i) 0 = [0x60, 0x05, 0x70, 0x03].getD i 0 := by
  rw [scenarioMemory_eq]
  exact freshLoaded_getD [0x60, 0x05, 0x70, 0x03] (by decide) i hi

/-- C3: on a freshly constructed CHIP8 interpreter whose memory at 0x200..0x203 holds
6XNN followed by 7XMM, two `step()` calls succeed and leave VX = (NN + MM) mod 256 and
PC = 0x204; with the ROM `60 05 70 03` loaded this gives V0 = 8 and PC = 0x204. -/
theorem two_steps_load_add (mem : Chip8Memory) (st : Statics) (host1 host2 : Host)
    (X NN MM : Nat) (hX : X < 16) (hNN : NN < 256) (hMM : MM < 256)
    (hsize : mem.memory.length = 4096)
    (b0 : mem.memory.getD 0x200 0 = 0x60 + X) (b1 : mem.memory.getD 0x201 0 = NN)
    (b2 : mem.memory.getD 0x202 0 = 0x70 + X) (b3 : mem.memory.getD 0x203 0 = MM) :
    (∃ m1 m2, (freshWithMemory Variant.CHIP8 mem st).step host1 = .ok m1 ∧
      m1.step host2 = .ok m2 ∧
      m2.cpu.regs.v.getD X 0 = (NN + MM) % 256 ∧ m2.cpu.regs.pc = 0x204) ∧
    (∃ m1 m2, (freshWithMemory Variant.CHIP8 scenarioMemory st).step host1 = .ok m1 ∧
      m1.step host2 = .ok m2 ∧
      m2.cpu.regs.v.getD 0 0 = 8 ∧ m2.cpu.regs.pc = 0x204) := by
  have main : ∀ (mem : Chip8Memory) (X NN MM : Nat), X < 16 → NN < 256 → MM < 256 →
      mem.memory.length = 4096 →
      mem.memory.getD 0x200 0 = 0x60 + X → mem.memory.getD 0x201 0 = NN →
      mem.memory.getD 0x202 0 = 0x70 + X → mem.memory.getD 0x203 0 = MM →
      ∃ m1 m2, (freshWithMemory Variant.CHIP8 mem st).step host1 = .ok m1 ∧
        m1.step host2 = .ok m2 ∧
        m2.cpu.regs.v.getD X 0 = (NN + MM) % 256 ∧ m2.cpu.regs.pc = 0x204 := by
    intro mem X NN MM hX hNN hMM hsize b0 b1 b2 b3
    obtain ⟨m1, e1, hm1, hp1, hv1⟩ := step_6XNN (freshWithMemory Variant.CHIP8 mem st) host1
      X NN hX hNN (by show 0x200 + 1 < 65536; omega)
      (by show 0x200 + 1 < mem.memory.length; omega) b0 b1
    have hp1a : m1.cpu.regs.pc = 0x202 := hp1
    have hm1a : m1.cpu.mem = mem := hm1
    obtain ⟨m2, e2, _, hp2, hv2⟩ := step_7XNN m1 host2 X MM hX hMM
      (by rw [hp1a]; omega) (by rw [hp1a, hm1a]; omega) (by rw [hp1a, hm1a]; exact b2)
      (by rw [hp1a, hm1a]; exact b3)
    refine ⟨m1, m2, e1, e2, ?_, ?_⟩
    · rw [hv2, hv1]
      have hlen : (freshWithMemory Variant.CHIP8 mem st).cpu.regs.v.length = 16 := rfl
      rw [getD_set_same _ (by rw [List.length_set]; omega), getD_set_same _ (by omega)]
    · rw [hp2, hp1a]; rfl
  exact ⟨main mem X NN MM hX hNN hMM hsize b0 b1 b2 b3,
    main scenarioMemory 0 5 3 (by decide) (by decide) (by decide) scenarioMemory_length
      (scenarioMemory_getD 0 (by decide)) (scenarioMemory_getD 1 (by decide))
      (scenarioMemory_getD 2 (by decide)) (scenarioMemory_getD 3 (by decide))⟩

/-- Instance of `two_steps_load_add`: the ROM `6A F0 7A 20` (X = A, 0xF0 + 0x20 wraps
to 0x10). -/
theorem two_steps_load_add_witness :
    (∃ m1 m2, (freshWithMemory Variant.CHIP8
          ((Chip8Memory.init 4096).loadROM [0x6A, 0xF0, 0x7A, 0x20]).2 Statics.init).step
          idleHost = .ok m1 ∧
      m1.step idleHost = .ok m2 ∧
      m2.cpu.regs.v.getD 10 0 = (0xF0 + 0x20) % 256 ∧ m2.cpu.regs.pc = 0x204) ∧
    (∃ m1 m2, (freshWithMemory Variant.CHIP8 scenarioMemory Statics.init).step idleHost
          = .ok m1 ∧
      m1.step idleHost = .ok m2 ∧
      m2.cpu.regs.v.getD 0 0 = 8 ∧ m2.cpu.regs.pc = 0x204) :=
  two_steps_load_add ((Chip8Memory.init 4096).loadROM [0x6A, 0xF0, 0x7A, 0x20]).2
    Statics.init idleHost idleHost 10 0xF0 0x20 (by decide) (by decide) (by decide)
    (freshLoaded_length [0x6A, 0xF0, 0x7A, 0x20] (by decide))
    (freshLoaded_getD [0x6A, 0xF0, 0x7A, 0x20] (by decide) 0 (by decide))
    (freshLoaded_getD [0x6A, 0xF0, 0x7A, 0x20] (by decide) 1 (by decide))
    (freshLoaded_getD [0x6A, 0xF0, 0x7A, 0x20] (by decide) 2 (by decide))
    (freshLoaded_getD [0x6A, 0xF0, 0x7A, 0x20] (by decide) 3 (by decide))

/-! ## Framebuffer -/

open Chip8Display

theorem getD_mem_of_lt {α : Type} (l : List α) (d : α) {i : Nat} (h : i < l.length) :
    l.getD i d ∈ l := by
  rw [List.getD_eq_getElem _ _ h]
  exact List.getElem_mem h

theorem fbGet_fbSet (fb : Framebuffer) (y x v y' x' : Nat)
    (hy : y < fb.length) (hx : x < (fb.getD y []).length) :
    fbGet (fbSet fb y x v) y' x' = if y' = y ∧ x' = x then v else fbGet fb y' x' := by
  unfold fbGet fbSet
  generalize hrow : fb.getD y [] = row at hx
  by_cases h1 : y' = y
  · subst h1
    have e : (fb.set y' (row.set x v)).getD y' [] = row.set x v := by
      rw [List.getD_eq_getElem _ _ (by rw [List.length_set]; exact hy)]
      exact List.getElem_set_self _
    rw [e, hrow]
    by_cases h2 : x' = x
    · subst h2
      rw [if_pos ⟨rfl, rfl⟩, List.getD_eq_getElem _ _ (by rw [List.length_set]; exact hx)]
      exact List.getElem_set_self _
    · rw [if_neg (fun h => h2 h.2)]
      simp only [List.getD_eq_getElem?_getD]
      rw [List.getElem?_set_ne (Ne.symm h2)]
  · rw [if_neg (fun h => h1 h.1)]
    simp only [List.getD_eq_getElem?_getD]
    rw [List.getElem?_set_ne (Ne.symm h1)]

theorem fbSet_length (fb : Framebuffer) (y x v : Nat) : (fbSet fb y x v).length = fb.length := by
  unfold fbSet; exact List.length_set _ _ _

theorem WFfb_fbSet (fb : Framebuffer) (y x v : Nat) (h : WFfb fb) (hv : v < 256) :
    WFfb (fbSet fb y x v) := by
  obtain ⟨hl, hr⟩ := h
  refine ⟨by rw [fbSet_length]; exact hl, ?_⟩
  intro row hrow
  unfold fbSet at hrow
  by_cases hy : y < fb.length
  · rcases List.mem_or_eq_of_mem_set hrow with h1 | h1
    · exact hr row h1
    · subst h1
      obtain ⟨h2, h3⟩ := hr _ (getD_mem_of_lt fb [] hy)
      refine ⟨by rw [List.length_set]; exact h2, ?_⟩
      intro c hc
      rcases List.mem_or_eq_of_mem_set hc with h4 | h4
      · exact h3 c h4
      · omega
  · rw [List.set_eq_of_length_le (by omega)] at hrow
    exact hr row hrow

theorem WFfb_row_length (fb : Framebuffer) (h : WFfb fb) {y : Nat} (hy : y < 64) :
    (fb.getD y []).length = 128 := by
  obtain ⟨hl, hr⟩ := h
  exact (hr _ (getD_mem_of_lt fb [] (by rw [hl]; exact hy))).1

theorem WFfb_cell_lt (fb : Framebuffer) (h : WFfb fb) (y x : Nat) : fbGet fb y x < 256 := by
  obtain ⟨hl, hr⟩ := h
  unfold fbGet
  by_cases hy : y < fb.length
  · by_cases hx : x < (fb.getD y []).length
    · exact (hr _ (getD_mem_of_lt fb [] hy)).2 _ (getD_mem_of_lt _ 0 hx)
    · rw [List.getD_eq_default _ _ (by omega)]; omega
  · rw [List.getD_eq_default fb [] (by omega)]
    show ([] : List Nat).getD x 0 < 256
    rw [List.getD_eq_default _ _ (by simp)]; omega

theorem WFfb_ext (a b : Framebuffer) (ha : WFfb a) (hb : WFfb b)
    (h : ∀ y x, y < 64 → x < 128 → fbGet a y x = fbGet b y x) : a = b := by
  apply List.ext_getElem
  · rw [ha.1, hb.1]
  · intro y h1 h2
    have hy : y < 64 := by rw [ha.1] at h1; exact h1
    have la := WFfb_row_length a ha hy
    have lb := WFfb_row_length b hb hy
    have ea : a.getD y [] = a[y] := List.getD_eq_getElem _ _ h1
    have eb : b.getD y [] = b[y] := List.getD_eq_getElem _ _ h2
    rw [ea] at la
    rw [eb] at lb
    apply List.ext_getElem
    · rw [la, lb]
    · intro x h3 h4
      have hx : x < 128 := by rw [la] at h3; exact h3
      have := h y x hy hx
      unfold fbGet at this
      rw [ea, eb, List.getD_eq_getElem _ _ h3, List.getD_eq_getElem _ _ h4] at this
      exact this


/-! ### Sequences of toggles -/

theorem run_nil (acc : Bool × Framebuffer) : Toggle.run [] acc = acc := rfl

theorem run_cons (t : Toggle) (ts : List Toggle) (acc : Bool × Framebuffer) :
    Toggle.run (t :: ts) acc = Toggle.run ts (Toggle.step acc t) := rfl

theorem run_append (ts us : List Toggle) (acc : Bool × Framebuffer) :
    Toggle.run (ts ++ us) acc = Toggle.run us (Toggle.run ts acc) := by
  unfold Toggle.run
  exact List.foldl_append _ _ _ _

/-- A loop whose body is a run of toggles is the run of the concatenated toggles. -/
theorem foldl_eq_run {α : Type} (l : List α) (body : Bool × Framebuffer → α → Bool × Framebuffer)
    (g : α → List Toggle) (h : ∀ acc a, body acc a = Toggle.run (g a) acc)
    (acc : Bool × Framebuffer) : l.foldl body acc = Toggle.run (l.flatMap g) acc := by
  induction l generalizing acc with
  | nil => rfl
  | cons a l ih =>
    rw [List.foldl_cons, List.flatMap_cons, run_append, h, ih]

theorem drawPlane_eq_run (planeMask px py : Nat) (acc : Bool × Framebuffer) (plane : Nat) :
    drawPlane planeMask px py acc plane = Toggle.run (planeToggles planeMask px py plane) acc := by
  unfold drawPlane planeToggles
  split
  · rfl
  · rfl

theorem drawPixel_eq_run (colorMode : ColorMode) (planeMask px py : Nat)
    (acc : Bool × Framebuffer) :
    drawPixel colorMode planeMask px py acc
      = Toggle.run (pixelToggles colorMode planeMask px py) acc := by
  unfold drawPixel pixelToggles
  split
  · exact foldl_eq_run _ _ _ (fun acc a => drawPlane_eq_run planeMask px py acc a) acc
  · rfl

theorem drawCol_eq_run (colorMode : ColorMode) (w h x y planeMask spriteByte row : Nat)
    (acc : Bool × Framebuffer) (col : Nat) :
    drawCol colorMode w h x y planeMask spriteByte row acc col
      = Toggle.run (colToggles colorMode w h x y planeMask spriteByte row col) acc := by
  unfold drawCol colToggles
  split
  · exact drawPixel_eq_run _ _ _ _ _
  · rfl

theorem drawRow_eq_run (colorMode : ColorMode) (w h x y planeMask : Nat)
    (spriteData : Nat → Nat) (acc : Bool × Framebuffer) (row : Nat) :
    drawRow colorMode w h x y planeMask spriteData acc row
      = Toggle.run (rowToggles colorMode w h x y planeMask spriteData row) acc := by
  unfold drawRow rowToggles
  exact foldl_eq_run _ _ _ (fun acc a => drawCol_eq_run _ _ _ _ _ _ _ _ acc a) acc

theorem drawSprite_eq_run (d : Chip8Display) (x y : Nat) (spriteData : Nat → Nat)
    (numRows planeMask : Nat) :
    d.drawSprite x y spriteData numRows planeMask =
      ((Toggle.run (spriteToggles d x y spriteData numRows planeMask) (false, d.fb)).1,
       { d with fb :=
          (Toggle.run (spriteToggles d x y spriteData numRows planeMask) (false, d.fb)).2 }) := by
  unfold drawSprite spriteToggles
  rw [foldl_eq_run _ _ _ (fun acc a => drawRow_eq_run _ _ _ _ _ _ _ acc a)]


/-! ### What a run of toggles does to the array -/

theorem xor_plane_lt (c k : Nat) (hc : c < 256) (hk : k < 2) : c ^^^ (1 <<< k) < 256 := by
  have h1 : (1 <<< k : Nat) < 2 ^ 8 := by
    rw [Nat.one_shiftLeft]
    exact Nat.pow_lt_pow_right (by decide) (by omega)
  exact Nat.xor_lt_two_pow (by omega : c < 2 ^ 8) h1

theorem step_fb_WF (acc : Bool × Framebuffer) (t : Toggle) (h : WFfb acc.2) :
    WFfb (Toggle.step acc t).2 :=
  WFfb_fbSet _ _ _ _ h (Nat.mod_lt _ (by decide))

theorem run_fb_WF (ts : List Toggle) (acc : Bool × Framebuffer) (h : WFfb acc.2) :
    WFfb (Toggle.run ts acc).2 := by
  induction ts generalizing acc with
  | nil => exact h
  | cons t ts ih => rw [run_cons]; exact ih _ (step_fb_WF acc t h)

/-- The cell values after one toggle. -/
theorem step_fbGet (w : Bool) (acc : Bool × Framebuffer) (t : Toggle) (h : WFfb acc.2)
    (ht : t.valid w) (y x : Nat) :
    fbGet (Toggle.step acc t).2 y x
      = fbGet acc.2 y x ^^^ (if t.y = y ∧ t.x = x then 1 <<< t.plane else 0) := by
  obtain ⟨hy, hx, hp, _, _⟩ := ht
  unfold Toggle.step
  show fbGet (fbSet acc.2 t.y t.x _) y x = _
  rw [fbGet_fbSet _ _ _ _ _ _ (by rw [h.1]; exact hy) (by rw [WFfb_row_length _ h hy]; exact hx)]
  by_cases c : y = t.y ∧ x = t.x
  · obtain ⟨c1, c2⟩ := c
    subst c1 c2
    rw [if_pos ⟨rfl, rfl⟩, if_pos ⟨rfl, rfl⟩]
    exact Nat.mod_eq_of_lt (xor_plane_lt _ _ (WFfb_cell_lt _ h _ _) hp)
  · rw [if_neg c, if_neg (fun c2 => c ⟨c2.1.symm, c2.2.symm⟩), Nat.xor_zero]

/-- The cell values after a run: the old value with the run's mask flipped. -/
theorem run_fbGet (w : Bool) (ts : List Toggle) (acc : Bool × Framebuffer) (h : WFfb acc.2)
    (hts : ∀ t ∈ ts, t.valid w) (y x : Nat) :
    fbGet (Toggle.run ts acc).2 y x = fbGet acc.2 y x ^^^ Toggle.mask y x ts := by
  induction ts generalizing acc with
  | nil => simp [run_nil, Toggle.mask]
  | cons t ts ih =>
    rw [run_cons, ih _ (step_fb_WF acc t h) (fun u hu => hts u (List.mem_cons_of_mem _ hu)),
      step_fbGet w acc t h (hts t (List.mem_cons_self _ _)), Nat.xor_assoc]
    rfl

theorem run_fb_irrel (ts : List Toggle) (c1 c2 : Bool) (fb : Framebuffer) :
    (Toggle.run ts (c1, fb)).2 = (Toggle.run ts (c2, fb)).2 := by
  induction ts generalizing c1 c2 fb with
  | nil => rfl
  | cons t ts ih => rw [run_cons, run_cons]; exact ih _ _ _

/-- Running the same toggles twice restores the array. -/
theorem run_twice (w : Bool) (ts : List Toggle) (fb : Framebuffer) (c1 c2 : Bool)
    (h : WFfb fb) (hts : ∀ t ∈ ts, t.valid w) :
    (Toggle.run ts (c2, (Toggle.run ts (c1, fb)).2)).2 = fb := by
  have h1 : WFfb (Toggle.run ts (c1, fb)).2 := run_fb_WF ts (c1, fb) h
  have h2 : WFfb (Toggle.run ts (c2, (Toggle.run ts (c1, fb)).2)).2 :=
    run_fb_WF ts (c2, (Toggle.run ts (c1, fb)).2) h1
  apply WFfb_ext _ _ h2 h
  intro y x _ _
  rw [run_fbGet w ts (c2, (Toggle.run ts (c1, fb)).2) h1 hts, run_fbGet w ts (c1, fb) h hts,
    Nat.xor_assoc, Nat.xor_self, Nat.xor_zero]


/-! ### The toggles of `drawSprite` are valid -/

theorem width_pos_le (d : Chip8Display) : 0 < d.width ∧ d.width ≤ 128 := by
  unfold Chip8Display.width; split <;> decide

theorem height_pos_le (d : Chip8Display) : 0 < d.height ∧ d.height ≤ 64 := by
  unfold Chip8Display.height; split <;> decide

/-- Toggles at a pixel inside the array are valid for the branch of the color mode. -/
theorem pixelToggles_valid (colorMode : ColorMode) (planeMask px py : Nat)
    (hx : px < 128) (hy : py < 64) :
    ∀ t ∈ pixelToggles colorMode planeMask px py,
      t.valid (decide (colorMode ≠ ColorMode.XOCHIP_2BPP)) := by
  intro t ht
  unfold pixelToggles at ht
  split at ht
  · rename_i hc
    rw [List.mem_flatMap] at ht
    obtain ⟨plane, hp, ht⟩ := ht
    unfold planeToggles at ht
    split at ht
    · rw [List.mem_singleton] at ht
      subst ht
      have hp2 : plane < 2 := List.mem_range.mp hp
      exact ⟨hy, hx, hp2, by simp [hc], by simp [hc]⟩
    · simp at ht
  · rename_i hc
    rw [List.mem_singleton] at ht
    subst ht
    exact ⟨hy, hx, Nat.zero_lt_two, by simp [hc], fun _ => rfl⟩

theorem spriteToggles_valid (d : Chip8Display) (x y : Nat) (spriteData : Nat → Nat)
    (numRows planeMask : Nat) :
    ∀ t ∈ spriteToggles d x y spriteData numRows planeMask,
      t.valid (decide (d.colorMode ≠ ColorMode.XOCHIP_2BPP)) := by
  intro t ht
  unfold spriteToggles at ht
  rw [List.mem_flatMap] at ht
  obtain ⟨row, _, ht⟩ := ht
  unfold rowToggles at ht
  rw [List.mem_flatMap] at ht
  obtain ⟨col, _, ht⟩ := ht
  unfold colToggles at ht
  split at ht
  · exact pixelToggles_valid _ _ _ _
      (Nat.lt_of_lt_of_le (Nat.mod_lt _ (width_pos_le d).1) (width_pos_le d).2)
      (Nat.lt_of_lt_of_le (Nat.mod_lt _ (height_pos_le d).1) (height_pos_le d).2) t ht
  · simp at ht

theorem drawSprite_snd_fb (d : Chip8Display) (x y : Nat) (spriteData : Nat → Nat)
    (numRows planeMask : Nat) :
    (d.drawSprite x y spriteData numRows planeMask).2 =
      { d with fb :=
          (Toggle.run (spriteToggles d x y spriteData numRows planeMask) (false, d.fb)).2 } := by
  rw [drawSprite_eq_run]

/-- C7: for every display state (either resolution, either color mode), every
position, sprite, row count and plane mask, two `drawSprite` calls in a row with the
same arguments leave the display, framebuffer included, as it was before the first. -/
theorem drawSprite_twice_restores (d : Chip8Display) (x y : Nat) (spriteData : Nat → Nat)
    (numRows planeMask : Nat) (hwf : WFfb d.fb) :
    ((d.drawSprite x y spriteData numRows planeMask).2.drawSprite
        x y spriteData numRows planeMask).2 = d := by
  rw [drawSprite_snd_fb d, drawSprite_snd_fb]
  show ({ d with fb := (Toggle.run (spriteToggles d x y spriteData numRows planeMask)
    (false, (Toggle.run (spriteToggles d x y spriteData numRows planeMask)
      (false, d.fb)).2)).2 } : Chip8Display) = d
  rw [run_twice _ _ _ _ _ hwf (spriteToggles_valid d x y spriteData numRows planeMask)]


/-! ### Collisions of a run -/

theorem shr_and_one (x b : Nat) : (x >>> b) &&& 1 = (x.testBit b).toNat := by
  rw [Nat.and_one_is_mod, Nat.shiftRight_eq_div_pow, Nat.toNat_testBit]

theorem bit_xor_other (c a b : Nat) (hab : a ≠ b) :
    ((c ^^^ (1 <<< a)) >>> b) &&& 1 = (c >>> b) &&& 1 := by
  rw [shr_and_one, shr_and_one, Nat.testBit_xor, Nat.one_shiftLeft,
    Nat.testBit_two_pow_of_ne hab, Bool.xor_false]

theorem bit_xor_self (c a : Nat) (h : (c >>> a) &&& 1 = 0) :
    ((c ^^^ (1 <<< a)) >>> a) &&& 1 ≠ 0 := by
  rw [shr_and_one] at h ⊢
  rw [Nat.testBit_xor, Nat.one_shiftLeft, Nat.testBit_two_pow_self]
  cases hb : c.testBit a
  · simp
  · rw [hb] at h; simp at h

theorem run_flag (ts : List Toggle) (c : Bool) (fb : Framebuffer) :
    (Toggle.run ts (c, fb)).1 = (c || (Toggle.run ts (false, fb)).1) := by
  induction ts generalizing c fb with
  | nil => simp [run_nil]
  | cons t ts ih =>
    rw [run_cons, run_cons]
    show (Toggle.run ts (c || decide (t.obs fb ≠ 0), _)).1
      = (c || (Toggle.run ts (false || decide (t.obs fb ≠ 0), _)).1)
    rw [ih (c || decide (t.obs fb ≠ 0)), ih (false || decide (t.obs fb ≠ 0))]
    simp [Bool.or_assoc]

theorem obs_congr (t p : Toggle) (fb : Framebuffer) (hs : Toggle.same t p)
    (hw : t.whole = p.whole) : t.obs fb = p.obs fb := by
  obtain ⟨h1, h2, h3⟩ := hs
  unfold Toggle.obs
  rw [h1, h2, h3, hw]

/-- A toggle does not change what the test of a toggle on another bit sees. -/
theorem obs_step_other (w : Bool) (acc : Bool × Framebuffer) (t p : Toggle) (h : WFfb acc.2)
    (ht : t.valid w) (hp : p.valid w) (hne : ¬ Toggle.same t p) :
    p.obs (Toggle.step acc t).2 = p.obs acc.2 := by
  unfold Toggle.obs
  rw [step_fbGet w acc t h ht]
  by_cases c : t.y = p.y ∧ t.x = p.x
  · have hpl : t.plane ≠ p.plane := fun e => hne ⟨c.1, c.2, e⟩
    have hw : w = false := by
      cases w
      · rfl
      · exact absurd ((ht.2.2.2.2 rfl).trans (hp.2.2.2.2 rfl).symm) hpl
    rw [if_pos c, hp.2.2.2.1, hw]
    simp only [Bool.false_eq_true, if_false]
    exact bit_xor_other _ _ _ hpl
  · rw [if_neg c, Nat.xor_zero]

/-- After a toggle the test of the same toggle sees a set bit, if it saw none before. -/
theorem obs_step_self (w : Bool) (acc : Bool × Framebuffer) (p : Toggle) (h : WFfb acc.2)
    (hp : p.valid w) (h0 : p.obs acc.2 = 0) : p.obs (Toggle.step acc p).2 ≠ 0 := by
  have e := step_fbGet w acc p h hp p.y p.x
  rw [if_pos ⟨rfl, rfl⟩] at e
  unfold Toggle.obs at h0 ⊢
  rw [e]
  cases hw : p.whole
  · rw [hw] at h0
    simp only [Bool.false_eq_true, if_false] at h0 ⊢
    exact bit_xor_self _ _ h0
  · rw [hw] at h0
    simp only [if_true] at h0 ⊢
    have : p.plane = 0 := hp.2.2.2.2 (hp.2.2.2.1.symm.trans hw)
    rw [h0, this]
    decide

theorem obs_run_other (w : Bool) (ts : List Toggle) (acc : Bool × Framebuffer) (p : Toggle)
    (h : WFfb acc.2) (hts : ∀ t ∈ ts, t.valid w) (hp : p.valid w)
    (hne : ∀ t ∈ ts, ¬ Toggle.same t p) :
    p.obs (Toggle.run ts acc).2 = p.obs acc.2 := by
  induction ts generalizing acc with
  | nil => rfl
  | cons t ts ih =>
    rw [run_cons, ih _ (step_fb_WF acc t h) (fun u hu => hts u (List.mem_cons_of_mem _ hu))
      (fun u hu => hne u (List.mem_cons_of_mem _ hu))]
    exact obs_step_other w acc t p h (hts t (List.mem_cons_self _ _)) hp
      (hne t (List.mem_cons_self _ _))

/-- A run without collision starts with every tested bit clear and ends with every
tested bit set. -/
theorem quiet_run (w : Bool) (ts : List Toggle) (fb : Framebuffer) (h : WFfb fb)
    (hts : ∀ t ∈ ts, t.valid w) (hq : (Toggle.run ts (false, fb)).1 = false) :
    ∀ p ∈ ts, p.obs fb = 0 ∧ p.obs (Toggle.run ts (false, fb)).2 ≠ 0 := by
  induction ts generalizing fb with
  | nil => intro p hp; simp at hp
  | cons t ts ih =>
    have vt : t.valid w := hts t (List.mem_cons_self _ _)
    have vts : ∀ u ∈ ts, u.valid w := fun u hu => hts u (List.mem_cons_of_mem _ hu)
    rw [run_cons] at hq
    have hstep : Toggle.step (false, fb) t
        = (decide (t.obs fb ≠ 0), (Toggle.step (false, fb) t).2) := by
      exact Prod.ext (Bool.false_or _) rfl
    rw [hstep, run_flag] at hq
    have hq1 : decide (t.obs fb ≠ 0) = false := by
      cases hd : decide (t.obs fb ≠ 0)
      · rfl
      · rw [hd] at hq; simp at hq
    have hq2 : (Toggle.run ts (false, (Toggle.step (false, fb) t).2)).1 = false := by
      rw [hq1] at hq; simpa using hq
    have ht0 : t.obs fb = 0 := by simpa using hq1
    have hwf1 : WFfb (Toggle.step (false, fb) t).2 := step_fb_WF (false, fb) t h
    have IH := ih _ hwf1 vts hq2
    have hfin : (Toggle.run (t :: ts) (false, fb)).2
        = (Toggle.run ts (false, (Toggle.step (false, fb) t).2)).2 := by
      rw [run_cons, hstep]
      exact run_fb_irrel _ _ _ _
    have ht1 : t.obs (Toggle.step (false, fb) t).2 ≠ 0 := obs_step_self w (false, fb) t h vt ht0
    have hnosame : ∀ u ∈ ts, ¬ Toggle.same u t := by
      intro u hu hs
      have e := obs_congr u t (Toggle.step (false, fb) t).2 hs
        ((vts u hu).2.2.2.1.trans vt.2.2.2.1.symm)
      exact ht1 (e ▸ (IH u hu).1)
    intro p hp
    rw [hfin]
    rcases List.mem_cons.mp hp with e | hp2
    · subst e
      refine ⟨ht0, ?_⟩
      rw [obs_run_other w ts (false, (Toggle.step (false, fb) p).2) p hwf1 vts vt hnosame]
      exact ht1
    · refine ⟨?_, (IH p hp2).2⟩
      have hns : ¬ Toggle.same t p := by
        intro hs
        have e := obs_congr t p (Toggle.step (false, fb) t).2 hs
          (vt.2.2.2.1.trans (vts p hp2).2.2.2.1.symm)
        exact ht1 (e.trans (IH p hp2).1)
      rw [← obs_step_other w (false, fb) t p h vt (vts p hp2) hns]
      exact (IH p hp2).1

/-- If some toggle of the run tests a clear bit in `fb`, the second of two runs
reports a collision. -/
theorem second_run_collides (w : Bool) (ts : List Toggle) (fb : Framebuffer) (h : WFfb fb)
    (hts : ∀ t ∈ ts, t.valid w) (p : Toggle) (hp : p ∈ ts) (h0 : p.obs fb = 0) :
    (Toggle.run ts (false, (Toggle.run ts (false, fb)).2)).1 = true := by
  cases hq : (Toggle.run ts (false, (Toggle.run ts (false, fb)).2)).1
  · have h1 : WFfb (Toggle.run ts (false, fb)).2 := run_fb_WF ts (false, fb) h
    have := (quiet_run w ts _ h1 hts hq p hp).2
    rw [run_twice w ts fb false false h hts] at this
    exact absurd h0 this
  · rfl



theorem bit_toggle_mem (d : Chip8Display) (x y : Nat) (spriteData : Nat → Nat)
    (numRows planeMask : Nat) (hx : x < 256) (hy : y < 256) (hn : numRows < 256)
    (hm : planeMask < 256) (row col : Nat) (hrow : row < numRows) (hcol : col < 8)
    (hbit : spriteData row % 256 &&& (0x80 >>> col) ≠ 0) (t : Toggle)
    (ht : t ∈ pixelToggles d.colorMode planeMask ((x + col) % d.width) ((y + row) % d.height)) :
    t ∈ spriteToggles d x y spriteData numRows planeMask := by
  unfold spriteToggles
  rw [List.mem_flatMap]
  refine ⟨row, List.mem_range.mpr (by unfold u8; rw [Nat.mod_eq_of_lt hn]; exact hrow), ?_⟩
  unfold rowToggles
  rw [List.mem_flatMap]
  refine ⟨col, List.mem_range.mpr hcol, ?_⟩
  unfold colToggles u8
  rw [if_pos hbit, Nat.mod_eq_of_lt hx, Nat.mod_eq_of_lt hy, Nat.mod_eq_of_lt hm]
  exact ht

/-- C8 (amended): if some pixel selected by a set sprite bit is clear before the first
call (in 2-plane mode: clear in a plane enabled by the plane mask), the second of two
`drawSprite` calls with the same arguments returns collision = true. -/
theorem drawSprite_second_collides (d : Chip8Display) (x y : Nat) (spriteData : Nat → Nat)
    (numRows planeMask : Nat) (hwf : WFfb d.fb)
    (hx : x < 256) (hy : y < 256) (hn : numRows < 256) (hm : planeMask < 256)
    (row col : Nat) (hrow : row < numRows) (hcol : col < 8)
    (hbit : spriteData row % 256 &&& (0x80 >>> col) ≠ 0)
    (hclear : if d.colorMode = ColorMode.XOCHIP_2BPP then
        ∃ plane, plane < 2 ∧ planeMask &&& (1 <<< plane) ≠ 0 ∧
          (fbGet d.fb ((y + row) % d.height) ((x + col) % d.width) >>> plane) &&& 1 = 0
      else fbGet d.fb ((y + row) % d.height) ((x + col) % d.width) = 0) :
    ((d.drawSprite x y spriteData numRows planeMask).2.drawSprite
        x y spriteData numRows planeMask).1 = true := by
  rw [drawSprite_snd_fb d, drawSprite_eq_run]
  show (Toggle.run (spriteToggles d x y spriteData numRows planeMask)
    (false, (Toggle.run (spriteToggles d x y spriteData numRows planeMask) (false, d.fb)).2)).1
      = true
  have hv := spriteToggles_valid d x y spriteData numRows planeMask
  split at hclear
  · rename_i hc
    obtain ⟨plane, hp, hmask, h0⟩ := hclear
    refine second_run_collides _ _ _ hwf hv
      ⟨(y + row) % d.height, (x + col) % d.width, plane, false⟩ ?_ ?_
    · apply bit_toggle_mem d x y spriteData numRows planeMask hx hy hn hm row col hrow hcol hbit
      unfold pixelToggles
      rw [if_pos hc, List.mem_flatMap]
      refine ⟨plane, List.mem_range.mpr hp, ?_⟩
      unfold planeToggles
      rw [if_pos hmask]
      exact List.mem_singleton.mpr rfl
    · exact h0
  · rename_i hc
    refine second_run_collides _ _ _ hwf hv
      ⟨(y + row) % d.height, (x + col) % d.width, 0, true⟩ ?_ ?_
    · apply bit_toggle_mem d x y spriteData numRows planeMask hx hy hn hm row col hrow hcol hbit
      unfold pixelToggles
      rw [if_neg hc]
      exact List.mem_singleton.mpr rfl
    · exact hclear

/-- C8 as stated fails on a display whose pixel (0, 0) is set: the sprite `0x80` drawn
at (0, 0) collides on the first call and not on the second. -/
theorem drawSprite_second_no_collision :
    (litDisplay.drawSprite 0 0 (fun _ => 0x80) 1 1).1 = true ∧
    ((litDisplay.drawSprite 0 0 (fun _ => 0x80) 1 1).2.drawSprite 0 0 (fun _ => 0x80) 1 1).1
      = false := by
  decide

theorem init_WFfb : WFfb Chip8Display.init.fb := by
  unfold Chip8Display.init Chip8Display.clear clearFb
  refine ⟨by simp, ?_⟩
  intro row hrow
  simp only [List.mem_map, List.mem_replicate] at hrow
  obtain ⟨r, ⟨_, hr⟩, e⟩ := hrow
  subst e hr
  refine ⟨by simp, ?_⟩
  intro c hc
  simp only [List.mem_map, List.mem_replicate] at hc
  obtain ⟨_, _, e⟩ := hc
  omega


/-- Instance of `drawSprite_twice_restores`: a two-row sprite on a fresh display. -/
theorem drawSprite_twice_restores_witness :
    WFfb Chip8Display.init.fb ∧
    ((Chip8Display.init.drawSprite 62 31 (fun _ => 0xFF) 2 1).2.drawSprite
        62 31 (fun _ => 0xFF) 2 1).2 = Chip8Display.init :=
  ⟨init_WFfb, drawSprite_twice_restores Chip8Display.init 62 31 (fun _ => 0xFF) 2 1 init_WFfb⟩

/-- Instance of `drawSprite_second_collides`: the sprite `0x80` on a fresh display. -/
theorem drawSprite_second_collides_witness :
    WFfb Chip8Display.init.fb ∧
    ((Chip8Display.init.drawSprite 0 0 (fun _ => 0x80) 1 1).2.drawSprite
        0 0 (fun _ => 0x80) 1 1).1 = true :=
  ⟨init_WFfb, drawSprite_second_collides Chip8Display.init 0 0 (fun _ => 0x80) 1 1 init_WFfb
    (by decide) (by decide) (by decide) (by decide) 0 0 (by decide) (by decide) (by decide)
    (by rw [if_neg (by decide)]; decide)⟩

/-! ## C9: scrollUp by at least the height -/

theorem fbGet_clearFb (fb : Framebuffer) (y x : Nat) : fbGet (clearFb fb) y x = 0 := by
  unfold fbGet clearFb
  have e1 : (fb.map (fun row => row.map (fun _ => 0))).getD y []
      = (fb.getD y []).map (fun _ => 0) :=
    List.getD_map fb [] (fun row : List Nat => row.map (fun _ => 0))
  rw [e1]
  exact List.getD_map (fb.getD y []) 0 (fun _ : Nat => 0)

theorem getPixel_clear (d : Chip8Display) (x y : Int) : d.clear.getPixel x y = 0 := by
  unfold Chip8Display.getPixel
  split
  · rfl
  · exact fbGet_clearFb _ _ _

/-- C9: for every framebuffer content, resolution mode, color mode and active-plane
mask, and every `lines >= height()`, after `scrollUp(lines)` every pixel reads 0: the
whole cell, all planes, at every position. -/
theorem scrollUp_past_height (d : Chip8Display) (lines : Nat) (h8 : lines < 256)
    (hl : d.height ≤ lines) :
    (∀ x y : Int, (d.scrollUp lines).2.getPixel x y = 0) ∧
    (∀ y x : Nat, fbGet (d.scrollUp lines).2.fb y x = 0) := by
  have hpos := (height_pos_le d).1
  have e : d.scrollUp lines = (true, d.clear) := by
    unfold Chip8Display.scrollUp u8
    simp only [Nat.mod_eq_of_lt h8]
    rw [if_neg (by omega), if_pos (by omega)]
  rw [e]
  exact ⟨fun x y => getPixel_clear d x y, fun y x => fbGet_clearFb _ _ _⟩

/-- Instance of `scrollUp_past_height`: the lit display scrolled up by 32 lines. -/
theorem scrollUp_past_height_witness :
    litDisplay.height ≤ 32 ∧
    (∀ x y : Int, (litDisplay.scrollUp 32).2.getPixel x y = 0) ∧
    (∀ y x : Nat, fbGet (litDisplay.scrollUp 32).2.fb y x = 0) :=
  ⟨by decide, scrollUp_past_height litDisplay 32 (by decide) (by decide)⟩

/-! ## State file encoding -/

theorem read_append (a rest old : List Nat) (h : old.length = a.length) :
    IStream.read ⟨a ++ rest, true⟩ old = (a, ⟨rest, true⟩) := by
  unfold IStream.read
  simp only [Bool.not_true, Bool.false_eq_true, if_false]
  rw [if_pos (by rw [List.length_append]; omega), h, List.take_left, List.drop_left]

theorem leBytes_length (n v : Nat) : (leBytes n v).length = n := by
  induction n generalizing v with
  | zero => rfl
  | succ n ih => simp [leBytes, ih]

theorem leValue_leBytes (n v : Nat) (h : v < 256 ^ n) : leValue (leBytes n v) = v := by
  induction n generalizing v with
  | zero => simp at h; subst h; rfl
  | succ n ih =>
    simp only [leBytes, leValue]
    rw [ih (v / 256) (by rw [Nat.pow_succ] at h; exact Nat.div_lt_of_lt_mul (by omega))]
    omega

theorem i32Bytes_length (x : Int) : (i32Bytes x).length = 4 := leBytes_length 4 _

theorem i32Of_i32Bytes (x : Int) (h1 : -(2 ^ 31 : Int) ≤ x) (h2 : x < 2 ^ 31) :
    i32Of (i32Bytes x) = x := by
  unfold i32Of i32Bytes
  rw [leValue_leBytes 4 _ (by omega)]
  split <;> omega

theorem byteBool_boolByte (b : Bool) : byteBool (boolByte b) = b := by
  cases b <;> rfl

theorem quirksOf_quirksBytes (q : Quirks) : quirksOf (quirksBytes q) = q := by
  cases q
  simp [quirksOf, quirksBytes, byteBool_boolByte]

theorem u16sBytes_length (l : List Nat) : (u16sBytes l).length = 2 * l.length := by
  induction l with
  | nil => rfl
  | cons a l ih =>
    unfold u16sBytes at ih ⊢
    rw [List.flatMap_cons, List.length_append, ih, leBytes_length, List.length_cons]
    omega

theorem u16sOf_u16sBytes (l : List Nat) (h : ∀ a ∈ l, a < 65536) : u16sOf (u16sBytes l) = l := by
  induction l with
  | nil => rfl
  | cons a l ih =>
    have ha := h a (List.mem_cons_self _ _)
    unfold u16sBytes at ih ⊢
    rw [List.flatMap_cons]
    show u16sOf (a % 256 :: a / 256 % 256 :: (l.flatMap (leBytes 2))) = a :: l
    rw [u16sOf, ih (fun b hb => h b (List.mem_cons_of_mem _ hb))]
    congr 1
    omega

theorem map_byteBool_boolByte (l : List Bool) : (l.map boolByte).map byteBool = l := by
  rw [List.map_map]
  conv_rhs => rw [← List.map_id l]
  apply List.map_congr_left
  intro b _
  exact byteBool_boolByte b

theorem readRows_flatten (old new : List (List Nat)) (rest : List Nat)
    (hlen : old.length = new.length) (ho : ∀ r ∈ old, r.length = 128)
    (hn : ∀ r ∈ new, r.length = 128) :
    IStream.readRows old ⟨new.flatten ++ rest, true⟩ = (new, ⟨rest, true⟩) := by
  induction old generalizing new with
  | nil =>
    cases new with
    | nil => rfl
    | cons _ _ => simp at hlen
  | cons o old ih =>
    cases new with
    | nil => simp at hlen
    | cons n new =>
      have e : IStream.read ⟨(n :: new).flatten ++ rest, true⟩ o
          = (n, ⟨new.flatten ++ rest, true⟩) := by
        rw [List.flatten_cons, List.append_assoc]
        exact read_append _ _ _ (by
          rw [ho o (List.mem_cons_self _ _), hn n (List.mem_cons_self _ _)])
      unfold IStream.readRows
      rw [e]
      simp only
      rw [ih new (by simpa using hlen) (fun r hr => ho r (List.mem_cons_of_mem _ hr))
        (fun r hr => hn r (List.mem_cons_of_mem _ hr))]


theorem getD_singleton (x : Nat) : [x].getD 0 0 = x := rfl

/-- Loading the file written by `saveState` for `c` into a machine whose arrays have
the C++ sizes and whose memory has the size of `c`'s memory. -/
theorem loadState_saveState (t : Machine) (c : Chip8CPU) (hwf : c.WF)
    (hmem : t.cpu.mem.size = c.mem.size)
    (hsz : c.mem.size < 256 ^ 8)
    (hv : t.cpu.regs.v.length = 16) (hstack : t.cpu.regs.stack.length = 16)
    (hkeys : t.cpu.inp.keys.length = 16)
    (hfb : t.cpu.disp.fb.length = 64 ∧ ∀ r ∈ t.cpu.disp.fb, r.length = 128)
    (haudio : t.cpu.audioBuffer.length = 256) :
    (t.loadState (some c.saveState)).1 = true ∧ (t.loadState (some c.saveState)).2.cpu = c := by
  obtain ⟨hm1, hm2, hmemwf, ⟨rv, rvb, ri, rpc, rsp, rst, rstb⟩, ⟨td, ts⟩, hk,
    ⟨⟨fb1, fb2⟩, dm1, dm2, dc1, dc2, dap⟩, ⟨sp1, sp2, sv1, sv2⟩, ha, hab⟩ := hwf
  have E1 := i32Of_i32Bytes c.mode.val hm1 hm2
  have E14 := i32Of_i32Bytes c.disp.mode.val dm1 dm2
  have E15 := i32Of_i32Bytes c.disp.colorMode.val dc1 dc2
  have E17 : i32Of (i32Bytes c.snd.getPhase) = c.snd.phase := i32Of_i32Bytes c.snd.phase sp1 sp2
  have E19 : i32Of (i32Bytes c.snd.getVolume) = c.snd.volume :=
    i32Of_i32Bytes c.snd.volume sv1 sv2
  have E3 := leValue_leBytes 8 c.mem.size hsz
  have E6 := leValue_leBytes 2 c.regs.i (by omega)
  have E7 := leValue_leBytes 2 c.regs.pc (by omega)
  have E9 := u16sOf_u16sBytes c.regs.stack rstb
  have R1 := fun rest => read_append (i32Bytes c.mode.val) rest (i32Bytes 0) rfl
  have R2 := fun rest => read_append (quirksBytes c.quirks) rest (quirksBytes t.cpu.quirks) rfl
  have R3 := fun rest => read_append (leBytes 8 c.mem.size) rest (leBytes 8 0) rfl
  have R4 := fun rest => read_append c.mem.memory rest t.cpu.mem.memory hmem
  have R5 := fun rest => read_append c.regs.v rest t.cpu.regs.v (by rw [hv, rv])
  have R6 := fun rest => read_append (leBytes 2 c.regs.i) rest (leBytes 2 t.cpu.regs.i) rfl
  have R7 := fun rest => read_append (leBytes 2 c.regs.pc) rest (leBytes 2 t.cpu.regs.pc) rfl
  have R8 := fun rest => read_append [c.regs.sp] rest [t.cpu.regs.sp] rfl
  have R9 := fun rest => read_append (u16sBytes c.regs.stack) rest (u16sBytes t.cpu.regs.stack)
    (by rw [u16sBytes_length, u16sBytes_length, hstack, rst])
  have R10 := fun rest => read_append [c.tmr.getDelay] rest [0] rfl
  have R11 := fun rest => read_append [c.tmr.getSound] rest [0] rfl
  have R12 := fun rest => read_append (c.inp.keys.map boolByte) rest
    (t.cpu.inp.keys.map boolByte) (by rw [List.length_map, List.length_map, hkeys]; exact hk.symm)
  have R13 := fun rest => readRows_flatten t.cpu.disp.fb c.disp.fb rest
    (by rw [hfb.1]; exact fb1.symm) hfb.2 (fun r hr => (fb2 r hr).1)
  have R14 := fun rest => read_append (i32Bytes c.disp.mode.val) rest (i32Bytes 0) rfl
  have R15 := fun rest => read_append (i32Bytes c.disp.colorMode.val) rest (i32Bytes 0) rfl
  have R16 := fun rest => read_append [c.disp.activePlanes] rest [0] rfl
  have R17 := fun rest => read_append (i32Bytes c.snd.getPhase) rest (i32Bytes 0) rfl
  have R18 := fun rest => read_append [boolByte c.snd.getMuted] rest [boolByte false] rfl
  have R19 := fun rest => read_append (i32Bytes c.snd.getVolume) rest (i32Bytes 100) rfl
  have R20 := fun rest => read_append [boolByte c.snd.isOn] rest [boolByte false] rfl
  have R21 := fun rest => read_append [boolByte c.snd.getPlaying] rest [boolByte false] rfl
  have R22 := read_append c.audioBuffer [] t.cpu.audioBuffer (by rw [haudio]; exact ha.symm)
  rw [List.append_nil] at R22
  have hload : t.loadState (some c.saveState) =
      (true, { cpu := c, st := (if c.snd.buzzerOn then t.st
        else { t.st with patternPlaying := false, patternBit := 0 }) }) := by
    unfold Machine.loadState Chip8CPU.saveState
    simp only [List.flatten_cons, List.flatten_nil, List.append_nil, R1, R2, R3, R4, R5, R6, R7,
      R8, R9, R10, R11, R12, R13, R14, R15, R16, R17, R18, R19, R20, R21, R22, E1, E3, E6, E7,
      E9, E14, E15, E17, E19, hmem, ne_eq, not_true_eq_false, if_false, getD_singleton,
      quirksOf_quirksBytes, byteBool_boolByte, map_byteBool_boolByte]
    have T : (t.cpu.tmr.setDelay c.tmr.getDelay).setSound c.tmr.getSound = c.tmr := by
      unfold Chip8Timers.setDelay Chip8Timers.setSound Chip8Timers.getDelay Chip8Timers.getSound u8
      rw [Nat.mod_eq_of_lt td, Nat.mod_eq_of_lt ts]
    rw [T]
    rcases c with ⟨⟨mv⟩, q, ⟨mm⟩, ⟨rv, ri, rpc, rsp, rstk⟩, tm, ⟨ks⟩, ⟨dfb, ⟨dmv⟩, ⟨dcv⟩, dap⟩,
      ⟨sb, spl, sph, smu, svo⟩, ab⟩
    cases sb <;> rfl
  rw [hload]
  exact ⟨rfl, rfl⟩


/-! ### Freshly constructed instances -/

set_option maxRecDepth 8192 in
theorem fontset_bytes : ∀ b ∈ Chip8Memory.chip8_fontset, b < 256 := by decide

theorem init_memory_WF (n : Nat) : (Chip8Memory.init n).WF := by
  unfold Chip8Memory.init Chip8Memory.loadFontset Chip8Memory.WF
  split
  · intro b hb
    unfold copyInto at hb
    rw [List.mem_append, List.mem_append] at hb
    rcases hb with (hb | hb) | hb
    · have := List.mem_of_mem_take hb
      rw [List.mem_replicate] at this
      omega
    · exact fontset_bytes b (List.mem_of_mem_take hb)
    · have := List.mem_of_mem_drop hb
      rw [List.mem_replicate] at this
      omega
  · intro b hb
    rw [List.mem_replicate] at hb
    omega

theorem memorySize_lt (v : Variant) : Chip8CPU.memorySize v < 256 ^ 8 := by
  unfold Chip8CPU.memorySize
  split
  · decide
  · split <;> decide

theorem init_mem_size (v : Variant) : (Chip8CPU.init v).mem.size = Chip8CPU.memorySize v :=
  init_length _

theorem regs_init_WF : Chip8Registers.init.WF := by
  unfold Chip8Registers.WF Chip8Registers.init
  decide

theorem tmr_init_WF : Chip8Timers.init.WF := by
  unfold Chip8Timers.WF Chip8Timers.init
  decide

theorem snd_init_WF : Chip8Sound.init.WF := by
  unfold Chip8Sound.WF Chip8Sound.init
  decide

theorem disp_init_WF : Chip8Display.init.WF :=
  ⟨init_WFfb, by decide, by decide, by decide, by decide, by decide⟩

theorem init_WF (v : Variant) (h1 : -(2 ^ 31 : Int) ≤ v.val) (h2 : v.val < 2 ^ 31) :
    (Chip8CPU.init v).WF := by
  refine ⟨h1, h2, init_memory_WF _, regs_init_WF, tmr_init_WF, rfl, disp_init_WF, snd_init_WF,
    List.length_replicate _ _, ?_⟩
  intro b hb
  have : b ∈ List.replicate Chip8CPU.XOCHIP_AUDIO_BUFFER_SIZE 0 := hb
  rw [List.mem_replicate] at this
  omega

/-- C5: for every well-formed interpreter state `c` whose memory has the size of its
variant, `loadState` of the file written by `saveState(c)` into a freshly constructed
instance of the same variant returns true and leaves an instance equal to `c` in every
member: variant, quirks, memory, V, I, PC, SP, stack, timers, keys, framebuffer, display
mode, color mode, plane mask, sound phase/muted/volume/buzzer/playing, pattern buffer. -/
theorem saveState_loadState_roundtrip (c : Chip8CPU) (st : Statics) (hwf : c.WF)
    (hsize : c.mem.size = Chip8CPU.memorySize c.mode) :
    (Machine.loadState ⟨Chip8CPU.init c.mode, st⟩ (some c.saveState)).1 = true ∧
    (Machine.loadState ⟨Chip8CPU.init c.mode, st⟩ (some c.saveState)).2.cpu = c :=
  loadState_saveState ⟨Chip8CPU.init c.mode, st⟩ c hwf
    (by rw [hsize]; exact init_mem_size c.mode)
    (by rw [hsize]; exact memorySize_lt c.mode)
    rfl rfl rfl ⟨init_WFfb.1, fun r hr => (init_WFfb.2 r hr).1⟩ (List.length_replicate _ _)


theorem savedCpu_WF : savedCpu.WF := by
  unfold Chip8CPU.WF savedCpu
  simp only []
  refine ⟨by decide, by decide, init_memory_WF _, by unfold Chip8Registers.WF; decide,
    by unfold Chip8Timers.WF; decide, rfl, disp_init_WF, by unfold Chip8Sound.WF; decide,
    List.length_replicate _ _, ?_⟩
  intro b hb
  rw [List.mem_replicate] at hb
  omega

theorem savedCpu_size : savedCpu.mem.size = Chip8CPU.memorySize savedCpu.mode := by
  unfold savedCpu
  simp only []
  exact init_length _

/-- Instance of `saveState_loadState_roundtrip` on `savedCpu`. -/
theorem saveState_loadState_roundtrip_witness :
    savedCpu.WF ∧ savedCpu.mem.size = Chip8CPU.memorySize savedCpu.mode ∧
    (Machine.loadState ⟨Chip8CPU.init savedCpu.mode, Statics.init⟩
        (some savedCpu.saveState)).1 = true ∧
    (Machine.loadState ⟨Chip8CPU.init savedCpu.mode, Statics.init⟩
        (some savedCpu.saveState)).2.cpu = savedCpu :=
  ⟨savedCpu_WF, savedCpu_size,
    saveState_loadState_roundtrip savedCpu Statics.init savedCpu_WF savedCpu_size⟩

theorem read_failed (d old : List Nat) : IStream.read ⟨d, false⟩ old = (old, ⟨d, false⟩) := rfl

theorem read_short (old : List Nat) (h : 0 < old.length) :
    IStream.read ⟨[], true⟩ old = (old, ⟨[], false⟩) := by
  unfold IStream.read
  simp only [Bool.not_true, Bool.false_eq_true, if_false, List.length_nil, List.nil_append,
    List.drop_zero]
  rw [if_neg (by omega)]

theorem readRows_failed (rows : List (List Nat)) (d : List Nat) :
    IStream.readRows rows ⟨d, false⟩ = (rows, ⟨d, false⟩) := by
  induction rows with
  | nil => rfl
  | cons r rows ih =>
    unfold IStream.readRows
    rw [read_failed]
    simp only
    rw [ih]

/-- A state file written for a memory of another size: `loadState` returns false
after it has overwritten `mode` and `quirks`. -/
theorem loadState_size_mismatch (t : Machine) (c : Chip8CPU)
    (h1 : -(2 ^ 31 : Int) ≤ c.mode.val) (h2 : c.mode.val < 2 ^ 31)
    (hsz : c.mem.size < 256 ^ 8) (hne : c.mem.size ≠ t.cpu.mem.size) :
    t.loadState (some c.saveState)
      = (false, { t with cpu := { t.cpu with mode := c.mode, quirks := c.quirks } }) := by
  have R1 := fun rest => read_append (i32Bytes c.mode.val) rest (i32Bytes 0) rfl
  have R2 := fun rest => read_append (quirksBytes c.quirks) rest (quirksBytes t.cpu.quirks) rfl
  have R3 := fun rest => read_append (leBytes 8 c.mem.size) rest (leBytes 8 0) rfl
  have E1 := i32Of_i32Bytes c.mode.val h1 h2
  have E3 := leValue_leBytes 8 c.mem.size hsz
  unfold Machine.loadState Chip8CPU.saveState
  simp only [List.flatten_cons, R1, R2, R3, E1, E3, quirksOf_quirksBytes]
  rw [if_pos hne]

/-- A state file cut off right after its 15-byte header, with the right memory size:
`loadState` returns false after it has run every assignment with the locals' initial
values. -/
theorem loadState_header_only (t : Machine) (q : Quirks)
    (hsz : t.cpu.mem.size < 256 ^ 8) (hpos : 0 < t.cpu.mem.memory.length) :
    (t.loadState (some (List.flatten [i32Bytes 0, quirksBytes q, leBytes 8 t.cpu.mem.size]))).1
      = false ∧
    (t.loadState (some (List.flatten [i32Bytes 0, quirksBytes q,
      leBytes 8 t.cpu.mem.size]))).2.cpu.tmr = { delay := 0, sound := 0 } ∧
    (t.loadState (some (List.flatten [i32Bytes 0, quirksBytes q,
      leBytes 8 t.cpu.mem.size]))).2.cpu.disp.activePlanes = 0 := by
  have R1 := fun rest => read_append (i32Bytes 0) rest (i32Bytes 0) rfl
  have R2 := fun rest => read_append (quirksBytes q) rest (quirksBytes t.cpu.quirks) rfl
  have R3 := read_append (leBytes 8 t.cpu.mem.size) [] (leBytes 8 0) rfl
  rw [List.append_nil] at R3
  have R4 := read_short t.cpu.mem.memory hpos
  have E3 := leValue_leBytes 8 t.cpu.mem.size hsz
  unfold Machine.loadState
  simp only [List.flatten_cons, List.flatten_nil, List.append_nil, R1, R2, R3, R4, E3,
    read_failed, readRows_failed, ne_eq, not_true_eq_false, if_false]
  exact ⟨trivial, rfl, rfl⟩

/-- C6 (the code does not do this): `loadState` can return false with the live state
changed. Loading an XOCHIP state file into a CHIP8 instance fails at the memory-size
check after `mode` has become XOCHIP; loading a file cut off after its header fails
after the timers and the plane mask have been overwritten with zeros. -/
theorem loadState_failure_mutates :
    ((Machine.loadState ⟨Chip8CPU.init Variant.CHIP8, Statics.init⟩
        (some (Chip8CPU.init Variant.XOCHIP).saveState)).1 = false ∧
     (Machine.loadState ⟨Chip8CPU.init Variant.CHIP8, Statics.init⟩
        (some (Chip8CPU.init Variant.XOCHIP).saveState)).2.cpu.mode = Variant.XOCHIP ∧
     (Chip8CPU.init Variant.CHIP8).mode = Variant.CHIP8) ∧
    ((Machine.loadState ⟨tickingCpu, Statics.init⟩ (some truncatedFile)).1 = false ∧
     (Machine.loadState ⟨tickingCpu, Statics.init⟩
        (some truncatedFile)).2.cpu.tmr = { delay := 0, sound := 0 } ∧
     tickingCpu.tmr = { delay := 9, sound := 0 } ∧
     (Machine.loadState ⟨tickingCpu, Statics.init⟩ (some truncatedFile)).2.cpu.disp.activePlanes
        = 0 ∧
     tickingCpu.disp.activePlanes = 1) := by
  have a := loadState_size_mismatch ⟨Chip8CPU.init Variant.CHIP8, Statics.init⟩
    (Chip8CPU.init Variant.XOCHIP) (by decide) (by decide)
    (by rw [init_mem_size]; exact memorySize_lt _)
    (by
      show (Chip8CPU.init Variant.XOCHIP).mem.size ≠ (Chip8CPU.init Variant.CHIP8).mem.size
      rw [init_mem_size, init_mem_size]; decide)
  have hs : tickingCpu.mem.size = 4096 := by
    unfold tickingCpu
    simp only []
    exact init_mem_size _
  have b := loadState_header_only ⟨tickingCpu, Statics.init⟩ {}
    (by show tickingCpu.mem.size < 256 ^ 8; rw [hs]; decide)
    (by show 0 < tickingCpu.mem.size; rw [hs]; decide)
  have hf : truncatedFile = List.flatten [i32Bytes 0, quirksBytes {},
      leBytes 8 (Machine.mk tickingCpu Statics.init).cpu.mem.size] := by
    show truncatedFile = List.flatten [i32Bytes 0, quirksBytes {}, leBytes 8 tickingCpu.mem.size]
    rw [hs]
    rfl
  rw [a, hf]
  exact ⟨⟨rfl, rfl, rfl⟩, b.1, b.2.1, rfl, b.2.2, rfl⟩


/-! ## Clear screen, memory and stack contracts -/

theorem extended_00E0 (m : Machine) : Exec.extended m 0x00E0 = none := by
  unfold Exec.extended
  by_cases h : m.cpu.mode = Variant.SCHIP ∨ m.cpu.mode = Variant.XOCHIP
  · rw [if_pos h]; rfl
  · rw [if_neg h]

/-- C11: for every variant and every display state (any cells, either resolution,
either color mode, any plane mask), executing opcode `0x00E0` succeeds and afterwards
`getPixel(x, y) == 0` for all `x`, `y`; every cell of the array is 0 and the
resolution and color mode are kept. -/
theorem exec_00E0_clears (m : Machine) (host : Host) :
    ∃ m1, m.executeOpcode host 0x00E0 = .ok m1 ∧
      (∀ x y : Int, m1.cpu.disp.getPixel x y = 0) ∧
      (∀ y x : Nat, fbGet m1.cpu.disp.fb y x = 0) ∧
      m1.cpu.disp.mode = m.cpu.disp.mode ∧ m1.cpu.disp.colorMode = m.cpu.disp.colorMode := by
  refine ⟨m.setDisp m.cpu.disp.clear, ?_, fun x y => getPixel_clear m.cpu.disp x y,
    fun y x => fbGet_clearFb _ _ _, rfl, rfl⟩
  unfold Machine.executeOpcode
  rw [extended_00E0]
  rfl

/-- C12: for a memory of size `n`, a 16-bit address `addr` and a byte `v`,
`read(addr)` and `write(addr, v)` throw their out-of-range exception exactly when
`addr >= n` (a failing `write` leaves the memory as it was); otherwise `read` returns
the byte stored at `addr`, and `write` succeeds, keeps the size, stores `v` at `addr`
and changes no other byte. -/
theorem read_write_spec (m : Chip8Memory) (addr v : Nat) (ha : addr < 65536) (hv : v < 256) :
    (m.read addr = .error .memoryRead ↔ addr ≥ m.size) ∧
    ((m.write addr v).1 = .error .memoryWrite ↔ addr ≥ m.size) ∧
    (addr ≥ m.size → (m.write addr v).2 = m) ∧
    (addr < m.size →
      (∃ b, m.memory[addr]? = some b ∧ m.read addr = .ok b) ∧
      (m.write addr v).1 = .ok () ∧
      (m.write addr v).2.size = m.size ∧
      (m.write addr v).2.memory[addr]? = some v ∧
      ∀ a, a ≠ addr → (m.write addr v).2.memory[a]? = m.memory[a]?) := by
  have e : u16 addr = addr := Nat.mod_eq_of_lt ha
  have e8 : u8 v = v := Nat.mod_eq_of_lt hv
  have rd : m.read addr
      = if addr ≥ m.memory.length then .error .memoryRead else .ok (m.memory.getD addr 0) := by
    unfold Chip8Memory.read; simp only [e]
  have wr : m.write addr v
      = if addr ≥ m.memory.length then (.error .memoryWrite, m)
        else (.ok (), ⟨m.memory.set addr v⟩) := by
    unfold Chip8Memory.write; simp only [e, e8]
  rw [rd, wr]
  unfold Chip8Memory.size
  by_cases h : addr ≥ m.memory.length
  · rw [if_pos h, if_pos h]
    exact ⟨⟨fun _ => h, fun _ => rfl⟩, ⟨fun _ => h, fun _ => rfl⟩, fun _ => rfl,
      fun h2 => absurd h2 (by omega)⟩
  · rw [if_neg h, if_neg h]
    have hlt : addr < m.memory.length := by omega
    refine ⟨⟨(fun h2 => by cases h2), fun h2 => absurd h2 h⟩,
      ⟨(fun h2 => by cases h2), fun h2 => absurd h2 h⟩, fun h2 => absurd h2 h, fun _ => ?_⟩
    refine ⟨⟨m.memory[addr], List.getElem?_eq_getElem hlt, ?_⟩, rfl, List.length_set .., ?_, ?_⟩
    · rw [List.getD_eq_getElem _ _ hlt]
    · exact List.getElem?_set_self hlt
    · intro a hne
      exact List.getElem?_set_ne (Ne.symm hne)

/-- C14: `loadROM(rom)` throws exactly when `rom.length + 0x200 > size` and succeeds
exactly otherwise; when it throws the memory is what it was before the call. -/
theorem loadROM_fails_iff (m : Chip8Memory) (rom : List Nat) :
    ((m.loadROM rom).1 = .error .romTooLarge ↔ rom.length + 0x200 > m.size) ∧
    ((m.loadROM rom).1 = .ok () ↔ rom.length + 0x200 ≤ m.size) ∧
    (rom.length + 0x200 > m.size → (m.loadROM rom).2 = m) := by
  unfold Chip8Memory.loadROM Chip8Memory.size
  by_cases h : rom.length + Chip8Memory.PROGRAM_START > m.memory.length
  · have h2 : rom.length + 0x200 > m.memory.length := h
    rw [if_pos h]
    exact ⟨⟨fun _ => h2, fun _ => rfl⟩, ⟨(fun h3 => by cases h3), (fun h3 => by omega)⟩, fun _ => rfl⟩
  · have h2 : ¬ rom.length + 0x200 > m.memory.length := h
    rw [if_neg h]
    exact ⟨⟨(fun h3 => by cases h3), fun h3 => absurd h3 h2⟩, ⟨(fun _ => by omega), fun _ => rfl⟩,
      fun h3 => absurd h3 h2⟩

/-- C16: for a register file with `SP <= 16`, a 16-cell stack and a 16-bit `addr`:
`push(addr)` throws stack overflow exactly when `SP == 16`, `pop()` throws stack
underflow exactly when `SP == 0`, a throwing call leaves the register file as it was;
a successful `push` stores `addr` at `stack[SP]` and increments `SP`, a successful
`pop` returns `stack[SP - 1]` and decrements `SP`; nothing else changes. -/
theorem push_pop_spec (r : Chip8Registers) (addr : Nat) (hsp : r.sp ≤ 16)
    (hlen : r.stack.length = 16) (ha : addr < 65536) :
    ((r.push addr).1 = .error .stackOverflow ↔ r.sp = 16) ∧
    (r.pop.1 = .error .stackUnderflow ↔ r.sp = 0) ∧
    (r.sp = 16 → (r.push addr).2 = r) ∧
    (r.sp = 0 → r.pop.2 = r) ∧
    (r.sp < 16 → (r.push addr).1 = .ok () ∧
      (r.push addr).2 = { r with stack := r.stack.set r.sp addr, sp := r.sp + 1 } ∧
      (r.push addr).2.stack[r.sp]? = some addr) ∧
    (0 < r.sp → ∃ a, r.stack[r.sp - 1]? = some a ∧ r.pop.1 = .ok a ∧
      r.pop.2 = { r with sp := r.sp - 1 }) := by
  have e : u16 addr = addr := Nat.mod_eq_of_lt ha
  have e8 : u8 (r.sp + 1) = r.sp + 1 := Nat.mod_eq_of_lt (by omega)
  have ps : r.push addr = if r.sp ≥ 16 then (.error .stackOverflow, r)
      else (.ok (), { r with stack := r.stack.set r.sp addr, sp := r.sp + 1 }) := by
    unfold Chip8Registers.push; simp only [e, e8]
  rw [ps]
  unfold Chip8Registers.pop
  refine ⟨?_, ?_, ?_, ?_, ?_, ?_⟩
  · by_cases h : r.sp ≥ 16
    · rw [if_pos h]; exact ⟨(fun _ => by omega), fun _ => rfl⟩
    · rw [if_neg h]; exact ⟨(fun h2 => by cases h2), fun h2 => by omega⟩
  · by_cases h : r.sp = 0
    · rw [if_pos h]; exact ⟨fun _ => h, fun _ => rfl⟩
    · rw [if_neg h]; exact ⟨(fun h2 => by cases h2), fun h2 => absurd h2 h⟩
  · intro h; rw [if_pos (by omega)]
  · intro h; rw [if_pos h]
  · intro h
    rw [if_neg (by omega)]
    refine ⟨rfl, rfl, ?_⟩
    show (r.stack.set r.sp addr)[r.sp]? = some addr
    exact List.getElem?_set_self (by omega)
  · intro h
    rw [if_neg (by omega)]
    have hlt : r.sp - 1 < r.stack.length := by omega
    refine ⟨r.stack[r.sp - 1], List.getElem?_eq_getElem hlt, ?_, rfl⟩
    show Except.ok (r.stack.getD (r.sp - 1) 0) = _
    rw [List.getD_eq_getElem _ _ hlt]

/-- Instance of `read_write_spec`: address `0x200` of a fresh 4096-byte memory. -/
theorem read_write_spec_witness :
    ((Chip8Memory.init 4096).read 0x200 = .error .memoryRead
      ↔ 0x200 ≥ (Chip8Memory.init 4096).size) ∧
    (((Chip8Memory.init 4096).write 0x200 0xAB).1 = .error .memoryWrite
      ↔ 0x200 ≥ (Chip8Memory.init 4096).size) ∧
    (0x200 ≥ (Chip8Memory.init 4096).size →
      ((Chip8Memory.init 4096).write 0x200 0xAB).2 = Chip8Memory.init 4096) ∧
    (0x200 < (Chip8Memory.init 4096).size →
      (∃ b, (Chip8Memory.init 4096).memory[0x200]? = some b ∧
        (Chip8Memory.init 4096).read 0x200 = .ok b) ∧
      ((Chip8Memory.init 4096).write 0x200 0xAB).1 = .ok () ∧
      ((Chip8Memory.init 4096).write 0x200 0xAB).2.size = (Chip8Memory.init 4096).size ∧
      ((Chip8Memory.init 4096).write 0x200 0xAB).2.memory[0x200]? = some 0xAB ∧
      ∀ a, a ≠ 0x200 →
        ((Chip8Memory.init 4096).write 0x200 0xAB).2.memory[a]?
          = (Chip8Memory.init 4096).memory[a]?) :=
  read_write_spec (Chip8Memory.init 4096) 0x200 0xAB (by decide) (by decide)

/-- Instance of `loadROM_fails_iff`: a 3-byte ROM offered to a 513-byte memory. -/
theorem loadROM_fails_iff_witness :
    (((Chip8Memory.init 513).loadROM [1, 2, 3]).1 = .error .romTooLarge
      ↔ [1, 2, 3].length + 0x200 > (Chip8Memory.init 513).size) ∧
    (((Chip8Memory.init 513).loadROM [1, 2, 3]).1 = .ok ()
      ↔ [1, 2, 3].length + 0x200 ≤ (Chip8Memory.init 513).size) ∧
    ([1, 2, 3].length + 0x200 > (Chip8Memory.init 513).size →
      ((Chip8Memory.init 513).loadROM [1, 2, 3]).2 = Chip8Memory.init 513) :=
  loadROM_fails_iff (Chip8Memory.init 513) [1, 2, 3]

/-- Instance of `push_pop_spec`: the register file of `savedCpu` (two return
addresses on the stack). -/
theorem push_pop_spec_witness :
    savedCpu.regs.sp ≤ 16 ∧ savedCpu.regs.stack.length = 16 ∧
    ((savedCpu.regs.push 0x300).1 = .ok () ∧
      (savedCpu.regs.push 0x300).2
        = { savedCpu.regs with stack := savedCpu.regs.stack.set savedCpu.regs.sp 0x300,
                               sp := savedCpu.regs.sp + 1 } ∧
      (savedCpu.regs.push 0x300).2.stack[savedCpu.regs.sp]? = some 0x300) ∧
    (∃ a, savedCpu.regs.stack[savedCpu.regs.sp - 1]? = some a ∧ savedCpu.regs.pop.1 = .ok a ∧
      savedCpu.regs.pop.2 = { savedCpu.regs with sp := savedCpu.regs.sp - 1 }) :=
  have h := push_pop_spec savedCpu.regs 0x300 (by decide) rfl (by decide)
  ⟨by decide, rfl, h.2.2.2.2.1 (by decide), h.2.2.2.2.2 (by decide)⟩

/-! ## Font region -/

theorem fontset_length : Chip8Memory.chip8_fontset.length = 80 := rfl

/-- The cells of a freshly constructed memory of at least 160 bytes. -/
theorem init_getElem? (n : Nat) (hn : 0xA0 ≤ n) :
    (∀ i, i < 80 → (Chip8Memory.init n).memory[0x50 + i]? = Chip8Memory.chip8_fontset[i]?) ∧
    (∀ a, a < n → (a < 0x50 ∨ 0xA0 ≤ a) → (Chip8Memory.init n).memory[a]? = some 0) := by
  have hfit : 0x50 + Chip8Memory.chip8_fontset.length ≤ (List.replicate n 0).length := by
    rw [fontset_length, List.length_replicate]; exact hn
  have e : (Chip8Memory.init n).memory = copyInto (List.replicate n 0) 0x50 Chip8Memory.chip8_fontset := by
    unfold Chip8Memory.init Chip8Memory.loadFontset
    rw [if_pos (by
      show Chip8Memory.FONTSET_START + Chip8Memory.FONTSET_SIZE ≤ (List.replicate n 0).length
      rw [List.length_replicate]; exact hn)]
    rfl
  rw [e]
  constructor
  · intro i hi
    exact copyInto_getElem?_inside _ _ _ _ hfit (by rw [fontset_length]; exact hi)
  · intro a ha hout
    rw [copyInto_getElem?_outside _ _ _ _ hfit (by rw [fontset_length]; omega)]
    rw [List.getElem?_replicate, if_pos ha]

/-- C15: for every memory size (4096, 8192 and 65536 among them) and every ROM that
`loadROM` accepts after construction, `read` returns the 80 bytes of the built-in font
table, in order, at `0x50..0x9F`, and 0 at every other address below `0x200`. -/
theorem font_after_loadROM (n : Nat) (rom : List Nat)
    (hok : ((Chip8Memory.init n).loadROM rom).1 = .ok ()) :
    (∀ i, i < 80 →
      ((Chip8Memory.init n).loadROM rom).2.read (0x50 + i) = .ok (Chip8Memory.chip8_fontset.getD i 0)) ∧
    (∀ a, a < 0x200 → (a < 0x50 ∨ 0xA0 ≤ a) →
      ((Chip8Memory.init n).loadROM rom).2.read a = .ok 0) := by
  have hfit : rom.length + 0x200 ≤ (Chip8Memory.init n).memory.length := by
    by_contra hc
    have : (Chip8Memory.init n).loadROM rom = (.error .romTooLarge, Chip8Memory.init n) := by
      unfold Chip8Memory.loadROM
      rw [if_pos (by show rom.length + 0x200 > (Chip8Memory.init n).memory.length; omega)]
    rw [this] at hok
    cases hok
  have hn : rom.length + 0x200 ≤ n := by rw [init_length] at hfit; exact hfit
  have hfit2 : 0x200 + rom.length ≤ (Chip8Memory.init n).memory.length := by omega
  rw [loadROM_of_fits _ _ hfit]
  have hlen : (copyInto (Chip8Memory.init n).memory 0x200 rom).length = n := by
    rw [copyInto_length _ _ _ hfit2, init_length]
  have key : ∀ a, a < 0x200 →
      (copyInto (Chip8Memory.init n).memory 0x200 rom)[a]? = (Chip8Memory.init n).memory[a]? :=
    fun a ha => copyInto_getElem?_outside _ _ _ _ hfit2 (Or.inl ha)
  have hi := init_getElem? n (by omega)
  constructor
  · intro i hi80
    rw [read_of_lt _ (by omega) (by
      show 0x50 + i < (copyInto (Chip8Memory.init n).memory 0x200 rom).length
      rw [hlen]; omega)]
    show Except.ok ((copyInto (Chip8Memory.init n).memory 0x200 rom).getD (0x50 + i) 0) = _
    rw [List.getD_eq_getElem?_getD, key _ (by omega), hi.1 i hi80, List.getD_eq_getElem?_getD]
  · intro a ha hout
    rw [read_of_lt _ (by omega) (by
      show a < (copyInto (Chip8Memory.init n).memory 0x200 rom).length
      rw [hlen]; omega)]
    show Except.ok ((copyInto (Chip8Memory.init n).memory 0x200 rom).getD a 0) = _
    rw [List.getD_eq_getElem?_getD, key _ ha, hi.2 a (by omega) hout]
    rfl

/-- Instance of `font_after_loadROM`: the XO-CHIP memory size and a two-byte ROM. -/
theorem font_after_loadROM_witness :
    ((Chip8Memory.init 65536).loadROM [0x12, 0x00]).1 = .ok () ∧
    (∀ i, i < 80 →
      ((Chip8Memory.init 65536).loadROM [0x12, 0x00]).2.read (0x50 + i)
        = .ok (Chip8Memory.chip8_fontset.getD i 0)) ∧
    (∀ a, a < 0x200 → (a < 0x50 ∨ 0xA0 ≤ a) →
      ((Chip8Memory.init 65536).loadROM [0x12, 0x00]).2.read a = .ok 0) :=
  have h : ((Chip8Memory.init 65536).loadROM [0x12, 0x00]).1 = .ok () := by
    rw [loadROM_of_fits _ _ (by rw [init_length]; decide)]
  ⟨h, font_after_loadROM 65536 [0x12, 0x00] h⟩

/-! ## Register indices and the call stack -/

theorem post_ok {α : Type} {E : Err → Prop} {P : α → Prop} {a : α} (h : P a) :
    Post E P (.ok a) := h

theorem post_bind {α β : Type} {E : Err → Prop} {Q : α → Prop} {P : β → Prop}
    {x : Except Err α} {f : α → Except Err β}
    (hx : Post E Q x) (hf : ∀ a, Q a → Post E P (f a)) : Post E P (x >>= f) := by
  cases x with
  | error e => exact hx
  | ok a => exact hf a hx

theorem post_mono {α : Type} {E : Err → Prop} {P Q : α → Prop} {x : Except Err α}
    (hx : Post E P x) (h : ∀ a, P a → Q a) : Post E Q x := by
  cases x with
  | error e => exact hx
  | ok a => exact h a hx

theorem read_post (mem : Chip8Memory) (a : Nat) :
    Post NoIndexErr (fun _ => True) (mem.read a) := by
  unfold Chip8Memory.read
  dsimp only
  split
  · exact fun h => by cases h
  · trivial

theorem write_post (mem : Chip8Memory) (a v : Nat) :
    Post NoIndexErr (fun _ => True) (liftRes (mem.write a v)) := by
  unfold Chip8Memory.write
  dsimp only
  split
  · exact fun h => by cases h
  · trivial

theorem frame_refl (m : Machine) : Frame m m := ⟨rfl, rfl⟩

theorem assignV_post (m0 m : Machine) (idx v : Nat) (h : Frame m0 m) (hidx : idx < 16) :
    Post NoIndexErr (Frame m0) (m.assignV idx v) := by
  rw [assignV_of_lt m v hidx]
  exact ⟨h.1, h.2⟩

theorem V_post (r : Chip8Registers) (idx : Nat) (hidx : idx < 16) :
    Post NoIndexErr (fun _ => True) (r.V idx) := by
  rw [V_of_lt r hidx]
  trivial

theorem clearFlag_post (m0 m : Machine) (h : Frame m0 m) :
    Post NoIndexErr (Frame m0) (Exec.clearFlagOnChip8 m) := by
  unfold Exec.clearFlagOnChip8
  split
  · exact assignV_post m0 m _ _ h (by decide)
  · exact post_ok h

theorem case8_post (m : Machine) (x y n4 : Nat) (hx : x < 16) (hy : y < 16) :
    Post NoIndexErr (Frame m) (Exec.case8 m x y n4) := by
  unfold Exec.case8
  split <;> first
    | exact post_ok (frame_refl m)
    | (refine post_bind (V_post _ _ hy) (fun vy _ => ?_)
       exact assignV_post m m _ _ (frame_refl m) hx)
    | (refine post_bind (V_post _ _ hx) (fun vx _ => ?_)
       refine post_bind (V_post _ _ hy) (fun vy _ => ?_)
       refine post_bind (assignV_post m m _ _ (frame_refl m) hx) (fun m1 h1 => ?_)
       first
         | exact clearFlag_post m m1 h1
         | exact assignV_post m m1 _ _ h1 (by decide))

theorem frame_skip (m0 m : Machine) (h : Frame m0 m) : Frame m0 m.skip := ⟨h.1, h.2⟩

theorem frame_rewind (m0 m : Machine) (h : Frame m0 m) : Frame m0 m.rewind := by
  unfold Frame at h
  unfold Frame Machine.rewind Machine.setRegs
  exact h

theorem regsEqual_post (m : Machine) (x y n4 : Nat) (hx : x < 16) (hy : y < 16) :
    Post NoIndexErr (fun _ => True) (Exec.regsEqual m x y n4) := by
  unfold Exec.regsEqual
  split
  · refine post_bind (V_post _ _ hx) (fun vx _ => ?_)
    refine post_bind (V_post _ _ hy) (fun vy _ => ?_)
    trivial
  · trivial

theorem case5_post (m : Machine) (x y n4 : Nat) (hx : x < 16) (hy : y < 16) :
    Post NoIndexErr (Frame m) (Exec.case5 m x y n4) := by
  unfold Exec.case5
  refine post_bind (regsEqual_post m x y n4 hx hy) (fun eq _ => ?_)
  split
  · exact post_ok (frame_skip m m (frame_refl m))
  · split
    · refine post_bind (V_post _ _ hx) (fun vx _ => ?_)
      refine post_bind (V_post _ _ hy) (fun vy _ => ?_)
      refine post_bind (assignV_post m m _ _ (frame_refl m) hx) (fun m1 h1 => ?_)
      exact assignV_post m m1 _ _ h1 hy
    · split
      · refine post_bind (V_post _ _ hx) (fun vx _ => ?_)
        refine post_bind (assignV_post m m _ _ (frame_refl m) hy) (fun m1 h1 => ?_)
        exact assignV_post m m1 _ _ h1 hx
      · exact post_ok (frame_refl m)

theorem caseE_post (m : Machine) (x nn : Nat) (hx : x < 16) :
    Post NoIndexErr (Frame m) (Exec.caseE m x nn) := by
  unfold Exec.caseE
  split
  · refine post_bind (V_post _ _ hx) (fun vx _ => ?_)
    split
    · exact post_ok (frame_skip m m (frame_refl m))
    · exact post_ok (frame_refl m)
  · refine post_bind (V_post _ _ hx) (fun vx _ => ?_)
    split
    · exact post_ok (frame_skip m m (frame_refl m))
    · exact post_ok (frame_refl m)
  · exact post_ok (frame_refl m)

theorem waitKey_post (m : Machine) (x : Nat) (hx : x < 16) :
    Post NoIndexErr (Frame m) (Exec.waitKey m x) := by
  unfold Exec.waitKey
  dsimp only
  split
  · split
    · exact post_ok (frame_rewind m m (frame_refl m))
    · refine post_bind (assignV_post m m _ _ (frame_refl m) hx) (fun m1 h1 => ?_)
      exact post_ok (frame_rewind m _ ⟨h1.1, h1.2⟩)
  · split
    · exact post_ok (frame_rewind m m (frame_refl m))
    · exact post_ok ⟨rfl, rfl⟩

theorem storeRegs_post (regs : Chip8Registers) (l : List Nat) (hl : ∀ i ∈ l, i < 16)
    (mem : Chip8Memory) : Post NoIndexErr (fun _ => True) (Exec.storeRegs regs l mem) := by
  induction l generalizing mem with
  | nil => exact post_ok trivial
  | cons i rest ih =>
    unfold Exec.storeRegs
    refine post_bind (V_post _ _ (hl i (List.mem_cons_self i rest))) (fun vi _ => ?_)
    refine post_bind (write_post _ _ _) (fun p _ => ?_)
    exact ih (fun j hj => hl j (List.mem_cons_of_mem i hj)) p.2

theorem setV_post (regs : Chip8Registers) (idx v : Nat) (hidx : idx < 16) :
    Post NoIndexErr (fun p => p.2.sp = regs.sp ∧ p.2.stack = regs.stack)
      (liftRes (regs.setV idx v)) := by
  unfold Chip8Registers.setV
  rw [if_neg (by omega)]
  exact ⟨rfl, rfl⟩

theorem loadRegs_post (mem : Chip8Memory) (l : List Nat) (hl : ∀ i ∈ l, i < 16)
    (regs : Chip8Registers) :
    Post NoIndexErr (fun r => r.sp = regs.sp ∧ r.stack = regs.stack)
      (Exec.loadRegs mem l regs) := by
  induction l generalizing regs with
  | nil => exact post_ok ⟨rfl, rfl⟩
  | cons i rest ih =>
    unfold Exec.loadRegs
    refine post_bind (read_post _ _) (fun b _ => ?_)
    refine post_bind (setV_post regs i b (hl i (List.mem_cons_self i rest))) (fun p hp => ?_)
    refine post_mono (ih (fun j hj => hl j (List.mem_cons_of_mem i hj)) p.2) (fun r hr => ?_)
    exact ⟨hr.1.trans hp.1, hr.2.trans hp.2⟩

theorem saveFlags_post (regs : Chip8Registers) (l : List Nat) (hl : ∀ i ∈ l, i < 16)
    (buf : List Nat) : Post NoIndexErr (fun _ => True) (Exec.saveFlags regs l buf) := by
  induction l generalizing buf with
  | nil => exact post_ok trivial
  | cons i rest ih =>
    unfold Exec.saveFlags
    refine post_bind (V_post _ _ (hl i (List.mem_cons_self i rest))) (fun vi _ => ?_)
    exact ih (fun j hj => hl j (List.mem_cons_of_mem i hj)) _

theorem restoreFlags_post (buf : List Nat) (l : List Nat) (hl : ∀ i ∈ l, i < 16)
    (regs : Chip8Registers) :
    Post NoIndexErr (fun r => r.sp = regs.sp ∧ r.stack = regs.stack)
      (Exec.restoreFlags buf l regs) := by
  induction l generalizing regs with
  | nil => exact post_ok ⟨rfl, rfl⟩
  | cons i rest ih =>
    unfold Exec.restoreFlags
    refine post_bind (setV_post regs i _ (hl i (List.mem_cons_self i rest))) (fun p hp => ?_)
    refine post_mono (ih (fun j hj => hl j (List.mem_cons_of_mem i hj)) p.2) (fun r hr => ?_)
    exact ⟨hr.1.trans hp.1, hr.2.trans hp.2⟩

theorem mem_upTo {a b i : Nat} (h : i ∈ upTo a b) : a ≤ i ∧ i < b := by
  unfold upTo at h
  rw [List.mem_range'_1] at h
  omega

theorem upTo_regs_lt (x : Nat) (hx : x < 16) : ∀ i ∈ upTo 0 (x + 1), i < 16 := by
  intro i hi
  have := mem_upTo hi
  omega

theorem frame_bumpI (m0 m : Machine) (x : Nat) (h : Frame m0 m) : Frame m0 (Exec.bumpI m x) := by
  unfold Exec.bumpI
  split
  · exact ⟨h.1, h.2⟩
  · exact h

theorem storeBcd_post (m : Machine) (x : Nat) (hx : x < 16) :
    Post NoIndexErr (Frame m) (Exec.storeBcd m x) := by
  unfold Exec.storeBcd
  refine post_bind (V_post _ _ hx) (fun value _ => ?_)
  refine post_bind (write_post _ _ _) (fun p1 _ => ?_)
  refine post_bind (write_post _ _ _) (fun p2 _ => ?_)
  refine post_bind (write_post _ _ _) (fun p3 _ => ?_)
  exact post_ok ⟨rfl, rfl⟩

theorem caseF_post (m : Machine) (x nn : Nat) (hx : x < 16) :
    Post NoIndexErr (Frame m) (Exec.caseF m x nn) := by
  have hl := upTo_regs_lt x hx
  unfold Exec.caseF
  split
  · exact assignV_post m m _ _ (frame_refl m) hx
  · exact waitKey_post m x hx
  · exact post_bind (V_post _ _ hx) (fun vx _ => post_ok ⟨rfl, rfl⟩)
  · exact post_bind (V_post _ _ hx) (fun vx _ => post_ok ⟨rfl, rfl⟩)
  · exact post_bind (V_post _ _ hx) (fun vx _ => post_ok ⟨rfl, rfl⟩)
  · exact post_bind (V_post _ _ hx) (fun vx _ => post_ok ⟨rfl, rfl⟩)
  · exact storeBcd_post m x hx
  · refine post_bind (storeRegs_post _ _ hl _) (fun mem1 _ => ?_)
    exact post_ok (frame_bumpI m _ x ⟨rfl, rfl⟩)
  · refine post_bind (loadRegs_post _ _ hl _) (fun regs1 h1 => ?_)
    exact post_ok (frame_bumpI m _ x ⟨h1.1, h1.2⟩)
  · split
    · exact post_bind (V_post _ _ hx) (fun vx _ => post_ok ⟨rfl, rfl⟩)
    · exact post_ok (frame_refl m)
  · split
    · exact post_bind (saveFlags_post _ _ hl _) (fun buf _ => post_ok ⟨rfl, rfl⟩)
    · exact post_ok (frame_refl m)
  · split
    · exact post_bind (restoreFlags_post _ _ hl _) (fun regs1 h1 => post_ok ⟨h1.1, h1.2⟩)
    · exact post_ok (frame_refl m)
  · exact post_ok (frame_refl m)

theorem smallSpriteRows_post (mem : Chip8Memory) (i w h startX startY : Nat) (l : List Nat)
    (acc : Bool × Chip8Display) :
    Post NoIndexErr (fun _ => True) (Exec.smallSpriteRows mem i w h startX startY l acc) := by
  induction l generalizing acc with
  | nil => exact post_ok trivial
  | cons row rows ih =>
    unfold Exec.smallSpriteRows
    refine post_bind (read_post _ _) (fun b _ => ?_)
    exact ih _

theorem bigSpriteRows_post (mem : Chip8Memory) (i vx vy : Nat) (l : List Nat)
    (acc : Bool × Chip8Display) :
    Post NoIndexErr (fun _ => True) (Exec.bigSpriteRows mem i vx vy l acc) := by
  induction l generalizing acc with
  | nil => exact post_ok trivial
  | cons row rows ih =>
    unfold Exec.bigSpriteRows
    refine post_bind (read_post _ _) (fun hi _ => ?_)
    refine post_bind (read_post _ _) (fun lo _ => ?_)
    exact ih _

theorem caseD_post (m : Machine) (host : Host) (x y n4 : Nat) (hx : x < 16) (hy : y < 16) :
    Post NoIndexErr (Frame m) (Exec.caseD m host x y n4) := by
  unfold Exec.caseD
  refine post_bind (V_post _ _ hx) (fun vx _ => ?_)
  refine post_bind (V_post _ _ hy) (fun vy _ => ?_)
  dsimp only
  split
  · exact post_ok (frame_rewind m m (frame_refl m))
  · have fin : ∀ r : Bool × Chip8Display, Post NoIndexErr (Frame m)
        ((m.setDisp r.2).assignV 0xF (if r.1 then 1 else 0)) :=
      fun r => assignV_post m _ _ _ ⟨rfl, rfl⟩ (by decide)
    split
    · exact post_bind (smallSpriteRows_post _ _ _ _ _ _ _ _) (fun r _ => fin r)
    · split
      · exact post_bind (smallSpriteRows_post _ _ _ _ _ _ _ _) (fun r _ => fin r)
      · exact fin _

theorem extended_post (m : Machine) (op : Nat) (r : Except Err Machine)
    (h : Exec.extended m op = some r) : Post NoIndexErr (Frame m) r := by
  have hx : (op &&& 0x0F00) >>> 8 < 16 := by rw [nibble2_eq]; omega
  have hy : (op &&& 0x00F0) >>> 4 < 16 := by rw [nibble3_eq]; omega
  unfold Exec.extended at h
  dsimp only at h
  split at h
  · split at h
    · cases h; exact post_ok ⟨rfl, rfl⟩
    · split at h
      · cases h; exact post_ok ⟨rfl, rfl⟩
      · split at h
        · cases h; exact post_ok ⟨rfl, rfl⟩
        · split at h
          · cases h; exact post_ok ⟨rfl, rfl⟩
          · split at h
            · cases h; exact post_ok ⟨rfl, rfl⟩
            · split at h
              · cases h; exact post_ok ⟨rfl, rfl⟩
              · split at h
                · cases h; exact post_ok ⟨rfl, rfl⟩
                · split at h
                  · cases h
                    refine post_bind (V_post _ _ hx) (fun vx _ => ?_)
                    refine post_bind (V_post _ _ hy) (fun vy _ => ?_)
                    refine post_bind (bigSpriteRows_post _ _ _ _ _ _) (fun r _ => ?_)
                    exact assignV_post m _ _ _ ⟨rfl, rfl⟩ (by decide)
                  · cases h
  · cases h

theorem case0_post (m : Machine) (op : Nat) :
    Post NoIndexErr (StackStep m) (Exec.case0 m op) := by
  unfold Exec.case0
  split
  · exact post_ok (Or.inl ⟨rfl, rfl⟩)
  · split
    · unfold Chip8Registers.pop
      by_cases h : m.cpu.regs.sp = 0
      · rw [if_pos h]
        exact fun h2 => by cases h2
      · rw [if_neg h]
        exact Or.inr (Or.inr ⟨by omega, rfl, rfl, rfl⟩)
    · exact post_ok (Or.inl (frame_refl m))

theorem push_post (m : Machine) (nnn : Nat) :
    Post NoIndexErr (StackStep m) (do
      let (_, r) ← liftRes (m.cpu.regs.push m.cpu.regs.pc)
      pure (m.setRegs { r with pc := nnn })) := by
  unfold Chip8Registers.push
  by_cases h : m.cpu.regs.sp ≥ 16
  · rw [if_pos h]
    exact fun h2 => by cases h2
  · rw [if_neg h]
    refine Or.inr (Or.inl ⟨by omega, ?_, _, rfl⟩)
    show u8 (m.cpu.regs.sp + 1) = m.cpu.regs.sp + 1
    exact Nat.mod_eq_of_lt (by omega)

theorem dispatch_post (m : Machine) (host : Host) (op : Nat) :
    Post NoIndexErr (StackStep m) (Exec.dispatch m host op) := by
  have hx : (op &&& 0x0F00) >>> 8 < 16 := by rw [nibble2_eq]; omega
  have hy : (op &&& 0x00F0) >>> 4 < 16 := by rw [nibble3_eq]; omega
  have fr : ∀ {r : Except Err Machine}, Post NoIndexErr (Frame m) r →
      Post NoIndexErr (StackStep m) r := fun h => post_mono h (fun _ h1 => Or.inl h1)
  unfold Exec.dispatch
  dsimp only
  split
  · exact case0_post m op
  · exact post_ok (Or.inl ⟨rfl, rfl⟩)
  · exact push_post m _
  · refine fr (post_bind (V_post _ _ hx) (fun vx _ => ?_))
    split
    · exact post_ok (frame_skip m m (frame_refl m))
    · exact post_ok (frame_refl m)
  · refine fr (post_bind (V_post _ _ hx) (fun vx _ => ?_))
    split
    · exact post_ok (frame_skip m m (frame_refl m))
    · exact post_ok (frame_refl m)
  · exact fr (case5_post m _ _ _ hx hy)
  · exact fr (assignV_post m m _ _ (frame_refl m) hx)
  · exact fr (post_bind (V_post _ _ hx) (fun vx _ => assignV_post m m _ _ (frame_refl m) hx))
  · exact fr (case8_post m _ _ _ hx hy)
  · split
    · refine fr (post_bind (V_post _ _ hx) (fun vx _ => ?_))
      refine post_bind (V_post _ _ hy) (fun vy _ => ?_)
      split
      · exact post_ok (frame_skip m m (frame_refl m))
      · exact post_ok (frame_refl m)
    · exact post_ok (Or.inl (frame_refl m))
  · exact post_ok (Or.inl ⟨rfl, rfl⟩)
  · split
    · exact fr (post_bind (V_post _ _ hx) (fun v _ => post_ok ⟨rfl, rfl⟩))
    · exact fr (post_bind (V_post _ _ (by decide)) (fun v _ => post_ok ⟨rfl, rfl⟩))
  · exact fr (assignV_post m m _ _ (frame_refl m) hx)
  · exact fr (caseD_post m host _ _ _ hx hy)
  · exact fr (caseE_post m _ _ hx)
  · exact fr (caseF_post m _ _ hx)
  · exact post_ok (Or.inl (frame_refl m))

theorem executeOpcode_post (m : Machine) (host : Host) (op : Nat) :
    Post NoIndexErr (StackStep m) (m.executeOpcode host op) := by
  unfold Machine.executeOpcode
  cases h : Exec.extended m op with
  | some r => exact post_mono (extended_post m op r h) (fun _ h1 => Or.inl h1)
  | none => exact dispatch_post m host op

theorem fetchOpcode_post (m : Machine) :
    Post NoIndexErr (fun _ => True) m.fetchOpcode := by
  unfold Machine.fetchOpcode
  refine post_bind (read_post _ _) (fun hi _ => ?_)
  refine post_bind (read_post _ _) (fun lo _ => ?_)
  trivial

theorem stackStep_of_skip (m m1 : Machine) (h : StackStep m.skip m1) :
    StackStep m m1.updateBuzzer := by
  unfold StackStep Frame at *
  rw [updateBuzzer_regs]
  exact h

theorem step_post (m : Machine) (host : Host) :
    Post NoIndexErr (StackStep m) (m.step host) := by
  unfold Machine.step
  refine post_bind (fetchOpcode_post m) (fun op _ => ?_)
  refine post_bind (executeOpcode_post m.skip host op) (fun m1 h1 => ?_)
  exact stackStep_of_skip m m1 h1

/-- C18: for every machine state (any variant, any quirks) and every opcode, neither
`executeOpcode` nor `step` throws the register-index exception; the indices decoded
from the opcode and the loop indices of `FX55`, `FX65`, `FX75`, `FX85` are at most 15. -/
theorem no_register_index_error (m : Machine) (host : Host) (op : Nat) :
    m.executeOpcode host op ≠ .error .registerIndex ∧
    m.step host ≠ .error .registerIndex ∧
    (op &&& 0x0F00) >>> 8 ≤ 15 ∧ (op &&& 0x00F0) >>> 4 ≤ 15 ∧
    (∀ i ∈ upTo 0 ((op &&& 0x0F00) >>> 8 + 1), i ≤ 15) := by
  have hx : (op &&& 0x0F00) >>> 8 < 16 := by rw [nibble2_eq]; omega
  have hy : (op &&& 0x00F0) >>> 4 < 16 := by rw [nibble3_eq]; omega
  refine ⟨?_, ?_, by omega, by omega, fun i hi => ?_⟩
  · intro h
    have := executeOpcode_post m host op
    rw [h] at this
    exact this rfl
  · intro h
    have := step_post m host
    rw [h] at this
    exact this rfl
  · have := upTo_regs_lt _ hx i hi
    omega


theorem stackOk_step (m m1 : Machine) (h : StackOk m) (hs : StackStep m m1) : StackOk m1 := by
  unfold StackOk at *
  rcases hs with hf | hp | hq
  · rw [hf.1, hf.2]; exact h
  · obtain ⟨h16, hsp, v, hst⟩ := hp
    rw [hsp, hst, List.length_set]
    exact ⟨by omega, h.2⟩
  · obtain ⟨h0, hsp, hst, _⟩ := hq
    rw [hsp, hst]
    exact ⟨by omega, h.2⟩

theorem stackOk_apply (m m1 : Machine) (e : Event) (h : StackOk m)
    (ha : m.apply e = .ok m1) : StackOk m1 := by
  cases e with
  | step host =>
    have hp := step_post m host
    have ha2 : m.step host = .ok m1 := ha
    rw [ha2] at hp
    exact stackOk_step m m1 h hp
  | key k pressed =>
    cases ha
    exact h
  | tick =>
    cases ha
    exact h

theorem stackOk_run (events : List Event) (m m1 : Machine) (h : StackOk m)
    (hr : m.run events = .ok m1) : StackOk m1 := by
  induction events generalizing m with
  | nil => cases hr; exact h
  | cons e es ih =>
    unfold Machine.run at hr
    cases ha : m.apply e with
    | error err => rw [ha] at hr; cases hr
    | ok m2 =>
      rw [ha] at hr
      exact ih m2 (stackOk_apply m m2 e h ha) hr

theorem stackOk_boot (variant : Variant) (q : Quirks) (rom : List Nat) (st : Statics)
    (m0 : Machine) (hb : Machine.boot variant q rom st = .ok m0) : StackOk m0 := by
  unfold Machine.boot at hb
  dsimp only at hb
  cases hl : liftRes (((Chip8CPU.init variant).setQuirks q).mem.loadROM rom) with
  | error err => rw [hl] at hb; cases hb
  | ok p =>
    rw [hl] at hb
    cases hb
    exact ⟨Nat.zero_le 16, rfl⟩

/-- C17: in every state reached from a freshly constructed interpreter (any variant,
any quirks, any accepted ROM) by steps, key events and timer ticks, the stack pointer
is at most 16 and the stack has its 16 cells; a successful step from such a state leaves
the stack alone, or writes it at index `SP < 16` (a push), or reads it at index `SP - 1`
with `SP > 0` (a pop). -/
theorem stack_pointer_bounded (variant : Variant) (q : Quirks) (rom : List Nat) (st : Statics)
    (events : List Event) (m0 m : Machine)
    (hboot : Machine.boot variant q rom st = .ok m0) (hrun : m0.run events = .ok m) :
    m.cpu.regs.sp ≤ 16 ∧ m.cpu.regs.stack.length = 16 ∧
    ∀ host m1, m.step host = .ok m1 → StackStep m m1 := by
  have h := stackOk_run events m0 m (stackOk_boot variant q rom st m0 hboot) hrun
  refine ⟨h.1, h.2, fun host m1 hs => ?_⟩
  have hp := step_post m host
  rw [hs] at hp
  exact hp

theorem boot_of_fits (variant : Variant) (q : Quirks) (rom : List Nat) (st : Statics)
    (hfit : rom.length + 0x200 ≤ Chip8CPU.memorySize variant) :
    Machine.boot variant q rom st =
      .ok { cpu := { (Chip8CPU.init variant).setQuirks q with
                     mem := ⟨copyInto (Chip8Memory.init (Chip8CPU.memorySize variant)).memory
                       0x200 rom⟩ },
            st := st } := by
  unfold Machine.boot
  dsimp only
  have e : ((Chip8CPU.init variant).setQuirks q).mem
      = Chip8Memory.init (Chip8CPU.memorySize variant) := rfl
  rw [e, loadROM_of_fits _ _ (by rw [init_length]; exact hfit)]
  rfl

theorem run_cons_ok (m m1 : Machine) (e : Event) (es : List Event)
    (h : m.apply e = .ok m1) : m.run (e :: es) = m1.run es := by
  show (m.apply e >>= fun m2 => m2.run es) = _
  rw [h]
  rfl

/-- A booted machine whose ROM starts with `6XNN` runs one step, a key event and a
timer tick without an exception. -/
theorem booted_run (variant : Variant) (q : Quirks) (st : Statics) (mem : Chip8Memory)
    (X NN : Nat) (hX : X < 16) (hNN : NN < 256)
    (hmem : 0x200 + 1 < mem.memory.length)
    (b0 : mem.memory.getD 0x200 0 = 0x60 + X) (b1 : mem.memory.getD (0x200 + 1) 0 = NN) :
    ∃ m, Machine.run { cpu := { (Chip8CPU.init variant).setQuirks q with mem := mem }, st := st }
      [Event.step idleHost, Event.key 3 true, Event.tick] = .ok m := by
  obtain ⟨m1, hs, -⟩ := step_6XNN
    { cpu := { (Chip8CPU.init variant).setQuirks q with mem := mem }, st := st }
    idleHost X NN hX hNN (show 0x200 + 1 < 65536 by decide) hmem b0 b1
  rw [run_cons_ok _ m1 (Event.step idleHost) _ hs]
  exact ⟨_, rfl⟩

/-- Instance of `stack_pointer_bounded`: a CHIP8 interpreter booted with the ROM
`6A F0`, after one step, a key press and a timer tick. -/
theorem stack_pointer_bounded_witness :
    ∃ m0 m, Machine.boot Variant.CHIP8 {} [0x6A, 0xF0] Statics.init = .ok m0 ∧
      m0.run [Event.step idleHost, Event.key 3 true, Event.tick] = .ok m ∧
      m.cpu.regs.sp ≤ 16 ∧ m.cpu.regs.stack.length = 16 ∧
      ∀ host m1, m.step host = .ok m1 → StackStep m m1 := by
  have hb := boot_of_fits Variant.CHIP8 {} [0x6A, 0xF0] Statics.init (by decide)
  have hfit : 0x200 + [0x6A, 0xF0].length
      ≤ (Chip8Memory.init (Chip8CPU.memorySize Variant.CHIP8)).memory.length := by
    rw [init_length]; decide
  have hlen : 0x200 + 1 < (copyInto (Chip8Memory.init (Chip8CPU.memorySize Variant.CHIP8)).memory
      0x200 [0x6A, 0xF0]).length := by
    rw [copyInto_length _ _ _ hfit, init_length]; decide
  have b0 : (copyInto (Chip8Memory.init (Chip8CPU.memorySize Variant.CHIP8)).memory
      0x200 [0x6A, 0xF0]).getD 0x200 0 = 0x60 + 10 := by
    rw [List.getD_eq_getElem?_getD, copyInto_getElem?_inside _ _ 0x200 0 hfit (by decide)]; rfl
  have b1 : (copyInto (Chip8Memory.init (Chip8CPU.memorySize Variant.CHIP8)).memory
      0x200 [0x6A, 0xF0]).getD (0x200 + 1) 0 = 0xF0 := by
    rw [List.getD_eq_getElem?_getD, copyInto_getElem?_inside _ _ 0x200 1 hfit (by decide)]; rfl
  obtain ⟨m, hr⟩ := booted_run Variant.CHIP8 {} Statics.init
    ⟨copyInto (Chip8Memory.init (Chip8CPU.memorySize Variant.CHIP8)).memory 0x200 [0x6A, 0xF0]⟩
    10 0xF0 (by decide) (by decide) hlen b0 b1
  exact ⟨_, m, hb, hr, stack_pointer_bounded _ _ _ _ _ _ m hb hr⟩

/-! ## Bounds checks of memory accesses -/

theorem read_fails (mem : Chip8Memory) (a : Nat) (h : mem.memory.length ≤ u16 a) :
    mem.read a = .error .memoryRead := by
  unfold Chip8Memory.read
  dsimp only
  rw [if_pos h]

theorem read_ok (mem : Chip8Memory) (a : Nat) (h : ¬ mem.memory.length ≤ u16 a) :
    mem.read a = .ok (mem.memory.getD (u16 a) 0) := by
  unfold Chip8Memory.read
  dsimp only
  rw [if_neg h]

theorem write_fails (mem : Chip8Memory) (a v : Nat) (h : mem.memory.length ≤ u16 a) :
    mem.write a v = (.error .memoryWrite, mem) := by
  unfold Chip8Memory.write
  dsimp only
  rw [if_pos h]

theorem write_ok (mem : Chip8Memory) (a v : Nat) (h : ¬ mem.memory.length ≤ u16 a) :
    mem.write a v = (.ok (), ⟨mem.memory.set (u16 a) (u8 v)⟩) := by
  unfold Chip8Memory.write
  dsimp only
  rw [if_neg h]

theorem storeRegs_fails (regs : Chip8Registers) (l : List Nat) (hl : ∀ i ∈ l, i < 16)
    (j : Nat) (hj : j ∈ l) (mem : Chip8Memory)
    (hbad : mem.memory.length ≤ u16 (regs.i + j)) :
    Exec.storeRegs regs l mem = .error .memoryWrite := by
  induction l generalizing mem with
  | nil => cases hj
  | cons i rest ih =>
    unfold Exec.storeRegs
    rw [V_of_lt regs (hl i (List.mem_cons_self i rest))]
    by_cases hb : mem.memory.length ≤ u16 (regs.i + i)
    · show (liftRes (mem.write (regs.i + i) _) >>= _) = _
      rw [write_fails _ _ _ hb]
      rfl
    · have hjr : j ∈ rest := by
        rcases List.mem_cons.mp hj with h | h
        · subst h; exact absurd hbad hb
        · exact h
      show (liftRes (mem.write (regs.i + i) _) >>= _) = _
      rw [write_ok _ _ _ hb]
      exact ih (fun k hk => hl k (List.mem_cons_of_mem i hk)) hjr _
        (by show (mem.memory.set _ _).length ≤ _; rw [List.length_set]; exact hbad)

theorem loadRegs_fails (mem : Chip8Memory) (l : List Nat) (hl : ∀ i ∈ l, i < 16)
    (j : Nat) (hj : j ∈ l) (regs : Chip8Registers)
    (hbad : mem.memory.length ≤ u16 (regs.i + j)) :
    Exec.loadRegs mem l regs = .error .memoryRead := by
  induction l generalizing regs with
  | nil => cases hj
  | cons i rest ih =>
    unfold Exec.loadRegs
    by_cases hb : mem.memory.length ≤ u16 (regs.i + i)
    · rw [read_fails _ _ hb]
      rfl
    · have hjr : j ∈ rest := by
        rcases List.mem_cons.mp hj with h | h
        · subst h; exact absurd hbad hb
        · exact h
      have hi := hl i (List.mem_cons_self i rest)
      rw [read_ok _ _ hb]
      show (liftRes (regs.setV i _) >>= _) = _
      unfold Chip8Registers.setV
      rw [if_neg (by omega)]
      exact ih (fun k hk => hl k (List.mem_cons_of_mem i hk)) hjr _ hbad

theorem smallSpriteRows_fails (mem : Chip8Memory) (i w h startX startY : Nat) (l : List Nat)
    (j : Nat) (hj : j ∈ l) (acc : Bool × Chip8Display)
    (hbad : mem.memory.length ≤ u16 (i + j)) :
    Exec.smallSpriteRows mem i w h startX startY l acc = .error .memoryRead := by
  induction l generalizing acc with
  | nil => cases hj
  | cons row rows ih =>
    unfold Exec.smallSpriteRows
    by_cases hb : mem.memory.length ≤ u16 (i + row)
    · rw [read_fails _ _ hb]
      rfl
    · have hjr : j ∈ rows := by
        rcases List.mem_cons.mp hj with h | h
        · subst h; exact absurd hbad hb
        · exact h
      rw [read_ok _ _ hb]
      exact ih hjr _

theorem bigSpriteRows_fails (mem : Chip8Memory) (i vx vy : Nat) (l : List Nat)
    (j : Nat) (hj : j ∈ l) (acc : Bool × Chip8Display)
    (hbad : mem.memory.length ≤ u16 (i + j * 2) ∨ mem.memory.length ≤ u16 (i + j * 2 + 1)) :
    Exec.bigSpriteRows mem i vx vy l acc = .error .memoryRead := by
  induction l generalizing acc with
  | nil => cases hj
  | cons row rows ih =>
    unfold Exec.bigSpriteRows
    by_cases hb : mem.memory.length ≤ u16 (i + row * 2)
    · rw [read_fails _ _ hb]
      rfl
    · rw [read_ok _ _ hb]
      by_cases hb2 : mem.memory.length ≤ u16 (i + row * 2 + 1)
      · show (mem.read (i + row * 2 + 1) >>= _) = _
        rw [read_fails _ _ hb2]
        rfl
      · have hjr : j ∈ rows := by
          rcases List.mem_cons.mp hj with h | h
          · subst h; rcases hbad with h1 | h1
            · exact absurd h1 hb
            · exact absurd h1 hb2
          · exact h
        show (mem.read (i + row * 2 + 1) >>= _) = _
        rw [read_ok _ _ hb2]
        exact ih hjr _

theorem storeBcd_fails (m : Machine) (x : Nat) (hx : x < 16) (k : Nat) (hk : k ≤ 2)
    (hbad : m.cpu.mem.memory.length ≤ u16 (m.cpu.regs.i + k)) :
    Exec.storeBcd m x = .error .memoryWrite := by
  unfold Exec.storeBcd
  rw [V_of_lt _ hx]
  by_cases h0 : m.cpu.mem.memory.length ≤ u16 m.cpu.regs.i
  · show (liftRes (m.cpu.mem.write m.cpu.regs.i _) >>= _) = _
    rw [write_fails _ _ _ h0]; rfl
  · show (liftRes (m.cpu.mem.write m.cpu.regs.i _) >>= _) = _
    rw [write_ok _ _ _ h0]
    by_cases h1 : m.cpu.mem.memory.length ≤ u16 (m.cpu.regs.i + 1)
    · show (liftRes (Chip8Memory.write _ (m.cpu.regs.i + 1) _) >>= _) = _
      rw [write_fails _ _ _ (by show (List.set _ _ _).length ≤ _; rw [List.length_set]; exact h1)]
      rfl
    · show (liftRes (Chip8Memory.write _ (m.cpu.regs.i + 1) _) >>= _) = _
      rw [write_ok _ _ _ (by show ¬ (List.set _ _ _).length ≤ _; rw [List.length_set]; exact h1)]
      have h2 : m.cpu.mem.memory.length ≤ u16 (m.cpu.regs.i + 2) := by
        have : k = 0 ∨ k = 1 ∨ k = 2 := by omega
        rcases this with h | h | h
        · subst h; exact absurd hbad h0
        · subst h; exact absurd hbad h1
        · subst h; exact hbad
      show (liftRes (Chip8Memory.write _ (m.cpu.regs.i + 2) _) >>= _) = _
      rw [write_fails _ _ _ (by
        show (List.set _ _ _).length ≤ _; rw [List.length_set, List.length_set]; exact h2)]
      rfl

theorem first_bad (I size i : Nat) (hI : I < 65536) (hs : size < 65536) (h : size ≤ I + i) :
    ∃ j, j ≤ i ∧ size ≤ u16 (I + j) := by
  by_cases h0 : size ≤ I
  · exact ⟨0, Nat.zero_le i, by unfold u16; rw [Nat.add_zero, Nat.mod_eq_of_lt hI]; exact h0⟩
  · refine ⟨size - I, by omega, ?_⟩
    unfold u16
    rw [Nat.mod_eq_of_lt (by omega)]
    omega

theorem mem_upTo_of {a b i : Nat} (h1 : a ≤ i) (h2 : i < b) : i ∈ upTo a b := by
  unfold upTo
  rw [List.mem_range'_1]
  omega

theorem executeOpcode_familyF (m : Machine) (host : Host) (op : Nat)
    (h : op / 4096 % 16 = 15) :
    m.executeOpcode host op = Exec.caseF m (op / 256 % 16) (op % 256) := by
  unfold Machine.executeOpcode
  rw [extended_none m op (by omega) (by omega)]
  simp only [Exec.dispatch, nibble1_eq, nibble2_eq, low8_eq, h]

set_option maxRecDepth 100000 in
theorem maskF00F_D : ∀ X < 16, ∀ Y < 16, ∀ N < 16,
    (0xD000 + 0x100 * X + 0x10 * Y + N) &&& 0xF00F = 0xD000 + N := by decide

/-- `DXYN` with `N ≠ 0` falls through the extended block on every variant. -/
theorem extended_D_small (m : Machine) (op : Nat) (hD : op / 4096 % 16 = 13)
    (hn : op % 16 ≠ 0) : Exec.extended m op = none := by
  have a1 : op &&& 0xFFF0 ≠ 0x00C0 := fun h => by
    have := maskFFF0_family op; rw [h] at this; omega
  have a2 : op &&& 0xFFF0 ≠ 0x00FA := fun h => by
    have := maskFFF0_family op; rw [h] at this; omega
  have b1 : op ≠ 0x00FB := fun h => by subst h; omega
  have b2 : op ≠ 0x00FC := fun h => by subst h; omega
  have b3 : op ≠ 0x00FE := fun h => by subst h; omega
  have b4 : op ≠ 0x00FF := fun h => by subst h; omega
  have b5 : op ≠ 0x00FD := fun h => by subst h; omega
  have c : ¬ (op &&& 0xF00F = 0xD000 ∧ op &&& 0x000F = 0) := fun h => by
    rw [nibble4_eq] at h; exact hn h.2
  unfold Exec.extended
  simp only [a1, a2, b1, b2, b3, b4, b5, c, if_false, ite_self]

theorem executeOpcode_familyD (m : Machine) (host : Host) (op : Nat)
    (h : op / 4096 % 16 = 13) (hn : op % 16 ≠ 0) :
    m.executeOpcode host op
      = Exec.caseD m host (op / 256 % 16) (op / 16 % 16) (op % 16) := by
  unfold Machine.executeOpcode
  rw [extended_D_small m op h hn]
  simp only [Exec.dispatch, nibble1_eq, nibble2_eq, nibble3_eq, nibble4_eq, h]

theorem step_of_exec_error (m : Machine) (host : Host) (op : Nat) (e : Err)
    (hf : m.fetchOpcode = .ok op) (he : m.skip.executeOpcode host op = .error e) :
    m.step host = .error e := by
  unfold Machine.step
  rw [hf]
  show (m.skip.executeOpcode host op >>= _) = _
  rw [he]
  rfl

theorem step_fetch_fails (m : Machine) (host : Host) (k : Nat) (hk : k ≤ 1)
    (hbad : m.cpu.mem.memory.length ≤ u16 (m.cpu.regs.pc + k)) :
    m.step host = .error .memoryRead := by
  have hf : m.fetchOpcode = .error .memoryRead := by
    unfold Machine.fetchOpcode
    dsimp only
    by_cases h0 : m.cpu.mem.memory.length ≤ u16 m.cpu.regs.pc
    · rw [read_fails _ _ h0]; rfl
    · rw [read_ok _ _ h0]
      have h1 : m.cpu.mem.memory.length ≤ u16 (m.cpu.regs.pc + 1) := by
        have : k = 0 ∨ k = 1 := by omega
        rcases this with h | h
        · subst h; exact absurd hbad h0
        · subst h; exact hbad
      show (m.cpu.mem.read (m.cpu.regs.pc + 1) >>= _) = _
      rw [read_fails _ _ h1]; rfl
  unfold Machine.step
  rw [hf]
  rfl

theorem caseD_small_fails (m : Machine) (host : Host) (x y n : Nat) (hx : x < 16) (hy : y < 16)
    (hfe : host.frameElapsed = true)
    (hmode : m.cpu.mode = Variant.CHIP8 ∨ m.cpu.mode = Variant.SCHIP)
    (j : Nat) (hj : j < n) (hbad : m.cpu.mem.memory.length ≤ u16 (m.cpu.regs.i + j)) :
    Exec.caseD m host x y n = .error .memoryRead := by
  have hmem : j ∈ upTo 0 n := mem_upTo_of (Nat.zero_le j) hj
  unfold Exec.caseD
  rw [V_of_lt _ hx, V_of_lt _ hy]
  simp only [hfe, bind, Except.bind, Bool.not_true, Bool.false_eq_true, if_false]
  by_cases hc : m.cpu.mode = Variant.CHIP8
  · rw [if_pos hc, smallSpriteRows_fails _ _ _ _ _ _ _ j hmem _ hbad]
  · have hs : m.cpu.mode = Variant.SCHIP := hmode.resolve_left hc
    rw [if_neg hc, if_pos hs, smallSpriteRows_fails _ _ _ _ _ _ _ j hmem _ hbad]

theorem extended_D_big (m : Machine) (op : Nat) (X Y : Nat) (hX : X < 16) (hY : Y < 16)
    (hop : op = 0xD000 + 0x100 * X + 0x10 * Y)
    (hmode : m.cpu.mode = Variant.SCHIP ∨ m.cpu.mode = Variant.XOCHIP) :
    Exec.extended m op = some (do
      let vx ← m.cpu.regs.V X
      let vy ← m.cpu.regs.V Y
      let r ← Exec.bigSpriteRows m.cpu.mem m.cpu.regs.i vx vy (upTo 0 16) (false, m.cpu.disp)
      (m.setDisp r.2).assignV 0xF (if r.1 then 1 else 0)) := by
  have hfam : op / 4096 % 16 = 13 := by omega
  have a1 : op &&& 0xFFF0 ≠ 0x00C0 := fun h => by
    have := maskFFF0_family op; rw [h] at this; omega
  have a2 : op &&& 0xFFF0 ≠ 0x00FA := fun h => by
    have := maskFFF0_family op; rw [h] at this; omega
  have b1 : op ≠ 0x00FB := fun h => by omega
  have b2 : op ≠ 0x00FC := fun h => by omega
  have b3 : op ≠ 0x00FE := fun h => by omega
  have b4 : op ≠ 0x00FF := fun h => by omega
  have b5 : op ≠ 0x00FD := fun h => by omega
  have c : op &&& 0xF00F = 0xD000 ∧ op &&& 0x000F = 0 := by
    have := maskF00F_D X hX Y hY 0 (by decide)
    rw [Nat.add_zero] at this
    rw [nibble4_eq, hop]
    exact ⟨this, by omega⟩
  have ex : op / 256 % 16 = X := by omega
  have ey : op / 16 % 16 = Y := by omega
  unfold Exec.extended
  simp only [a1, a2, b1, b2, b3, b4, b5, c, hmode, if_false, if_true, and_self, nibble2_eq,
    nibble3_eq, ex, ey]

theorem bigSprite_fails (m : Machine) (host : Host) (op : Nat) (X Y : Nat) (hX : X < 16)
    (hY : Y < 16) (hop : op = 0xD000 + 0x100 * X + 0x10 * Y)
    (hmode : m.cpu.mode = Variant.SCHIP ∨ m.cpu.mode = Variant.XOCHIP)
    (k : Nat) (hk : k < 32) (hbad : m.cpu.mem.memory.length ≤ u16 (m.cpu.regs.i + k)) :
    m.executeOpcode host op = .error .memoryRead := by
  unfold Machine.executeOpcode
  rw [extended_D_big m op X Y hX hY hop hmode]
  show (m.cpu.regs.V X >>= _) = _
  rw [V_of_lt _ hX]
  show (m.cpu.regs.V Y >>= _) = _
  rw [V_of_lt _ hY]
  show (Exec.bigSpriteRows _ _ _ _ _ _ >>= _) = _
  rw [bigSpriteRows_fails _ _ _ _ _ (k / 2) (mem_upTo_of (Nat.zero_le _) (by omega)) _ (by
    have h2 : k = k / 2 * 2 ∨ k = k / 2 * 2 + 1 := by omega
    rcases h2 with h | h
    · left; rw [← h]; exact hbad
    · right; rw [Nat.add_assoc, ← h]; exact hbad)]
  rfl

theorem executeOpcode_zero (m : Machine) (host : Host) : m.executeOpcode host 0 = .ok m := by
  have e : Exec.extended m 0 = none := by
    unfold Exec.extended
    by_cases h : m.cpu.mode = Variant.SCHIP ∨ m.cpu.mode = Variant.XOCHIP
    · rw [if_pos h]; rfl
    · rw [if_neg h]
  unfold Machine.executeOpcode
  rw [e]
  rfl

/-- A fetch at the last byte of a 65536-byte memory takes its low byte from
address 0. -/
theorem step_wraps (m : Machine) (host : Host) (hpc : m.cpu.regs.pc = 0xFFFF)
    (hlen : m.cpu.mem.memory.length = 65536)
    (h0 : m.cpu.mem.memory.getD 0 0 = 0) (hF : m.cpu.mem.memory.getD 0xFFFF 0 = 0) :
    m.step host = .ok m.skip.updateBuzzer := by
  have e1 : u16 0xFFFF = 0xFFFF := by decide
  have e2 : u16 (0xFFFF + 1) = 0 := by decide
  have hf : m.fetchOpcode = .ok 0 := by
    unfold Machine.fetchOpcode
    dsimp only
    rw [hpc, read_ok _ _ (by rw [e1, hlen]; decide), read_ok _ _ (by rw [e2, hlen]; decide),
      e1, e2, h0, hF]
    rfl
  unfold Machine.step
  rw [hf]
  show (m.skip.executeOpcode host 0 >>= _) = _
  rw [executeOpcode_zero]
  rfl

/-- C13 (amended): on a memory of fewer than 65536 bytes (the CHIP8 and SCHIP sizes),
with 16-bit `PC` and `I`: whenever the address of a checked access, taken as an unbounded
integer, is `>= size`, `step()` throws the out-of-range exception of `read` or `write`.
The checked accesses are the fetch (`PC`, `PC + 1`), `FX33` (`I + k`, `k <= 2`), `FX55`
and `FX65` (`I + i`, `i <= X`), a performed `DXYN` with `N >= 1` in CHIP8 or SCHIP mode
(`I + row`, `row < N`) and the 16x16 sprite form (`I + k`, `k < 32`). -/
theorem access_checked_below_64k (m : Machine) (host : Host)
    (hsize : m.cpu.mem.size < 65536) (hI : m.cpu.regs.i < 65536)
    (hpc : m.cpu.regs.pc < 65536) :
    (m.cpu.mem.size ≤ m.cpu.regs.pc + 1 → m.step host = .error .memoryRead) ∧
    (∀ op X, m.fetchOpcode = .ok op → X < 16 →
      (op = 0xF033 + 0x100 * X → ∀ k, k ≤ 2 → m.cpu.mem.size ≤ m.cpu.regs.i + k →
        m.step host = .error .memoryWrite) ∧
      (op = 0xF055 + 0x100 * X → ∀ i, i ≤ X → m.cpu.mem.size ≤ m.cpu.regs.i + i →
        m.step host = .error .memoryWrite) ∧
      (op = 0xF065 + 0x100 * X → ∀ i, i ≤ X → m.cpu.mem.size ≤ m.cpu.regs.i + i →
        m.step host = .error .memoryRead) ∧
      (∀ Y N, Y < 16 → N < 16 → op = 0xD000 + 0x100 * X + 0x10 * Y + N →
        (1 ≤ N → host.frameElapsed = true →
          m.cpu.mode = Variant.CHIP8 ∨ m.cpu.mode = Variant.SCHIP →
          ∀ row, row < N → m.cpu.mem.size ≤ m.cpu.regs.i + row →
          m.step host = .error .memoryRead) ∧
        (N = 0 → m.cpu.mode = Variant.SCHIP ∨ m.cpu.mode = Variant.XOCHIP →
          ∀ k, k < 32 → m.cpu.mem.size ≤ m.cpu.regs.i + k →
          m.step host = .error .memoryRead))) := by
  have hsz : m.cpu.mem.memory.length < 65536 := hsize
  constructor
  · intro h
    obtain ⟨j, hj, hb⟩ := first_bad _ _ 1 hpc hsz h
    exact step_fetch_fails m host j hj hb
  · intro op X hf hX
    refine ⟨?_, ?_, ?_, ?_⟩
    · intro hop k hk hbad
      obtain ⟨j, hj, hb⟩ := first_bad _ _ k hI hsz hbad
      refine step_of_exec_error m host op _ hf ?_
      rw [executeOpcode_familyF _ _ _ (by omega)]
      have ex : op / 256 % 16 = X := by omega
      have en : op % 256 = 0x33 := by omega
      rw [ex, en]
      exact storeBcd_fails m.skip X hX j (by omega) hb
    · intro hop i hi hbad
      obtain ⟨j, hj, hb⟩ := first_bad _ _ i hI hsz hbad
      refine step_of_exec_error m host op _ hf ?_
      rw [executeOpcode_familyF _ _ _ (by omega)]
      have ex : op / 256 % 16 = X := by omega
      have en : op % 256 = 0x55 := by omega
      rw [ex, en]
      show (Exec.storeRegs m.skip.cpu.regs (upTo 0 (X + 1)) m.skip.cpu.mem >>= _) = _
      rw [storeRegs_fails m.skip.cpu.regs _ (upTo_regs_lt X hX) j
        (mem_upTo_of (Nat.zero_le j) (by omega)) m.skip.cpu.mem hb]
      rfl
    · intro hop i hi hbad
      obtain ⟨j, hj, hb⟩ := first_bad _ _ i hI hsz hbad
      refine step_of_exec_error m host op _ hf ?_
      rw [executeOpcode_familyF _ _ _ (by omega)]
      have ex : op / 256 % 16 = X := by omega
      have en : op % 256 = 0x65 := by omega
      rw [ex, en]
      show (Exec.loadRegs m.skip.cpu.mem (upTo 0 (X + 1)) m.skip.cpu.regs >>= _) = _
      rw [loadRegs_fails m.skip.cpu.mem _ (upTo_regs_lt X hX) j
        (mem_upTo_of (Nat.zero_le j) (by omega)) m.skip.cpu.regs hb]
      rfl
    · intro Y N hY hN hop
      constructor
      · intro hN1 hfe hmode row hrow hbad
        obtain ⟨j, hj, hb⟩ := first_bad _ _ row hI hsz hbad
        refine step_of_exec_error m host op _ hf ?_
        rw [executeOpcode_familyD _ _ _ (by omega) (by omega)]
        have ex : op / 256 % 16 = X := by omega
        have ey : op / 16 % 16 = Y := by omega
        have en : op % 16 = N := by omega
        rw [ex, ey, en]
        exact caseD_small_fails m.skip host X Y N hX hY hfe hmode j (by omega) hb
      · intro hN0 hmode k hk hbad
        obtain ⟨j, hj, hb⟩ := first_bad _ _ k hI hsz hbad
        refine step_of_exec_error m host op _ hf ?_
        exact bigSprite_fails m.skip host op X Y hX hY (by omega) hmode j (by omega) hb

/-- C13 fails as stated: on a fresh XO-CHIP interpreter with `PC = 0xFFFF` the fetch
address `PC + 1 = 65536` is `>= size`, yet `step()` succeeds: the 16-bit address
parameter of `read` wraps to 0. -/
theorem fetch_wraps_on_xochip :
    (machineAt Variant.XOCHIP 0xFFFF 0).cpu.mem.size
      ≤ (machineAt Variant.XOCHIP 0xFFFF 0).cpu.regs.pc + 1 ∧
    ∃ m1, (machineAt Variant.XOCHIP 0xFFFF 0).step idleHost = .ok m1 ∧
      m1.cpu.regs.pc = 1 := by
  have hms : Chip8CPU.memorySize Variant.XOCHIP = 65536 := by decide
  have hmem : (machineAt Variant.XOCHIP 0xFFFF 0).cpu.mem
      = Chip8Memory.init (Chip8CPU.memorySize Variant.XOCHIP) := by
    unfold machineAt Chip8CPU.init
    dsimp only
  rw [hms] at hmem
  have hlen : (machineAt Variant.XOCHIP 0xFFFF 0).cpu.mem.memory.length = 65536 := by
    rw [hmem, init_length]
  have hz := (init_getElem? 65536 (by decide)).2
  have h0 : (machineAt Variant.XOCHIP 0xFFFF 0).cpu.mem.memory.getD 0 0 = 0 := by
    rw [hmem, List.getD_eq_getElem?_getD, hz 0 (by decide) (by decide)]; rfl
  have hF : (machineAt Variant.XOCHIP 0xFFFF 0).cpu.mem.memory.getD 0xFFFF 0 = 0 := by
    rw [hmem, List.getD_eq_getElem?_getD, hz 0xFFFF (by decide) (by decide)]; rfl
  refine ⟨?_, _, step_wraps _ idleHost rfl hlen h0 hF, ?_⟩
  · show (machineAt Variant.XOCHIP 0xFFFF 0).cpu.mem.memory.length ≤ _
    rw [hlen]
    exact Nat.le_refl _
  · rw [updateBuzzer_regs]
    rfl

/-- Instance of `access_checked_below_64k`: a fresh CHIP8 interpreter with
`PC = 0xFFF` fails its fetch. -/
theorem access_checked_below_64k_witness :
    (machineAt Variant.CHIP8 0xFFF 0).cpu.mem.size < 65536 ∧
    (machineAt Variant.CHIP8 0xFFF 0).cpu.regs.i < 65536 ∧
    (machineAt Variant.CHIP8 0xFFF 0).cpu.regs.pc < 65536 ∧
    (machineAt Variant.CHIP8 0xFFF 0).cpu.mem.size
      ≤ (machineAt Variant.CHIP8 0xFFF 0).cpu.regs.pc + 1 ∧
    (machineAt Variant.CHIP8 0xFFF 0).step idleHost = .error .memoryRead := by
  have hms : Chip8CPU.memorySize Variant.CHIP8 = 4096 := by decide
  have hmem : (machineAt Variant.CHIP8 0xFFF 0).cpu.mem
      = Chip8Memory.init (Chip8CPU.memorySize Variant.CHIP8) := by
    unfold machineAt Chip8CPU.init
    dsimp only
  rw [hms] at hmem
  have hlen : (machineAt Variant.CHIP8 0xFFF 0).cpu.mem.size = 4096 := by
    show (machineAt Variant.CHIP8 0xFFF 0).cpu.mem.memory.length = 4096
    rw [hmem, init_length]
  have h1 : (machineAt Variant.CHIP8 0xFFF 0).cpu.mem.size < 65536 := by rw [hlen]; decide
  have h2 : (machineAt Variant.CHIP8 0xFFF 0).cpu.regs.i < 65536 := by decide
  have h3 : (machineAt Variant.CHIP8 0xFFF 0).cpu.regs.pc < 65536 := by decide
  have h4 : (machineAt Variant.CHIP8 0xFFF 0).cpu.mem.size
      ≤ (machineAt Variant.CHIP8 0xFFF 0).cpu.regs.pc + 1 := by rw [hlen]; decide
  exact ⟨h1, h2, h3, h4,
    (access_checked_below_64k (machineAt Variant.CHIP8 0xFFF 0) idleHost h1 h2 h3).1 h4⟩

/-! ## `DXYN` on the CHIP8 variant -/

theorem togglePixel_withFb (d : Chip8Display) (r : Bool × Framebuffer) (px py : Nat)
    (hx : px < d.width) (hy : py < d.height) :
    Exec.togglePixel (withFb d r) px py = withFb d (Toggle.step r ⟨py, px, 0, true⟩) := by
  have hw : ({ d with fb := r.2 } : Chip8Display).width = d.width := rfl
  have hh : ({ d with fb := r.2 } : Chip8Display).height = d.height := rfl
  have hc : ¬ ((px : Int) < 0 ∨ (px : Int) ≥ (d.width : Int) ∨ (py : Int) < 0 ∨
      (py : Int) ≥ (d.height : Int)) := by omega
  unfold Exec.togglePixel withFb Chip8Display.getPixel Chip8Display.setPixel Toggle.step
    Toggle.obs
  simp only [hw, hh, hc, if_false, Int.toNat_ofNat, if_true, Nat.shiftLeft_zero]

theorem foldl_withFb {α : Type} (l : List α)
    (body : Bool × Chip8Display → α → Bool × Chip8Display) (g : α → List Toggle)
    (d : Chip8Display)
    (h : ∀ r a, a ∈ l → body (withFb d r) a = withFb d (Toggle.run (g a) r))
    (r : Bool × Framebuffer) :
    l.foldl body (withFb d r) = withFb d (Toggle.run (l.flatMap g) r) := by
  induction l generalizing r with
  | nil => rfl
  | cons a rest ih =>
    rw [List.foldl_cons, h r a (List.mem_cons_self a rest), List.flatMap_cons, run_append]
    exact ih (fun r2 b hb => h r2 b (List.mem_cons_of_mem a hb)) _

theorem smallSpriteCol_withFb (d : Chip8Display) (startX py spriteByte : Nat)
    (hy : py < d.height) (r : Bool × Framebuffer) (col : Nat) :
    Exec.smallSpriteCol d.width startX py spriteByte (withFb d r) col
      = withFb d (Toggle.run (Exec.spriteColToggles d.width startX py spriteByte col) r) := by
  unfold Exec.smallSpriteCol Exec.spriteColToggles
  dsimp only
  by_cases h1 : startX + col ≥ d.width
  · rw [if_pos h1, if_pos h1]; rfl
  · rw [if_neg h1, if_neg h1]
    by_cases h2 : spriteByte &&& (0x80 >>> col) ≠ 0
    · rw [if_pos h2, if_pos h2, togglePixel_withFb d r _ _ (by omega) hy]
      rfl
    · rw [if_neg h2, if_neg h2]; rfl

theorem smallSpriteRows_withFb (mem : Chip8Memory) (i : Nat) (d : Chip8Display)
    (startX startY : Nat) (l : List Nat)
    (hread : ∀ row ∈ l, ¬ mem.memory.length ≤ u16 (i + row)) (r : Bool × Framebuffer) :
    Exec.smallSpriteRows mem i d.width d.height startX startY l (withFb d r)
      = .ok (withFb d (Toggle.run
          (l.flatMap (Exec.spriteRowToggles (fun row => mem.memory.getD (u16 (i + row)) 0)
            d.width d.height startX startY)) r)) := by
  induction l generalizing r with
  | nil => rfl
  | cons row rows ih =>
    unfold Exec.smallSpriteRows
    rw [read_ok _ _ (hread row (List.mem_cons_self row rows))]
    show Exec.smallSpriteRows mem i d.width d.height startX startY rows _ = _
    have hrow : (if startY + row ≥ d.height then withFb d r
        else (List.range 8).foldl (Exec.smallSpriteCol d.width startX (startY + row)
          (mem.memory.getD (u16 (i + row)) 0)) (withFb d r))
        = withFb d (Toggle.run (Exec.spriteRowToggles
            (fun row => mem.memory.getD (u16 (i + row)) 0) d.width d.height startX startY row)
            r) := by
      unfold Exec.spriteRowToggles
      by_cases hh : startY + row ≥ d.height
      · rw [if_pos hh, if_pos hh]; rfl
      · rw [if_neg hh, if_neg hh]
        exact foldl_withFb _ _ _ d
          (fun r2 col _ => smallSpriteCol_withFb d startX _ _ (by omega) r2 col) r
    rw [hrow, ih (fun k hk => hread k (List.mem_cons_of_mem row hk)), List.flatMap_cons,
      run_append]

theorem mem_spriteColToggles (w startX py spriteByte col : Nat) (t : Toggle) :
    t ∈ Exec.spriteColToggles w startX py spriteByte col ↔
      startX + col < w ∧ spriteByte &&& (0x80 >>> col) ≠ 0 ∧ t = ⟨py, startX + col, 0, true⟩ := by
  unfold Exec.spriteColToggles
  by_cases h1 : startX + col ≥ w
  · rw [if_pos h1]
    exact ⟨fun h => absurd h (List.not_mem_nil t), fun h => absurd h.1 (by omega)⟩
  · rw [if_neg h1]
    by_cases h2 : spriteByte &&& (0x80 >>> col) ≠ 0
    · rw [if_pos h2]
      exact ⟨fun h => ⟨by omega, h2, List.mem_singleton.mp h⟩,
        fun h => List.mem_singleton.mpr h.2.2⟩
    · rw [if_neg h2]
      exact ⟨fun h => absurd h (List.not_mem_nil t), fun h => absurd h.2.1 h2⟩

theorem mem_spriteRowToggles (bytes : Nat → Nat) (w h startX startY row : Nat) (t : Toggle) :
    t ∈ Exec.spriteRowToggles bytes w h startX startY row ↔
      startY + row < h ∧ ∃ col, col < 8 ∧ startX + col < w ∧
        bytes row &&& (0x80 >>> col) ≠ 0 ∧ t = ⟨startY + row, startX + col, 0, true⟩ := by
  unfold Exec.spriteRowToggles
  by_cases h1 : startY + row ≥ h
  · rw [if_pos h1]
    exact ⟨fun h => absurd h (List.not_mem_nil t), fun h => absurd h.1 (by omega)⟩
  · rw [if_neg h1, List.mem_flatMap]
    constructor
    · rintro ⟨col, hcol, ht⟩
      rw [mem_spriteColToggles] at ht
      exact ⟨by omega, col, List.mem_range.mp hcol, ht⟩
    · rintro ⟨_, col, hcol, ht⟩
      exact ⟨col, List.mem_range.mpr hcol, (mem_spriteColToggles _ _ _ _ _ _).mpr ht⟩

theorem pairwise_flatMap_of {α β : Type} (R : β → β → Prop) (l : List α) (f : α → List β)
    (h1 : ∀ a ∈ l, (f a).Pairwise R)
    (h2 : l.Pairwise (fun a b => ∀ x ∈ f a, ∀ y ∈ f b, R x y)) :
    (l.flatMap f).Pairwise R := by
  induction l with
  | nil => exact List.Pairwise.nil
  | cons a rest ih =>
    rw [List.flatMap_cons, List.pairwise_append]
    rw [List.pairwise_cons] at h2
    refine ⟨h1 a (List.mem_cons_self a rest),
      ih (fun b hb => h1 b (List.mem_cons_of_mem a hb)) h2.2, ?_⟩
    intro x hx y hy
    obtain ⟨b, hb, hyb⟩ := List.mem_flatMap.mp hy
    exact h2.1 b hb x hx y hyb

theorem pairwise_lt_upTo (a b : Nat) : (upTo a b).Pairwise (· < ·) := by
  unfold upTo
  exact List.pairwise_lt_range' a (b - a)

/-- Two toggles of the sprite loop flip different cells. -/
theorem spriteToggles_pairwise (bytes : Nat → Nat) (w h startX startY n : Nat) :
    ((upTo 0 n).flatMap (Exec.spriteRowToggles bytes w h startX startY)).Pairwise
      (fun t p => ¬ Toggle.same t p) := by
  refine pairwise_flatMap_of _ _ _ (fun row _ => ?_) ?_
  · unfold Exec.spriteRowToggles
    split
    · exact List.Pairwise.nil
    · refine pairwise_flatMap_of _ _ _ (fun col _ => ?_) ?_
      · unfold Exec.spriteColToggles
        split
        · exact List.Pairwise.nil
        · split
          · exact List.pairwise_singleton _ _
          · exact List.Pairwise.nil
      · refine List.Pairwise.imp ?_ (List.pairwise_lt_range 8)
        intro c1 c2 hlt t ht p hp hs
        rw [mem_spriteColToggles] at ht hp
        obtain ⟨_, _, rfl⟩ := ht
        obtain ⟨_, _, rfl⟩ := hp
        have := hs.2.1
        simp only at this
        omega
  · refine List.Pairwise.imp ?_ (pairwise_lt_upTo 0 n)
    intro r1 r2 hlt t ht p hp hs
    rw [mem_spriteRowToggles] at ht hp
    obtain ⟨_, c1, _, _, _, rfl⟩ := ht
    obtain ⟨_, c2, _, _, _, rfl⟩ := hp
    have := hs.1
    simp only at this
    omega

/-- For toggles that flip pairwise different bits, the collision flag of a run says
whether some toggle saw a set value in the array the run started from. -/
theorem run_flag_iff (w : Bool) (ts : List Toggle) (fb : Framebuffer) (h : WFfb fb)
    (hts : ∀ t ∈ ts, t.valid w) (hp : ts.Pairwise (fun t p => ¬ Toggle.same t p)) :
    (Toggle.run ts (false, fb)).1 = true ↔ ∃ t ∈ ts, t.obs fb ≠ 0 := by
  induction ts generalizing fb with
  | nil =>
    rw [run_nil]
    exact ⟨(fun h => by cases h), fun ⟨t, ht, _⟩ => absurd ht (List.not_mem_nil t)⟩
  | cons t rest ih =>
    rw [List.pairwise_cons] at hp
    have hv := hts t (List.mem_cons_self t rest)
    have hrest : ∀ p ∈ rest, p.valid w := fun p hp2 => hts p (List.mem_cons_of_mem t hp2)
    have hwf : WFfb (Toggle.step (false, fb) t).2 := step_fb_WF (false, fb) t h
    have hobs : ∀ p ∈ rest, p.obs (Toggle.step (false, fb) t).2 = p.obs fb :=
      fun p hp2 => obs_step_other w (false, fb) t p h hv (hrest p hp2) (hp.1 p hp2)
    rw [run_cons]
    have e : Toggle.step (false, fb) t
        = (decide (t.obs fb ≠ 0), (Toggle.step (false, fb) t).2) := by
      unfold Toggle.step
      simp only [Bool.false_or]
    rw [e, run_flag, Bool.or_eq_true, ih _ hwf hrest hp.2]
    constructor
    · rintro (h1 | ⟨p, hp2, hp3⟩)
      · exact ⟨t, List.mem_cons_self t rest, of_decide_eq_true h1⟩
      · exact ⟨p, List.mem_cons_of_mem t hp2, by rw [← hobs p hp2]; exact hp3⟩
    · rintro ⟨p, hp2, hp3⟩
      rcases List.mem_cons.mp hp2 with hpt | hpr
      · subst hpt; exact Or.inl (decide_eq_true hp3)
      · exact Or.inr ⟨p, hpr, by rw [hobs p hpr]; exact hp3⟩

/-- For mono toggles that flip pairwise different cells, the bits flipped in a cell. -/
theorem mask_mono (ts : List Toggle) (hts : ∀ t ∈ ts, t.valid true)
    (hp : ts.Pairwise (fun t p => ¬ Toggle.same t p)) (y x : Nat) :
    ((∃ t ∈ ts, t.y = y ∧ t.x = x) → Toggle.mask y x ts = 1) ∧
    ((¬ ∃ t ∈ ts, t.y = y ∧ t.x = x) → Toggle.mask y x ts = 0) := by
  induction ts with
  | nil =>
    exact ⟨fun ⟨t, ht, _⟩ => absurd ht (List.not_mem_nil t), fun _ => rfl⟩
  | cons t rest ih =>
    rw [List.pairwise_cons] at hp
    have hv := hts t (List.mem_cons_self t rest)
    have hrest : ∀ p ∈ rest, p.valid true := fun p hp2 => hts p (List.mem_cons_of_mem t hp2)
    have ih2 := ih hrest hp.2
    have hplane : t.plane = 0 := hv.2.2.2.2 rfl
    unfold Toggle.mask
    by_cases hc : t.y = y ∧ t.x = x
    · rw [if_pos hc, hplane]
      have hno : ¬ ∃ p ∈ rest, p.y = y ∧ p.x = x := by
        rintro ⟨p, hp2, hp3⟩
        exact hp.1 p hp2 ⟨by rw [hc.1, hp3.1], by rw [hc.2, hp3.2],
          by rw [hplane, (hrest p hp2).2.2.2.2 rfl]⟩
      rw [ih2.2 hno]
      exact ⟨fun _ => rfl, fun hn => absurd ⟨t, List.mem_cons_self t rest, hc⟩ hn⟩
    · rw [if_neg hc, Nat.zero_xor]
      constructor
      · rintro ⟨p, hp2, hp3⟩
        rcases List.mem_cons.mp hp2 with hpt | hpr
        · subst hpt; exact absurd hp3 hc
        · exact ih2.1 ⟨p, hpr, hp3⟩
      · intro hn
        exact ih2.2 (fun ⟨p, hp2, hp3⟩ => hn ⟨p, List.mem_cons_of_mem t hp2, hp3⟩)

theorem getPixel_nat (d : Chip8Display) (px py : Nat) :
    d.getPixel px py = if px < d.width ∧ py < d.height then fbGet d.fb py px else 0 := by
  unfold Chip8Display.getPixel
  by_cases h : px < d.width ∧ py < d.height
  · rw [if_pos h, if_neg (by omega)]
    rfl
  · rw [if_neg h, if_pos (by omega)]

/-- A performed `DXYN` in CHIP8 mode whose sprite bytes lie inside the memory, as a
run of toggles. -/
theorem caseD_chip8 (m : Machine) (host : Host) (x y n : Nat) (hx : x < 16) (hy : y < 16)
    (hmode : m.cpu.mode = Variant.CHIP8) (hfe : host.frameElapsed = true)
    (hI : m.cpu.regs.i + n ≤ m.cpu.mem.size) (hsz : m.cpu.mem.size ≤ 65536) :
    Exec.caseD m host x y n =
      (m.setDisp (withFb m.cpu.disp (Toggle.run
          ((upTo 0 n).flatMap (Exec.spriteRowToggles
            (fun row => m.cpu.mem.memory.getD (u16 (m.cpu.regs.i + row)) 0)
            m.cpu.disp.width m.cpu.disp.height
            (m.cpu.regs.v.getD x 0 % m.cpu.disp.width)
            (m.cpu.regs.v.getD y 0 % m.cpu.disp.height)))
          (false, m.cpu.disp.fb))).2).assignV 0xF
        (if (Toggle.run
          ((upTo 0 n).flatMap (Exec.spriteRowToggles
            (fun row => m.cpu.mem.memory.getD (u16 (m.cpu.regs.i + row)) 0)
            m.cpu.disp.width m.cpu.disp.height
            (m.cpu.regs.v.getD x 0 % m.cpu.disp.width)
            (m.cpu.regs.v.getD y 0 % m.cpu.disp.height)))
          (false, m.cpu.disp.fb)).1 then 1 else 0) := by
  have hread : ∀ row ∈ upTo 0 n, ¬ m.cpu.mem.memory.length ≤ u16 (m.cpu.regs.i + row) := by
    intro row hrow
    have h1 := (mem_upTo hrow).2
    have h2 : m.cpu.regs.i + n ≤ m.cpu.mem.memory.length := hI
    have h3 : m.cpu.mem.memory.length ≤ 65536 := hsz
    unfold u16
    rw [Nat.mod_eq_of_lt (by omega)]
    omega
  have e0 : (false, m.cpu.disp) = withFb m.cpu.disp (false, m.cpu.disp.fb) := rfl
  unfold Exec.caseD
  rw [V_of_lt _ hx, V_of_lt _ hy]
  simp only [hfe, bind, Except.bind, Bool.not_true, Bool.false_eq_true, if_false]
  rw [if_pos hmode, e0, smallSpriteRows_withFb _ _ _ _ _ _ hread]
  rfl

/-- C19: in CHIP8 mode, a performed `DXYN` with `1 <= N <= 15` whose sprite bytes
`memory[I .. I + N - 1]` lie inside the memory succeeds; with `sx = VX mod width` and
`sy = VY mod height`, the pixel `(sx + col, sy + row)` has bit 0 flipped for every
`row < N`, `col < 8` whose bit `0x80 >> col` is set in `memory[I + row]` and whose
coordinates are inside the screen; every other pixel (and array cell) is unchanged, so
nothing wraps; `VF` is 1 if one of the flipped pixels was nonzero before, else 0. -/
theorem draw_chip8 (m : Machine) (host : Host) (X Y N : Nat) (hX : X < 16) (hY : Y < 16)
    (hN1 : 1 ≤ N) (hN : N < 16)
    (hmode : m.cpu.mode = Variant.CHIP8) (hfe : host.frameElapsed = true)
    (hv : m.cpu.regs.v.length = 16) (hfb : WFfb m.cpu.disp.fb)
    (hI : m.cpu.regs.i + N ≤ m.cpu.mem.size) (hsz : m.cpu.mem.size ≤ 65536) :
    ∃ m1, m.executeOpcode host (0xD000 + 0x100 * X + 0x10 * Y + N) = .ok m1 ∧
      m1.cpu.disp.mode = m.cpu.disp.mode ∧
      (∀ row col, row < N → col < 8 →
        m.cpu.mem.data (m.cpu.regs.i + row) &&& (0x80 >>> col) ≠ 0 →
        m.cpu.regs.v.getD X 0 % m.cpu.disp.width + col < m.cpu.disp.width →
        m.cpu.regs.v.getD Y 0 % m.cpu.disp.height + row < m.cpu.disp.height →
        m1.cpu.disp.getPixel
            ((m.cpu.regs.v.getD X 0 % m.cpu.disp.width + col : Nat) : Int)
            ((m.cpu.regs.v.getD Y 0 % m.cpu.disp.height + row : Nat) : Int)
          = m.cpu.disp.getPixel
              ((m.cpu.regs.v.getD X 0 % m.cpu.disp.width + col : Nat) : Int)
              ((m.cpu.regs.v.getD Y 0 % m.cpu.disp.height + row : Nat) : Int) ^^^ 1) ∧
      (∀ px py : Nat,
        (¬ ∃ row col, row < N ∧ col < 8 ∧
          m.cpu.mem.data (m.cpu.regs.i + row) &&& (0x80 >>> col) ≠ 0 ∧
          px = m.cpu.regs.v.getD X 0 % m.cpu.disp.width + col ∧
          py = m.cpu.regs.v.getD Y 0 % m.cpu.disp.height + row ∧
          px < m.cpu.disp.width ∧ py < m.cpu.disp.height) →
        m1.cpu.disp.getPixel (px : Int) (py : Int) = m.cpu.disp.getPixel (px : Int) (py : Int) ∧
        fbGet m1.cpu.disp.fb py px = fbGet m.cpu.disp.fb py px) ∧
      (m1.cpu.regs.v.getD 0xF 0 = 1 ↔
        ∃ row col, row < N ∧ col < 8 ∧
          m.cpu.mem.data (m.cpu.regs.i + row) &&& (0x80 >>> col) ≠ 0 ∧
          m.cpu.regs.v.getD X 0 % m.cpu.disp.width + col < m.cpu.disp.width ∧
          m.cpu.regs.v.getD Y 0 % m.cpu.disp.height + row < m.cpu.disp.height ∧
          m.cpu.disp.getPixel
            ((m.cpu.regs.v.getD X 0 % m.cpu.disp.width + col : Nat) : Int)
            ((m.cpu.regs.v.getD Y 0 % m.cpu.disp.height + row : Nat) : Int) ≠ 0) ∧
      (m1.cpu.regs.v.getD 0xF 0 = 1 ∨ m1.cpu.regs.v.getD 0xF 0 = 0) := by
  generalize hsx : m.cpu.regs.v.getD X 0 % m.cpu.disp.width = sx
  generalize hsy : m.cpu.regs.v.getD Y 0 % m.cpu.disp.height = sy
  have hw := width_pos_le m.cpu.disp
  have hh := height_pos_le m.cpu.disp
  have hbyte : ∀ row, row < N →
      m.cpu.mem.memory.getD (u16 (m.cpu.regs.i + row)) 0 = m.cpu.mem.data (m.cpu.regs.i + row) := by
    intro row hrow
    have h2 : m.cpu.regs.i + N ≤ m.cpu.mem.memory.length := hI
    have h3 : m.cpu.mem.memory.length ≤ 65536 := hsz
    unfold u16 Chip8Memory.data
    rw [Nat.mod_eq_of_lt (by omega)]
  have hexec := executeOpcode_familyD m host (0xD000 + 0x100 * X + 0x10 * Y + N)
    (by omega) (by omega)
  have ex : (0xD000 + 0x100 * X + 0x10 * Y + N) / 256 % 16 = X := by omega
  have ey : (0xD000 + 0x100 * X + 0x10 * Y + N) / 16 % 16 = Y := by omega
  have en : (0xD000 + 0x100 * X + 0x10 * Y + N) % 16 = N := by omega
  rw [ex, ey, en, caseD_chip8 m host X Y N hX hY hmode hfe hI hsz, hsx, hsy] at hexec
  generalize hts : (upTo 0 N).flatMap (Exec.spriteRowToggles
      (fun row => m.cpu.mem.memory.getD (u16 (m.cpu.regs.i + row)) 0)
      m.cpu.disp.width m.cpu.disp.height sx sy) = ts at hexec
  have hmem : ∀ t, t ∈ ts ↔ ∃ row col, row < N ∧ col < 8 ∧
      m.cpu.mem.data (m.cpu.regs.i + row) &&& (0x80 >>> col) ≠ 0 ∧
      sx + col < m.cpu.disp.width ∧ sy + row < m.cpu.disp.height ∧
      t = ⟨sy + row, sx + col, 0, true⟩ := by
    intro t
    rw [← hts, List.mem_flatMap]
    constructor
    · rintro ⟨row, hrow, ht⟩
      rw [mem_spriteRowToggles] at ht
      obtain ⟨h1, col, h2, h3, h4, h5⟩ := ht
      have hr := (mem_upTo hrow).2
      rw [hbyte row hr] at h4
      exact ⟨row, col, hr, h2, h4, h3, h1, h5⟩
    · rintro ⟨row, col, h1, h2, h3, h4, h5, h6⟩
      refine ⟨row, mem_upTo_of (Nat.zero_le row) h1, ?_⟩
      rw [mem_spriteRowToggles]
      refine ⟨h5, col, h2, h4, ?_, h6⟩
      rw [hbyte row h1]
      exact h3
  have hvalid : ∀ t ∈ ts, t.valid true := by
    intro t ht
    obtain ⟨row, col, -, -, -, h4, h5, rfl⟩ := (hmem t).mp ht
    exact ⟨by show sy + row < 64; omega, by show sx + col < 128; omega, Nat.zero_lt_two, rfl,
      fun _ => rfl⟩
  have hpw : ts.Pairwise (fun t p => ¬ Toggle.same t p) := by
    rw [← hts]
    exact spriteToggles_pairwise _ _ _ _ _ _
  have hget : ∀ y x, fbGet (Toggle.run ts (false, m.cpu.disp.fb)).2 y x
      = fbGet m.cpu.disp.fb y x ^^^ Toggle.mask y x ts :=
    fun y x => run_fbGet true ts (false, m.cpu.disp.fb) hfb hvalid y x
  have hflag := run_flag_iff true ts m.cpu.disp.fb hfb hvalid hpw
  generalize hR : Toggle.run ts (false, m.cpu.disp.fb) = R at hexec hget hflag
  rw [assignV_of_lt _ _ (by decide : 0xF < 16)] at hexec
  refine ⟨_, hexec, rfl, ?_, ?_, ?_, ?_⟩
  · intro row col h1 h2 h3 h4 h5
    rw [getPixel_nat, getPixel_nat]
    have hw2 : ({ m.cpu.disp with fb := R.2 } : Chip8Display).width = m.cpu.disp.width := rfl
    have hh2 : ({ m.cpu.disp with fb := R.2 } : Chip8Display).height = m.cpu.disp.height := rfl
    show (if sx + col < ({ m.cpu.disp with fb := R.2 } : Chip8Display).width ∧
        sy + row < ({ m.cpu.disp with fb := R.2 } : Chip8Display).height
        then fbGet R.2 (sy + row) (sx + col) else 0) = _
    rw [hw2, hh2, if_pos ⟨h4, h5⟩, if_pos ⟨h4, h5⟩, hget,
      (mask_mono ts hvalid hpw _ _).1
        ⟨⟨sy + row, sx + col, 0, true⟩, (hmem _).mpr ⟨row, col, h1, h2, h3, h4, h5, rfl⟩,
          rfl, rfl⟩]
  · intro px py hno
    have hmask : Toggle.mask py px ts = 0 := by
      refine (mask_mono ts hvalid hpw py px).2 ?_
      rintro ⟨t, ht, hty, htx⟩
      obtain ⟨row, col, h1, h2, h3, h4, h5, rfl⟩ := (hmem t).mp ht
      exact hno ⟨row, col, h1, h2, h3, htx.symm, hty.symm, by rw [← htx]; exact h4,
        by rw [← hty]; exact h5⟩
    have hcell : fbGet R.2 py px = fbGet m.cpu.disp.fb py px := by
      rw [hget, hmask, Nat.xor_zero]
    refine ⟨?_, hcell⟩
    rw [getPixel_nat, getPixel_nat]
    show (if px < m.cpu.disp.width ∧ py < m.cpu.disp.height then fbGet R.2 py px else 0) = _
    rw [hcell]
  · have hvf : ∀ b : Nat, ((m.setDisp (withFb m.cpu.disp R).2).setRegs
        { (m.setDisp (withFb m.cpu.disp R).2).cpu.regs with
          v := (m.setDisp (withFb m.cpu.disp R).2).cpu.regs.v.set 0xF b }).cpu.regs.v.getD 0xF 0
        = b := fun b => getD_set_same b (by show 15 < m.cpu.regs.v.length; omega)
    rw [hvf]
    constructor
    · intro h1
      have hR1 : R.1 = true := by
        by_contra hc
        rw [if_neg hc] at h1
        exact absurd h1 (by decide)
      obtain ⟨t, ht, hobs⟩ := hflag.mp hR1
      obtain ⟨row, col, h1, h2, h3, h4, h5, rfl⟩ := (hmem t).mp ht
      refine ⟨row, col, h1, h2, h3, h4, h5, ?_⟩
      rw [getPixel_nat, if_pos ⟨h4, h5⟩]
      exact hobs
    · rintro ⟨row, col, h1, h2, h3, h4, h5, h6⟩
      rw [getPixel_nat, if_pos ⟨h4, h5⟩] at h6
      have hR1 : R.1 = true :=
        hflag.mpr ⟨⟨sy + row, sx + col, 0, true⟩, (hmem _).mpr ⟨row, col, h1, h2, h3, h4, h5, rfl⟩,
          h6⟩
      rw [if_pos hR1]
      rfl
  · have hvf : ∀ b : Nat, ((m.setDisp (withFb m.cpu.disp R).2).setRegs
        { (m.setDisp (withFb m.cpu.disp R).2).cpu.regs with
          v := (m.setDisp (withFb m.cpu.disp R).2).cpu.regs.v.set 0xF b }).cpu.regs.v.getD 0xF 0
        = b := fun b => getD_set_same b (by show 15 < m.cpu.regs.v.length; omega)
    rw [hvf]
    by_cases hc : R.1 = true
    · rw [if_pos hc]; exact Or.inl rfl
    · rw [if_neg hc]; exact Or.inr rfl

/-- Instance of `draw_chip8`: the font glyph `0` drawn with `D015` on a fresh CHIP8
interpreter with `I = 0x50`: the pixel (0, 0) is lit, the pixel (4, 0) stays dark and there
is no collision. -/
theorem draw_chip8_witness :
    ∃ m1, (machineAt Variant.CHIP8 0x200 0x50).executeOpcode idleHost
        (0xD000 + 0x100 * 0 + 0x10 * 1 + 5) = .ok m1 ∧
      m1.cpu.disp.getPixel 0 0 = 1 ∧ m1.cpu.disp.getPixel 4 0 = 0 ∧
      m1.cpu.regs.v.getD 0xF 0 = 0 := by
  have hms : Chip8CPU.memorySize Variant.CHIP8 = 4096 := by decide
  have hmem : (machineAt Variant.CHIP8 0x200 0x50).cpu.mem
      = Chip8Memory.init (Chip8CPU.memorySize Variant.CHIP8) := by
    unfold machineAt Chip8CPU.init
    dsimp only
  rw [hms] at hmem
  have hdisp : (machineAt Variant.CHIP8 0x200 0x50).cpu.disp = Chip8Display.init := by
    unfold machineAt Chip8CPU.init
    dsimp only
  have hsize : (machineAt Variant.CHIP8 0x200 0x50).cpu.mem.size = 4096 := by
    show (machineAt Variant.CHIP8 0x200 0x50).cpu.mem.memory.length = 4096
    rw [hmem, init_length]
  have hfont := (init_getElem? 4096 (by decide)).1 0 (by decide)
  rw [Nat.add_zero] at hfont
  have hbyte : (machineAt Variant.CHIP8 0x200 0x50).cpu.mem.data
      ((machineAt Variant.CHIP8 0x200 0x50).cpu.regs.i + 0) = 0xF0 := by
    show (machineAt Variant.CHIP8 0x200 0x50).cpu.mem.memory.getD 0x50 0 = 0xF0
    rw [hmem, List.getD_eq_getElem?_getD, hfont]
    rfl
  have hold : ∀ x y : Int, (machineAt Variant.CHIP8 0x200 0x50).cpu.disp.getPixel x y = 0 := by
    intro x y
    rw [hdisp]
    exact getPixel_clear _ x y
  obtain ⟨m1, he, -, hA, hB, hC, hD⟩ := draw_chip8 (machineAt Variant.CHIP8 0x200 0x50)
    idleHost 0 1 5 (by decide) (by decide) (by decide) (by decide) rfl rfl rfl
    (by rw [hdisp]; exact init_WFfb) (by rw [hsize]; decide) (by rw [hsize]; decide)
  refine ⟨m1, he, ?_, ?_, ?_⟩
  · have h := hA 0 0 (by decide) (by decide) (by rw [hbyte]; decide) (by decide) (by decide)
    rw [hold] at h
    exact h
  · have h := (hB 4 0 (by
      rintro ⟨row, col, h1, h2, h3, h4, h5, -, -⟩
      have h4' : 4 = 0 + col := h4
      have h5' : 0 = 0 + row := h5
      have hr : row = 0 := by omega
      have hc : col = 4 := by omega
      subst hr; subst hc
      rw [hbyte] at h3
      exact h3 (by decide))).1
    rw [hold] at h
    exact h
  · rcases hD with h1 | h0
    · obtain ⟨row, col, -, -, -, -, -, h6⟩ := hC.mp h1
      exact absurd (hold _ _) h6
    · exact h0

/-! ## `DXYN` on the XO-CHIP variant -/

theorem foldl_congr_mem {α β : Type} (l : List α) (F G : β → α → β)
    (h : ∀ a ∈ l, ∀ acc, F acc a = G acc a) (acc : β) : l.foldl F acc = l.foldl G acc := by
  induction l generalizing acc with
  | nil => rfl
  | cons a rest ih =>
    rw [List.foldl_cons, List.foldl_cons, h a (List.mem_cons_self a rest)]
    exact ih (fun b hb => h b (List.mem_cons_of_mem a hb)) _

/-- `drawSprite` looks at the sprite bytes of the rows it draws only. -/
theorem drawSprite_congr (d : Chip8Display) (x y : Nat) (f g : Nat → Nat) (n mask : Nat)
    (h : ∀ row, row < u8 n → u8 (f row) = u8 (g row)) :
    d.drawSprite x y f n mask = d.drawSprite x y g n mask := by
  unfold Chip8Display.drawSprite
  have e : (List.range (u8 n)).foldl
        (drawRow d.colorMode d.width d.height (u8 x) (u8 y) (u8 mask) f) (false, d.fb)
      = (List.range (u8 n)).foldl
        (drawRow d.colorMode d.width d.height (u8 x) (u8 y) (u8 mask) g) (false, d.fb) := by
    refine foldl_congr_mem _ _ _ (fun row hrow acc => ?_) _
    unfold drawRow
    rw [h row (List.mem_range.mp hrow)]
  simp only [e]

/-- A performed `DXYN` outside the CHIP8 and SCHIP modes: the call
`disp.drawSprite(vx, vy, mem.data() + regs.I(), n)` with the default plane mask. -/
theorem caseD_xochip (m : Machine) (host : Host) (x y n : Nat) (hx : x < 16) (hy : y < 16)
    (h1 : m.cpu.mode ≠ Variant.CHIP8) (h2 : m.cpu.mode ≠ Variant.SCHIP)
    (hfe : host.frameElapsed = true) :
    Exec.caseD m host x y n =
      (m.setDisp (m.cpu.disp.drawSprite (m.cpu.regs.v.getD x 0) (m.cpu.regs.v.getD y 0)
          (fun row => m.cpu.mem.data (m.cpu.regs.i + row)) n 1).2).assignV 0xF
        (if (m.cpu.disp.drawSprite (m.cpu.regs.v.getD x 0) (m.cpu.regs.v.getD y 0)
          (fun row => m.cpu.mem.data (m.cpu.regs.i + row)) n 1).1 then 1 else 0) := by
  unfold Exec.caseD
  rw [V_of_lt _ hx, V_of_lt _ hy]
  simp only [hfe, bind, Except.bind, Bool.not_true, Bool.false_eq_true, if_false]
  rw [if_neg h1, if_neg h2]
  rfl

set_option maxRecDepth 100000 in
theorem planes_draw_font :
    (((Chip8Display.init.setColorMode ColorMode.XOCHIP_2BPP).setActivePlanes 2).drawSprite 0 0
        (fun _ => 0xF0) 1 1).2.getPixel 0 0 = 1 ∧
    (((Chip8Display.init.setColorMode ColorMode.XOCHIP_2BPP).setActivePlanes 2).drawSprite 0 0
        (fun _ => 0xF0) 1 1).1 = false := by
  decide

/-- C20 fails in the code: on an XO-CHIP interpreter in the two-plane color mode with
plane mask 2 (plane 1 alone) and a dark screen, `D001` on the sprite byte `0xF0` leaves
the pixel (0, 0) at 1: the bit of plane 0, which the mask does not select, is flipped and
the bit of plane 1, which it selects, is not. `executeOpcode` calls `drawSprite` without
the plane mask, so the default mask 1 is used. -/
theorem draw_ignores_active_planes :
    planeMachine.cpu.mode = Variant.XOCHIP ∧
    planeMachine.cpu.disp.colorMode = ColorMode.XOCHIP_2BPP ∧
    planeMachine.cpu.disp.activePlanes = 2 ∧
    planeMachine.cpu.disp.getPixel 0 0 = 0 ∧
    planeMachine.cpu.mem.data planeMachine.cpu.regs.i = 0xF0 ∧
    ∃ m1, planeMachine.executeOpcode idleHost 0xD001 = .ok m1 ∧
      m1.cpu.disp.getPixel 0 0 = 1 ∧ m1.cpu.regs.v.getD 0xF 0 = 0 := by
  have hms : Chip8CPU.memorySize Variant.XOCHIP = 65536 := by decide
  have hmem : planeMachine.cpu.mem = Chip8Memory.init (Chip8CPU.memorySize Variant.XOCHIP) := by
    unfold planeMachine Chip8CPU.init
    dsimp only
  rw [hms] at hmem
  have hdisp : planeMachine.cpu.disp
      = (Chip8Display.init.setColorMode ColorMode.XOCHIP_2BPP).setActivePlanes 2 := by
    unfold planeMachine
    dsimp only
  have hfont := (init_getElem? 65536 (by decide)).1 0 (by decide)
  rw [Nat.add_zero] at hfont
  have hbyte : planeMachine.cpu.mem.data planeMachine.cpu.regs.i = 0xF0 := by
    show planeMachine.cpu.mem.memory.getD 0x50 0 = 0xF0
    rw [hmem, List.getD_eq_getElem?_getD, hfont]
    rfl
  have hdraw : planeMachine.cpu.disp.drawSprite (planeMachine.cpu.regs.v.getD 0 0)
        (planeMachine.cpu.regs.v.getD 0 0)
        (fun row => planeMachine.cpu.mem.data (planeMachine.cpu.regs.i + row)) 1 1
      = ((Chip8Display.init.setColorMode ColorMode.XOCHIP_2BPP).setActivePlanes 2).drawSprite 0 0
        (fun _ => 0xF0) 1 1 := by
    rw [hdisp]
    have ev : planeMachine.cpu.regs.v.getD 0 0 = 0 := rfl
    rw [ev]
    refine drawSprite_congr _ _ _ _ _ _ _ (fun row hrow => ?_)
    have hr : row = 0 := by
      have : u8 1 = 1 := rfl
      rw [this] at hrow
      omega
    subst hr
    show u8 (planeMachine.cpu.mem.data (planeMachine.cpu.regs.i + 0)) = u8 0xF0
    rw [Nat.add_zero, hbyte]
  have hexec : planeMachine.executeOpcode idleHost 0xD001
      = Exec.caseD planeMachine idleHost 0 0 1 :=
    executeOpcode_familyD planeMachine idleHost 0xD001 (by decide) (by decide)
  rw [caseD_xochip planeMachine idleHost 0 0 1 (by decide) (by decide)
    (by decide) (by decide) rfl, hdraw, assignV_of_lt _ _ (by decide : 0xF < 16)] at hexec
  refine ⟨rfl, rfl, rfl, ?_, hbyte, _, hexec, planes_draw_font.1, ?_⟩
  · rw [hdisp]
    exact getPixel_clear _ 0 0
  · rw [planes_draw_font.2]
    rfl

/-! ## Mode changes and register arithmetic -/

/-- C23: for every display state and every argument, `setMode(m)` and
`setColorMode(c)` leave every cell of the array 0 (so `getPixel` is 0 everywhere) and the
mode attribute equal to the argument, the other attributes kept; also when the argument
is the mode already in effect. -/
theorem setMode_clears (d : Chip8Display) (m : Mode) (c : ColorMode) :
    ((d.setMode m).mode = m ∧ (∀ y x : Nat, fbGet (d.setMode m).fb y x = 0) ∧
      (∀ x y : Int, (d.setMode m).getPixel x y = 0) ∧
      (d.setMode m).colorMode = d.colorMode ∧ (d.setMode m).activePlanes = d.activePlanes) ∧
    ((d.setColorMode c).colorMode = c ∧ (∀ y x : Nat, fbGet (d.setColorMode c).fb y x = 0) ∧
      (∀ x y : Int, (d.setColorMode c).getPixel x y = 0) ∧
      (d.setColorMode c).mode = d.mode ∧ (d.setColorMode c).activePlanes = d.activePlanes) ∧
    (∀ y x : Nat, fbGet (d.setMode d.mode).fb y x = 0) ∧
    (∀ y x : Nat, fbGet (d.setColorMode d.colorMode).fb y x = 0) :=
  ⟨⟨rfl, fun y x => fbGet_clearFb _ y x, fun x y => getPixel_clear _ x y, rfl, rfl⟩,
   ⟨rfl, fun y x => fbGet_clearFb _ y x, fun x y => getPixel_clear _ x y, rfl, rfl⟩,
   fun y x => fbGet_clearFb _ y x, fun y x => fbGet_clearFb _ y x⟩

theorem and_FF_mod (n : Nat) : u8 (n &&& 0xFF) = n % 256 := by
  unfold u8
  rw [low8_eq, Nat.mod_mod]

/-- C25: for every `X`, `NN` and register contents, `7XNN` succeeds and leaves
`VX = (VX + NN) mod 256` and every other V register as it was; for `X != F` that includes
`VF`, whether or not the addition overflows. -/
theorem exec_7XNN (m : Machine) (host : Host) (X NN : Nat) (hX : X < 16) (hNN : NN < 256)
    (hlen : m.cpu.regs.v.length = 16) :
    ∃ m1, m.executeOpcode host (0x7000 + 0x100 * X + NN) = .ok m1 ∧
      m1.cpu.regs.v.getD X 0 = (m.cpu.regs.v.getD X 0 + NN) % 256 ∧
      (∀ j, j ≠ X → m1.cpu.regs.v.getD j 0 = m.cpu.regs.v.getD j 0) ∧
      (X ≠ 0xF → m1.cpu.regs.v.getD 0xF 0 = m.cpu.regs.v.getD 0xF 0) ∧
      m1.cpu.regs.v.length = 16 := by
  have hfam := executeOpcode_family7 m host (0x7000 + 0x100 * X + NN) (by omega)
  have ex : (0x7000 + 0x100 * X + NN) / 256 % 16 = X := by omega
  have en : (0x7000 + 0x100 * X + NN) % 256 = NN := by omega
  rw [ex, en, V_of_lt _ hX] at hfam
  have hfam2 : m.executeOpcode host (0x7000 + 0x100 * X + NN)
      = m.assignV X ((m.cpu.regs.v.getD X 0 + NN) &&& 0xFF) := hfam
  rw [assignV_of_lt _ _ hX, and_FF_mod] at hfam2
  refine ⟨_, hfam2, ?_, ?_, ?_, ?_⟩
  · exact getD_set_same _ (by rw [hlen]; exact hX)
  · intro j hj
    exact getD_set_other _ (Ne.symm hj)
  · intro hXF
    exact getD_set_other _ hXF
  · show (m.cpu.regs.v.set X _).length = 16
    rw [List.length_set]; exact hlen

/-- The arm shared by `8XY1`, `8XY2`, `8XY3`: assign the combined value to `VX`, then
clear `VF` on the CHIP8 variant. -/
theorem logic_arm (m : Machine) (X : Nat) (r : Nat) (hX : X < 16) (hr : r < 256)
    (hlen : m.cpu.regs.v.length = 16) :
    ∃ m1, (do let m1 ← m.assignV X r; Exec.clearFlagOnChip8 m1) = .ok m1 ∧
      (m.cpu.mode = Variant.CHIP8 → m1.cpu.regs.v.getD 0xF 0 = 0) ∧
      (X ≠ 0xF → m1.cpu.regs.v.getD X 0 = r) ∧
      (m.cpu.mode ≠ Variant.CHIP8 → m1.cpu.regs.v.getD X 0 = r ∧
        (X ≠ 0xF → m1.cpu.regs.v.getD 0xF 0 = m.cpu.regs.v.getD 0xF 0)) := by
  have e8 : u8 r = r := Nat.mod_eq_of_lt hr
  rw [assignV_of_lt _ _ hX, e8]
  show ∃ m1, Exec.clearFlagOnChip8 _ = .ok m1 ∧ _
  unfold Exec.clearFlagOnChip8
  by_cases hm : m.cpu.mode = Variant.CHIP8
  · have hm2 : (m.setRegs { m.cpu.regs with v := m.cpu.regs.v.set X r }).cpu.mode
        = Variant.CHIP8 := hm
    rw [if_pos hm2, assignV_of_lt _ _ (by decide : 0xF < 16)]
    refine ⟨_, rfl, fun _ => ?_, fun hXF => ?_, fun h => absurd hm h⟩
    · exact getD_set_same _ (by
        show 15 < (m.cpu.regs.v.set X r).length
        rw [List.length_set, hlen]; decide)
    · show ((m.cpu.regs.v.set X r).set 0xF (u8 0)).getD X 0 = r
      rw [getD_set_other _ (Ne.symm hXF)]
      exact getD_set_same _ (by rw [hlen]; exact hX)
  · have hm2 : ¬ (m.setRegs { m.cpu.regs with v := m.cpu.regs.v.set X r }).cpu.mode
        = Variant.CHIP8 := hm
    rw [if_neg hm2]
    refine ⟨_, rfl, fun h => absurd h hm, fun _ => ?_, fun _ => ⟨?_, fun hXF => ?_⟩⟩
    · exact getD_set_same _ (by rw [hlen]; exact hX)
    · exact getD_set_same _ (by rw [hlen]; exact hX)
    · exact getD_set_other _ hXF

theorem or_lt_256 (a b : Nat) (ha : a < 256) (hb : b < 256) : a ||| b < 256 :=
  by
  show a ||| b < 2 ^ 8
  exact Nat.or_lt_two_pow ha hb

theorem and_lt_256 (a b : Nat) (ha : a < 256) : a &&& b < 256 :=
  Nat.lt_of_le_of_lt Nat.and_le_left ha

theorem xor_lt_256 (a b : Nat) (ha : a < 256) (hb : b < 256) : a ^^^ b < 256 :=
  by
  show a ^^^ b < 2 ^ 8
  exact Nat.xor_lt_two_pow ha hb

/-- C24 (amended): for every `X`, `Y` and byte contents, each of `8XY1`, `8XY2`,
`8XY3` succeeds; on the CHIP8 variant `VF` is 0 afterwards; for `X != F`, `VX` holds
`VX OR VY`, `VX AND VY`, `VX XOR VY` respectively; outside the CHIP8 variant `VX` holds
that value for every `X` and, for `X != F`, `VF` keeps its value. -/
theorem exec_logic (m : Machine) (host : Host) (X Y : Nat) (hX : X < 16) (hY : Y < 16)
    (hlen : m.cpu.regs.v.length = 16)
    (hvx : m.cpu.regs.v.getD X 0 < 256) (hvy : m.cpu.regs.v.getD Y 0 < 256) :
    (∃ m1, m.executeOpcode host (0x8001 + 0x100 * X + 0x10 * Y) = .ok m1 ∧
      (m.cpu.mode = Variant.CHIP8 → m1.cpu.regs.v.getD 0xF 0 = 0) ∧
      (X ≠ 0xF → m1.cpu.regs.v.getD X 0 = m.cpu.regs.v.getD X 0 ||| m.cpu.regs.v.getD Y 0) ∧
      (m.cpu.mode ≠ Variant.CHIP8 →
        m1.cpu.regs.v.getD X 0 = m.cpu.regs.v.getD X 0 ||| m.cpu.regs.v.getD Y 0 ∧
        (X ≠ 0xF → m1.cpu.regs.v.getD 0xF 0 = m.cpu.regs.v.getD 0xF 0))) ∧
    (∃ m2, m.executeOpcode host (0x8002 + 0x100 * X + 0x10 * Y) = .ok m2 ∧
      (m.cpu.mode = Variant.CHIP8 → m2.cpu.regs.v.getD 0xF 0 = 0) ∧
      (X ≠ 0xF → m2.cpu.regs.v.getD X 0 = m.cpu.regs.v.getD X 0 &&& m.cpu.regs.v.getD Y 0) ∧
      (m.cpu.mode ≠ Variant.CHIP8 →
        m2.cpu.regs.v.getD X 0 = m.cpu.regs.v.getD X 0 &&& m.cpu.regs.v.getD Y 0 ∧
        (X ≠ 0xF → m2.cpu.regs.v.getD 0xF 0 = m.cpu.regs.v.getD 0xF 0))) ∧
    (∃ m3, m.executeOpcode host (0x8003 + 0x100 * X + 0x10 * Y) = .ok m3 ∧
      (m.cpu.mode = Variant.CHIP8 → m3.cpu.regs.v.getD 0xF 0 = 0) ∧
      (X ≠ 0xF → m3.cpu.regs.v.getD X 0 = m.cpu.regs.v.getD X 0 ^^^ m.cpu.regs.v.getD Y 0) ∧
      (m.cpu.mode ≠ Variant.CHIP8 →
        m3.cpu.regs.v.getD X 0 = m.cpu.regs.v.getD X 0 ^^^ m.cpu.regs.v.getD Y 0 ∧
        (X ≠ 0xF → m3.cpu.regs.v.getD 0xF 0 = m.cpu.regs.v.getD 0xF 0))) := by
  refine ⟨?_, ?_, ?_⟩
  · have hfam := executeOpcode_family8 m host (0x8001 + 0x100 * X + 0x10 * Y) (by omega)
    have ex : (0x8001 + 0x100 * X + 0x10 * Y) / 256 % 16 = X := by omega
    have ey : (0x8001 + 0x100 * X + 0x10 * Y) / 16 % 16 = Y := by omega
    have en : (0x8001 + 0x100 * X + 0x10 * Y) % 16 = 1 := by omega
    rw [ex, ey, en] at hfam
    rw [hfam]
    show ∃ m1, (m.cpu.regs.V X >>= fun vx => m.cpu.regs.V Y >>= fun vy =>
      (m.assignV X (vx ||| vy) >>= fun m1 => Exec.clearFlagOnChip8 m1)) = .ok m1 ∧ _
    rw [V_of_lt _ hX, V_of_lt _ hY]
    exact logic_arm m X _ hX (or_lt_256 _ _ hvx hvy) hlen
  · have hfam := executeOpcode_family8 m host (0x8002 + 0x100 * X + 0x10 * Y) (by omega)
    have ex : (0x8002 + 0x100 * X + 0x10 * Y) / 256 % 16 = X := by omega
    have ey : (0x8002 + 0x100 * X + 0x10 * Y) / 16 % 16 = Y := by omega
    have en : (0x8002 + 0x100 * X + 0x10 * Y) % 16 = 2 := by omega
    rw [ex, ey, en] at hfam
    rw [hfam]
    show ∃ m1, (m.cpu.regs.V X >>= fun vx => m.cpu.regs.V Y >>= fun vy =>
      (m.assignV X (vx &&& vy) >>= fun m1 => Exec.clearFlagOnChip8 m1)) = .ok m1 ∧ _
    rw [V_of_lt _ hX, V_of_lt _ hY]
    exact logic_arm m X _ hX (and_lt_256 _ _ hvx) hlen
  · have hfam := executeOpcode_family8 m host (0x8003 + 0x100 * X + 0x10 * Y) (by omega)
    have ex : (0x8003 + 0x100 * X + 0x10 * Y) / 256 % 16 = X := by omega
    have ey : (0x8003 + 0x100 * X + 0x10 * Y) / 16 % 16 = Y := by omega
    have en : (0x8003 + 0x100 * X + 0x10 * Y) % 16 = 3 := by omega
    rw [ex, ey, en] at hfam
    rw [hfam]
    show ∃ m1, (m.cpu.regs.V X >>= fun vx => m.cpu.regs.V Y >>= fun vy =>
      (m.assignV X (vx ^^^ vy) >>= fun m1 => Exec.clearFlagOnChip8 m1)) = .ok m1 ∧ _
    rw [V_of_lt _ hX, V_of_lt _ hY]
    exact logic_arm m X _ hX (xor_lt_256 _ _ hvx hvy) hlen

/-! ## Skips, the draw gate and the key wait -/

theorem step_of_exec_ok (m : Machine) (host : Host) (op : Nat) (m1 : Machine)
    (hf : m.fetchOpcode = .ok op) (he : m.skip.executeOpcode host op = .ok m1) :
    m.step host = .ok m1.updateBuzzer := by
  unfold Machine.step
  rw [hf]
  show (m.skip.executeOpcode host op >>= _) = _
  rw [he]
  rfl

theorem u16_u16_add (p k : Nat) : u16 (u16 p + k) = (p + k) % 65536 := by
  unfold u16
  omega

theorem u16_skip_rewind (p : Nat) (hp : p < 65536) : u16 (u16 (p + 2) + 65536 - 2) = p := by
  unfold u16
  omega

/-- What `step` leaves of a machine whose instruction only moves the program
counter to `pc`. -/
theorem regs_after_pc_move (m : Machine) (pc : Nat) :
    (m.setRegs { m.cpu.regs with pc := pc }).updateBuzzer.cpu.regs
        = { m.cpu.regs with pc := pc } ∧
    (m.setRegs { m.cpu.regs with pc := pc }).updateBuzzer.cpu.mem = m.cpu.mem ∧
    (m.setRegs { m.cpu.regs with pc := pc }).updateBuzzer.cpu.disp = m.cpu.disp := by
  refine ⟨by rw [updateBuzzer_regs]; rfl, by rw [updateBuzzer_mem]; rfl, ?_⟩
  unfold Machine.updateBuzzer
  split <;> rfl

theorem executeOpcode_family3 (m : Machine) (host : Host) (op : Nat)
    (h : op / 4096 % 16 = 3) :
    m.executeOpcode host op = (do
      let vx ← m.cpu.regs.V (op / 256 % 16)
      if vx = op % 256 then pure m.skip else pure m) := by
  unfold Machine.executeOpcode
  rw [extended_none m op (by omega) (by omega)]
  simp only [Exec.dispatch, nibble1_eq, nibble2_eq, low8_eq, h]

theorem executeOpcode_family4 (m : Machine) (host : Host) (op : Nat)
    (h : op / 4096 % 16 = 4) :
    m.executeOpcode host op = (do
      let vx ← m.cpu.regs.V (op / 256 % 16)
      if vx ≠ op % 256 then pure m.skip else pure m) := by
  unfold Machine.executeOpcode
  rw [extended_none m op (by omega) (by omega)]
  simp only [Exec.dispatch, nibble1_eq, nibble2_eq, low8_eq, h]

theorem executeOpcode_family5 (m : Machine) (host : Host) (op : Nat)
    (h : op / 4096 % 16 = 5) :
    m.executeOpcode host op = Exec.case5 m (op / 256 % 16) (op / 16 % 16) (op % 16) := by
  unfold Machine.executeOpcode
  rw [extended_none m op (by omega) (by omega)]
  simp only [Exec.dispatch, nibble1_eq, nibble2_eq, nibble3_eq, nibble4_eq, h]

theorem executeOpcode_family9 (m : Machine) (host : Host) (op : Nat)
    (h : op / 4096 % 16 = 9) (hn : op % 16 = 0) :
    m.executeOpcode host op = (do
      let vx ← m.cpu.regs.V (op / 256 % 16)
      let vy ← m.cpu.regs.V (op / 16 % 16)
      if vx ≠ vy then pure m.skip else pure m) := by
  unfold Machine.executeOpcode
  rw [extended_none m op (by omega) (by omega)]
  simp only [Exec.dispatch, nibble1_eq, nibble2_eq, nibble3_eq, nibble4_eq, h, hn, if_true]

/-- A `step` whose instruction skips the next one when `c` holds and does nothing
else. -/
theorem step_skip_if (m : Machine) (host : Host) (op : Nat) (c : Prop) [Decidable c]
    (hf : m.fetchOpcode = .ok op)
    (he : m.skip.executeOpcode host op = .ok (if c then m.skip.skip else m.skip)) :
    ∃ m1, m.step host = .ok m1 ∧
      m1.cpu.regs = { m.cpu.regs with
        pc := if c then (m.cpu.regs.pc + 4) % 65536 else (m.cpu.regs.pc + 2) % 65536 } ∧
      m1.cpu.mem = m.cpu.mem ∧ m1.cpu.disp = m.cpu.disp := by
  refine ⟨_, step_of_exec_ok m host op _ hf he, ?_⟩
  by_cases hc : c
  · rw [if_pos hc, if_pos hc]
    have e : m.skip.skip = m.setRegs { m.cpu.regs with pc := (m.cpu.regs.pc + 4) % 65536 } := by
      unfold Machine.skip Machine.setRegs
      simp only []
      rw [u16_u16_add]
    rw [e]
    exact regs_after_pc_move m _
  · rw [if_neg hc, if_neg hc]
    have e : m.skip = m.setRegs { m.cpu.regs with pc := (m.cpu.regs.pc + 2) % 65536 } := rfl
    rw [e]
    exact regs_after_pc_move m _

theorem fetchOpcode_of_bytes (m : Machine) (hi lo : Nat) (hhi : hi < 256) (hlo : lo < 256)
    (hpc : m.cpu.regs.pc + 1 < 65536) (hmem : m.cpu.regs.pc + 1 < m.cpu.mem.memory.length)
    (b0 : m.cpu.mem.memory.getD m.cpu.regs.pc 0 = hi)
    (b1 : m.cpu.mem.memory.getD (m.cpu.regs.pc + 1) 0 = lo) :
    m.fetchOpcode = .ok (0x100 * hi + lo) := by
  unfold Machine.fetchOpcode
  dsimp only
  rw [read_of_lt m.cpu.mem (by omega : m.cpu.regs.pc < 65536) (by omega),
    read_of_lt m.cpu.mem hpc hmem, b0, b1]
  show Except.ok (u16 ((hi <<< 8) ||| lo)) = _
  rw [byte_pair hi lo hlo hhi]

/-- The first fetch of a fresh interpreter whose memory holds `hi lo` at `0x200`. -/
theorem freshWithMemory_fetch (variant : Variant) (mem : Chip8Memory) (st : Statics)
    (hi lo : Nat) (hhi : hi < 256) (hlo : lo < 256) (hlen : 0x200 + 1 < mem.memory.length)
    (b0 : mem.memory.getD 0x200 0 = hi) (b1 : mem.memory.getD (0x200 + 1) 0 = lo) :
    (freshWithMemory variant mem st).fetchOpcode = .ok (0x100 * hi + lo) :=
  fetchOpcode_of_bytes (freshWithMemory variant mem st) hi lo hhi hlo
    (show 0x200 + 1 < 65536 by decide) hlen b0 b1

/-- The first fetch of a fresh CHIP8 interpreter whose ROM starts with `hi lo`. -/
theorem fresh_fetch (st : Statics) (hi lo : Nat) (rest : List Nat) (hhi : hi < 256)
    (hlo : lo < 256) (hfit : (hi :: lo :: rest).length + 0x200 ≤ 4096) :
    (freshWithMemory Variant.CHIP8 ((Chip8Memory.init 4096).loadROM (hi :: lo :: rest)).2
      st).fetchOpcode = .ok (0x100 * hi + lo) := by
  have hl := freshLoaded_length (hi :: lo :: rest) hfit
  have h0 := freshLoaded_getD (hi :: lo :: rest) hfit 0 (by simp)
  have h1 := freshLoaded_getD (hi :: lo :: rest) hfit 1 (by simp)
  exact freshWithMemory_fetch Variant.CHIP8 _ st hi lo hhi hlo (by rw [hl]; decide) h0 h1

/-- C30: for every variant, a `step()` that fetches `DXYN` with `N >= 1` while the
clock comparison of the draw gate reports less than 1/60 s leaves the whole register
file (`PC`, every V register, `I`, `SP`, the stack), the memory and the display,
framebuffer included, as they were. -/
theorem draw_gate_holds (m : Machine) (host : Host) (op X Y N : Nat) (hX : X < 16)
    (hY : Y < 16) (hN1 : 1 ≤ N) (hN : N < 16) (hpc : m.cpu.regs.pc < 65536)
    (hf : m.fetchOpcode = .ok op) (hop : op = 0xD000 + 0x100 * X + 0x10 * Y + N)
    (hgate : host.frameElapsed = false) :
    ∃ m1, m.step host = .ok m1 ∧ m1.cpu.regs = m.cpu.regs ∧ m1.cpu.mem = m.cpu.mem ∧
      m1.cpu.disp = m.cpu.disp := by
  have he : m.skip.executeOpcode host op = .ok m.skip.rewind := by
    rw [executeOpcode_familyD _ _ _ (by omega) (by omega)]
    unfold Exec.caseD
    rw [V_of_lt _ (by omega), V_of_lt _ (by omega)]
    simp only [hgate, bind, Except.bind, Bool.not_false, if_true, pure, Except.pure]
  refine ⟨_, step_of_exec_ok m host op _ hf he, ?_⟩
  have e : m.skip.rewind = m.setRegs { m.cpu.regs with pc := m.cpu.regs.pc } := by
    unfold Machine.rewind Machine.skip Machine.setRegs
    simp only []
    rw [u16_skip_rewind _ hpc]
  rw [e]
  exact regs_after_pc_move m _

/-- C26: a `step()` that fetches `3XNN`, `4XNN`, `5XY0` or `9XY0` at `PC = p`
leaves `PC = p + 4` when the condition of the instruction holds and `PC = p + 2`
otherwise, in the 16-bit arithmetic of the register, and leaves every other register
(V registers, `I`, `SP`, stack), the memory and the display unchanged. -/
theorem step_skips (m : Machine) (host : Host) (op X Y NN : Nat) (hX : X < 16) (hY : Y < 16)
    (hNN : NN < 256) (hf : m.fetchOpcode = .ok op) :
    (op = 0x3000 + 0x100 * X + NN → ∃ m1, m.step host = .ok m1 ∧
      m1.cpu.regs = { m.cpu.regs with
        pc := if m.cpu.regs.v.getD X 0 = NN then (m.cpu.regs.pc + 4) % 65536
              else (m.cpu.regs.pc + 2) % 65536 } ∧
      m1.cpu.mem = m.cpu.mem ∧ m1.cpu.disp = m.cpu.disp) ∧
    (op = 0x4000 + 0x100 * X + NN → ∃ m1, m.step host = .ok m1 ∧
      m1.cpu.regs = { m.cpu.regs with
        pc := if m.cpu.regs.v.getD X 0 ≠ NN then (m.cpu.regs.pc + 4) % 65536
              else (m.cpu.regs.pc + 2) % 65536 } ∧
      m1.cpu.mem = m.cpu.mem ∧ m1.cpu.disp = m.cpu.disp) ∧
    (op = 0x5000 + 0x100 * X + 0x10 * Y → ∃ m1, m.step host = .ok m1 ∧
      m1.cpu.regs = { m.cpu.regs with
        pc := if m.cpu.regs.v.getD X 0 = m.cpu.regs.v.getD Y 0 then (m.cpu.regs.pc + 4) % 65536
              else (m.cpu.regs.pc + 2) % 65536 } ∧
      m1.cpu.mem = m.cpu.mem ∧ m1.cpu.disp = m.cpu.disp) ∧
    (op = 0x9000 + 0x100 * X + 0x10 * Y → ∃ m1, m.step host = .ok m1 ∧
      m1.cpu.regs = { m.cpu.regs with
        pc := if m.cpu.regs.v.getD X 0 ≠ m.cpu.regs.v.getD Y 0 then (m.cpu.regs.pc + 4) % 65536
              else (m.cpu.regs.pc + 2) % 65536 } ∧
      m1.cpu.mem = m.cpu.mem ∧ m1.cpu.disp = m.cpu.disp) := by
  refine ⟨fun hop => ?_, fun hop => ?_, fun hop => ?_, fun hop => ?_⟩
  · refine step_skip_if m host op _ hf ?_
    rw [executeOpcode_family3 _ _ _ (by omega)]
    have ex : op / 256 % 16 = X := by omega
    have en : op % 256 = NN := by omega
    rw [ex, en, V_of_lt _ hX]
    show (if m.cpu.regs.v.getD X 0 = NN then pure m.skip.skip else pure m.skip) = _
    split <;> rfl
  · refine step_skip_if m host op _ hf ?_
    rw [executeOpcode_family4 _ _ _ (by omega)]
    have ex : op / 256 % 16 = X := by omega
    have en : op % 256 = NN := by omega
    rw [ex, en, V_of_lt _ hX]
    show (if m.cpu.regs.v.getD X 0 ≠ NN then pure m.skip.skip else pure m.skip) = _
    split <;> rfl
  · refine step_skip_if m host op _ hf ?_
    rw [executeOpcode_family5 _ _ _ (by omega)]
    have ex : op / 256 % 16 = X := by omega
    have ey : op / 16 % 16 = Y := by omega
    have en : op % 16 = 0 := by omega
    rw [ex, ey, en]
    unfold Exec.case5 Exec.regsEqual
    rw [if_pos rfl, V_of_lt _ hX, V_of_lt _ hY]
    show (if decide (m.cpu.regs.v.getD X 0 = m.cpu.regs.v.getD Y 0) = true
      then pure m.skip.skip else _) = _
    by_cases hc : m.cpu.regs.v.getD X 0 = m.cpu.regs.v.getD Y 0
    · rw [if_pos (decide_eq_true hc), if_pos hc]; rfl
    · rw [if_neg (by simpa using hc), if_neg hc, if_neg (by omega), if_neg (by omega)]; rfl
  · refine step_skip_if m host op _ hf ?_
    rw [executeOpcode_family9 _ _ _ (by omega) (by omega)]
    have ex : op / 256 % 16 = X := by omega
    have ey : op / 16 % 16 = Y := by omega
    rw [ex, ey, V_of_lt _ hX, V_of_lt _ hY]
    show (if m.cpu.regs.v.getD X 0 ≠ m.cpu.regs.v.getD Y 0 then pure m.skip.skip
      else pure m.skip) = _
    split <;> rfl

/-! ## `FX33`, `FX55`, `FX65` -/

theorem u16_of_lt {a : Nat} (h : a < 65536) : u16 a = a := Nat.mod_eq_of_lt h

theorem u8_of_lt {a : Nat} (h : a < 256) : u8 a = a := Nat.mod_eq_of_lt h

/-- C27: for every `X` and byte `v` in `VX`, with `I + 2` inside the memory, `FX33`
succeeds and stores decimal digits `h`, `t`, `o` with `100 h + 10 t + o = v` at `I`,
`I + 1`, `I + 2`; no other memory byte, no register and nothing of the display changes. -/
theorem exec_FX33 (m : Machine) (host : Host) (X : Nat) (hX : X < 16)
    (hv : m.cpu.regs.v.getD X 0 < 256)
    (hI : m.cpu.regs.i + 2 < m.cpu.mem.size) (hsz : m.cpu.mem.size ≤ 65536) :
    ∃ m1 h t o, m.executeOpcode host (0xF033 + 0x100 * X) = .ok m1 ∧
      h ≤ 9 ∧ t ≤ 9 ∧ o ≤ 9 ∧ 100 * h + 10 * t + o = m.cpu.regs.v.getD X 0 ∧
      m1.cpu.mem.memory[m.cpu.regs.i]? = some h ∧
      m1.cpu.mem.memory[m.cpu.regs.i + 1]? = some t ∧
      m1.cpu.mem.memory[m.cpu.regs.i + 2]? = some o ∧
      (∀ a, a ≠ m.cpu.regs.i → a ≠ m.cpu.regs.i + 1 → a ≠ m.cpu.regs.i + 2 →
        m1.cpu.mem.memory[a]? = m.cpu.mem.memory[a]?) ∧
      m1.cpu.mem.size = m.cpu.mem.size ∧ m1.cpu.regs = m.cpu.regs ∧
      m1.cpu.disp = m.cpu.disp := by
  have hI2 : m.cpu.regs.i + 2 < m.cpu.mem.memory.length := hI
  have hsz2 : m.cpu.mem.memory.length ≤ 65536 := hsz
  generalize hval : m.cpu.regs.v.getD X 0 = v at hv
  have hexec := executeOpcode_familyF m host (0xF033 + 0x100 * X) (by omega)
  have ex : (0xF033 + 0x100 * X) / 256 % 16 = X := by omega
  have en : (0xF033 + 0x100 * X) % 256 = 0x33 := by omega
  rw [ex, en] at hexec
  have hbcd : Exec.caseF m X 0x33 = .ok (m.setMem
      ⟨((m.cpu.mem.memory.set m.cpu.regs.i (v / 100)).set (m.cpu.regs.i + 1)
        (v / 10 % 10)).set (m.cpu.regs.i + 2) (v % 10)⟩) := by
    show Exec.storeBcd m X = _
    unfold Exec.storeBcd
    rw [V_of_lt _ hX, hval]
    show (liftRes (m.cpu.mem.write m.cpu.regs.i (v / 100)) >>= _) = _
    rw [write_ok _ _ _ (by rw [u16_of_lt (by omega)]; omega), u16_of_lt (by omega),
      u8_of_lt (by omega)]
    show (liftRes (Chip8Memory.write _ (m.cpu.regs.i + 1) (v / 10 % 10)) >>= _) = _
    rw [write_ok _ _ _ (by
      show ¬ (List.set _ _ _).length ≤ _
      rw [List.length_set, u16_of_lt (by omega)]; omega), u16_of_lt (by omega),
      u8_of_lt (by omega)]
    show (liftRes (Chip8Memory.write _ (m.cpu.regs.i + 2) (v % 10)) >>= _) = _
    rw [write_ok _ _ _ (by
      show ¬ (List.set _ _ _).length ≤ _
      rw [List.length_set, List.length_set, u16_of_lt (by omega)]; omega), u16_of_lt (by omega),
      u8_of_lt (by omega)]
    rfl
  rw [hbcd] at hexec
  refine ⟨_, v / 100, v / 10 % 10, v % 10, hexec, by omega, by omega, by omega, by omega,
    ?_, ?_, ?_, ?_, ?_, rfl, rfl⟩
  · show (((m.cpu.mem.memory.set _ _).set _ _).set _ _)[m.cpu.regs.i]? = _
    rw [List.getElem?_set_ne (by omega), List.getElem?_set_ne (by omega),
      List.getElem?_set_self (by omega)]
  · show (((m.cpu.mem.memory.set _ _).set _ _).set _ _)[m.cpu.regs.i + 1]? = _
    rw [List.getElem?_set_ne (by omega),
      List.getElem?_set_self (by rw [List.length_set]; omega)]
  · show (((m.cpu.mem.memory.set _ _).set _ _).set _ _)[m.cpu.regs.i + 2]? = _
    rw [List.getElem?_set_self (by rw [List.length_set, List.length_set]; omega)]
  · intro a h0 h1 h2
    show (((m.cpu.mem.memory.set _ _).set _ _).set _ _)[a]? = _
    rw [List.getElem?_set_ne (Ne.symm h2), List.getElem?_set_ne (Ne.symm h1),
      List.getElem?_set_ne (Ne.symm h0)]
  · show (((m.cpu.mem.memory.set _ _).set _ _).set _ _).length = _
    rw [List.length_set, List.length_set, List.length_set]
    rfl

theorem storeRegs_ok (regs : Chip8Registers) (l : List Nat) (hl : ∀ i ∈ l, i < 16)
    (hv : ∀ k, regs.v.getD k 0 < 256) (mem : Chip8Memory)
    (hin : ∀ i ∈ l, regs.i + i < mem.memory.length) (h64 : mem.memory.length ≤ 65536) :
    ∃ mem1, Exec.storeRegs regs l mem = .ok mem1 ∧
      mem1.memory.length = mem.memory.length ∧
      (∀ i ∈ l, mem1.memory[regs.i + i]? = some (regs.v.getD i 0)) ∧
      (∀ a, (∀ i ∈ l, regs.i + i ≠ a) → mem1.memory[a]? = mem.memory[a]?) := by
  induction l generalizing mem with
  | nil => exact ⟨mem, rfl, rfl, fun i hi => absurd hi (List.not_mem_nil i), fun _ _ => rfl⟩
  | cons i rest ih =>
    have hi16 := hl i (List.mem_cons_self i rest)
    have hiin := hin i (List.mem_cons_self i rest)
    have hlen1 : (mem.memory.set (regs.i + i) (regs.v.getD i 0)).length = mem.memory.length :=
      List.length_set ..
    obtain ⟨mem1, h1, h2, h3, h4⟩ := ih (fun k hk => hl k (List.mem_cons_of_mem i hk))
      ⟨mem.memory.set (regs.i + i) (regs.v.getD i 0)⟩
      (fun k hk => by
        show regs.i + k < (mem.memory.set _ _).length
        rw [hlen1]; exact hin k (List.mem_cons_of_mem i hk))
      (by show (mem.memory.set _ _).length ≤ 65536; rw [hlen1]; exact h64)
    refine ⟨mem1, ?_, by rw [h2]; exact hlen1, ?_, ?_⟩
    · unfold Exec.storeRegs
      rw [V_of_lt regs hi16]
      show (liftRes (mem.write (regs.i + i) _) >>= _) = _
      rw [write_ok _ _ _ (by rw [u16_of_lt (by omega)]; omega), u16_of_lt (by omega),
        u8_of_lt (hv i)]
      exact h1
    · intro j hj
      rcases List.mem_cons.mp hj with hji | hjr
      · subst hji
        by_cases hjr : j ∈ rest
        · exact h3 j hjr
        · rw [h4 _ (fun k hk hkj => hjr (by
            have : k = j := by omega
            rw [← this]; exact hk))]
          exact List.getElem?_set_self (by omega)
      · exact h3 j hjr
    · intro a ha
      rw [h4 a (fun k hk => ha k (List.mem_cons_of_mem i hk))]
      exact List.getElem?_set_ne (ha i (List.mem_cons_self i rest))

theorem loadRegs_ok (mem : Chip8Memory) (hwf : mem.WF) (l : List Nat) (hl : ∀ i ∈ l, i < 16)
    (regs : Chip8Registers) (hlen : regs.v.length = 16)
    (hin : ∀ i ∈ l, regs.i + i < mem.memory.length) (h64 : mem.memory.length ≤ 65536) :
    ∃ r, Exec.loadRegs mem l regs = .ok r ∧
      r.i = regs.i ∧ r.pc = regs.pc ∧ r.sp = regs.sp ∧ r.stack = regs.stack ∧
      r.v.length = 16 ∧
      (∀ i ∈ l, r.v.getD i 0 = mem.memory.getD (regs.i + i) 0) ∧
      (∀ k, k ∉ l → r.v.getD k 0 = regs.v.getD k 0) := by
  induction l generalizing regs with
  | nil =>
    exact ⟨regs, rfl, rfl, rfl, rfl, rfl, hlen, fun i hi => absurd hi (List.not_mem_nil i),
      fun _ _ => rfl⟩
  | cons i rest ih =>
    have hi16 := hl i (List.mem_cons_self i rest)
    have hiin := hin i (List.mem_cons_self i rest)
    have hbyte : mem.memory.getD (regs.i + i) 0 < 256 :=
      hwf _ (getD_mem_of_lt _ _ hiin)
    obtain ⟨r, h1, h2, h3, h4, h5, h6, h7, h8⟩ :=
      ih (fun k hk => hl k (List.mem_cons_of_mem i hk))
        { regs with v := regs.v.set i (mem.memory.getD (regs.i + i) 0) }
        (by show (regs.v.set _ _).length = 16; rw [List.length_set]; exact hlen)
        (fun k hk => hin k (List.mem_cons_of_mem i hk))
    refine ⟨r, ?_, h2, h3, h4, h5, h6, ?_, ?_⟩
    · unfold Exec.loadRegs
      rw [read_ok _ _ (by rw [u16_of_lt (by omega)]; omega), u16_of_lt (by omega)]
      show (liftRes (regs.setV i _) >>= _) = _
      unfold Chip8Registers.setV
      rw [if_neg (by omega), u8_of_lt hbyte]
      exact h1
    · intro j hj
      rcases List.mem_cons.mp hj with hji | hjr
      · subst hji
        by_cases hjr : j ∈ rest
        · exact h7 j hjr
        · rw [h8 j hjr]
          exact getD_set_same _ (by rw [hlen]; exact hi16)
      · exact h7 j hjr
    · intro k hk
      rw [h8 k (fun hkr => hk (List.mem_cons_of_mem i hkr))]
      exact getD_set_other _ (fun hik => hk (by rw [hik]; exact List.mem_cons_self k rest))

/-- C28: for every `X` with `I + X` inside the memory: `FX55` stores `Vi` at
`memory[I + i]` for every `i <= X` and changes no other byte and no V register; `FX65`
loads `Vi` from `memory[I + i]` for every `i <= X` and changes no register above `VX`
and no memory; after either, `I` is its old value plus `X + 1` (in the 16-bit arithmetic
of the register) when `quirks.loadStoreIncrementI` is set, and unchanged when it is not;
`PC`, `SP` and the stack are unchanged. -/
theorem exec_store_load (m : Machine) (host : Host) (X : Nat) (hX : X < 16)
    (hI : m.cpu.regs.i + X < m.cpu.mem.size) (hsz : m.cpu.mem.size ≤ 65536)
    (hlen : m.cpu.regs.v.length = 16) (hv : ∀ k, m.cpu.regs.v.getD k 0 < 256)
    (hwf : m.cpu.mem.WF) :
    (∃ m1, m.executeOpcode host (0xF055 + 0x100 * X) = .ok m1 ∧
      (∀ i, i ≤ X → m1.cpu.mem.memory[m.cpu.regs.i + i]? = some (m.cpu.regs.v.getD i 0)) ∧
      (∀ a, a < m.cpu.regs.i ∨ m.cpu.regs.i + X < a →
        m1.cpu.mem.memory[a]? = m.cpu.mem.memory[a]?) ∧
      m1.cpu.mem.size = m.cpu.mem.size ∧
      m1.cpu.regs = { m.cpu.regs with
        i := if m.cpu.quirks.loadStoreIncrementI then (m.cpu.regs.i + X + 1) % 65536
             else m.cpu.regs.i }) ∧
    (∃ m2, m.executeOpcode host (0xF065 + 0x100 * X) = .ok m2 ∧
      (∀ i, i ≤ X → m2.cpu.regs.v.getD i 0 = m.cpu.mem.memory.getD (m.cpu.regs.i + i) 0) ∧
      (∀ k, X < k → m2.cpu.regs.v.getD k 0 = m.cpu.regs.v.getD k 0) ∧
      m2.cpu.mem = m.cpu.mem ∧
      m2.cpu.regs.i = (if m.cpu.quirks.loadStoreIncrementI then (m.cpu.regs.i + X + 1) % 65536
        else m.cpu.regs.i) ∧
      m2.cpu.regs.pc = m.cpu.regs.pc ∧ m2.cpu.regs.sp = m.cpu.regs.sp ∧
      m2.cpu.regs.stack = m.cpu.regs.stack) := by
  have hI2 : m.cpu.regs.i + X < m.cpu.mem.memory.length := hI
  have hsz2 : m.cpu.mem.memory.length ≤ 65536 := hsz
  have hl := upTo_regs_lt X hX
  have hin : ∀ i ∈ upTo 0 (X + 1), m.cpu.regs.i + i < m.cpu.mem.memory.length := by
    intro i hi
    have := (mem_upTo hi).2
    omega
  constructor
  · obtain ⟨mem1, h1, h2, h3, h4⟩ := storeRegs_ok m.cpu.regs _ hl hv m.cpu.mem hin hsz2
    have hexec := executeOpcode_familyF m host (0xF055 + 0x100 * X) (by omega)
    have ex : (0xF055 + 0x100 * X) / 256 % 16 = X := by omega
    have en : (0xF055 + 0x100 * X) % 256 = 0x55 := by omega
    rw [ex, en] at hexec
    have hc : Exec.caseF m X 0x55 = .ok (Exec.bumpI (m.setMem mem1) X) := by
      show (Exec.storeRegs m.cpu.regs (upTo 0 (X + 1)) m.cpu.mem >>= _) = _
      rw [h1]
      rfl
    rw [hc] at hexec
    refine ⟨_, hexec, ?_, ?_, ?_, ?_⟩
    · intro i hi
      have e : (Exec.bumpI (m.setMem mem1) X).cpu.mem = mem1 := by
        unfold Exec.bumpI; split <;> rfl
      rw [e]
      exact h3 i (mem_upTo_of (Nat.zero_le i) (by omega))
    · intro a ha
      have e : (Exec.bumpI (m.setMem mem1) X).cpu.mem = mem1 := by
        unfold Exec.bumpI; split <;> rfl
      rw [e]
      exact h4 a (fun i hi => by have := (mem_upTo hi).2; omega)
    · have e : (Exec.bumpI (m.setMem mem1) X).cpu.mem = mem1 := by
        unfold Exec.bumpI; split <;> rfl
      rw [e]
      exact h2
    · unfold Exec.bumpI
      by_cases hq : m.cpu.quirks.loadStoreIncrementI = true
      · have hq2 : (m.setMem mem1).cpu.quirks.loadStoreIncrementI = true := hq
        rw [if_pos hq2, if_pos hq]
        show ({ m.cpu.regs with i := u16 (m.cpu.regs.i + (X + 1)) } : Chip8Registers) = _
        unfold u16
        rw [Nat.add_assoc]
      · have hq2 : ¬ (m.setMem mem1).cpu.quirks.loadStoreIncrementI = true := hq
        rw [if_neg hq2, if_neg hq]
        rfl
  · obtain ⟨r, h1, h2, h3, h4, h5, h6, h7, h8⟩ :=
      loadRegs_ok m.cpu.mem hwf _ hl m.cpu.regs hlen hin hsz2
    have hexec := executeOpcode_familyF m host (0xF065 + 0x100 * X) (by omega)
    have ex : (0xF065 + 0x100 * X) / 256 % 16 = X := by omega
    have en : (0xF065 + 0x100 * X) % 256 = 0x65 := by omega
    rw [ex, en] at hexec
    have hc : Exec.caseF m X 0x65 = .ok (Exec.bumpI (m.setRegs r) X) := by
      show (Exec.loadRegs m.cpu.mem (upTo 0 (X + 1)) m.cpu.regs >>= _) = _
      rw [h1]
      rfl
    rw [hc] at hexec
    have ev : (Exec.bumpI (m.setRegs r) X).cpu.regs.v = r.v := by
      unfold Exec.bumpI; split <;> rfl
    refine ⟨_, hexec, ?_, ?_, ?_, ?_, ?_, ?_, ?_⟩
    · intro i hi
      rw [ev]
      exact h7 i (mem_upTo_of (Nat.zero_le i) (by omega))
    · intro k hk
      rw [ev]
      exact h8 k (fun hmem => by have := (mem_upTo hmem).2; omega)
    · unfold Exec.bumpI; split <;> rfl
    · unfold Exec.bumpI
      by_cases hq : m.cpu.quirks.loadStoreIncrementI = true
      · have hq2 : (m.setRegs r).cpu.quirks.loadStoreIncrementI = true := hq
        rw [if_pos hq2, if_pos hq]
        show u16 (r.i + (X + 1)) = _
        rw [h2]
        unfold u16
        rw [Nat.add_assoc]
      · have hq2 : ¬ (m.setRegs r).cpu.quirks.loadStoreIncrementI = true := hq
        rw [if_neg hq2, if_neg hq]
        exact h2
    · unfold Exec.bumpI; split
      · exact h3
      · exact h3
    · unfold Exec.bumpI; split
      · exact h4
      · exact h4
    · unfold Exec.bumpI; split
      · exact h5
      · exact h5

/-! ## `FX0A` -/

theorem executeOpcode_FX0A (m : Machine) (host : Host) (X : Nat) (hX : X < 16) :
    m.executeOpcode host (0xF00A + 0x100 * X) = Exec.waitKey m X := by
  rw [executeOpcode_familyF _ _ _ (by omega)]
  have ex : (0xF00A + 0x100 * X) / 256 % 16 = X := by omega
  have en : (0xF00A + 0x100 * X) % 256 = 0x0A := by omega
  rw [ex, en]
  rfl

theorem updateBuzzer_wait (m : Machine) :
    m.updateBuzzer.st.waitingForRelease = m.st.waitingForRelease ∧
    m.updateBuzzer.st.lastKey = m.st.lastKey ∧ m.updateBuzzer.cpu.inp = m.cpu.inp := by
  unfold Machine.updateBuzzer
  split
  · exact ⟨rfl, rfl, rfl⟩
  · exact ⟨rfl, rfl, rfl⟩

theorem skip_rewind_regs (m : Machine) (hpc : m.cpu.regs.pc < 65536) :
    m.skip.rewind.cpu.regs = m.cpu.regs := by
  unfold Machine.rewind Machine.skip Machine.setRegs
  simp only []
  rw [u16_skip_rewind _ hpc]

theorem rewind_inp (m : Machine) : m.rewind.cpu.inp = m.cpu.inp := by
  unfold Machine.rewind Machine.setRegs; rfl

theorem rewind_mem (m : Machine) : m.rewind.cpu.mem = m.cpu.mem := by
  unfold Machine.rewind Machine.setRegs; rfl

theorem rewind_st (m : Machine) : m.rewind.st = m.st := by
  unfold Machine.rewind Machine.setRegs; rfl

/-- One `step` on `FX0A`, by the state of the key wait and the key `getPressedKey`
reports. -/
theorem step_FX0A (m : Machine) (host : Host) (X : Nat) (hX : X < 16)
    (hpc : m.cpu.regs.pc < 65536) (hf : m.fetchOpcode = .ok (0xF00A + 0x100 * X)) :
    ∃ m1, m.step host = .ok m1 ∧ m1.cpu.inp = m.cpu.inp ∧ m1.cpu.mem = m.cpu.mem ∧
      (m.st.waitingForRelease = false → m.cpu.inp.getPressedKey = -1 →
        m1.cpu.regs = m.cpu.regs ∧ m1.st.waitingForRelease = false) ∧
      (m.st.waitingForRelease = false → m.cpu.inp.getPressedKey ≠ -1 →
        m1.cpu.regs = { m.cpu.regs with
          v := m.cpu.regs.v.set X (u8 (m.cpu.inp.getPressedKey % 256).toNat) } ∧
        m1.st.waitingForRelease = true ∧ m1.st.lastKey = m.cpu.inp.getPressedKey) ∧
      (m.st.waitingForRelease = true → m.cpu.inp.getPressedKey = m.st.lastKey →
        m1.cpu.regs = m.cpu.regs ∧ m1.st.waitingForRelease = true ∧
        m1.st.lastKey = m.st.lastKey) ∧
      (m.st.waitingForRelease = true → m.cpu.inp.getPressedKey ≠ m.st.lastKey →
        m1.cpu.regs = { m.cpu.regs with pc := (m.cpu.regs.pc + 2) % 65536 } ∧
        m1.st.waitingForRelease = false) := by
  have hskip : m.skip.cpu.regs.pc < 65536 := Nat.mod_lt _ (by decide)
  have key : ∃ r, Exec.waitKey m.skip X = .ok r ∧ r.cpu.inp = m.cpu.inp ∧ r.cpu.mem = m.cpu.mem ∧
      (m.st.waitingForRelease = false → m.cpu.inp.getPressedKey = -1 →
        r.cpu.regs = m.cpu.regs ∧ r.st.waitingForRelease = false) ∧
      (m.st.waitingForRelease = false → m.cpu.inp.getPressedKey ≠ -1 →
        r.cpu.regs = { m.cpu.regs with
          v := m.cpu.regs.v.set X (u8 (m.cpu.inp.getPressedKey % 256).toNat) } ∧
        r.st.waitingForRelease = true ∧ r.st.lastKey = m.cpu.inp.getPressedKey) ∧
      (m.st.waitingForRelease = true → m.cpu.inp.getPressedKey = m.st.lastKey →
        r.cpu.regs = m.cpu.regs ∧ r.st.waitingForRelease = true ∧
        r.st.lastKey = m.st.lastKey) ∧
      (m.st.waitingForRelease = true → m.cpu.inp.getPressedKey ≠ m.st.lastKey →
        r.cpu.regs = { m.cpu.regs with pc := (m.cpu.regs.pc + 2) % 65536 } ∧
        r.st.waitingForRelease = false) := by
    unfold Exec.waitKey
    dsimp only
    have hst : m.skip.st = m.st := rfl
    have hinp : m.skip.cpu.inp = m.cpu.inp := rfl
    rw [hst, hinp]
    by_cases hw : m.st.waitingForRelease = true
    · rw [hw]
      simp only [Bool.not_true, Bool.false_eq_true, if_false]
      by_cases hk : m.cpu.inp.getPressedKey = m.st.lastKey
      · rw [if_pos hk]
        refine ⟨_, rfl, ?_, ?_, (fun h => by cases h), (fun h => by cases h),
          (fun _ _ => ⟨skip_rewind_regs m hpc, ?_, ?_⟩), (fun _ h => absurd hk h)⟩
        · rw [rewind_inp]; rfl
        · rw [rewind_mem]; rfl
        · rw [rewind_st]; exact hw
        · rw [rewind_st]; rfl
      · rw [if_neg hk]
        exact ⟨_, rfl, rfl, rfl, (fun h => by cases h), (fun h => by cases h),
          (fun _ h => absurd h hk), (fun _ _ => ⟨rfl, rfl⟩)⟩
    · have hw2 : m.st.waitingForRelease = false := by
        cases h : m.st.waitingForRelease
        · rfl
        · exact absurd h hw
      rw [hw2]
      simp only [Bool.not_false, if_true]
      by_cases hk : m.cpu.inp.getPressedKey = -1
      · rw [if_pos hk]
        refine ⟨_, rfl, ?_, ?_, (fun _ _ => ⟨skip_rewind_regs m hpc, ?_⟩),
          (fun _ h => absurd hk h), (fun h => by cases h), (fun h => by cases h)⟩
        · rw [rewind_inp]; rfl
        · rw [rewind_mem]; rfl
        · rw [rewind_st]; exact hw2
      · rw [if_neg hk, assignV_of_lt _ _ hX]
        refine ⟨_, rfl, ?_, ?_, (fun _ h => absurd h hk), (fun _ _ => ⟨?_, ?_, ?_⟩),
          (fun h => by cases h), (fun h => by cases h)⟩
        · rw [rewind_inp]; rfl
        · rw [rewind_mem]; rfl
        · exact skip_rewind_regs
            (m.setRegs { m.cpu.regs with
              v := m.cpu.regs.v.set X (u8 (m.cpu.inp.getPressedKey % 256).toNat) }) hpc
        · rw [rewind_st]
        · rw [rewind_st]
  obtain ⟨r, hr, h1, h2, h3, h4, h5, h6⟩ := key
  have hs := step_of_exec_ok m host _ r hf (by rw [executeOpcode_FX0A _ _ X hX]; exact hr)
  have hb := updateBuzzer_wait r
  refine ⟨_, hs, by rw [hb.2.2]; exact h1, by rw [updateBuzzer_mem]; exact h2, ?_, ?_, ?_, ?_⟩
  · intro a b; rw [updateBuzzer_regs, hb.1]; exact h3 a b
  · intro a b; rw [updateBuzzer_regs, hb.1, hb.2.1]; exact h4 a b
  · intro a b; rw [updateBuzzer_regs, hb.1, hb.2.1]; exact h5 a b
  · intro a b; rw [updateBuzzer_regs, hb.1]; exact h6 a b

/-- The key wait on a fresh interpreter whose memory holds `F0 0A` at `0x200`: key 5
is captured, then key 3 goes down while key 5 is held. -/
theorem wait_scenario (mem : Chip8Memory) (hlen : 0x200 + 1 < mem.memory.length)
    (b0 : mem.memory.getD 0x200 0 = 0xF0) (b1 : mem.memory.getD (0x200 + 1) 0 = 0x0A) :
    ∃ m1 m2,
      ((freshWithMemory Variant.CHIP8 mem Statics.init).setKey 5 true).step idleHost = .ok m1 ∧
      m1.cpu.regs.pc = 0x200 ∧ m1.cpu.regs.v.getD 0 0 = 5 ∧
      m1.st.waitingForRelease = true ∧ m1.st.lastKey = 5 ∧
      (m1.setKey 3 true).step idleHost = .ok m2 ∧
      m2.cpu.inp.isPressed 5 = true ∧ m2.cpu.regs.pc = 0x202 := by
  have hf0 : ((freshWithMemory Variant.CHIP8 mem Statics.init).setKey 5 true).fetchOpcode
      = .ok (0xF00A + 0x100 * 0) :=
    fetchOpcode_of_bytes _ 0xF0 0x0A (by decide) (by decide)
      (show 0x200 + 1 < 65536 by decide) hlen b0 b1
  obtain ⟨m1, hs1, hinp1, hmem1, -, hcap, -, -⟩ :=
    step_FX0A _ idleHost 0 (by decide) (show 0x200 < 65536 by decide) hf0
  obtain ⟨hregs1, hw1, hl1⟩ := hcap rfl
    (show (Chip8Input.init.setKey 5 true).getPressedKey ≠ -1 by decide)
  have hpc1 : m1.cpu.regs.pc = 0x200 := by rw [hregs1]; rfl
  have hl1' : m1.st.lastKey = 5 := by rw [hl1]; rfl
  have hf1 : (m1.setKey 3 true).fetchOpcode = .ok (0xF00A + 0x100 * 0) := by
    have e1 : (m1.setKey 3 true).cpu.regs.pc = 0x200 := hpc1
    have e2 : (m1.setKey 3 true).cpu.mem = mem := hmem1
    exact fetchOpcode_of_bytes _ 0xF0 0x0A (by decide) (by decide)
      (by rw [e1]; decide) (by rw [e1, e2]; exact hlen) (by rw [e1, e2]; exact b0)
      (by rw [e1, e2]; exact b1)
  have hkeys : (m1.setKey 3 true).cpu.inp
      = ((Chip8Input.init.setKey 5 true).setKey 3 true) := by
    show m1.cpu.inp.setKey 3 true = _
    rw [hinp1]
    rfl
  obtain ⟨m2, hs2, hinp2, -, -, -, -, hrel⟩ :=
    step_FX0A (m1.setKey 3 true) idleHost 0 (by decide)
      (show (m1.setKey 3 true).cpu.regs.pc < 65536 by
        show m1.cpu.regs.pc < 65536
        rw [hpc1]; decide) hf1
  obtain ⟨hregs2, -⟩ := hrel hw1 (by
    show (m1.setKey 3 true).cpu.inp.getPressedKey ≠ m1.st.lastKey
    rw [hkeys, hl1']
    decide)
  refine ⟨m1, m2, hs1, hpc1, ?_, hw1, hl1', hs2, ?_, ?_⟩
  · rw [hregs1]; rfl
  · rw [hinp2, hkeys]; rfl
  · rw [hregs2]
    show ((m1.setKey 3 true).cpu.regs.pc + 2) % 65536 = 0x202
    show (m1.cpu.regs.pc + 2) % 65536 = 0x202
    rw [hpc1]

/-- C29 fails in the code: on a fresh CHIP8 interpreter whose ROM is `F0 0A`, with
key 5 down, the first step captures 5 in `V0` and keeps `PC = 0x200`; when key 3 goes
down while key 5 is still held, the next step leaves `PC = 0x202`: the wait ends although
the captured key is still pressed, because the test is `getPressedKey() == lastKey` and
`getPressedKey()` reports the lowest pressed key. -/
theorem wait_ends_while_key_held :
    ∃ m1 m2,
      ((freshWithMemory Variant.CHIP8 ((Chip8Memory.init 4096).loadROM [0xF0, 0x0A]).2
        Statics.init).setKey 5 true).step idleHost = .ok m1 ∧
      m1.cpu.regs.pc = 0x200 ∧ m1.cpu.regs.v.getD 0 0 = 5 ∧
      m1.st.waitingForRelease = true ∧ m1.st.lastKey = 5 ∧
      (m1.setKey 3 true).step idleHost = .ok m2 ∧
      m2.cpu.inp.isPressed 5 = true ∧ m2.cpu.regs.pc = 0x202 :=
  wait_scenario _ (by rw [freshLoaded_length [0xF0, 0x0A] (by decide)]; decide)
    (freshLoaded_getD [0xF0, 0x0A] (by decide) 0 (by decide))
    (freshLoaded_getD [0xF0, 0x0A] (by decide) 1 (by decide))

/-! ## Instances -/

/-- Instance of `exec_7XNN`: `7064` on `V0 = 200` wraps to 44 and leaves `VF = 7`. -/
theorem exec_7XNN_witness :
    ∃ m1, (machineWith Variant.CHIP8 {}
        [200, 0, 0, 0, 0, 0, 0, 0, 0, 0, 0, 0, 0, 0, 0, 7]).executeOpcode idleHost
        (0x7000 + 0x100 * 0 + 100) = .ok m1 ∧
      m1.cpu.regs.v.getD 0 0 = 44 ∧ m1.cpu.regs.v.getD 0xF 0 = 7 :=
  have h := exec_7XNN (machineWith Variant.CHIP8 {}
    [200, 0, 0, 0, 0, 0, 0, 0, 0, 0, 0, 0, 0, 0, 0, 7]) idleHost 0 100 (by decide) (by decide) rfl
  h.elim fun m1 h1 => ⟨m1, h1.1, h1.2.1, h1.2.2.2.1 (by decide)⟩

/-- C24 fails as stated when `X = F`: on CHIP8, `8F01` with `VF = 1`, `V0 = 0` leaves
`VF = 0`, not `1 OR 0`; on SCHIP, `8F01` with `VF = 1`, `V0 = 2` leaves `VF = 3`, so `VF`
does not keep its value. -/
theorem exec_logic_flag_is_operand :
    (∃ m1, (machineWith Variant.CHIP8 {}
        [0, 0, 0, 0, 0, 0, 0, 0, 0, 0, 0, 0, 0, 0, 0, 1]).executeOpcode idleHost 0x8F01 = .ok m1 ∧
      m1.cpu.regs.v.getD 0xF 0 = 0 ∧ m1.cpu.regs.v.getD 0xF 0 ≠ 1 ||| 0) ∧
    (∃ m2, (machineWith Variant.SCHIP {}
        [2, 0, 0, 0, 0, 0, 0, 0, 0, 0, 0, 0, 0, 0, 0, 1]).executeOpcode idleHost 0x8F01 = .ok m2 ∧
      m2.cpu.regs.v.getD 0xF 0 = 3 ∧ m2.cpu.regs.v.getD 0xF 0 ≠ 1) :=
  ⟨⟨_, rfl, by decide, by decide⟩, ⟨_, rfl, by decide, by decide⟩⟩

/-- Instance of `exec_logic`: `V1 = 0x0C`, `V2 = 0x0A`, `VF = 9` on an SCHIP interpreter. -/
theorem exec_logic_witness :
    (∃ m1, (machineWith Variant.SCHIP {}
        [0, 0x0C, 0x0A, 0, 0, 0, 0, 0, 0, 0, 0, 0, 0, 0, 0, 9]).executeOpcode idleHost
        (0x8001 + 0x100 * 1 + 0x10 * 2) = .ok m1 ∧
      m1.cpu.regs.v.getD 1 0 = 0x0E ∧ m1.cpu.regs.v.getD 0xF 0 = 9) ∧
    (∃ m2, (machineWith Variant.SCHIP {}
        [0, 0x0C, 0x0A, 0, 0, 0, 0, 0, 0, 0, 0, 0, 0, 0, 0, 9]).executeOpcode idleHost
        (0x8002 + 0x100 * 1 + 0x10 * 2) = .ok m2 ∧
      m2.cpu.regs.v.getD 1 0 = 0x08 ∧ m2.cpu.regs.v.getD 0xF 0 = 9) ∧
    (∃ m3, (machineWith Variant.SCHIP {}
        [0, 0x0C, 0x0A, 0, 0, 0, 0, 0, 0, 0, 0, 0, 0, 0, 0, 9]).executeOpcode idleHost
        (0x8003 + 0x100 * 1 + 0x10 * 2) = .ok m3 ∧
      m3.cpu.regs.v.getD 1 0 = 0x06 ∧ m3.cpu.regs.v.getD 0xF 0 = 9) :=
  have h := exec_logic (machineWith Variant.SCHIP {}
    [0, 0x0C, 0x0A, 0, 0, 0, 0, 0, 0, 0, 0, 0, 0, 0, 0, 9]) idleHost 1 2 (by decide) (by decide)
    rfl (by decide) (by decide)
  ⟨h.1.elim fun m1 h1 => ⟨m1, h1.1, (h1.2.2.2 (by decide)).1, (h1.2.2.2 (by decide)).2 (by decide)⟩,
   h.2.1.elim fun m2 h2 =>
     ⟨m2, h2.1, (h2.2.2.2 (by decide)).1, (h2.2.2.2 (by decide)).2 (by decide)⟩,
   h.2.2.elim fun m3 h3 =>
     ⟨m3, h3.1, (h3.2.2.2 (by decide)).1, (h3.2.2.2 (by decide)).2 (by decide)⟩⟩

theorem freshWithMemory_mem (variant : Variant) (mem : Chip8Memory) (st : Statics) :
    (freshWithMemory variant mem st).cpu.mem = mem := rfl

theorem freshWithMemory_regs (variant : Variant) (mem : Chip8Memory) (st : Statics) :
    (freshWithMemory variant mem st).cpu.regs = Chip8Registers.init := rfl

theorem freshWithMemory_disp (variant : Variant) (mem : Chip8Memory) (st : Statics) :
    (freshWithMemory variant mem st).cpu.disp = Chip8Display.init := rfl

/-- Instance of `step_skips`: a fresh CHIP8 interpreter whose ROM is `30 00`; `V0 = 0`
equals `NN`, so the step leaves `PC = 0x204`. -/
theorem step_skips_witness :
    ∃ m1, (freshWithMemory Variant.CHIP8 ((Chip8Memory.init 4096).loadROM [0x30, 0x00]).2
        Statics.init).step idleHost = .ok m1 ∧
      m1.cpu.regs.pc = 0x204 ∧ m1.cpu.regs.v = List.replicate 16 0 ∧
      m1.cpu.mem = ((Chip8Memory.init 4096).loadROM [0x30, 0x00]).2 := by
  have hf := fresh_fetch Statics.init 0x30 0x00 [] (by decide) (by decide) (by decide)
  obtain ⟨m1, h1, h2, h3, -⟩ := (step_skips _ idleHost _ 0 0 0 (by decide) (by decide)
    (by decide) hf).1 rfl
  rw [freshWithMemory_regs] at h2
  rw [freshWithMemory_mem] at h3
  refine ⟨m1, h1, ?_, ?_, h3⟩
  · rw [h2]; rfl
  · rw [h2]; rfl

/-- Instance of `draw_gate_holds`: a fresh CHIP8 interpreter whose ROM is `D0 11`,
stepped before the frame time has elapsed. -/
theorem draw_gate_holds_witness :
    ∃ m1, (freshWithMemory Variant.CHIP8 ((Chip8Memory.init 4096).loadROM [0xD0, 0x11]).2
        Statics.init).step busyHost = .ok m1 ∧
      m1.cpu.regs = Chip8Registers.init ∧ m1.cpu.disp = Chip8Display.init ∧
      m1.cpu.mem = ((Chip8Memory.init 4096).loadROM [0xD0, 0x11]).2 := by
  have hf := fresh_fetch Statics.init 0xD0 0x11 [] (by decide) (by decide) (by decide)
  obtain ⟨m1, h1, h2, h3, h4⟩ := draw_gate_holds _ busyHost _ 0 1 1 (by decide) (by decide)
    (by decide) (by decide) (show 0x200 < 65536 by decide) hf rfl rfl
  rw [freshWithMemory_regs] at h2
  rw [freshWithMemory_mem] at h3
  rw [freshWithMemory_disp] at h4
  exact ⟨m1, h1, h2, h4, h3⟩

theorem getD_lt_of_forall (l : List Nat) (n : Nat) (hn : 0 < n) (h : ∀ b ∈ l, b < n) (k : Nat) :
    l.getD k 0 < n := by
  by_cases hk : k < l.length
  · exact h _ (getD_mem_of_lt l 0 hk)
  · rw [List.getD_eq_default _ _ (by omega)]
    exact hn

theorem machineWith_mem (variant : Variant) (q : Quirks) (v : List Nat) :
    (machineWith variant q v).cpu.mem = Chip8Memory.init (Chip8CPU.memorySize variant) := by
  unfold machineWith Chip8CPU.init
  dsimp only

theorem machineWith_size (variant : Variant) (q : Quirks) (v : List Nat) :
    (machineWith variant q v).cpu.mem.size = Chip8CPU.memorySize variant := by
  show (machineWith variant q v).cpu.mem.memory.length = _
  rw [machineWith_mem, init_length]

/-- Instance of `exec_FX33`: `V3 = 234` on a fresh CHIP8 interpreter (`I = 0`). -/
theorem exec_FX33_witness :
    ∃ m1 h t o, (machineWith Variant.CHIP8 {}
        [0, 0, 0, 234, 0, 0, 0, 0, 0, 0, 0, 0, 0, 0, 0, 0]).executeOpcode idleHost
        (0xF033 + 0x100 * 3) = .ok m1 ∧
      h ≤ 9 ∧ t ≤ 9 ∧ o ≤ 9 ∧ 100 * h + 10 * t + o = 234 ∧
      m1.cpu.mem.memory[0]? = some h ∧ m1.cpu.mem.memory[1]? = some t ∧
      m1.cpu.mem.memory[2]? = some o := by
  obtain ⟨m1, h, t, o, h1, h2, h3, h4, h5, h6, h7, h8, -⟩ :=
    exec_FX33 (machineWith Variant.CHIP8 {}
      [0, 0, 0, 234, 0, 0, 0, 0, 0, 0, 0, 0, 0, 0, 0, 0]) idleHost 3 (by decide) (by decide)
      (by rw [machineWith_size]; decide) (by rw [machineWith_size]; decide)
  exact ⟨m1, h, t, o, h1, h2, h3, h4, h5, h6, h7, h8⟩

/-- Instance of `exec_store_load`: `X = 2` on a fresh SCHIP interpreter with default
quirks (`I` is incremented) and `I = 0`. -/
theorem exec_store_load_witness :
    (∃ m1, (machineWith Variant.SCHIP {}
        [7, 8, 9, 0, 0, 0, 0, 0, 0, 0, 0, 0, 0, 0, 0, 0]).executeOpcode idleHost
        (0xF055 + 0x100 * 2) = .ok m1 ∧
      m1.cpu.mem.memory[0]? = some 7 ∧ m1.cpu.mem.memory[1]? = some 8 ∧
      m1.cpu.mem.memory[2]? = some 9 ∧ m1.cpu.regs.i = 3) ∧
    (∃ m2, (machineWith Variant.SCHIP {}
        [7, 8, 9, 0, 0, 0, 0, 0, 0, 0, 0, 0, 0, 0, 0, 0]).executeOpcode idleHost
        (0xF065 + 0x100 * 2) = .ok m2 ∧
      m2.cpu.regs.v.getD 3 0 = 0 ∧ m2.cpu.regs.i = 3) := by
  have h := exec_store_load (machineWith Variant.SCHIP {}
      [7, 8, 9, 0, 0, 0, 0, 0, 0, 0, 0, 0, 0, 0, 0, 0]) idleHost 2 (by decide)
      (by rw [machineWith_size]; decide) (by rw [machineWith_size]; decide) rfl
      (getD_lt_of_forall _ 256 (by decide) (by decide))
      (by rw [machineWith_mem]; exact init_memory_WF _)
  obtain ⟨⟨m1, h1, h2, -, -, h5⟩, ⟨m2, k1, -, k3, -, k5, -⟩⟩ := h
  refine ⟨⟨m1, h1, h2 0 (by decide), h2 1 (by decide), h2 2 (by decide), ?_⟩,
    ⟨m2, k1, k3 3 (by decide), ?_⟩⟩
  · rw [h5]; rfl
  · rw [k5]; rfl

/-! ## Scrolling -/

theorem set_own (l : List (List Nat)) (i : Nat) (h : i < l.length) : l.set i l[i] = l := by
  apply List.ext_getElem?
  intro n
  by_cases hn : i = n
  · subst hn
    rw [List.getElem?_set_self h, List.getElem?_eq_getElem h]
  · rw [List.getElem?_set_ne hn]

theorem fbSet_of_not_inside (fb : Framebuffer) (y x v : Nat)
    (h : ¬ (y < fb.length ∧ x < (fb.getD y []).length)) : fbSet fb y x v = fb := by
  unfold fbSet
  by_cases hy : y < fb.length
  · have hx : (fb.getD y []).length ≤ x := by
      by_contra hc
      exact h ⟨hy, by omega⟩
    rw [List.set_eq_of_length_le hx, List.getD_eq_getElem _ _ hy]
    exact set_own fb y hy
  · exact List.set_eq_of_length_le (by omega)

/-- A cell after `fb[y][x] = v` is what it was, or it is the cell written. -/
theorem fbGet_fbSet_cases (fb : Framebuffer) (y x v y' x' : Nat) :
    fbGet (fbSet fb y x v) y' x' = fbGet fb y' x' ∨
    (y' = y ∧ x' = x ∧ fbGet (fbSet fb y x v) y' x' = v) := by
  by_cases h : y < fb.length ∧ x < (fb.getD y []).length
  · rw [fbGet_fbSet fb y x v y' x' h.1 h.2]
    by_cases hc : y' = y ∧ x' = x
    · rw [if_pos hc]; exact Or.inr ⟨hc.1, hc.2, rfl⟩
    · rw [if_neg hc]; exact Or.inl rfl
  · rw [fbSet_of_not_inside fb y x v h]
    exact Or.inl rfl

theorem testBit_one_shiftLeft (a p : Nat) : (1 <<< a).testBit p = decide (a = p) := by
  rw [Nat.one_shiftLeft, Nat.testBit_two_pow]

theorem testBit_lt_two_shiftLeft (s a p : Nat) (hs : s < 2) (hne : a ≠ p) :
    (s <<< a).testBit p = false := by
  rw [Nat.testBit_shiftLeft]
  by_cases h : a ≤ p
  · have h1 : p - a ≠ 0 := by omega
    have : s.testBit (p - a) = false := by
      apply Nat.testBit_eq_false_of_lt
      calc s < 2 := hs
        _ = 2 ^ 1 := rfl
        _ ≤ 2 ^ (p - a) := Nat.pow_le_pow_right (by decide) (by omega)
    simp [this]
  · simp [h]

theorem testBit_andNot (c a p : Nat) (hp : p < 8) (hne : a ≠ p) :
    (andNot c (1 <<< a)).testBit p = c.testBit p := by
  unfold andNot
  have h255 : (0xFF : Nat) = 2 ^ 8 - 1 := by decide
  rw [Nat.testBit_and, Nat.testBit_xor, h255, Nat.testBit_two_pow_sub_one,
    testBit_one_shiftLeft]
  simp [hp, hne]

theorem testBit_u8 (c p : Nat) (hp : p < 8) : (u8 c).testBit p = c.testBit p := by
  unfold u8
  have : (256 : Nat) = 2 ^ 8 := by decide
  rw [this, Nat.testBit_mod_two_pow]
  simp [hp]

/-- The plane copy leaves the bits of the other planes alone. -/
theorem copy_value_bit (c s a p : Nat) (hp : p < 8) (hne : a ≠ p) (hs : s < 2) :
    (u8 (andNot c (1 <<< a) ||| (s <<< a)) >>> p) &&& 1 = (c >>> p) &&& 1 := by
  rw [shr_and_one, shr_and_one, testBit_u8 _ _ hp, Nat.testBit_or, testBit_andNot _ _ _ hp hne,
    testBit_lt_two_shiftLeft _ _ _ hs hne, Bool.or_false]

/-- The plane clear leaves the bits of the other planes alone. -/
theorem clear_value_bit (c a p : Nat) (hp : p < 8) (hne : a ≠ p) :
    (u8 (andNot c (1 <<< a)) >>> p) &&& 1 = (c >>> p) &&& 1 := by
  rw [shr_and_one, shr_and_one, testBit_u8 _ _ hp, testBit_andNot _ _ _ hp hne]

theorem sameBit_copy (p a : Nat) (hp : p < 8) (hne : a ≠ p) (fb0 fb : Framebuffer)
    (y x sy sx : Nat) (h : SameBit p fb0 fb) : SameBit p fb0 (copyPlaneBit a fb y x sy sx) := by
  intro y' x'
  unfold copyPlaneBit
  dsimp only
  rcases fbGet_fbSet_cases fb y x
    (u8 (andNot (fbGet fb y x) (1 <<< a) ||| (((fbGet fb sy sx >>> a) &&& 1) <<< a))) y' x'
    with h1 | ⟨h1, h2, h3⟩
  · rw [h1]; exact h y' x'
  · rw [h3, copy_value_bit _ _ _ _ hp hne (by
      rw [shr_and_one]; cases (fbGet fb sy sx).testBit a <;> decide), ← h1, ← h2]
    exact h y' x'

theorem sameBit_clear (p a : Nat) (hp : p < 8) (hne : a ≠ p) (fb0 fb : Framebuffer)
    (y x : Nat) (h : SameBit p fb0 fb) : SameBit p fb0 (clearPlaneBit a fb y x) := by
  intro y' x'
  unfold clearPlaneBit
  rcases fbGet_fbSet_cases fb y x (u8 (andNot (fbGet fb y x) (1 <<< a))) y' x'
    with h1 | ⟨h1, h2, h3⟩
  · rw [h1]; exact h y' x'
  · rw [h3, clear_value_bit _ _ _ hp hne, ← h1, ← h2]
    exact h y' x'

theorem foldl_inv {α β : Type} (P : β → Prop) (l : List α) (f : β → α → β)
    (h : ∀ b a, P b → P (f b a)) (b0 : β) (h0 : P b0) : P (l.foldl f b0) := by
  induction l generalizing b0 with
  | nil => exact h0
  | cons a rest ih => exact ih _ (h b0 a h0)

theorem loopYX_inv (P : Framebuffer → Prop) (ys xs : List Nat)
    (body : Framebuffer → Nat → Nat → Framebuffer)
    (h : ∀ f y x, P f → P (body f y x)) (fb : Framebuffer) (h0 : P fb) :
    P (loopYX ys xs body fb) := by
  unfold loopYX
  exact foldl_inv P ys _ (fun f y hf => foldl_inv P xs _ (fun g x hg => h g y x hg) f hf) fb h0

theorem sameBit_refl (p : Nat) (fb : Framebuffer) : SameBit p fb fb := fun _ _ => rfl

theorem plane_ne_of_mask (mask a p : Nat) (hoff : mask &&& (1 <<< p) = 0)
    (hon : ¬ mask &&& (1 <<< a) = 0) : a ≠ p := by
  intro h
  subst h
  exact hon hoff

theorem scrollUp_sameBit (d : Chip8Display) (hc : d.colorMode = ColorMode.XOCHIP_2BPP)
    (lines p : Nat) (hl : lines < d.height) (hp : p < 8)
    (hoff : d.activePlanes &&& (1 <<< p) = 0) : SameBit p d.fb (d.scrollUp lines).2.fb := by
  have hh := height_pos_le d
  have e8 : u8 lines = lines := Nat.mod_eq_of_lt (by omega)
  unfold Chip8Display.scrollUp
  simp only [e8]
  by_cases h0 : lines = 0
  · rw [if_pos h0]; exact sameBit_refl p d.fb
  · rw [if_neg h0, if_neg (by omega), if_pos hc]
    refine foldl_inv (SameBit p d.fb) _ _ (fun fb plane hP => ?_) d.fb (sameBit_refl p d.fb)
    dsimp only
    split
    · exact hP
    · rename_i hon
      have hne := plane_ne_of_mask _ _ _ hoff hon
      refine loopYX_inv _ _ _ _ (fun f y x hf => sameBit_clear p plane hp hne d.fb f y x hf) _ ?_
      exact loopYX_inv _ _ _ _ (fun f y x hf => sameBit_copy p plane hp hne d.fb f y x _ _ hf) _ hP

theorem scrollDown_sameBit (d : Chip8Display) (hc : d.colorMode = ColorMode.XOCHIP_2BPP)
    (lines p : Nat) (hl : lines < d.height) (hp : p < 8)
    (hoff : d.activePlanes &&& (1 <<< p) = 0) : SameBit p d.fb (d.scrollDown lines).2.fb := by
  have hh := height_pos_le d
  have e8 : u8 lines = lines := Nat.mod_eq_of_lt (by omega)
  unfold Chip8Display.scrollDown
  simp only [e8]
  by_cases h0 : lines = 0
  · rw [if_pos h0]; exact sameBit_refl p d.fb
  · rw [if_neg h0, if_neg (by omega), if_pos hc]
    refine foldl_inv (SameBit p d.fb) _ _ (fun fb plane hP => ?_) d.fb (sameBit_refl p d.fb)
    dsimp only
    split
    · exact hP
    · rename_i hon
      have hne := plane_ne_of_mask _ _ _ hoff hon
      refine loopYX_inv _ _ _ _ (fun f y x hf => sameBit_clear p plane hp hne d.fb f y x hf) _ ?_
      exact loopYX_inv _ _ _ _ (fun f y x hf => sameBit_copy p plane hp hne d.fb f y x _ _ hf) _ hP

theorem scrollLeft_sameBit (d : Chip8Display) (hc : d.colorMode = ColorMode.XOCHIP_2BPP)
    (p : Nat) (hp : p < 8) (hoff : d.activePlanes &&& (1 <<< p) = 0) :
    SameBit p d.fb d.scrollLeft.2.fb := by
  have hw : ¬ 4 ≥ d.width := by unfold Chip8Display.width; split <;> decide
  unfold Chip8Display.scrollLeft
  dsimp only
  rw [if_neg hw, if_pos hc]
  refine foldl_inv (SameBit p d.fb) _ _ (fun fb plane hP => ?_) d.fb (sameBit_refl p d.fb)
  dsimp only
  split
  · exact hP
  · rename_i hon
    have hne := plane_ne_of_mask _ _ _ hoff hon
    refine foldl_inv (SameBit p d.fb) _ _ (fun f y hf => ?_) fb hP
    refine foldl_inv (SameBit p d.fb) _ _ (fun g x hg => sameBit_clear p plane hp hne d.fb g y x hg)
      _ ?_
    exact foldl_inv (SameBit p d.fb) _ _
      (fun g x hg => sameBit_copy p plane hp hne d.fb g y x _ _ hg) f hf

theorem scrollRight_sameBit (d : Chip8Display) (hc : d.colorMode = ColorMode.XOCHIP_2BPP)
    (p : Nat) (hp : p < 8) (hoff : d.activePlanes &&& (1 <<< p) = 0) :
    SameBit p d.fb d.scrollRight.2.fb := by
  have hw : ¬ 4 ≥ d.width := by unfold Chip8Display.width; split <;> decide
  unfold Chip8Display.scrollRight
  dsimp only
  rw [if_neg hw, if_pos hc]
  refine foldl_inv (SameBit p d.fb) _ _ (fun fb plane hP => ?_) d.fb (sameBit_refl p d.fb)
  dsimp only
  split
  · exact hP
  · rename_i hon
    have hne := plane_ne_of_mask _ _ _ hoff hon
    refine foldl_inv (SameBit p d.fb) _ _ (fun f y hf => ?_) fb hP
    refine foldl_inv (SameBit p d.fb) _ _ (fun g x hg => sameBit_clear p plane hp hne d.fb g y x hg)
      _ ?_
    exact foldl_inv (SameBit p d.fb) _ _
      (fun g x hg => sameBit_copy p plane hp hne d.fb g y x _ _ hg) f hf

theorem scroll_clears_past_height (d : Chip8Display) (lines : Nat) (h8 : lines < 256)
    (hl : d.height ≤ lines) :
    (d.scrollUp lines).2 = d.clear ∧ (d.scrollDown lines).2 = d.clear := by
  have hpos := (height_pos_le d).1
  have e8 : u8 lines = lines := Nat.mod_eq_of_lt h8
  constructor
  · unfold Chip8Display.scrollUp
    simp only [e8]
    rw [if_neg (by omega), if_pos (by omega)]
  · unfold Chip8Display.scrollDown
    simp only [e8]
    rw [if_neg (by omega), if_pos (by omega)]

/-- C21 (amended): in 2-plane color mode, for every framebuffer content, every
active-plane mask and every plane `p` not enabled in the mask: `scrollUp(lines)` and
`scrollDown(lines)` with `lines < height`, `scrollLeft()` and `scrollRight()` leave bit
`p` of every cell unchanged; `scrollUp(lines)` and `scrollDown(lines)` with
`lines >= height` leave every cell 0, so every plane is cleared, enabled or not. -/
theorem scroll_keeps_inactive_planes (d : Chip8Display)
    (hc : d.colorMode = ColorMode.XOCHIP_2BPP) (p : Nat) (hp : p < 2)
    (hoff : d.activePlanes &&& (1 <<< p) = 0) :
    (∀ lines, lines < d.height → ∀ y x,
      (fbGet (d.scrollUp lines).2.fb y x >>> p) &&& 1 = (fbGet d.fb y x >>> p) &&& 1 ∧
      (fbGet (d.scrollDown lines).2.fb y x >>> p) &&& 1 = (fbGet d.fb y x >>> p) &&& 1) ∧
    (∀ y x,
      (fbGet d.scrollLeft.2.fb y x >>> p) &&& 1 = (fbGet d.fb y x >>> p) &&& 1 ∧
      (fbGet d.scrollRight.2.fb y x >>> p) &&& 1 = (fbGet d.fb y x >>> p) &&& 1) ∧
    (∀ lines, d.height ≤ lines → lines < 256 → ∀ y x,
      fbGet (d.scrollUp lines).2.fb y x = 0 ∧ fbGet (d.scrollDown lines).2.fb y x = 0) := by
  refine ⟨fun lines hl y x => ⟨?_, ?_⟩, fun y x => ⟨?_, ?_⟩, fun lines hl h8 y x => ?_⟩
  · exact scrollUp_sameBit d hc lines p hl (by omega) hoff y x
  · exact scrollDown_sameBit d hc lines p hl (by omega) hoff y x
  · exact scrollLeft_sameBit d hc p (by omega) hoff y x
  · exact scrollRight_sameBit d hc p (by omega) hoff y x
  · have h := scroll_clears_past_height d lines h8 hl
    rw [h.1, h.2]
    exact ⟨fbGet_clearFb _ y x, fbGet_clearFb _ y x⟩

/-- C21 as stated fails: on a 2-plane display with only plane 0 active and the
plane-1 bit of cell (0, 0) set, `scrollUp(32)` and `scrollDown(32)` (`lines = height`)
take the `clear()` branch and leave that bit 0. -/
theorem scroll_past_height_clears_inactive_plane :
    planeOneDisplay.colorMode = ColorMode.XOCHIP_2BPP ∧
    planeOneDisplay.activePlanes &&& (1 <<< 1) = 0 ∧
    (fbGet planeOneDisplay.fb 0 0 >>> 1) &&& 1 = 1 ∧
    (fbGet (planeOneDisplay.scrollUp 32).2.fb 0 0 >>> 1) &&& 1 = 0 ∧
    (fbGet (planeOneDisplay.scrollDown 32).2.fb 0 0 >>> 1) &&& 1 = 0 := by
  have h := scroll_clears_past_height planeOneDisplay 32 (by decide) (by decide)
  refine ⟨by decide, by decide, by decide, ?_, ?_⟩
  · rw [h.1, show fbGet planeOneDisplay.clear.fb 0 0 = 0 from fbGet_clearFb _ 0 0]; decide
  · rw [h.2, show fbGet planeOneDisplay.clear.fb 0 0 = 0 from fbGet_clearFb _ 0 0]; decide

/-- Instance of `scroll_keeps_inactive_planes`: the display with only plane 0 active
and the plane-1 bit of cell (0, 0) set, and the plane `p = 1`. -/
theorem scroll_keeps_inactive_planes_witness :
    (fbGet planeOneDisplay.fb 0 0 >>> 1) &&& 1 = 1 ∧
    (∀ lines, lines < planeOneDisplay.height → ∀ y x,
      (fbGet (planeOneDisplay.scrollUp lines).2.fb y x >>> 1) &&& 1
        = (fbGet planeOneDisplay.fb y x >>> 1) &&& 1 ∧
      (fbGet (planeOneDisplay.scrollDown lines).2.fb y x >>> 1) &&& 1
        = (fbGet planeOneDisplay.fb y x >>> 1) &&& 1) ∧
    (∀ y x,
      (fbGet planeOneDisplay.scrollLeft.2.fb y x >>> 1) &&& 1
        = (fbGet planeOneDisplay.fb y x >>> 1) &&& 1 ∧
      (fbGet planeOneDisplay.scrollRight.2.fb y x >>> 1) &&& 1
        = (fbGet planeOneDisplay.fb y x >>> 1) &&& 1) ∧
    (∀ lines, planeOneDisplay.height ≤ lines → lines < 256 → ∀ y x,
      fbGet (planeOneDisplay.scrollUp lines).2.fb y x = 0 ∧
      fbGet (planeOneDisplay.scrollDown lines).2.fb y x = 0) :=
  ⟨by decide, scroll_keeps_inactive_planes planeOneDisplay (by decide) 1 (by decide) (by decide)⟩

/-! ## Mono scrolling -/

theorem fbGet_fbSet_wf (fb : Framebuffer) (h : WFfb fb) (y x v y' x' : Nat)
    (hy : y < 64) (hx : x < 128) :
    fbGet (fbSet fb y x v) y' x' = if y' = y ∧ x' = x then v else fbGet fb y' x' :=
  fbGet_fbSet fb y x v y' x' (by rw [h.1]; exact hy) (by rw [WFfb_row_length fb h hy]; exact hx)

/-- One row of a mono copy loop: the row `y` takes bit 0 of the row `sy`. -/
theorem rowCopy (y sy : Nat) (hy : y < 64) (hne : sy ≠ y) (xs : List Nat)
    (hxs : ∀ x ∈ xs, x < 128) (f : Framebuffer) (hf : WFfb f) :
    WFfb (xs.foldl (fun g x => copyMono g y x sy x) f) ∧
    ∀ y' x', fbGet (xs.foldl (fun g x => copyMono g y x sy x) f) y' x'
      = if y' = y ∧ x' ∈ xs then fbGet f sy x' &&& 1 else fbGet f y' x' := by
  induction xs generalizing f with
  | nil => exact ⟨hf, fun y' x' => by simp⟩
  | cons x rest ih =>
    have hx : x < 128 := hxs x (List.mem_cons_self _ _)
    have hv : fbGet f sy x &&& 1 < 256 :=
      Nat.lt_of_le_of_lt Nat.and_le_right (by decide)
    have hf1 : WFfb (copyMono f y x sy x) := WFfb_fbSet _ _ _ _ hf hv
    have get1 : ∀ y' x', fbGet (copyMono f y x sy x) y' x'
        = if y' = y ∧ x' = x then fbGet f sy x &&& 1 else fbGet f y' x' :=
      fun y' x' => fbGet_fbSet_wf f hf y x _ y' x' hy hx
    obtain ⟨w1, g1⟩ := ih (fun a ha => hxs a (List.mem_cons_of_mem _ ha)) _ hf1
    rw [List.foldl_cons]
    refine ⟨w1, fun y' x' => ?_⟩
    have hs : fbGet (copyMono f y x sy x) sy x' = fbGet f sy x' := by
      rw [get1 sy x', if_neg (fun h => hne h.1)]
    rw [g1 y' x', hs, get1 y' x']
    by_cases h1 : y' = y
    · by_cases h2 : x' ∈ rest
      · rw [if_pos ⟨h1, h2⟩, if_pos ⟨h1, List.mem_cons_of_mem _ h2⟩]
      · rw [if_neg (fun h => h2 h.2)]
        by_cases h3 : x' = x
        · rw [if_pos ⟨h1, h3⟩, if_pos ⟨h1, by rw [h3]; exact List.mem_cons_self _ _⟩, h3]
        · rw [if_neg (fun h => h3 h.2), if_neg]
          rintro ⟨_, h4⟩
          rcases List.mem_cons.1 h4 with h5 | h5
          · exact h3 h5
          · exact h2 h5
    · rw [if_neg (fun h => h1 h.1), if_neg (fun h => h1 h.1), if_neg (fun h => h1 h.1)]

/-- One row of a fill loop: the cells of the row `y` in `xs` become 0. -/
theorem rowZero (y : Nat) (hy : y < 64) (xs : List Nat)
    (hxs : ∀ x ∈ xs, x < 128) (f : Framebuffer) (hf : WFfb f) :
    WFfb (xs.foldl (fun g x => fbSet g y x 0) f) ∧
    ∀ y' x', fbGet (xs.foldl (fun g x => fbSet g y x 0) f) y' x'
      = if y' = y ∧ x' ∈ xs then 0 else fbGet f y' x' := by
  induction xs generalizing f with
  | nil => exact ⟨hf, fun y' x' => by simp⟩
  | cons x rest ih =>
    have hx : x < 128 := hxs x (List.mem_cons_self _ _)
    have hf1 : WFfb (fbSet f y x 0) := WFfb_fbSet _ _ _ _ hf (by decide)
    have get1 : ∀ y' x', fbGet (fbSet f y x 0) y' x'
        = if y' = y ∧ x' = x then 0 else fbGet f y' x' :=
      fun y' x' => fbGet_fbSet_wf f hf y x _ y' x' hy hx
    obtain ⟨w1, g1⟩ := ih (fun a ha => hxs a (List.mem_cons_of_mem _ ha)) _ hf1
    rw [List.foldl_cons]
    refine ⟨w1, fun y' x' => ?_⟩
    rw [g1 y' x', get1 y' x']
    by_cases h1 : y' = y
    · by_cases h2 : x' ∈ rest
      · rw [if_pos ⟨h1, h2⟩, if_pos ⟨h1, List.mem_cons_of_mem _ h2⟩]
      · rw [if_neg (fun h => h2 h.2)]
        by_cases h3 : x' = x
        · rw [if_pos ⟨h1, h3⟩, if_pos ⟨h1, by rw [h3]; exact List.mem_cons_self _ _⟩]
        · rw [if_neg (fun h => h3 h.2), if_neg]
          rintro ⟨_, h4⟩
          rcases List.mem_cons.1 h4 with h5 | h5
          · exact h3 h5
          · exact h2 h5
    · rw [if_neg (fun h => h1 h.1), if_neg (fun h => h1 h.1), if_neg (fun h => h1 h.1)]

/-- A mono copy loop nest whose row `y` reads the row `src y`, when no row is read after
it was written. -/
theorem loopCopy (src : Nat → Nat) (xs : List Nat) (hxs : ∀ x ∈ xs, x < 128) (ys : List Nat)
    (hys : ∀ y ∈ ys, y < 64 ∧ src y ≠ y) (hp : ys.Pairwise (fun a b => src b ≠ a))
    (f : Framebuffer) (hf : WFfb f) :
    WFfb (loopYX ys xs (fun g y x => copyMono g y x (src y) x) f) ∧
    ∀ y' x', fbGet (loopYX ys xs (fun g y x => copyMono g y x (src y) x) f) y' x'
      = if y' ∈ ys ∧ x' ∈ xs then fbGet f (src y') x' &&& 1 else fbGet f y' x' := by
  unfold loopYX
  induction ys generalizing f with
  | nil => exact ⟨hf, fun y' x' => by simp⟩
  | cons y rest ih =>
    obtain ⟨hy, hne⟩ := hys y (List.mem_cons_self _ _)
    obtain ⟨hf1, get1⟩ := rowCopy y (src y) hy hne xs hxs f hf
    obtain ⟨hp1, hp2⟩ := List.pairwise_cons.1 hp
    obtain ⟨w1, g1⟩ := ih (fun a ha => hys a (List.mem_cons_of_mem _ ha)) hp2 _ hf1
    rw [List.foldl_cons]
    refine ⟨w1, fun y' x' => ?_⟩
    rw [g1 y' x']
    by_cases hx : x' ∈ xs
    · by_cases h2 : y' ∈ rest
      · rw [if_pos ⟨h2, hx⟩, if_pos ⟨List.mem_cons_of_mem _ h2, hx⟩, get1 (src y') x',
          if_neg (fun h => hp1 y' h2 h.1)]
      · rw [if_neg (fun h => h2 h.1), get1 y' x']
        by_cases h3 : y' = y
        · rw [if_pos ⟨h3, hx⟩, if_pos ⟨by rw [h3]; exact List.mem_cons_self _ _, hx⟩, h3]
        · rw [if_neg (fun h => h3 h.1), if_neg]
          rintro ⟨h4, _⟩
          rcases List.mem_cons.1 h4 with h5 | h5
          · exact h3 h5
          · exact h2 h5
    · rw [if_neg (fun h => hx h.2), get1 y' x', if_neg (fun h => hx h.2),
        if_neg (fun h => hx h.2)]

/-- A fill loop nest: the cells of the rows `ys` in the columns `xs` become 0. -/
theorem loopZero (xs : List Nat) (hxs : ∀ x ∈ xs, x < 128) (ys : List Nat)
    (hys : ∀ y ∈ ys, y < 64) (f : Framebuffer) (hf : WFfb f) :
    WFfb (loopYX ys xs (fun g y x => fbSet g y x 0) f) ∧
    ∀ y' x', fbGet (loopYX ys xs (fun g y x => fbSet g y x 0) f) y' x'
      = if y' ∈ ys ∧ x' ∈ xs then 0 else fbGet f y' x' := by
  unfold loopYX
  induction ys generalizing f with
  | nil => exact ⟨hf, fun y' x' => by simp⟩
  | cons y rest ih =>
    have hy := hys y (List.mem_cons_self _ _)
    obtain ⟨hf1, get1⟩ := rowZero y hy xs hxs f hf
    obtain ⟨w1, g1⟩ := ih (fun a ha => hys a (List.mem_cons_of_mem _ ha)) _ hf1
    rw [List.foldl_cons]
    refine ⟨w1, fun y' x' => ?_⟩
    rw [g1 y' x', get1 y' x']
    by_cases hx : x' ∈ xs
    · by_cases h2 : y' ∈ rest
      · rw [if_pos ⟨h2, hx⟩, if_pos ⟨List.mem_cons_of_mem _ h2, hx⟩]
      · rw [if_neg (fun h => h2 h.1)]
        by_cases h3 : y' = y
        · rw [if_pos ⟨h3, hx⟩, if_pos ⟨by rw [h3]; exact List.mem_cons_self _ _, hx⟩]
        · rw [if_neg (fun h => h3 h.1), if_neg]
          rintro ⟨h4, _⟩
          rcases List.mem_cons.1 h4 with h5 | h5
          · exact h3 h5
          · exact h2 h5
    · rw [if_neg (fun h => hx h.2), if_neg (fun h => hx h.2), if_neg (fun h => hx h.2)]

theorem mem_upTo_iff (a b i : Nat) : i ∈ upTo a b ↔ a ≤ i ∧ i < b :=
  ⟨fun h => mem_upTo h, fun h => mem_upTo_of h.1 h.2⟩

theorem mem_downTo_iff (a b i : Nat) : i ∈ downTo b a ↔ a ≤ i ∧ i < b := by
  unfold downTo
  rw [List.mem_reverse]
  exact mem_upTo_iff a b i

theorem and_one_of_le_one (c : Nat) (h : c ≤ 1) : c &&& 1 = c := by
  interval_cases c <;> rfl

/-- The array after a mono `scrollUp(lines)` with `0 < lines < height`. -/
theorem scrollUp_mono_fb (d : Chip8Display) (hc : d.colorMode = ColorMode.Mono)
    (hwf : WFfb d.fb) (lines : Nat) (h0 : 0 < lines) (hl : lines < d.height) (y x : Nat)
    (hy : y < d.height) (hx : x < d.width) :
    fbGet (d.scrollUp lines).2.fb y x
      = if y < d.height - lines then fbGet d.fb (y + lines) x &&& 1 else 0 := by
  have hh := height_pos_le d
  have hw := width_pos_le d
  have e8 : u8 lines = lines := Nat.mod_eq_of_lt (by omega)
  have hxs : ∀ a ∈ upTo 0 d.width, a < 128 := fun a ha => by have := mem_upTo ha; omega
  have hxm : x ∈ upTo 0 d.width := mem_upTo_of (Nat.zero_le _) hx
  have hnc : ¬ d.colorMode = ColorMode.XOCHIP_2BPP := by rw [hc]; decide
  obtain ⟨w1, g1⟩ := loopCopy (fun a => a + lines) (upTo 0 d.width) hxs
    (upTo 0 (d.height - lines))
    (fun a ha => by have := mem_upTo ha; exact ⟨by omega, by dsimp only; omega⟩)
    ((pairwise_lt_upTo 0 (d.height - lines)).imp (fun {a b} hab => by dsimp only; omega)) d.fb hwf
  obtain ⟨_, g2⟩ := loopZero (upTo 0 d.width) hxs (upTo (d.height - lines) d.height)
    (fun a ha => by have := mem_upTo ha; omega) _ w1
  unfold Chip8Display.scrollUp
  simp only [e8]
  rw [if_neg (by omega), if_neg (by omega), if_neg hnc]
  show fbGet (loopYX _ _ _ (loopYX _ _ _ d.fb)) y x = _
  rw [g2 y x, g1 y x]
  by_cases h1 : y < d.height - lines
  · rw [if_neg (fun h => by have := mem_upTo h.1; omega),
      if_pos ⟨mem_upTo_of (Nat.zero_le _) h1, hxm⟩, if_pos h1]
  · rw [if_pos ⟨mem_upTo_of (by omega) hy, hxm⟩, if_neg h1]

/-- The array after a mono `scrollDown(lines)` with `0 < lines < height`. -/
theorem scrollDown_mono_fb (d : Chip8Display) (hc : d.colorMode = ColorMode.Mono)
    (hwf : WFfb d.fb) (lines : Nat) (h0 : 0 < lines) (hl : lines < d.height) (y x : Nat)
    (hy : y < d.height) (hx : x < d.width) :
    fbGet (d.scrollDown lines).2.fb y x
      = if lines ≤ y then fbGet d.fb (y - lines) x &&& 1 else 0 := by
  have hh := height_pos_le d
  have hw := width_pos_le d
  have e8 : u8 lines = lines := Nat.mod_eq_of_lt (by omega)
  have hxs : ∀ a ∈ upTo 0 d.width, a < 128 := fun a ha => by have := mem_upTo ha; omega
  have hxm : x ∈ upTo 0 d.width := mem_upTo_of (Nat.zero_le _) hx
  have hnc : ¬ d.colorMode = ColorMode.XOCHIP_2BPP := by rw [hc]; decide
  have hpw : (downTo d.height lines).Pairwise (fun a b => b - lines ≠ a) := by
    unfold downTo
    rw [List.pairwise_reverse]
    exact (pairwise_lt_upTo lines d.height).imp (fun {a b} hab => by omega)
  obtain ⟨w1, g1⟩ := loopCopy (fun a => a - lines) (upTo 0 d.width) hxs
    (downTo d.height lines)
    (fun a ha => by have := (mem_downTo_iff _ _ _).1 ha; exact ⟨by omega, by dsimp only; omega⟩)
    hpw d.fb hwf
  obtain ⟨_, g2⟩ := loopZero (upTo 0 d.width) hxs (upTo 0 lines)
    (fun a ha => by have := mem_upTo ha; omega) _ w1
  unfold Chip8Display.scrollDown
  simp only [e8]
  rw [if_neg (by omega), if_neg (by omega), if_neg hnc]
  show fbGet (loopYX _ _ _ (loopYX _ _ _ d.fb)) y x = _
  rw [g2 y x, g1 y x]
  by_cases h1 : lines ≤ y
  · rw [if_neg (fun h => by have := mem_upTo h.1; omega),
      if_pos ⟨(mem_downTo_iff _ _ _).2 ⟨h1, hy⟩, hxm⟩, if_pos h1]
  · rw [if_pos ⟨mem_upTo_of (Nat.zero_le _) (by omega), hxm⟩, if_neg h1]

theorem scrollUp_dims (d : Chip8Display) (lines : Nat) :
    (d.scrollUp lines).2.mode = d.mode := by
  unfold Chip8Display.scrollUp
  dsimp only
  split
  · rfl
  · split
    · rfl
    · split <;> rfl

theorem scrollDown_dims (d : Chip8Display) (lines : Nat) :
    (d.scrollDown lines).2.mode = d.mode := by
  unfold Chip8Display.scrollDown
  dsimp only
  split
  · rfl
  · split
    · rfl
    · split <;> rfl

theorem scrollUp_width_height (d : Chip8Display) (lines : Nat) :
    (d.scrollUp lines).2.width = d.width ∧ (d.scrollUp lines).2.height = d.height := by
  unfold Chip8Display.width Chip8Display.height
  rw [scrollUp_dims]
  exact ⟨rfl, rfl⟩

theorem scrollDown_width_height (d : Chip8Display) (lines : Nat) :
    (d.scrollDown lines).2.width = d.width ∧ (d.scrollDown lines).2.height = d.height := by
  unfold Chip8Display.width Chip8Display.height
  rw [scrollDown_dims]
  exact ⟨rfl, rfl⟩

/-- C22: in mono color mode, for every framebuffer whose cells are 0 or 1 and every
`lines` with `0 < lines < height`, for every `x < width` and `y < height`: after
`scrollDown(lines)` pixel `(x, y)` is the old pixel `(x, y - lines)` when `lines <= y`
and 0 when `y < lines`; after `scrollUp(lines)` pixel `(x, y)` is the old pixel
`(x, y + lines)` when `y < height - lines` and 0 when `height - lines <= y`; and
`scrollUp(0)` and `scrollDown(0)` leave the display as it was. -/
theorem scroll_mono (d : Chip8Display) (hc : d.colorMode = ColorMode.Mono) (hwf : WFfb d.fb)
    (hbits : ∀ y x, fbGet d.fb y x ≤ 1) (lines : Nat) (h0 : 0 < lines)
    (hl : lines < d.height) :
    (∀ x y : Nat, x < d.width → y < d.height →
      (lines ≤ y → (d.scrollDown lines).2.getPixel x y = d.getPixel x (y - lines)) ∧
      (y < lines → (d.scrollDown lines).2.getPixel x y = 0) ∧
      (y < d.height - lines → (d.scrollUp lines).2.getPixel x y = d.getPixel x (y + lines)) ∧
      (d.height - lines ≤ y → (d.scrollUp lines).2.getPixel x y = 0)) ∧
    (d.scrollUp 0).2 = d ∧ (d.scrollDown 0).2 = d := by
  refine ⟨fun x y hx hy => ?_, rfl, rfl⟩
  have hu := scrollUp_mono_fb d hc hwf lines h0 hl y x hy hx
  have hd := scrollDown_mono_fb d hc hwf lines h0 hl y x hy hx
  have pu : (d.scrollUp lines).2.getPixel x y = fbGet (d.scrollUp lines).2.fb y x := by
    rw [getPixel_nat, (scrollUp_width_height d lines).1, (scrollUp_width_height d lines).2,
      if_pos ⟨hx, hy⟩]
  have pd : (d.scrollDown lines).2.getPixel x y = fbGet (d.scrollDown lines).2.fb y x := by
    rw [getPixel_nat, (scrollDown_width_height d lines).1, (scrollDown_width_height d lines).2,
      if_pos ⟨hx, hy⟩]
  rw [pu, pd, hu, hd]
  refine ⟨fun h => ?_, fun h => ?_, fun h => ?_, fun h => ?_⟩
  · have e : ((y : Int) - (lines : Int)) = ((y - lines : Nat) : Int) := by omega
    rw [if_pos h, e, getPixel_nat, if_pos ⟨hx, by omega⟩]
    exact and_one_of_le_one _ (hbits _ _)
  · rw [if_neg (by omega)]
  · have e : ((y : Int) + (lines : Int)) = ((y + lines : Nat) : Int) := by omega
    rw [if_pos h, e, getPixel_nat, if_pos ⟨hx, by omega⟩]
    exact and_one_of_le_one _ (hbits _ _)
  · rw [if_neg (by omega)]

theorem litDisplay_fb : litDisplay.fb = fbSet Chip8Display.init.fb 0 0 1 := rfl

theorem litDisplay_WFfb : WFfb litDisplay.fb := by
  rw [litDisplay_fb]
  exact WFfb_fbSet _ _ _ _ init_WFfb (by decide)

theorem litDisplay_bits (y x : Nat) : fbGet litDisplay.fb y x ≤ 1 := by
  rw [litDisplay_fb]
  rcases fbGet_fbSet_cases Chip8Display.init.fb 0 0 1 y x with h | ⟨_, _, h⟩
  · rw [h, show fbGet Chip8Display.init.fb y x = 0 from fbGet_clearFb _ y x]
    exact Nat.zero_le 1
  · rw [h]

/-- Instance of `scroll_mono`: the mono display with pixel (0, 0) lit, scrolled by one
line. -/
theorem scroll_mono_witness :
    litDisplay.colorMode = ColorMode.Mono ∧ 0 < 1 ∧ 1 < litDisplay.height ∧
    litDisplay.getPixel 0 0 = 1 ∧
    ((∀ x y : Nat, x < litDisplay.width → y < litDisplay.height →
      (1 ≤ y → (litDisplay.scrollDown 1).2.getPixel x y
        = litDisplay.getPixel x (y - (1 : Nat))) ∧
      (y < 1 → (litDisplay.scrollDown 1).2.getPixel x y = 0) ∧
      (y < litDisplay.height - 1 → (litDisplay.scrollUp 1).2.getPixel x y
        = litDisplay.getPixel x (y + (1 : Nat))) ∧
      (litDisplay.height - 1 ≤ y → (litDisplay.scrollUp 1).2.getPixel x y = 0)) ∧
    (litDisplay.scrollUp 0).2 = litDisplay ∧ (litDisplay.scrollDown 0).2 = litDisplay) :=
  ⟨by decide, by decide, by decide, by decide,
    scroll_mono litDisplay (by decide) litDisplay_WFfb litDisplay_bits 1 (by decide)
      (by decide)⟩

/-! ## Timers -/

theorem tick_eq (t : Chip8Timers) : t.tick = { delay := t.delay - 1, sound := t.sound - 1 } := by
  unfold Chip8Timers.tick
  dsimp only
  congr 1
  · split <;> omega
  · split <;> omega

theorem iterate_tick (n : Nat) (t : Chip8Timers) :
    Chip8Timers.tick^[n] t = { delay := t.delay - n, sound := t.sound - n } := by
  induction n generalizing t with
  | zero => rfl
  | succ k ih =>
    rw [Function.iterate_succ_apply, ih, tick_eq]
    dsimp only
    congr 1 <;> omega

theorem iterate_tick_255 (t : Chip8Timers) (hd : t.delay < 256) (hs : t.sound < 256) :
    Chip8Timers.tick^[255] t = { delay := 0, sound := 0 } := by
  have hit := iterate_tick 255 t
  have e1 : t.delay - 255 = 0 := by omega
  have e2 : t.sound - 255 = 0 := by omega
  rw [e1, e2] at hit
  exact hit

/-- C35: for every pair of 8-bit timer values, `tick()` leaves each counter one lower
when it is above 0 and at 0 when it is 0, so no counter wraps from 0 to 255; after 255
consecutive ticks both counters are 0. -/
theorem tick_spec (t : Chip8Timers) (hd : t.delay < 256) (hs : t.sound < 256) :
    t.tick.delay = (if t.delay > 0 then t.delay - 1 else 0) ∧
    t.tick.sound = (if t.sound > 0 then t.sound - 1 else 0) ∧
    t.tick.delay < 256 ∧ t.tick.sound < 256 ∧
    (t.delay = 0 → t.tick.delay = 0) ∧ (t.sound = 0 → t.tick.sound = 0) ∧
    Chip8Timers.tick^[255] t = { delay := 0, sound := 0 } := by
  have ht := tick_eq t
  have e1 : t.tick.delay = t.delay - 1 := by rw [ht]
  have e2 : t.tick.sound = t.sound - 1 := by rw [ht]
  have p1 : t.tick.delay = (if t.delay > 0 then t.delay - 1 else 0) := by
    rw [e1]; split <;> omega
  have p2 : t.tick.sound = (if t.sound > 0 then t.sound - 1 else 0) := by
    rw [e2]; split <;> omega
  have p3 : t.tick.delay < 256 := by omega
  have p4 : t.tick.sound < 256 := by omega
  have p5 : t.delay = 0 → t.tick.delay = 0 := by omega
  have p6 : t.sound = 0 → t.tick.sound = 0 := by omega
  exact ⟨p1, p2, p3, p4, p5, p6, iterate_tick_255 t hd hs⟩

/-- Instance of `tick_spec`: delay 255 and sound 0. -/
theorem tick_spec_witness :
    ({ delay := 255, sound := 0 } : Chip8Timers).tick.delay
      = (if (255 : Nat) > 0 then 255 - 1 else 0) ∧
    ({ delay := 255, sound := 0 } : Chip8Timers).tick.sound
      = (if (0 : Nat) > 0 then 0 - 1 else 0) ∧
    ({ delay := 255, sound := 0 } : Chip8Timers).tick.delay < 256 ∧
    ({ delay := 255, sound := 0 } : Chip8Timers).tick.sound < 256 ∧
    ((255 : Nat) = 0 → ({ delay := 255, sound := 0 } : Chip8Timers).tick.delay = 0) ∧
    ((0 : Nat) = 0 → ({ delay := 255, sound := 0 } : Chip8Timers).tick.sound = 0) ∧
    Chip8Timers.tick^[255] ({ delay := 255, sound := 0 } : Chip8Timers)
      = { delay := 0, sound := 0 } :=
  tick_spec { delay := 255, sound := 0 } (by decide) (by decide)

/-! ## Keypad -/

theorem getPressedKeyFrom_spec (k : Chip8Input) (fuel i : Nat) :
    (k.getPressedKeyFrom fuel i = -1 ∧
      ∀ j, i ≤ j → j < i + fuel → k.keys.getD j false = false) ∨
    (∃ j, i ≤ j ∧ j < i + fuel ∧ k.getPressedKeyFrom fuel i = (j : Int) ∧
      k.keys.getD j false = true ∧ ∀ j', i ≤ j' → j' < j → k.keys.getD j' false = false) := by
  induction fuel generalizing i with
  | zero => exact Or.inl ⟨rfl, fun j h1 h2 => by omega⟩
  | succ f ih =>
    unfold Chip8Input.getPressedKeyFrom
    by_cases hk : k.keys.getD i false = true
    · rw [if_pos hk]
      exact Or.inr ⟨i, le_refl _, by omega, rfl, hk, fun j' h1 h2 => by omega⟩
    · rw [if_neg hk]
      have hk' : k.keys.getD i false = false := by simpa using hk
      rcases ih (i + 1) with ⟨h1, h2⟩ | ⟨j, h1, h2, h3, h4, h5⟩
      · refine Or.inl ⟨h1, fun j hj1 hj2 => ?_⟩
        by_cases e : j = i
        · rw [e]; exact hk'
        · exact h2 j (by omega) (by omega)
      · refine Or.inr ⟨j, by omega, by omega, h3, h4, fun j' hj1 hj2 => ?_⟩
        by_cases e : j' = i
        · rw [e]; exact hk'
        · exact h5 j' (by omega) hj2

theorem isPressed_of_lt (k : Chip8Input) {i : Nat} (h : i < 16) :
    k.isPressed i = k.keys.getD i false := by
  unfold Chip8Input.isPressed
  have e : u8 i = i := Nat.mod_eq_of_lt (by omega)
  rw [e, if_pos (show i < Chip8Input.NUM_KEYS from h)]

/-- C36: for every keypad state, `getPressedKey()` is -1 or an index `i < 16` whose
key is pressed with no pressed key below it; it is -1 exactly when no key is pressed;
`setKey(key, pressed)` with `16 <= key` (an `uint8_t`) leaves the keypad as it was. -/
theorem getPressedKey_spec (k : Chip8Input) :
    (k.getPressedKey = -1 ∨
      ∃ i : Nat, i < 16 ∧ k.getPressedKey = (i : Int) ∧ k.isPressed i = true ∧
        ∀ j, j < i → k.isPressed j = false) ∧
    (k.getPressedKey = -1 ↔ ∀ i, i < 16 → k.isPressed i = false) ∧
    (∀ key pressed, 16 ≤ key → key < 256 → k.setKey key pressed = k) := by
  have hs := getPressedKeyFrom_spec k 16 0
  refine ⟨?_, ?_, ?_⟩
  · rcases hs with ⟨h1, _⟩ | ⟨j, _, h2, h3, h4, h5⟩
    · exact Or.inl h1
    · refine Or.inr ⟨j, by omega, h3, ?_, fun j' hj => ?_⟩
      · rw [isPressed_of_lt k (by omega)]; exact h4
      · rw [isPressed_of_lt k (by omega)]; exact h5 j' (Nat.zero_le _) hj
  · constructor
    · intro hm i hi
      rw [isPressed_of_lt k hi]
      rcases hs with ⟨_, h2⟩ | ⟨j, _, _, h3, _, _⟩
      · exact h2 i (Nat.zero_le _) (by omega)
      · exfalso
        have : k.getPressedKey = (j : Int) := h3
        rw [hm] at this
        omega
    · intro hall
      rcases hs with ⟨h1, _⟩ | ⟨j, _, h2, _, h4, _⟩
      · exact h1
      · exfalso
        have := hall j (by omega)
        rw [isPressed_of_lt k (by omega), h4] at this
        cases this
  · intro key pressed h1 h2
    unfold Chip8Input.setKey
    have e : u8 key = key := Nat.mod_eq_of_lt h2
    rw [e, if_neg (show ¬ key < Chip8Input.NUM_KEYS from by show ¬ key < 16; omega)]

/-! ## Decoding of the extended block -/

theorem maskFFF0_eq (op : Nat) : op &&& 0xFFF0 = op / 16 % 4096 * 16 := by
  have h1 : (op &&& 0xFFF0) >>> 4 = op / 16 % 4096 := by
    rw [shiftRight_and]
    have h : (0xFFF0 >>> 4 : Nat) = 2 ^ 12 - 1 := by decide
    rw [h, Nat.and_pow_two_sub_one_eq_mod, Nat.shiftRight_eq_div_pow]
  have h2 : (op &&& 0xFFF0) % 16 = 0 := by
    rw [← nibble4_eq, Nat.and_assoc]
    have h : (0xFFF0 &&& 0x000F : Nat) = 0 := by decide
    rw [h, Nat.and_zero]
  rw [Nat.shiftRight_eq_div_pow] at h1
  omega

/-- The guard of the scroll-up branch holds for no opcode. -/
theorem guard_00FA_false (op : Nat) : op &&& 0xFFF0 ≠ 0x00FA := by
  rw [maskFFF0_eq]
  omega

/-- The extended block falls through for an opcode that matches none of its guards. -/
theorem extended_fall (m : Machine) (op : Nat) (hC : op / 16 % 4096 ≠ 0xC)
    (b1 : op ≠ 0x00FB) (b2 : op ≠ 0x00FC) (b3 : op ≠ 0x00FE) (b4 : op ≠ 0x00FF)
    (b5 : op ≠ 0x00FD) (hD : op / 4096 % 16 ≠ 13) : Exec.extended m op = none := by
  have a1 : op &&& 0xFFF0 ≠ 0x00C0 := by rw [maskFFF0_eq]; omega
  have a2 := guard_00FA_false op
  have a3 : op &&& 0xF00F ≠ 0xD000 := fun h => by
    have := maskF00F_family op; rw [h] at this; exact hD this.symm
  unfold Exec.extended
  simp only [a1, a2, a3, b1, b2, b3, b4, b5, if_false, false_and, ite_self]

/-- Outside the SCHIP and XOCHIP variants the extended block is skipped. -/
theorem extended_off (m : Machine) (op : Nat)
    (h : ¬ (m.cpu.mode = Variant.SCHIP ∨ m.cpu.mode = Variant.XOCHIP)) :
    Exec.extended m op = none := by
  unfold Exec.extended
  simp only [h, if_false]

theorem executeOpcode_of_none (m : Machine) (host : Host) (op : Nat)
    (h : Exec.extended m op = none) : m.executeOpcode host op = Exec.dispatch m host op := by
  unfold Machine.executeOpcode
  rw [h]

theorem dispatch_family0 (m : Machine) (host : Host) (op : Nat) (h : op / 4096 % 16 = 0) :
    Exec.dispatch m host op = Exec.case0 m op := by
  simp only [Exec.dispatch, nibble1_eq, h]

theorem case0_other (m : Machine) (op : Nat) (h1 : op ≠ 0x00E0) (h2 : op ≠ 0x00EE) :
    Exec.case0 m op = .ok m := by
  unfold Exec.case0
  rw [if_neg h1, if_neg h2]

/-! ## C37 -/

/-- C37: the guard `(opcode & 0xFFF0) == 0x00FA` holds for no opcode, so for every
machine and opcode the extended block is the chain of its other branches, none of which
calls `scrollUp`; the opcode `00FA` itself leaves the machine as it was, on every
variant. -/
theorem scrollUp_branch_dead (m : Machine) (host : Host) (opcode : Nat) :
    opcode &&& 0xFFF0 ≠ 0x00FA ∧
    Exec.extended m opcode =
      (if m.cpu.mode = Variant.SCHIP ∨ m.cpu.mode = Variant.XOCHIP then
        if opcode &&& 0xFFF0 = 0x00C0 then
          some (.ok (m.setDisp
            (m.cpu.disp.scrollDown (Exec.scrollLines m (opcode &&& 0x000F))).2))
        else if opcode = 0x00FB then some (.ok (m.setDisp m.cpu.disp.scrollRight.2))
        else if opcode = 0x00FC then some (.ok (m.setDisp m.cpu.disp.scrollLeft.2))
        else if opcode = 0x00FE then some (.ok (m.setDisp (m.cpu.disp.setMode Mode.LowRes)))
        else if opcode = 0x00FF then some (.ok (m.setDisp (m.cpu.disp.setMode Mode.HighRes)))
        else if opcode = 0x00FD then some (.ok m)
        else if opcode &&& 0xF00F = 0xD000 ∧ opcode &&& 0x000F = 0 then
          some (do
            let vx ← m.cpu.regs.V ((opcode &&& 0x0F00) >>> 8)
            let vy ← m.cpu.regs.V ((opcode &&& 0x00F0) >>> 4)
            let r ← Exec.bigSpriteRows m.cpu.mem m.cpu.regs.i vx vy (upTo 0 16)
              (false, m.cpu.disp)
            (m.setDisp r.2).assignV 0xF (if r.1 then 1 else 0))
        else none
      else none) ∧
    m.executeOpcode host 0x00FA = .ok m := by
  refine ⟨guard_00FA_false opcode, ?_, ?_⟩
  · unfold Exec.extended
    simp only [guard_00FA_false opcode, if_false]
  · rw [executeOpcode_of_none m host _ (extended_fall m 0x00FA (by decide) (by decide)
      (by decide) (by decide) (by decide) (by decide) (by decide)),
      dispatch_family0 m host _ (by decide)]
    exact case0_other m _ (by decide) (by decide)

/-! ## C31 -/

/-- C31 fails in the code: for every variant, XOCHIP included, and every `n < 16`,
executing `00Dn` leaves the whole machine as it was, static sound variables included:
the opcode has top nibble 0, matches no guard of the extended block and falls into the
`default` of `case 0x0`; the block that calls `playPattern` sits in `case 0xF` after a
`break` and under no label. -/
theorem exec_00Dn_plays_nothing (m : Machine) (host : Host) (n : Nat) (hn : n < 16) :
    m.executeOpcode host (0x00D0 + n) = .ok m := by
  rw [executeOpcode_of_none m host _ (extended_fall m _ (by omega) (by omega)
      (by omega) (by omega) (by omega) (by omega) (by omega)),
      dispatch_family0 m host _ (by omega)]
  exact case0_other m _ (by omega) (by omega)

/-! ## C34 -/

theorem updateBuzzer_isOn (m : Machine) :
    (m.updateBuzzer.cpu.snd.isOn = true ↔ m.updateBuzzer.cpu.tmr.getSound > 0) := by
  unfold Machine.updateBuzzer
  split
  · rename_i h
    exact ⟨fun _ => h, fun _ => rfl⟩
  · rename_i h
    constructor
    · intro h1; cases h1
    · intro h1; exact absurd h1 h

theorem step_ok_shape (m : Machine) (host : Host) (m1 : Machine) (h : m.step host = .ok m1) :
    ∃ m0 : Machine, m1 = m0.updateBuzzer := by
  unfold Machine.step at h
  cases hf : m.fetchOpcode with
  | error e => rw [hf] at h; cases h
  | ok op =>
    rw [hf] at h
    cases he : m.skip.executeOpcode host op with
    | error e =>
      simp only [bind, Except.bind, he] at h
      cases h
    | ok m0 =>
      simp only [bind, Except.bind, he, pure, Except.pure] at h
      cases h
      exact ⟨m0, rfl⟩

/-- C34: after every `step()` that completes, whatever the opcode, `isOn()` is true
exactly when the sound timer is above 0. -/
theorem buzzer_follows_sound_timer (m : Machine) (host : Host) (m1 : Machine)
    (h : m.step host = .ok m1) :
    (m1.cpu.snd.isOn = true ↔ m1.cpu.tmr.getSound > 0) := by
  obtain ⟨m0, e⟩ := step_ok_shape m host m1 h
  rw [e]
  exact updateBuzzer_isOn m0


/-! ## C32, C33 -/

theorem case5_unhandled (m : Machine) (x y n : Nat) (h0 : n ≠ 0)
    (h : ¬ ((n = 2 ∨ n = 3) ∧ m.cpu.mode = Variant.XOCHIP)) : Exec.case5 m x y n = .ok m := by
  have h2 : ¬ (n = 2 ∧ m.cpu.mode = Variant.XOCHIP) := fun c => h ⟨Or.inl c.1, c.2⟩
  have h3 : ¬ (n = 3 ∧ m.cpu.mode = Variant.XOCHIP) := fun c => h ⟨Or.inr c.1, c.2⟩
  unfold Exec.case5 Exec.regsEqual
  rw [if_neg h0]
  simp only [bind, Except.bind, pure, Except.pure, if_neg h2, if_neg h3]
  rfl

theorem executeOpcode_family9_other (m : Machine) (host : Host) (op : Nat)
    (h : op / 4096 % 16 = 9) (hn : op % 16 ≠ 0) : m.executeOpcode host op = .ok m := by
  unfold Machine.executeOpcode
  rw [extended_none m op (by omega) (by omega)]
  simp only [Exec.dispatch, nibble1_eq, nibble4_eq, h, if_neg hn]

theorem case8_unhandled (m : Machine) (x y n : Nat)
    (h : 8 ≤ n ∧ n ≤ 13 ∨ n = 15) : Exec.case8 m x y n = .ok m := by
  rcases h with ⟨h1, h2⟩ | h
  · interval_cases n <;> rfl
  · subst h; rfl

theorem executeOpcode_familyE (m : Machine) (host : Host) (op : Nat)
    (h : op / 4096 % 16 = 14) :
    m.executeOpcode host op = Exec.caseE m (op / 256 % 16) (op % 256) := by
  unfold Machine.executeOpcode
  rw [extended_none m op (by omega) (by omega)]
  simp only [Exec.dispatch, nibble1_eq, nibble2_eq, low8_eq, h]

theorem caseE_unhandled (m : Machine) (x nn : Nat) (h1 : nn ≠ 0x9E) (h2 : nn ≠ 0xA1) :
    Exec.caseE m x nn = .ok m := by
  unfold Exec.caseE
  split
  · exact absurd rfl h1
  · exact absurd rfl h2
  · rfl

theorem caseF_unhandled (m : Machine) (x nn : Nat)
    (h : nn ∉ [0x07, 0x0A, 0x15, 0x18, 0x1E, 0x29, 0x33, 0x55, 0x65])
    (hx : nn ∈ [0x01, 0x75, 0x85] → m.cpu.mode ≠ Variant.XOCHIP) :
    Exec.caseF m x nn = .ok m := by
  unfold Exec.caseF
  split
  iterate 9 exact absurd (by decide) h
  · rw [if_neg (hx (by decide))]
  · rw [if_neg (hx (by decide))]
  · rw [if_neg (hx (by decide))]
  · rfl

/-- An opcode that no branch of the decoder implements leaves the machine as it is. -/
theorem executeOpcode_unimplemented (m : Machine) (host : Host) (op : Nat)
    (hop :
      (op / 4096 = 0 ∧ op ≠ 0x00E0 ∧ op ≠ 0x00EE ∧
        (m.cpu.mode = Variant.SCHIP ∨ m.cpu.mode = Variant.XOCHIP →
          op / 16 ≠ 0xC ∧ op ≠ 0x00FB ∧ op ≠ 0x00FC ∧ op ≠ 0x00FE ∧ op ≠ 0x00FF ∧
          op ≠ 0x00FD)) ∨
      (op / 4096 = 5 ∧ op % 16 ≠ 0 ∧
        ¬ ((op % 16 = 2 ∨ op % 16 = 3) ∧ m.cpu.mode = Variant.XOCHIP)) ∨
      (op / 4096 = 9 ∧ op % 16 ≠ 0) ∨
      (op / 4096 = 8 ∧ (8 ≤ op % 16 ∧ op % 16 ≤ 13 ∨ op % 16 = 15)) ∨
      (op / 4096 = 14 ∧ op % 256 ≠ 0x9E ∧ op % 256 ≠ 0xA1) ∨
      (op / 4096 = 15 ∧ op % 256 ∉ [0x07, 0x0A, 0x15, 0x18, 0x1E, 0x29, 0x33, 0x55, 0x65] ∧
        (op % 256 ∈ [0x01, 0x75, 0x85] → m.cpu.mode ≠ Variant.XOCHIP))) :
    m.executeOpcode host op = .ok m := by
  rcases hop with ⟨h0, h1, h2, h3⟩ | ⟨h0, h1, h2⟩ | ⟨h0, h1⟩ | ⟨h0, h1⟩ | ⟨h0, h1, h2⟩ |
    ⟨h0, h1, h2⟩
  · have hnone : Exec.extended m op = none := by
      by_cases hm : m.cpu.mode = Variant.SCHIP ∨ m.cpu.mode = Variant.XOCHIP
      · obtain ⟨c, b1, b2, b3, b4, b5⟩ := h3 hm
        exact extended_fall m op (by omega) b1 b2 b3 b4 b5 (by omega)
      · exact extended_off m op hm
    rw [executeOpcode_of_none m host op hnone, dispatch_family0 m host op (by omega)]
    exact case0_other m op h1 h2
  · rw [executeOpcode_family5 m host op (by omega)]
    exact case5_unhandled m _ _ _ h1 h2
  · exact executeOpcode_family9_other m host op (by omega) h1
  · rw [executeOpcode_family8 m host op (by omega)]
    exact case8_unhandled m _ _ _ h1
  · rw [executeOpcode_familyE m host op (by omega)]
    exact caseE_unhandled m _ _ h1 h2
  · rw [executeOpcode_familyF m host op (by omega)]
    exact caseF_unhandled m _ _ h1 h2

theorem updateBuzzer_snd (m : Machine) :
    m.updateBuzzer.cpu.snd = { m.cpu.snd with
      buzzerOn := decide (m.cpu.tmr.getSound > 0),
      playing := decide (m.cpu.tmr.getSound > 0) } := by
  unfold Machine.updateBuzzer
  split
  · rename_i h
    simp only [Chip8Sound.start, h, decide_True]
  · rename_i h
    simp only [Chip8Sound.stop, h, decide_False]

theorem updateBuzzer_st (m : Machine) :
    m.updateBuzzer.st = if m.cpu.tmr.getSound > 0 then m.st
      else { m.st with patternPlaying := false, patternBit := 0 } := by
  unfold Machine.updateBuzzer
  split <;> rfl

theorem updateBuzzer_rest (m : Machine) :
    m.updateBuzzer.cpu.mode = m.cpu.mode ∧ m.updateBuzzer.cpu.quirks = m.cpu.quirks ∧
    m.updateBuzzer.cpu.tmr = m.cpu.tmr ∧ m.updateBuzzer.cpu.inp = m.cpu.inp ∧
    m.updateBuzzer.cpu.disp = m.cpu.disp ∧
    m.updateBuzzer.cpu.audioBuffer = m.cpu.audioBuffer := by
  unfold Machine.updateBuzzer
  split
  · exact ⟨rfl, rfl, rfl, rfl, rfl, rfl⟩
  · exact ⟨rfl, rfl, rfl, rfl, rfl, rfl⟩

/-- C32 (amended): for every variant, a `step()` that fetches an opcode no branch of
the decoder implements completes; it leaves `PC` advanced by 2 (in the 16-bit arithmetic
of the register), sets both the buzzer-on flag and the playing flag of the sound engine
to `sound timer > 0`, resets the static pattern-playing flag and pattern cursor when the
sound timer is 0, and changes nothing else. -/
theorem step_unimplemented (m : Machine) (host : Host) (op : Nat)
    (hf : m.fetchOpcode = .ok op)
    (hop :
      (op / 4096 = 0 ∧ op ≠ 0x00E0 ∧ op ≠ 0x00EE ∧
        (m.cpu.mode = Variant.SCHIP ∨ m.cpu.mode = Variant.XOCHIP →
          op / 16 ≠ 0xC ∧ op ≠ 0x00FB ∧ op ≠ 0x00FC ∧ op ≠ 0x00FE ∧ op ≠ 0x00FF ∧
          op ≠ 0x00FD)) ∨
      (op / 4096 = 5 ∧ op % 16 ≠ 0 ∧
        ¬ ((op % 16 = 2 ∨ op % 16 = 3) ∧ m.cpu.mode = Variant.XOCHIP)) ∨
      (op / 4096 = 9 ∧ op % 16 ≠ 0) ∨
      (op / 4096 = 8 ∧ (8 ≤ op % 16 ∧ op % 16 ≤ 13 ∨ op % 16 = 15)) ∨
      (op / 4096 = 14 ∧ op % 256 ≠ 0x9E ∧ op % 256 ≠ 0xA1) ∨
      (op / 4096 = 15 ∧ op % 256 ∉ [0x07, 0x0A, 0x15, 0x18, 0x1E, 0x29, 0x33, 0x55, 0x65] ∧
        (op % 256 ∈ [0x01, 0x75, 0x85] → m.cpu.mode ≠ Variant.XOCHIP))) :
    ∃ m1, m.step host = .ok m1 ∧
      m1.cpu.regs = { m.cpu.regs with pc := (m.cpu.regs.pc + 2) % 65536 } ∧
      m1.cpu.mode = m.cpu.mode ∧ m1.cpu.quirks = m.cpu.quirks ∧ m1.cpu.mem = m.cpu.mem ∧
      m1.cpu.tmr = m.cpu.tmr ∧ m1.cpu.inp = m.cpu.inp ∧ m1.cpu.disp = m.cpu.disp ∧
      m1.cpu.audioBuffer = m.cpu.audioBuffer ∧
      m1.cpu.snd = { m.cpu.snd with
        buzzerOn := decide (m.cpu.tmr.getSound > 0),
        playing := decide (m.cpu.tmr.getSound > 0) } ∧
      m1.st = (if m.cpu.tmr.getSound > 0 then m.st
        else { m.st with patternPlaying := false, patternBit := 0 }) := by
  have he : m.skip.executeOpcode host op = .ok m.skip :=
    executeOpcode_unimplemented m.skip host op hop
  obtain ⟨r1, r2, r3, r4, r5, r6⟩ := updateBuzzer_rest m.skip
  exact ⟨_, step_of_exec_ok m host op m.skip hf he, updateBuzzer_regs m.skip, r1, r2,
    updateBuzzer_mem m.skip, r3, r4, r5, r6, updateBuzzer_snd m.skip, updateBuzzer_st m.skip⟩


/-! ## Concrete steps -/

theorem init_getD_zero (n a : Nat) (hn : 0xA0 ≤ n) (ha : 0xA0 ≤ a) :
    (Chip8Memory.init n).memory.getD a 0 = 0 := by
  by_cases h : a < n
  · rw [List.getD_eq_getElem?_getD, (init_getElem? n hn).2 a h (Or.inr ha)]
    rfl
  · exact List.getD_eq_default _ _ (by rw [init_length]; omega)

/-- A step that fetches the opcode `0000`. -/
theorem step_on_zero (m : Machine) (host : Host) (hpc : m.cpu.regs.pc + 1 < 65536)
    (hmem : m.cpu.regs.pc + 1 < m.cpu.mem.memory.length)
    (b0 : m.cpu.mem.memory.getD m.cpu.regs.pc 0 = 0)
    (b1 : m.cpu.mem.memory.getD (m.cpu.regs.pc + 1) 0 = 0) :
    m.fetchOpcode = .ok 0 ∧ m.step host = .ok m.skip.updateBuzzer := by
  have hf : m.fetchOpcode = .ok (0x100 * 0 + 0) :=
    fetchOpcode_of_bytes m 0 0 (by decide) (by decide) hpc hmem b0 b1
  exact ⟨hf, step_of_exec_ok m host _ m.skip hf (executeOpcode_zero m.skip host)⟩

theorem soundMachine_mem (sound : Nat) (snd : Chip8Sound) :
    (soundMachine sound snd).cpu.mem = Chip8Memory.init 4096 := by
  have hms : Chip8CPU.memorySize Variant.CHIP8 = 4096 := by decide
  have h : (soundMachine sound snd).cpu.mem
      = Chip8Memory.init (Chip8CPU.memorySize Variant.CHIP8) := by
    unfold soundMachine Chip8CPU.init
    dsimp only
  rw [hms] at h
  exact h

theorem soundMachine_regs (sound : Nat) (snd : Chip8Sound) :
    (soundMachine sound snd).cpu.regs = Chip8Registers.init := by
  unfold soundMachine Chip8CPU.init
  dsimp only

theorem soundMachine_step (sound : Nat) (snd : Chip8Sound) (host : Host) :
    (soundMachine sound snd).fetchOpcode = .ok 0 ∧
    (soundMachine sound snd).step host = .ok (soundMachine sound snd).skip.updateBuzzer := by
  have hpc : (soundMachine sound snd).cpu.regs.pc = 0x200 := by
    rw [soundMachine_regs]; rfl
  apply step_on_zero
  · rw [hpc]; decide
  · rw [hpc, soundMachine_mem, init_length]; decide
  · rw [hpc, soundMachine_mem]; exact init_getD_zero 4096 0x200 (by decide) (by decide)
  · rw [hpc, soundMachine_mem]; exact init_getD_zero 4096 (0x200 + 1) (by decide) (by decide)

theorem soundMachine_snd (sound : Nat) (snd : Chip8Sound) :
    (soundMachine sound snd).skip.updateBuzzer.cpu.snd = { snd with
      buzzerOn := decide (sound > 0), playing := decide (sound > 0) } := by
  rw [updateBuzzer_snd]
  rfl

/-- C32 as stated fails: a fresh CHIP8 interpreter whose sound engine was started
and whose sound timer has run out fetches `0000`; the step completes and the playing
flag, which is not the buzzer-on flag, goes from true to false. -/
theorem step_changes_playing_flag :
    (soundMachine 0 Chip8Sound.init.start).fetchOpcode = .ok 0 ∧
    (soundMachine 0 Chip8Sound.init.start).cpu.snd.playing = true ∧
    ∃ m1, (soundMachine 0 Chip8Sound.init.start).step idleHost = .ok m1 ∧
      m1.cpu.snd.playing = false := by
  obtain ⟨hf, hs⟩ := soundMachine_step 0 Chip8Sound.init.start idleHost
  refine ⟨hf, rfl, _, hs, ?_⟩
  rw [soundMachine_snd]
  rfl

/-- Instance of `step_unimplemented`: the opcode `0000` on a fresh CHIP8 interpreter
whose sound engine was started. -/
theorem step_unimplemented_witness :
    ∃ m1, (soundMachine 0 Chip8Sound.init.start).step idleHost = .ok m1 ∧
      m1.cpu.regs.pc = 0x202 ∧ m1.cpu.snd.buzzerOn = false ∧ m1.cpu.snd.playing = false ∧
      m1.cpu.mem = (soundMachine 0 Chip8Sound.init.start).cpu.mem ∧
      m1.cpu.disp = (soundMachine 0 Chip8Sound.init.start).cpu.disp := by
  obtain ⟨m1, h1, h2, -, -, h3, -, -, h4, -, h5, -⟩ :=
    step_unimplemented (soundMachine 0 Chip8Sound.init.start) idleHost 0
      (soundMachine_step 0 Chip8Sound.init.start idleHost).1
      (Or.inl ⟨by decide, by decide, by decide, fun _ =>
        ⟨by decide, by decide, by decide, by decide, by decide, by decide⟩⟩)
  refine ⟨m1, h1, ?_, ?_, ?_, h3, h4⟩
  · rw [h2, soundMachine_regs]; rfl
  · rw [h5]; rfl
  · rw [h5]; rfl

/-- Instance of `buzzer_follows_sound_timer`: a completing step of a fresh CHIP8
interpreter whose sound timer is 3. -/
theorem buzzer_follows_sound_timer_witness :
    (soundMachine 3 Chip8Sound.init).step idleHost
      = .ok (soundMachine 3 Chip8Sound.init).skip.updateBuzzer ∧
    ((soundMachine 3 Chip8Sound.init).skip.updateBuzzer.cpu.snd.isOn = true ↔
      (soundMachine 3 Chip8Sound.init).skip.updateBuzzer.cpu.tmr.getSound > 0) :=
  ⟨(soundMachine_step 3 Chip8Sound.init idleHost).2,
    buzzer_follows_sound_timer (soundMachine 3 Chip8Sound.init) idleHost _
      (soundMachine_step 3 Chip8Sound.init idleHost).2⟩

/-- Instance of `exec_00Dn_plays_nothing`: `00D1` on an XO-CHIP interpreter whose
audio pattern buffer holds 16..31 at offset 16 leaves the pattern buffer all zero and
the pattern-playing flag false. -/
theorem exec_00Dn_plays_nothing_witness :
    patternMachine.cpu.mode = Variant.XOCHIP ∧
    patternMachine.st.patternPlaying = false ∧
    patternMachine.st.patternBuffer
      ≠ (List.range 16).map (fun i => patternMachine.cpu.audioBuffer.getD (16 * 1 + i) 0) ∧
    patternMachine.executeOpcode idleHost (0x00D0 + 1) = .ok patternMachine :=
  ⟨rfl, rfl, by decide, exec_00Dn_plays_nothing patternMachine idleHost 1 (by decide)⟩


/-! ## C33 -/

theorem dispatch_familyD (m : Machine) (host : Host) (op : Nat) (h : op / 4096 % 16 = 13) :
    Exec.dispatch m host op = Exec.caseD m host (op / 256 % 16) (op / 16 % 16) (op % 16) := by
  simp only [Exec.dispatch, nibble1_eq, nibble2_eq, nibble3_eq, nibble4_eq, h]

/-- `DXY0` on the CHIP8 path draws no row. -/
theorem caseD_chip8_zero (m : Machine) (host : Host) (X Y : Nat) (hX : X < 16) (hY : Y < 16)
    (hm : m.cpu.mode = Variant.CHIP8) :
    ∃ m1, Exec.caseD m host X Y 0 = .ok m1 ∧ m1.cpu.disp = m.cpu.disp ∧
      m1.cpu.mem = m.cpu.mem := by
  unfold Exec.caseD
  simp only [V_of_lt _ hX, V_of_lt _ hY, bind, Except.bind, pure, Except.pure]
  cases hfe : host.frameElapsed
  · refine ⟨m.rewind, ?_, ?_, rewind_mem m⟩
    · simp only [Bool.not_false, if_true]
    · unfold Machine.rewind Machine.setRegs; rfl
  · simp only [Bool.not_true, if_pos hm]
    have hnil : upTo 0 0 = [] := rfl
    rw [hnil]
    simp only [Exec.smallSpriteRows, assignV_of_lt _ _ (by decide : 15 < 16)]
    exact ⟨_, rfl, rfl, rfl⟩

theorem variant_chip8_off (m : Machine) (hm : m.cpu.mode = Variant.CHIP8) :
    ¬ (m.cpu.mode = Variant.SCHIP ∨ m.cpu.mode = Variant.XOCHIP) := by
  rw [hm]; decide

theorem extended_on_00C (m : Machine) (n : Nat) (hn : n < 16)
    (hm : m.cpu.mode = Variant.SCHIP ∨ m.cpu.mode = Variant.XOCHIP) :
    Exec.extended m (0x00C0 + n)
      = some (.ok (m.setDisp (m.cpu.disp.scrollDown (Exec.scrollLines m n)).2)) := by
  have a1 : (0x00C0 + n) &&& 0xFFF0 = 0x00C0 := by rw [maskFFF0_eq]; omega
  have a2 : (0x00C0 + n) &&& 0x000F = n := by rw [nibble4_eq]; omega
  unfold Exec.extended
  simp only [hm, if_true, a1, a2]

theorem extended_on_fixed (m : Machine)
    (hm : m.cpu.mode = Variant.SCHIP ∨ m.cpu.mode = Variant.XOCHIP) :
    Exec.extended m 0x00FB = some (.ok (m.setDisp m.cpu.disp.scrollRight.2)) ∧
    Exec.extended m 0x00FC = some (.ok (m.setDisp m.cpu.disp.scrollLeft.2)) ∧
    Exec.extended m 0x00FE = some (.ok (m.setDisp (m.cpu.disp.setMode Mode.LowRes))) ∧
    Exec.extended m 0x00FF = some (.ok (m.setDisp (m.cpu.disp.setMode Mode.HighRes))) ∧
    Exec.extended m 0x00FD = some (.ok m) := by
  unfold Exec.extended
  simp only [hm, if_true]
  exact ⟨rfl, rfl, rfl, rfl, rfl⟩

theorem executeOpcode_of_some (m : Machine) (host : Host) (op : Nat) (r : Except Err Machine)
    (h : Exec.extended m op = some r) : m.executeOpcode host op = r := by
  unfold Machine.executeOpcode
  rw [h]

/-- C33: on the CHIP8 variant each of `00Cn`, `00FB`, `00FC`, `00FE`, `00FF`, `00FD`
leaves the whole machine as it was, and `DXY0` runs the ordinary sprite path with zero
rows, leaving the display as it was; the extended block acts only when the variant is
SCHIP or XOCHIP, and on those variants the opcodes scroll, switch the resolution and
draw the 16x16 sprite. -/
theorem extended_only_on_schip_xochip (m : Machine) (host : Host) :
    (m.cpu.mode = Variant.CHIP8 →
      (∀ op, (op / 16 = 0xC ∨ op = 0x00FB ∨ op = 0x00FC ∨ op = 0x00FE ∨ op = 0x00FF ∨
          op = 0x00FD) → m.executeOpcode host op = .ok m) ∧
      (∀ X Y, X < 16 → Y < 16 →
        m.executeOpcode host (0xD000 + 0x100 * X + 0x10 * Y) = Exec.caseD m host X Y 0 ∧
        ∃ m1, m.executeOpcode host (0xD000 + 0x100 * X + 0x10 * Y) = .ok m1 ∧
          m1.cpu.disp = m.cpu.disp ∧ m1.cpu.mem = m.cpu.mem)) ∧
    (∀ op, Exec.extended m op ≠ none →
      m.cpu.mode = Variant.SCHIP ∨ m.cpu.mode = Variant.XOCHIP) ∧
    (m.cpu.mode = Variant.SCHIP ∨ m.cpu.mode = Variant.XOCHIP →
      (∀ n, n < 16 → m.executeOpcode host (0x00C0 + n)
        = .ok (m.setDisp (m.cpu.disp.scrollDown (Exec.scrollLines m n)).2)) ∧
      m.executeOpcode host 0x00FB = .ok (m.setDisp m.cpu.disp.scrollRight.2) ∧
      m.executeOpcode host 0x00FC = .ok (m.setDisp m.cpu.disp.scrollLeft.2) ∧
      m.executeOpcode host 0x00FE = .ok (m.setDisp (m.cpu.disp.setMode Mode.LowRes)) ∧
      m.executeOpcode host 0x00FF = .ok (m.setDisp (m.cpu.disp.setMode Mode.HighRes)) ∧
      (∀ X Y, X < 16 → Y < 16 →
        m.executeOpcode host (0xD000 + 0x100 * X + 0x10 * Y) = (do
          let vx ← m.cpu.regs.V X
          let vy ← m.cpu.regs.V Y
          let r ← Exec.bigSpriteRows m.cpu.mem m.cpu.regs.i vx vy (upTo 0 16)
            (false, m.cpu.disp)
          (m.setDisp r.2).assignV 0xF (if r.1 then 1 else 0)))) := by
  refine ⟨fun hm => ⟨fun op hop => ?_, fun X Y hX hY => ?_⟩, fun op hne => ?_, fun hm => ?_⟩
  · have hoff := extended_off m op (variant_chip8_off m hm)
    rw [executeOpcode_of_none m host op hoff, dispatch_family0 m host op (by omega)]
    exact case0_other m op (by omega) (by omega)
  · have hoff := extended_off m (0xD000 + 0x100 * X + 0x10 * Y) (variant_chip8_off m hm)
    have e : m.executeOpcode host (0xD000 + 0x100 * X + 0x10 * Y)
        = Exec.caseD m host X Y 0 := by
      rw [executeOpcode_of_none m host _ hoff, dispatch_familyD m host _ (by omega)]
      have ex : (0xD000 + 0x100 * X + 0x10 * Y) / 256 % 16 = X := by omega
      have ey : (0xD000 + 0x100 * X + 0x10 * Y) / 16 % 16 = Y := by omega
      have en : (0xD000 + 0x100 * X + 0x10 * Y) % 16 = 0 := by omega
      rw [ex, ey, en]
    refine ⟨e, ?_⟩
    rw [e]
    exact caseD_chip8_zero m host X Y hX hY hm
  · by_contra hoff
    exact hne (extended_off m op hoff)
  · obtain ⟨f1, f2, f3, f4, -⟩ := extended_on_fixed m hm
    refine ⟨fun n hn => executeOpcode_of_some m host _ _ (extended_on_00C m n hn hm),
      executeOpcode_of_some m host _ _ f1, executeOpcode_of_some m host _ _ f2,
      executeOpcode_of_some m host _ _ f3, executeOpcode_of_some m host _ _ f4,
      fun X Y hX hY => executeOpcode_of_some m host _ _
        (extended_D_big m _ X Y hX hY rfl hm)⟩

/-- Instance of `extended_only_on_schip_xochip`: `D120` and `00FF` on a fresh CHIP8
interpreter. -/
theorem extended_only_on_schip_xochip_witness :
    ∃ m1, (machineAt Variant.CHIP8 0x200 0).executeOpcode idleHost
        (0xD000 + 0x100 * 1 + 0x10 * 2) = .ok m1 ∧
      m1.cpu.disp = (machineAt Variant.CHIP8 0x200 0).cpu.disp ∧
      (machineAt Variant.CHIP8 0x200 0).executeOpcode idleHost 0x00FF
        = .ok (machineAt Variant.CHIP8 0x200 0) := by
  have h := (extended_only_on_schip_xochip (machineAt Variant.CHIP8 0x200 0) idleHost).1 rfl
  obtain ⟨m1, h1, h2, -⟩ := (h.2 1 2 (by decide) (by decide)).2
  exact ⟨m1, h1, h2, h.1 0x00FF (by decide)⟩

/-! ## C39 -/

/-- The arithmetic arms of `case 0x8` in decoded form. -/
theorem executeOpcode_8XYn (m : Machine) (host : Host) (X Y n : Nat) (hX : X < 16)
    (hY : Y < 16) (hn : n < 16) :
    m.executeOpcode host (0x8000 + n + 0x100 * X + 0x10 * Y) = Exec.case8 m X Y n := by
  have h1 : (0x8000 + n + 0x100 * X + 0x10 * Y) / 4096 % 16 = 8 := by omega
  have h2 : (0x8000 + n + 0x100 * X + 0x10 * Y) / 256 % 16 = X := by omega
  have h3 : (0x8000 + n + 0x100 * X + 0x10 * Y) / 16 % 16 = Y := by omega
  have h4 : (0x8000 + n + 0x100 * X + 0x10 * Y) % 16 = n := by omega
  rw [executeOpcode_family8 m host _ h1, h2, h3, h4]

/-- C39: for every `X` and `Y`, `F` included, and all 8-bit register contents,
after `8XY4`, `8XY5`, `8XY7`, `8XY6`, `8XYE` the register `VF` holds the carry, the
not-borrow, the not-borrow of `VY - VX`, bit 0 and bit 7 of the shifted source, computed
from the values before the instruction; with `X = F` the flag is what remains. -/
theorem flag_written_after_result (m : Machine) (host : Host) (X Y : Nat) (hX : X < 16)
    (hY : Y < 16) (hlen : m.cpu.regs.v.length = 16)
    (hvx : m.cpu.regs.v.getD X 0 < 256) (hvy : m.cpu.regs.v.getD Y 0 < 256) :
    (∃ m1, m.executeOpcode host (0x8004 + 0x100 * X + 0x10 * Y) = .ok m1 ∧
      m1.cpu.regs.v.getD 0xF 0
        = (if m.cpu.regs.v.getD X 0 + m.cpu.regs.v.getD Y 0 > 255 then 1 else 0)) ∧
    (∃ m1, m.executeOpcode host (0x8005 + 0x100 * X + 0x10 * Y) = .ok m1 ∧
      m1.cpu.regs.v.getD 0xF 0
        = (if m.cpu.regs.v.getD X 0 ≥ m.cpu.regs.v.getD Y 0 then 1 else 0)) ∧
    (∃ m1, m.executeOpcode host (0x8007 + 0x100 * X + 0x10 * Y) = .ok m1 ∧
      m1.cpu.regs.v.getD 0xF 0
        = (if m.cpu.regs.v.getD Y 0 ≥ m.cpu.regs.v.getD X 0 then 1 else 0)) ∧
    (∃ m1, m.executeOpcode host (0x8006 + 0x100 * X + 0x10 * Y) = .ok m1 ∧
      m1.cpu.regs.v.getD 0xF 0
        = (if m.cpu.quirks.shiftUsesVy then m.cpu.regs.v.getD Y 0
            else m.cpu.regs.v.getD X 0) % 2) ∧
    (∃ m1, m.executeOpcode host (0x800E + 0x100 * X + 0x10 * Y) = .ok m1 ∧
      m1.cpu.regs.v.getD 0xF 0
        = (if m.cpu.quirks.shiftUsesVy then m.cpu.regs.v.getD Y 0
            else m.cpu.regs.v.getD X 0) / 128) := by
  have hsrc : (if m.cpu.quirks.shiftUsesVy then m.cpu.regs.v.getD Y 0
      else m.cpu.regs.v.getD X 0) < 256 := by split <;> assumption
  refine ⟨?_, ?_, ?_, ?_, ?_⟩
  · rw [executeOpcode_8XYn m host X Y 4 hX hY (by decide)]
    unfold Exec.case8
    simp only [V_of_lt _ hX, V_of_lt _ hY]
    refine ⟨_, case8_result m X _ _ hX, ?_⟩
    rw [flag_after m X _ _ hlen]
    simp only [u16, u8]
    split <;> split <;> omega
  · rw [executeOpcode_8XYn m host X Y 5 hX hY (by decide)]
    unfold Exec.case8
    simp only [V_of_lt _ hX, V_of_lt _ hY]
    refine ⟨_, case8_result m X _ _ hX, ?_⟩
    rw [flag_after m X _ _ hlen]
    simp only [u8]
    split <;> omega
  · rw [executeOpcode_8XYn m host X Y 7 hX hY (by decide)]
    unfold Exec.case8
    simp only [V_of_lt _ hX, V_of_lt _ hY]
    refine ⟨_, case8_result m X _ _ hX, ?_⟩
    rw [flag_after m X _ _ hlen]
    simp only [u8]
    split <;> omega
  · rw [executeOpcode_8XYn m host X Y 6 hX hY (by decide)]
    unfold Exec.case8
    simp only [V_of_lt _ hX, V_of_lt _ hY]
    refine ⟨_, case8_result m X _ _ hX, ?_⟩
    rw [flag_after m X _ _ hlen]
    generalize (if m.cpu.quirks.shiftUsesVy then m.cpu.regs.v.getD Y 0
      else m.cpu.regs.v.getD X 0) = src at hsrc ⊢
    simp only [u8, Nat.and_one_is_mod]
    omega
  · rw [executeOpcode_8XYn m host X Y 14 hX hY (by decide)]
    unfold Exec.case8
    simp only [V_of_lt _ hX, V_of_lt _ hY]
    refine ⟨_, case8_result m X _ _ hX, ?_⟩
    rw [flag_after m X _ _ hlen]
    generalize (if m.cpu.quirks.shiftUsesVy then m.cpu.regs.v.getD Y 0
      else m.cpu.regs.v.getD X 0) = src at hsrc ⊢
    have hb : (src &&& 0x80) >>> 7 = src / 128 % 2 := by
      rw [shiftRight_and]
      have h : (0x80 >>> 7 : Nat) = 1 := by decide
      rw [h, Nat.and_one_is_mod, Nat.shiftRight_eq_div_pow]
    simp only [u8, hb]
    omega

/-- Instance of `flag_written_after_result` at `X = F`: `VF = 100`, `V1 = 200`. -/
theorem flag_written_after_result_witness :
    (∃ m1, (machineWith Variant.CHIP8 {}
        [0, 200, 0, 0, 0, 0, 0, 0, 0, 0, 0, 0, 0, 0, 0, 100]).executeOpcode idleHost
          (0x8004 + 0x100 * 15 + 0x10 * 1) = .ok m1 ∧
      m1.cpu.regs.v.getD 0xF 0 = 1) ∧
    (∃ m1, (machineWith Variant.CHIP8 {}
        [0, 200, 0, 0, 0, 0, 0, 0, 0, 0, 0, 0, 0, 0, 0, 100]).executeOpcode idleHost
          (0x8005 + 0x100 * 15 + 0x10 * 1) = .ok m1 ∧
      m1.cpu.regs.v.getD 0xF 0 = 0) ∧
    (∃ m1, (machineWith Variant.CHIP8 {}
        [0, 200, 0, 0, 0, 0, 0, 0, 0, 0, 0, 0, 0, 0, 0, 100]).executeOpcode idleHost
          (0x8007 + 0x100 * 15 + 0x10 * 1) = .ok m1 ∧
      m1.cpu.regs.v.getD 0xF 0 = 1) ∧
    (∃ m1, (machineWith Variant.CHIP8 {}
        [0, 200, 0, 0, 0, 0, 0, 0, 0, 0, 0, 0, 0, 0, 0, 100]).executeOpcode idleHost
          (0x8006 + 0x100 * 15 + 0x10 * 1) = .ok m1 ∧
      m1.cpu.regs.v.getD 0xF 0 = 0) ∧
    (∃ m1, (machineWith Variant.CHIP8 {}
        [0, 200, 0, 0, 0, 0, 0, 0, 0, 0, 0, 0, 0, 0, 0, 100]).executeOpcode idleHost
          (0x800E + 0x100 * 15 + 0x10 * 1) = .ok m1 ∧
      m1.cpu.regs.v.getD 0xF 0 = 0) :=
  flag_written_after_result
    (machineWith Variant.CHIP8 {} [0, 200, 0, 0, 0, 0, 0, 0, 0, 0, 0, 0, 0, 0, 0, 100])
    idleHost 15 1 (by decide) (by decide) (by decide) (by decide) (by decide)


/-! ## C40 -/

theorem executeOpcode_2NNN (m : Machine) (host : Host) (nnn : Nat) (hn : nnn < 4096)
    (hsp : m.cpu.regs.sp < 16) :
    m.executeOpcode host (0x2000 + nnn) = .ok (m.setRegs { m.cpu.regs with
      stack := m.cpu.regs.stack.set m.cpu.regs.sp (u16 m.cpu.regs.pc),
      sp := u8 (m.cpu.regs.sp + 1), pc := nnn }) := by
  have h1 : (0x2000 + nnn) / 4096 % 16 = 2 := by omega
  have h2 : (0x2000 + nnn) % 4096 = nnn := by omega
  unfold Machine.executeOpcode
  rw [extended_none m _ (by omega) (by omega)]
  simp only [Exec.dispatch, nibble1_eq, low12_eq, h1, h2, Chip8Registers.push,
    if_neg (show ¬ m.cpu.regs.sp ≥ 16 by omega)]
  rfl

theorem executeOpcode_00EE (m : Machine) (host : Host) (hsp : m.cpu.regs.sp ≠ 0) :
    m.executeOpcode host 0x00EE = .ok (m.setRegs { m.cpu.regs with
      sp := m.cpu.regs.sp - 1, pc := m.cpu.regs.stack.getD (m.cpu.regs.sp - 1) 0 }) := by
  have hnone : Exec.extended m 0x00EE = none := by
    have a1 : (0x00EE : Nat) &&& 0xFFF0 ≠ 0x00C0 := by decide
    have a2 : (0x00EE : Nat) &&& 0xFFF0 ≠ 0x00FA := by decide
    have a3 : (0x00EE : Nat) &&& 0xF00F ≠ 0xD000 := by decide
    have b1 : (0x00EE : Nat) ≠ 0x00FB := by decide
    have b2 : (0x00EE : Nat) ≠ 0x00FC := by decide
    have b3 : (0x00EE : Nat) ≠ 0x00FE := by decide
    have b4 : (0x00EE : Nat) ≠ 0x00FF := by decide
    have b5 : (0x00EE : Nat) ≠ 0x00FD := by decide
    unfold Exec.extended
    simp only [a1, a2, a3, b1, b2, b3, b4, b5, if_false, false_and, ite_self]
  unfold Machine.executeOpcode
  rw [hnone]
  have hfam : ((0x00EE : Nat) &&& 0xF000) >>> 12 = 0 := by decide
  simp only [Exec.dispatch, hfam, Exec.case0, Chip8Registers.pop, if_neg hsp,
    if_neg (show ¬ (0x00EE : Nat) = 0x00E0 by decide), if_true]
  rfl

/-- C40: for every state with `SP < 16`, a `step()` that fetches `2NNN` followed by
a `step()` on the `00EE` held at `NNN` leaves `PC` at its old value plus 2 (in the
16-bit arithmetic of the register), `SP` at its old value and every stack entry below
`SP` unchanged; V registers, `I` and the memory are unchanged too. -/
theorem call_then_return (m : Machine) (host host2 : Host) (nnn : Nat) (hn : nnn < 4096)
    (hsp : m.cpu.regs.sp < 16) (hstack : m.cpu.regs.stack.length = 16)
    (hf : m.fetchOpcode = .ok (0x2000 + nnn))
    (b0 : m.cpu.mem.read nnn = .ok 0x00) (b1 : m.cpu.mem.read (nnn + 1) = .ok 0xEE) :
    ∃ m1 m2, m.step host = .ok m1 ∧ m1.fetchOpcode = .ok 0x00EE ∧ m1.cpu.regs.pc = nnn ∧
      m1.step host2 = .ok m2 ∧
      m2.cpu.regs.pc = (m.cpu.regs.pc + 2) % 65536 ∧
      m2.cpu.regs.sp = m.cpu.regs.sp ∧
      (∀ i, i < m.cpu.regs.sp → m2.cpu.regs.stack.getD i 0 = m.cpu.regs.stack.getD i 0) ∧
      m2.cpu.regs.v = m.cpu.regs.v ∧ m2.cpu.regs.i = m.cpu.regs.i ∧
      m2.cpu.mem = m.cpu.mem := by
  have he1 := executeOpcode_2NNN m.skip host nnn hn hsp
  have hs1 := step_of_exec_ok m host _ _ hf he1
  generalize hm1 : (m.skip.setRegs { m.skip.cpu.regs with
      stack := m.skip.cpu.regs.stack.set m.skip.cpu.regs.sp (u16 m.skip.cpu.regs.pc),
      sp := u8 (m.skip.cpu.regs.sp + 1), pc := nnn }).updateBuzzer = m1 at hs1
  have r1 : m1.cpu.regs = { m.cpu.regs with
      stack := m.cpu.regs.stack.set m.cpu.regs.sp (u16 (u16 (m.cpu.regs.pc + 2))),
      sp := u8 (m.cpu.regs.sp + 1), pc := nnn } := by
    rw [← hm1, updateBuzzer_regs]; rfl
  have q1 : m1.cpu.mem = m.cpu.mem := by
    rw [← hm1, updateBuzzer_mem]; rfl
  have hpc1 : m1.cpu.regs.pc = nnn := by rw [r1]
  have hsp1 : m1.cpu.regs.sp = m.cpu.regs.sp + 1 := by
    rw [r1]; exact Nat.mod_eq_of_lt (by omega)
  have hf1 : m1.fetchOpcode = .ok 0x00EE := by
    unfold Machine.fetchOpcode
    simp only [hpc1, q1, b0, b1, bind, Except.bind, pure, Except.pure]
    rfl
  have hsp1s : m1.skip.cpu.regs.sp ≠ 0 := by
    show m1.cpu.regs.sp ≠ 0
    omega
  have he2 := executeOpcode_00EE m1.skip host2 hsp1s
  have hs2 := step_of_exec_ok m1 host2 _ _ hf1 he2
  generalize hm2 : (m1.skip.setRegs { m1.skip.cpu.regs with
      sp := m1.skip.cpu.regs.sp - 1,
      pc := m1.skip.cpu.regs.stack.getD (m1.skip.cpu.regs.sp - 1) 0 }).updateBuzzer = m2
    at hs2
  have r2 : m2.cpu.regs = { m1.cpu.regs with
      sp := m1.cpu.regs.sp - 1, pc := m1.cpu.regs.stack.getD (m1.cpu.regs.sp - 1) 0 } := by
    rw [← hm2, updateBuzzer_regs]; rfl
  have q2 : m2.cpu.mem = m.cpu.mem := by
    rw [← hm2, updateBuzzer_mem, ← q1]; rfl
  have hst1 : m1.cpu.regs.stack
      = m.cpu.regs.stack.set m.cpu.regs.sp (u16 (u16 (m.cpu.regs.pc + 2))) := by rw [r1]
  refine ⟨m1, m2, hs1, hf1, hpc1, hs2, ?_, ?_, ?_, ?_, ?_, q2⟩
  · rw [r2]
    show m1.cpu.regs.stack.getD (m1.cpu.regs.sp - 1) 0 = _
    rw [hsp1, hst1, Nat.add_sub_cancel, getD_set_same _ (by omega)]
    simp only [u16]
    omega
  · rw [r2]
    show m1.cpu.regs.sp - 1 = _
    omega
  · intro i hi
    rw [r2]
    show m1.cpu.regs.stack.getD i 0 = _
    rw [hst1, getD_set_other _ (by omega)]
  · rw [r2]
    show m1.cpu.regs.v = _
    rw [r1]
  · rw [r2]
    show m1.cpu.regs.i = _
    rw [r1]


/-- Instance of `call_then_return`: a fresh CHIP8 interpreter whose ROM is
`22 04 00 00 00 EE`. -/
theorem call_then_return_witness :
    ∃ m1 m2,
      (freshWithMemory Variant.CHIP8
        ((Chip8Memory.init 4096).loadROM [0x22, 0x04, 0x00, 0x00, 0x00, 0xEE]).2
        Statics.init).step idleHost = .ok m1 ∧
      m1.cpu.regs.pc = 0x204 ∧ m1.step idleHost = .ok m2 ∧
      m2.cpu.regs.pc = 0x202 ∧ m2.cpu.regs.sp = 0 := by
  have hfit : [0x22, 0x04, 0x00, 0x00, 0x00, 0xEE].length + 0x200 ≤ 4096 := by decide
  have hlen : (((Chip8Memory.init 4096).loadROM
      [0x22, 0x04, 0x00, 0x00, 0x00, 0xEE]).2).memory.length = 4096 :=
    freshLoaded_length _ hfit
  have hf := fresh_fetch Statics.init 0x22 0x04 [0x00, 0x00, 0x00, 0xEE] (by decide)
    (by decide) hfit
  have b0 : (((Chip8Memory.init 4096).loadROM [0x22, 0x04, 0x00, 0x00, 0x00, 0xEE]).2).read
      0x204 = .ok 0x00 := by
    rw [read_of_lt _ (by decide) (by rw [hlen]; decide)]
    exact congrArg Except.ok (freshLoaded_getD _ hfit 4 (by decide))
  have b1 : (((Chip8Memory.init 4096).loadROM [0x22, 0x04, 0x00, 0x00, 0x00, 0xEE]).2).read
      (0x204 + 1) = .ok 0xEE := by
    rw [read_of_lt _ (by decide) (by rw [hlen]; decide)]
    exact congrArg Except.ok (freshLoaded_getD _ hfit 5 (by decide))
  obtain ⟨m1, m2, h1, -, h2, h3, h4, h5, -⟩ := call_then_return
    (freshWithMemory Variant.CHIP8
      ((Chip8Memory.init 4096).loadROM [0x22, 0x04, 0x00, 0x00, 0x00, 0xEE]).2 Statics.init)
    idleHost idleHost 0x204 (by decide) (by rw [freshWithMemory_regs]; decide)
    (by rw [freshWithMemory_regs]; rfl) hf
    (by rw [freshWithMemory_mem]; exact b0) (by rw [freshWithMemory_mem]; exact b1)
  rw [freshWithMemory_regs] at h4 h5
  exact ⟨m1, m2, h1, h2, h3, h4, h5⟩

/-! ## C38 -/

theorem and_width (d : Chip8Display) (v : Nat) : v &&& (d.width - 1) = v % d.width := by
  unfold Chip8Display.width
  split
  · exact Nat.and_pow_two_sub_one_eq_mod v 7
  · exact Nat.and_pow_two_sub_one_eq_mod v 6

theorem and_height (d : Chip8Display) (v : Nat) : v &&& (d.height - 1) = v % d.height := by
  unfold Chip8Display.height
  split
  · exact Nat.and_pow_two_sub_one_eq_mod v 6
  · exact Nat.and_pow_two_sub_one_eq_mod v 5

/-- The CHIP8 and SCHIP paths of `case 0xD` as one computation on the start
coordinates `VX mod width`, `VY mod height`. -/
theorem caseD_small (m : Machine) (host : Host) (X Y N : Nat) (hX : X < 16) (hY : Y < 16)
    (hm : m.cpu.mode = Variant.CHIP8 ∨ m.cpu.mode = Variant.SCHIP) :
    Exec.caseD m host X Y N =
      if !host.frameElapsed then .ok m.rewind
      else (do
        let r ← Exec.smallSpriteRows m.cpu.mem m.cpu.regs.i m.cpu.disp.width
          m.cpu.disp.height (m.cpu.regs.v.getD X 0 % m.cpu.disp.width)
          (m.cpu.regs.v.getD Y 0 % m.cpu.disp.height) (upTo 0 N) (false, m.cpu.disp)
        (m.setDisp r.2).assignV 0xF (if r.1 then 1 else 0)) := by
  unfold Exec.caseD
  rw [V_of_lt _ hX, V_of_lt _ hY]
  simp only [bind, Except.bind, pure, Except.pure]
  split
  · rfl
  · rcases hm with hm | hm
    · rw [if_pos hm]
    · have hc : ¬ m.cpu.mode = Variant.CHIP8 := by rw [hm]; decide
      rw [if_neg hc, if_pos hm, and_width, and_height]


theorem drawn_rewind (m m2 : Machine) (hregs : m2.cpu.regs = m.cpu.regs)
    (hdisp : m2.cpu.disp = m.cpu.disp) : drawn m2.rewind = drawn m.rewind := by
  unfold drawn Machine.rewind Machine.setRegs
  simp only [hregs, hdisp]

theorem drawn_flag (m m2 : Machine) (d : Chip8Display) (c : Nat)
    (hregs : m2.cpu.regs = m.cpu.regs) :
    ((m2.setDisp d).assignV 0xF c).map drawn = ((m.setDisp d).assignV 0xF c).map drawn := by
  rw [assignV_of_lt _ _ (by decide : 15 < 16), assignV_of_lt _ _ (by decide : 15 < 16)]
  unfold drawn Machine.setDisp Machine.setRegs Except.map
  simp only [hregs]

/-- C38: for two machines with the same registers, memory and display, one on the
CHIP8 variant and one on SCHIP, `DXYN` with `1 <= N <= 15` has the same outcome on both:
the same exception, or the same display and registers (`VF` included); when the sprite
bytes lie inside the memory both succeed. -/
theorem draw_paths_agree (m m2 : Machine) (host : Host) (X Y N : Nat) (hX : X < 16)
    (hY : Y < 16) (hN1 : 1 ≤ N) (hN : N < 16)
    (hm : m.cpu.mode = Variant.CHIP8) (hm2 : m2.cpu.mode = Variant.SCHIP)
    (hregs : m2.cpu.regs = m.cpu.regs) (hmem : m2.cpu.mem = m.cpu.mem)
    (hdisp : m2.cpu.disp = m.cpu.disp) :
    (m2.executeOpcode host (0xD000 + 0x100 * X + 0x10 * Y + N)).map drawn
      = (m.executeOpcode host (0xD000 + 0x100 * X + 0x10 * Y + N)).map drawn ∧
    (m.cpu.regs.i + N ≤ m.cpu.mem.size → m.cpu.mem.size ≤ 65536 →
      ∃ a b, m.executeOpcode host (0xD000 + 0x100 * X + 0x10 * Y + N) = .ok a ∧
        m2.executeOpcode host (0xD000 + 0x100 * X + 0x10 * Y + N) = .ok b ∧
        b.cpu.disp.fb = a.cpu.disp.fb ∧
        b.cpu.regs.v.getD 0xF 0 = a.cpu.regs.v.getD 0xF 0) := by
  have h1 : (0xD000 + 0x100 * X + 0x10 * Y + N) / 4096 % 16 = 13 := by omega
  have h2 : (0xD000 + 0x100 * X + 0x10 * Y + N) / 256 % 16 = X := by omega
  have h3 : (0xD000 + 0x100 * X + 0x10 * Y + N) / 16 % 16 = Y := by omega
  have h4 : (0xD000 + 0x100 * X + 0x10 * Y + N) % 16 = N := by omega
  have e1 : m.executeOpcode host (0xD000 + 0x100 * X + 0x10 * Y + N)
      = Exec.caseD m host X Y N := by
    rw [executeOpcode_familyD m host _ h1 (by omega), h2, h3, h4]
  have e2 : m2.executeOpcode host (0xD000 + 0x100 * X + 0x10 * Y + N)
      = Exec.caseD m2 host X Y N := by
    rw [executeOpcode_familyD m2 host _ h1 (by omega), h2, h3, h4]
  have main : (Exec.caseD m2 host X Y N).map drawn = (Exec.caseD m host X Y N).map drawn := by
    rw [caseD_small m host X Y N hX hY (Or.inl hm),
      caseD_small m2 host X Y N hX hY (Or.inr hm2), hmem, hregs, hdisp]
    split
    · exact congrArg Except.ok (drawn_rewind m m2 hregs hdisp)
    · cases Exec.smallSpriteRows m.cpu.mem m.cpu.regs.i m.cpu.disp.width m.cpu.disp.height
          (m.cpu.regs.v.getD X 0 % m.cpu.disp.width)
          (m.cpu.regs.v.getD Y 0 % m.cpu.disp.height) (upTo 0 N) (false, m.cpu.disp) with
      | error e => rfl
      | ok r => exact drawn_flag m m2 r.2 _ hregs
  rw [e1, e2]
  refine ⟨main, fun hI hsz => ?_⟩
  have hok : ∃ a, Exec.caseD m host X Y N = .ok a := by
    rw [caseD_small m host X Y N hX hY (Or.inl hm)]
    split
    · exact ⟨_, rfl⟩
    · have hread : ∀ row ∈ upTo 0 N,
          ¬ m.cpu.mem.memory.length ≤ u16 (m.cpu.regs.i + row) := by
        intro row hrow
        have h1 := (mem_upTo hrow).2
        have h2 : m.cpu.regs.i + N ≤ m.cpu.mem.memory.length := hI
        have h3 : m.cpu.mem.memory.length ≤ 65536 := hsz
        unfold u16
        rw [Nat.mod_eq_of_lt (by omega)]
        omega
      have e0 : (false, m.cpu.disp) = withFb m.cpu.disp (false, m.cpu.disp.fb) := rfl
      rw [e0, smallSpriteRows_withFb _ _ _ _ _ _ hread]
      simp only [bind, Except.bind]
      rw [assignV_of_lt _ _ (by decide : 15 < 16)]
      exact ⟨_, rfl⟩
  obtain ⟨a, ha⟩ := hok
  rw [ha] at main
  cases hb : Exec.caseD m2 host X Y N with
  | error e => rw [hb] at main; cases main
  | ok b =>
    rw [hb] at main
    have hd : drawn b = drawn a := by
      unfold Except.map at main
      exact Except.ok.inj main
    unfold drawn at hd
    have hd1 : b.cpu.disp = a.cpu.disp := congrArg Prod.fst hd
    have hd2 : b.cpu.regs = a.cpu.regs := congrArg Prod.snd hd
    exact ⟨a, b, ha, rfl, by rw [hd1], by rw [hd2]⟩


theorem withVariant_same (m : Machine) (v : Variant) :
    (m.withVariant v).cpu.mode = v ∧ (m.withVariant v).cpu.regs = m.cpu.regs ∧
    (m.withVariant v).cpu.mem = m.cpu.mem ∧ (m.withVariant v).cpu.disp = m.cpu.disp :=
  ⟨rfl, rfl, rfl, rfl⟩

/-- Instance of `draw_paths_agree`: the font glyph `0` drawn with `D015` by a fresh
CHIP8 interpreter and by the same interpreter tagged SCHIP. -/
theorem draw_paths_agree_witness :
    (((machineAt Variant.CHIP8 0x200 0x50).withVariant Variant.SCHIP).executeOpcode idleHost
        (0xD000 + 0x100 * 0 + 0x10 * 1 + 5)).map drawn
      = ((machineAt Variant.CHIP8 0x200 0x50).executeOpcode idleHost
        (0xD000 + 0x100 * 0 + 0x10 * 1 + 5)).map drawn ∧
    ∃ a b, (machineAt Variant.CHIP8 0x200 0x50).executeOpcode idleHost
        (0xD000 + 0x100 * 0 + 0x10 * 1 + 5) = .ok a ∧
      ((machineAt Variant.CHIP8 0x200 0x50).withVariant Variant.SCHIP).executeOpcode idleHost
        (0xD000 + 0x100 * 0 + 0x10 * 1 + 5) = .ok b ∧
      b.cpu.disp.fb = a.cpu.disp.fb ∧
      b.cpu.regs.v.getD 0xF 0 = a.cpu.regs.v.getD 0xF 0 := by
  have hms : Chip8CPU.memorySize Variant.CHIP8 = 4096 := by decide
  have hmem : (machineAt Variant.CHIP8 0x200 0x50).cpu.mem
      = Chip8Memory.init (Chip8CPU.memorySize Variant.CHIP8) := by
    unfold machineAt Chip8CPU.init
    dsimp only
  rw [hms] at hmem
  have hsize : (machineAt Variant.CHIP8 0x200 0x50).cpu.mem.size = 4096 := by
    show (machineAt Variant.CHIP8 0x200 0x50).cpu.mem.memory.length = 4096
    rw [hmem, init_length]
  obtain ⟨w1, w2, w3, w4⟩ := withVariant_same (machineAt Variant.CHIP8 0x200 0x50)
    Variant.SCHIP
  have h := draw_paths_agree (machineAt Variant.CHIP8 0x200 0x50)
    ((machineAt Variant.CHIP8 0x200 0x50).withVariant Variant.SCHIP) idleHost 0 1 5
    (by decide) (by decide) (by decide) (by decide) rfl w1 w2 w3 w4
  exact ⟨h.1, h.2 (by rw [hsize]; decide) (by rw [hsize]; decide)⟩

/-- Instance of `getPressedKey_spec`: keys 5 and 3 down; the lowest pressed key is 3. -/
theorem getPressedKey_spec_witness :
    ((Chip8Input.init.setKey 5 true).setKey 3 true).getPressedKey = 3 ∧
    ((((Chip8Input.init.setKey 5 true).setKey 3 true).getPressedKey = -1 ∨
      ∃ i : Nat, i < 16 ∧
        ((Chip8Input.init.setKey 5 true).setKey 3 true).getPressedKey = (i : Int) ∧
        ((Chip8Input.init.setKey 5 true).setKey 3 true).isPressed i = true ∧
        ∀ j, j < i → ((Chip8Input.init.setKey 5 true).setKey 3 true).isPressed j = false) ∧
    (((Chip8Input.init.setKey 5 true).setKey 3 true).getPressedKey = -1 ↔
      ∀ i, i < 16 → ((Chip8Input.init.setKey 5 true).setKey 3 true).isPressed i = false) ∧
    (∀ key pressed, 16 ≤ key → key < 256 →
      ((Chip8Input.init.setKey 5 true).setKey 3 true).setKey key pressed
        = (Chip8Input.init.setKey 5 true).setKey 3 true)) :=
  ⟨by decide, getPressedKey_spec ((Chip8Input.init.setKey 5 true).setKey 3 true)⟩

end Chip8
